import Mathlib


/-!
# QBVH volume traversal (intern/cycles/kernel/geom/geom_qbvh_volume.h)

A shallow embedding of the traversal function `BVH_FUNCTION_FULL_NAME(QBVH)`.

* Floats are exact rationals; an `ssef` whose four lanes are equal is one rational and an
  `sse3f` built from three such values is a `float3`.
* Textures and `kernel_data` are the fields of `KernelGlobals`; the words of `__bvh_nodes`
  are stored as the integers `__float_as_int` reads.
* Constants and feature switches that the file takes from headers are the fields of `Config`.
* Functions the file calls but does not define are the fields of `Collab`.
* The three nested loops are a small-step machine: `State.pc` says at which loop test the
  control is, `step` executes up to the next loop test.
-/

namespace QBVH

/-! ## Data -/

structure float3 where
  x : ℚ
  y : ℚ
  z : ℚ
deriving DecidableEq

/-- Four floats (an `ssef` or a `float4` of distances). -/
structure float4 where
  x : ℚ
  y : ℚ
  z : ℚ
  w : ℚ
deriving DecidableEq

/-- Four words of the node texture, read through `__float_as_int`. -/
structure int4 where
  x : Int
  y : Int
  z : Int
  w : Int
deriving DecidableEq

/-- Lane access `((float*)&dist)[r]`. -/
def float4.get (v : float4) (r : Nat) : ℚ :=
  match r with
  | 0 => v.x
  | 1 => v.y
  | 2 => v.z
  | _ => v.w

/-- Lane access `__float_as_int(cnodes[r])`. -/
def int4.get (v : int4) (r : Nat) : Int :=
  match r with
  | 0 => v.x
  | 1 => v.y
  | 2 => v.z
  | _ => v.w

structure Transform where
  x : float4
  y : float4
  z : float4
  w : float4
deriving DecidableEq

structure Ray where
  P : float3
  D : float3
  t : ℚ
  time : ℚ
deriving DecidableEq

structure Intersection where
  t : ℚ
  u : ℚ
  v : ℚ
  prim : Int
  object : Int
  type : Int
deriving DecidableEq

structure IsectPrecalc where
  kx : Int
  ky : Int
  kz : Int
  Sx : ℚ
  Sy : ℚ
  Sz : ℚ
deriving DecidableEq

/-- The ray as seen from the current space: what instance push and pop rewrite. -/
structure RaySpace where
  P : float3
  dir : float3
  idir : float3
  t : ℚ
deriving DecidableEq

/-- Constants and feature switches the traversal takes from headers. -/
structure Config where
  BVH_STACK_SIZE : Int
  BVH_QNODE_SIZE : Int
  ENTRYPOINT_SENTINEL : Int
  OBJECT_NONE : Int
  PRIM_NONE : Int
  SD_OBJECT_HAS_VOLUME : Nat
  PRIMITIVE_ALL : Nat
  PRIMITIVE_TRIANGLE : Nat
  PRIMITIVE_MOTION_TRIANGLE : Nat
  PRIMITIVE_CURVE : Nat
  PRIMITIVE_MOTION_CURVE : Nat
  CURVE_KN_INTERPOLATE : Nat
  PATH_RAY_ALL_VISIBILITY : Nat
  BVH_INSTANCING : Bool
  BVH_HAIR : Bool
  BVH_MOTION : Bool
  KERNEL_AVX2 : Bool

/-- Scene data: `kernel_data` fields and the textures read with `kernel_tex_fetch`. -/
structure KernelGlobals where
  bvh_root : Int
  curveflags : Nat
  bvh_nodes : Int → int4
  prim_object : Int → Int
  prim_type : Int → Nat
  object_flag : Int → Nat
  object_node : Int → Int

/-- Functions called by the traversal and defined in other files of the kernel. The
primitive tests return the `bool` of the C function together with the record they leave
in `*isect`; instance push and pop return what they leave behind their pointer arguments. -/
structure Collab where
  bvh_clamp_direction : float3 → float3
  bvh_inverse_direction : float3 → float3
  triangle_intersect_precalc : float3 → IsectPrecalc
  qbvh_node_intersect : KernelGlobals → ℚ → ℚ → float3 → float3 →
    Int → Int → Int → Int → Int → Int → Int → Nat × float4
  triangle_intersect : KernelGlobals → IsectPrecalc → Intersection → float3 → float3 →
    Nat → Int → Int → Bool × Intersection
  motion_triangle_intersect : KernelGlobals → Intersection → float3 → float3 → ℚ →
    Nat → Int → Int → Bool × Intersection
  bvh_cardinal_curve_intersect : KernelGlobals → Intersection → float3 → float3 →
    Nat → Int → Int → ℚ → Nat → Bool × Intersection
  bvh_curve_intersect : KernelGlobals → Intersection → float3 → float3 →
    Nat → Int → Int → ℚ → Nat → Bool × Intersection
  bvh_instance_push : KernelGlobals → Int → Ray → float3 → float3 → float3 → ℚ → RaySpace
  bvh_instance_pop : KernelGlobals → Int → Ray → float3 → float3 → float3 → ℚ → RaySpace
  bvh_instance_motion_push : KernelGlobals → Int → Ray → float3 → float3 → float3 → ℚ →
    Transform → RaySpace × Transform
  bvh_instance_motion_pop : KernelGlobals → Int → Ray → float3 → float3 → float3 → ℚ →
    Transform → RaySpace × Transform

/-- Control points of the function: the loop tests at lines 91, 192, 286, 289 and 317,
and the `return` at line 319. -/
inductive PC where
  | inner
  | leafTest
  | midCond
  | outerIf
  | outerCond
  | done
deriving DecidableEq

/-- Position of a control point in the order in which a pass of the outer loop meets the
loop tests. -/
def PC.rank : PC → Nat
  | PC.inner => 0
  | PC.leafTest => 1
  | PC.midCond => 2
  | PC.outerIf => 3
  | PC.outerCond => 4
  | PC.done => 5

/-- The local variables of the traversal function. `stackMax` is a ghost: the highest
index of `traversalStack` written so far (the source has no such variable). -/
structure State where
  pc : PC
  traversalStack : Int → Int
  stackPtr : Int
  nodeAddr : Int
  P : float3
  dir : float3
  idir : float3
  object : Int
  ob_tfm : Transform
  isect : Intersection
  tnear : ℚ
  tfar : ℚ
  idir4 : float3
  org : float3
  near_x : Int
  near_y : Int
  near_z : Int
  far_x : Int
  far_y : Int
  far_z : Int
  isect_precalc : IsectPrecalc
  stackMax : Int

/-! ## Helpers of the kernel -/

/-- Index of the lowest set bit among the first `fuel` bits. -/
def bsfAux : Nat → Nat → Nat
  | 0, _ => 0
  | fuel + 1, v => if v % 2 = 1 then 0 else 1 + bsfAux fuel (v / 2)

/-- Index of the lowest set bit (`__bsf`). -/
def bsf (v : Nat) : Nat := bsfAux v v

/-- The function `__bscf`: returns the index of the lowest set bit and clears that bit
(`v &= v-1`). The result is (index, new value of `v`). -/
def bscf (v : Nat) : Nat × Nat := (bsf v, v &&& (v - 1))

/-- Operands of the 3-item `qbvh_stack_sort`. -/
structure Sort3 where
  s1 : Int
  s2 : Int
  s3 : Int
  d1 : ℚ
  d2 : ℚ
  d3 : ℚ
deriving DecidableEq

/-- Operands of the 4-item `qbvh_stack_sort`. -/
structure Sort4 where
  s1 : Int
  s2 : Int
  s3 : Int
  s4 : Int
  d1 : ℚ
  d2 : ℚ
  d3 : ℚ
  d4 : ℚ
deriving DecidableEq

/-- Modelled from the spec: `qbvh_stack_sort` for three items is defined in geom_qbvh.h,
which is not among the sources; it is the fixed compare-and-swap network that orders the
(address, distance) pairs it is passed by ascending distance, swapping a pair only when
the later distance is strictly smaller. -/
def qbvh_stack_sort3 (a : Sort3) : Sort3 :=
  let a := if a.d2 < a.d1 then { a with s1 := a.s2, s2 := a.s1, d1 := a.d2, d2 := a.d1 } else a
  let a := if a.d3 < a.d2 then { a with s2 := a.s3, s3 := a.s2, d2 := a.d3, d3 := a.d2 } else a
  let a := if a.d2 < a.d1 then { a with s1 := a.s2, s2 := a.s1, d1 := a.d2, d2 := a.d1 } else a
  a

/-- Modelled from the spec: `qbvh_stack_sort` for four items is defined in geom_qbvh.h,
which is not among the sources; it is the five-comparator network (1,2) (3,4) (1,3) (2,4)
(2,3) over the (address, distance) pairs it is passed, swapping a pair only when the later
distance is strictly smaller. -/
def qbvh_stack_sort4 (a : Sort4) : Sort4 :=
  let a := if a.d2 < a.d1 then { a with s1 := a.s2, s2 := a.s1, d1 := a.d2, d2 := a.d1 } else a
  let a := if a.d4 < a.d3 then { a with s3 := a.s4, s4 := a.s3, d3 := a.d4, d4 := a.d3 } else a
  let a := if a.d3 < a.d1 then { a with s1 := a.s3, s3 := a.s1, d1 := a.d3, d3 := a.d1 } else a
  let a := if a.d4 < a.d2 then { a with s2 := a.s4, s4 := a.s2, d2 := a.d4, d4 := a.d2 } else a
  let a := if a.d3 < a.d2 then { a with s2 := a.s3, s3 := a.s2, d2 := a.d3, d3 := a.d2 } else a
  a

/-- Componentwise product `P*idir` of the AVX2 path. -/
def float3.mul (a b : float3) : float3 := ⟨a.x * b.x, a.y * b.y, a.z * b.z⟩

/-! ## Stack primitives -/

/-- The statements `++stackPtr; traversalStack[stackPtr] = v;`. -/
def State.push (s : State) (v : Int) : State :=
  { s with
    stackPtr := s.stackPtr + 1
    traversalStack := fun i => if i = s.stackPtr + 1 then v else s.traversalStack i
    stackMax := max s.stackMax (s.stackPtr + 1) }

/-- The statements `nodeAddr = traversalStack[stackPtr]; --stackPtr;`. -/
def State.pop (s : State) : State :=
  { s with nodeAddr := s.traversalStack s.stackPtr, stackPtr := s.stackPtr - 1 }

/-- An in-place store `traversalStack[i] = v` made by `qbvh_stack_sort` through a pointer. -/
def State.store (s : State) (i : Int) (v : Int) : State :=
  { s with
    traversalStack := fun j => if j = i then v else s.traversalStack j
    stackMax := max s.stackMax i }

/-- The call `qbvh_stack_sort(&traversalStack[stackPtr], &traversalStack[stackPtr - 1],
&traversalStack[stackPtr - 2], &a, &b, &c)` of line 161: the three top entries are sorted
in place, `a`, `b`, `c` being the distances handed over with them, in this order. -/
def State.sortTop3 (s : State) (a b c : ℚ) : State :=
  let r := qbvh_stack_sort3
    { s1 := s.traversalStack s.stackPtr
      s2 := s.traversalStack (s.stackPtr - 1)
      s3 := s.traversalStack (s.stackPtr - 2)
      d1 := a
      d2 := b
      d3 := c }
  ((s.store s.stackPtr r.s1).store (s.stackPtr - 1) r.s2).store (s.stackPtr - 2) r.s3

/-- The call `qbvh_stack_sort` with four entries of line 180, sorting the four top entries
in place, `a`, `b`, `c`, `d` being the distances handed over with them, in this order. -/
def State.sortTop4 (s : State) (a b c d : ℚ) : State :=
  let r := qbvh_stack_sort4
    { s1 := s.traversalStack s.stackPtr
      s2 := s.traversalStack (s.stackPtr - 1)
      s3 := s.traversalStack (s.stackPtr - 2)
      s4 := s.traversalStack (s.stackPtr - 3)
      d1 := a
      d2 := b
      d3 := c
      d4 := d }
  (((s.store s.stackPtr r.s1).store (s.stackPtr - 1) r.s2).store (s.stackPtr - 2) r.s3).store
    (s.stackPtr - 3) r.s4

/-- The three `if(idir.? >= 0.0f)` lines that choose the near/far offsets (lines 80-82,
259-261, 299-301). -/
def State.setNearFar (s : State) (idir : float3) : State :=
  { s with
    near_x := if idir.x ≥ 0 then 0 else 1
    far_x := if idir.x ≥ 0 then 1 else 0
    near_y := if idir.y ≥ 0 then 2 else 3
    far_y := if idir.y ≥ 0 then 3 else 2
    near_z := if idir.z ≥ 0 then 4 else 5
    far_z := if idir.z ≥ 0 then 5 else 4 }

/-! ## The traversal -/

section Traversal

variable (cfg : Config) (K : Collab) (kg : KernelGlobals) (ray : Ray)

/-- Lines 259-270 and 299-310: after instance push or pop has rewritten `P`, `dir`, `idir`
and `isect->t`, the near/far offsets, `tfar`, `idir4`, `org` (`P_idir4` under
`__KERNEL_AVX2__`) and the triangle precalculation are recomputed. -/
def State.reload (s : State) : State :=
  { s.setNearFar s.idir with
    tfar := s.isect.t
    idir4 := s.idir
    org := if cfg.KERNEL_AVX2 then s.P.mul s.idir else s.P
    isect_precalc := K.triangle_intersect_precalc s.dir }

/-- Lines 40-85: the state at the first test of the inner loop. `isect0` is the record
behind the `isect` pointer on entry; the function overwrites `t`, `u`, `v`, `prim` and
`object` and leaves the other fields. `ob_tfm` is uninitialised in the source; it starts
here with the value `tfm0`. -/
def initState (isect0 : Intersection) (tfm0 : Transform) : State :=
  let P := ray.P
  let dir := K.bvh_clamp_direction ray.D
  let idir := K.bvh_inverse_direction dir
  let s : State :=
    { pc := PC.inner
      traversalStack := fun _ => cfg.ENTRYPOINT_SENTINEL
      stackPtr := 0
      nodeAddr := kg.bvh_root
      P := P
      dir := dir
      idir := idir
      object := cfg.OBJECT_NONE
      ob_tfm := tfm0
      isect :=
        { isect0 with
          t := ray.t
          u := 0
          v := 0
          prim := cfg.PRIM_NONE
          object := cfg.OBJECT_NONE }
      tnear := 0
      tfar := ray.t
      idir4 := idir
      org := if cfg.KERNEL_AVX2 then P.mul idir else P
      near_x := 0
      near_y := 0
      near_z := 0
      far_x := 0
      far_y := 0
      far_z := 0
      isect_precalc := K.triangle_intersect_precalc dir
      stackMax := 0 }
  s.setNearFar idir

/-- Lines 96-188: one pass of the body of `while(nodeAddr >= 0 && nodeAddr !=
ENTRYPOINT_SENTINEL)`. -/
def traverseNode (s : State) : State :=
  let res := K.qbvh_node_intersect kg s.tnear s.tfar s.org s.idir4
    s.near_x s.near_y s.near_z s.far_x s.far_y s.far_z s.nodeAddr
  let traverseChild := res.1
  let dist := res.2
  if traverseChild ≠ 0 then
    let cnodes := kg.bvh_nodes (s.nodeAddr * cfg.BVH_QNODE_SIZE + 6)
    let b0 := bscf traverseChild
    if b0.2 = 0 then
      { s with nodeAddr := cnodes.get b0.1 }
    else
      let c0 := cnodes.get b0.1
      let d0 := dist.get b0.1
      let b1 := bscf b0.2
      let c1 := cnodes.get b1.1
      let d1 := dist.get b1.1
      if b1.2 = 0 then
        if d1 < d0 then
          ({ s with nodeAddr := c1 }).push c0
        else
          ({ s with nodeAddr := c0 }).push c1
      else
        let s := (s.push c1).push c0
        let b2 := bscf b1.2
        let c2 := cnodes.get b2.1
        let d2 := dist.get b2.1
        if b2.2 = 0 then
          let s := s.push c2
          let s := s.sortTop3 d2 d1 d0
          s.pop
        else
          let b3 := bscf b2.2
          let c3 := cnodes.get b3.1
          let d3 := dist.get b3.1
          let s := (s.push c3).push c2
          let s := s.sortTop4 d3 d2 d1 d0
          s.pop
  else
    s.pop

/-- Lines 216-242: the `switch(type & PRIMITIVE_ALL)` of the primitive loop, as a function
of the values handed to the intersection routines: what the routine called for the primitive
`primAddr` returns, and `(false, isect)` in the `default` case, where no routine is called. -/
def primDispatch (precalc : IsectPrecalc) (isect : Intersection) (P dir : float3)
    (object primAddr : Int) : Bool × Intersection :=
  let type := kg.prim_type primAddr
  let kind := type &&& cfg.PRIMITIVE_ALL
  if kind = cfg.PRIMITIVE_TRIANGLE then
    K.triangle_intersect kg precalc isect P dir cfg.PATH_RAY_ALL_VISIBILITY object primAddr
  else if cfg.BVH_MOTION = true ∧ kind = cfg.PRIMITIVE_MOTION_TRIANGLE then
    K.motion_triangle_intersect kg isect P dir ray.time cfg.PATH_RAY_ALL_VISIBILITY object
      primAddr
  else if cfg.BVH_HAIR = true ∧
      (kind = cfg.PRIMITIVE_CURVE ∨ kind = cfg.PRIMITIVE_MOTION_CURVE) then
    if kg.curveflags &&& cfg.CURVE_KN_INTERPOLATE ≠ 0 then
      K.bvh_cardinal_curve_intersect kg isect P dir cfg.PATH_RAY_ALL_VISIBILITY object primAddr
        ray.time type
    else
      K.bvh_curve_intersect kg isect P dir cfg.PATH_RAY_ALL_VISIBILITY object primAddr
        ray.time type
  else
    (false, isect)

/-- Lines 208-209: the flag word of the object that owns the primitive `primAddr`. -/
def ownerFlag (object primAddr : Int) : Nat :=
  let tri_object := if object = cfg.OBJECT_NONE then kg.prim_object primAddr else object
  kg.object_flag tri_object

/-- Lines 207-242: the body of the primitive loop for the primitive `primAddr`. The `bool`
returned by the intersection routine is dropped, as in the source. -/
def primBody (s : State) (primAddr : Int) : State :=
  let object_flag := ownerFlag cfg kg s.object primAddr
  if object_flag &&& cfg.SD_OBJECT_HAS_VOLUME = 0 then
    s
  else
    { s with isect :=
        (primDispatch cfg K kg ray s.isect_precalc s.isect s.P s.dir s.object primAddr).2 }

/-- Line 206: `for(; primAddr < primAddr2; primAddr++)`, run for `n` passes starting at
`primAddr`. -/
def primLoop (s : State) (primAddr : Int) : Nat → State
  | 0 => s
  | n + 1 => primLoop (primBody cfg K kg ray s primAddr) (primAddr + 1) n

/-- Lines 248-282: the instance branch of a leaf; `primAddr` is `leaf.x`, negative. -/
def instanceLeaf (s : State) (primAddr : Int) : State :=
  let s := { s with object := kg.prim_object (-primAddr - 1) }
  let object_flag := kg.object_flag s.object
  if object_flag &&& cfg.SD_OBJECT_HAS_VOLUME ≠ 0 then
    let s :=
      if cfg.BVH_MOTION then
        let r := K.bvh_instance_motion_push kg s.object ray s.P s.dir s.idir s.isect.t s.ob_tfm
        { s with P := r.1.P, dir := r.1.dir, idir := r.1.idir,
                 isect := { s.isect with t := r.1.t }, ob_tfm := r.2 }
      else
        let r := K.bvh_instance_push kg s.object ray s.P s.dir s.idir s.isect.t
        { s with P := r.P, dir := r.dir, idir := r.idir, isect := { s.isect with t := r.t } }
    let s := s.reload cfg K
    let s := s.push cfg.ENTRYPOINT_SENTINEL
    { s with nodeAddr := kg.object_node s.object }
  else
    ({ s with object := cfg.OBJECT_NONE }).pop

/-- Lines 193-283: the body of `if(nodeAddr < 0)`. -/
def leafStep (s : State) : State :=
  let leaf := kg.bvh_nodes ((-s.nodeAddr - 1) * cfg.BVH_QNODE_SIZE + 6)
  let primAddr := leaf.x
  if cfg.BVH_INSTANCING = false ∨ primAddr ≥ 0 then
    let primAddr2 := leaf.y
    primLoop cfg K kg ray s.pop primAddr (primAddr2 - primAddr).toNat
  else
    instanceLeaf cfg K kg ray s primAddr

/-- Lines 290-314: the body of `if(stackPtr >= 0)` (instance pop). The `kernel_assert`
of line 290 is compiled out of release kernels and has no effect here. -/
def instancePop (s : State) : State :=
  let s :=
    if cfg.BVH_MOTION then
      let r := K.bvh_instance_motion_pop kg s.object ray s.P s.dir s.idir s.isect.t s.ob_tfm
      { s with P := r.1.P, dir := r.1.dir, idir := r.1.idir,
               isect := { s.isect with t := r.1.t }, ob_tfm := r.2 }
    else
      let r := K.bvh_instance_pop kg s.object ray s.P s.dir s.idir s.isect.t
      { s with P := r.P, dir := r.dir, idir := r.idir, isect := { s.isect with t := r.t } }
  let s := s.reload cfg K
  ({ s with object := cfg.OBJECT_NONE }).pop

/-- One move of the machine, from one loop test to the next. -/
def step (s : State) : State :=
  match s.pc with
  | PC.inner =>
    if 0 ≤ s.nodeAddr ∧ s.nodeAddr ≠ cfg.ENTRYPOINT_SENTINEL then
      traverseNode cfg K kg s
    else
      { s with pc := PC.leafTest }
  | PC.leafTest =>
    if s.nodeAddr < 0 then
      { leafStep cfg K kg ray s with pc := PC.midCond }
    else
      { s with pc := PC.midCond }
  | PC.midCond =>
    if s.nodeAddr ≠ cfg.ENTRYPOINT_SENTINEL then
      { s with pc := PC.inner }
    else
      { s with pc := PC.outerIf }
  | PC.outerIf =>
    if cfg.BVH_INSTANCING = true ∧ 0 ≤ s.stackPtr then
      { instancePop cfg K kg ray s with pc := PC.outerCond }
    else
      { s with pc := PC.outerCond }
  | PC.outerCond =>
    if s.nodeAddr ≠ cfg.ENTRYPOINT_SENTINEL then
      { s with pc := PC.inner }
    else
      { s with pc := PC.done }
  | PC.done => s

/-- The state after `n` moves. -/
def iter : Nat → State → State
  | 0, s => s
  | n + 1, s => iter n (step cfg K kg ray s)

/-- The traversal function `BVH_FUNCTION_FULL_NAME(QBVH)` run for at most `fuel` moves:
`none` when it has not reached line 319 yet, otherwise the returned `bool` (line 319)
and the record left in `*isect`. -/
def bvh_intersect_volume (isect0 : Intersection) (tfm0 : Transform) (fuel : Nat) :
    Option (Bool × Intersection) :=
  let s := iter cfg K kg ray fuel (initState cfg K kg ray isect0 tfm0)
  if s.pc = PC.done then some (decide (s.isect.prim ≠ cfg.PRIM_NONE), s.isect) else none

/-! ## Vocabulary of the claims -/

/-- Lines 60-64: the record the function leaves in `*isect` before the loops start. -/
def noHitRecord (isect0 : Intersection) : Intersection :=
  { isect0 with
    t := ray.t
    u := 0
    v := 0
    prim := cfg.PRIM_NONE
    object := cfg.OBJECT_NONE }

/-- The leaf words `kernel_tex_fetch(__bvh_nodes, (-nodeAddr-1)*BVH_QNODE_SIZE+6)`. -/
def leafWords (nodeAddr : Int) : int4 :=
  kg.bvh_nodes ((-nodeAddr - 1) * cfg.BVH_QNODE_SIZE + 6)

/-- The next move of `s` executes the instance push of lines 253-275. -/
def entersInstance (s : State) : Prop :=
  s.pc = PC.leafTest ∧ s.nodeAddr < 0 ∧ cfg.BVH_INSTANCING = true ∧
    (leafWords cfg kg s.nodeAddr).x < 0 ∧
    kg.object_flag (kg.prim_object (-(leafWords cfg kg s.nodeAddr).x - 1)) &&&
      cfg.SD_OBJECT_HAS_VOLUME ≠ 0

/-- The next move of `s` executes the instance pop of lines 290-314. -/
def leavesInstance (s : State) : Prop :=
  s.pc = PC.outerIf ∧ cfg.BVH_INSTANCING = true ∧ 0 ≤ s.stackPtr

instance entersInstanceDecidable (s : State) : Decidable (entersInstance cfg kg s) := by
  unfold entersInstance
  infer_instance

instance leavesInstanceDecidable (s : State) : Decidable (leavesInstance cfg s) := by
  unfold leavesInstance
  infer_instance

/-- Lines 253-257: what the instance push (the motion variant under `BVH_MOTION`) returns
for the object `o` and the ray state of `s`: origin, direction, inverse direction and `t`
in the space of the instance. -/
def pushedSpace (s : State) (o : Int) : RaySpace :=
  if cfg.BVH_MOTION = true then
    (K.bvh_instance_motion_push kg o ray s.P s.dir s.idir s.isect.t s.ob_tfm).1
  else
    K.bvh_instance_push kg o ray s.P s.dir s.idir s.isect.t

/-- Lines 293-297: what the instance pop (the motion variant under `BVH_MOTION`) returns
for the active object and the ray state of `s`. -/
def poppedSpace (s : State) : RaySpace :=
  if cfg.BVH_MOTION = true then
    (K.bvh_instance_motion_pop kg s.object ray s.P s.dir s.idir s.isect.t s.ob_tfm).1
  else
    K.bvh_instance_pop kg s.object ray s.P s.dir s.idir s.isect.t

/-- Every primitive intersection routine leaves in `*isect` a distance that is not larger
than the one it found there ("only ever overwrites the result with a smaller t"). -/
def Narrowing : Prop :=
  (∀ g pre r P d vis o p, (K.triangle_intersect g pre r P d vis o p).2.t ≤ r.t) ∧
  (∀ g r P d tm vis o p, (K.motion_triangle_intersect g r P d tm vis o p).2.t ≤ r.t) ∧
  (∀ g r P d vis o p tm ty, (K.bvh_cardinal_curve_intersect g r P d vis o p tm ty).2.t ≤ r.t) ∧
  (∀ g r P d vis o p tm ty, (K.bvh_curve_intersect g r P d vis o p tm ty).2.t ≤ r.t)

/-- No primitive test reports a hit on this ray: called on a primitive that passes the
volume filter with the arguments the traversal hands over in world space (the record of
lines 60-64, the ray origin, the clamped direction, no active object), the routine leaves
the record as it is. -/
def NoPrimitiveHit (isect0 : Intersection) : Prop :=
  ∀ p : Int, ownerFlag cfg kg cfg.OBJECT_NONE p &&& cfg.SD_OBJECT_HAS_VOLUME ≠ 0 →
    (primDispatch cfg K kg ray (K.triangle_intersect_precalc (K.bvh_clamp_direction ray.D))
      (noHitRecord cfg ray isect0) ray.P (K.bvh_clamp_direction ray.D) cfg.OBJECT_NONE p).2 =
      noHitRecord cfg ray isect0

/-- The primitives `a, a+1, ..., a+n-1` of a leaf range, in the order of the loop. -/
def primRange (a : Int) : Nat → List Int
  | 0 => []
  | n + 1 => a :: primRange (a + 1) n

/-- Lines 216-242 alone: the intersection routine for `p` applied to the state. -/
def applyTest (s : State) (p : Int) : State :=
  { s with isect :=
      (primDispatch cfg K kg ray s.isect_precalc s.isect s.P s.dir s.object p).2 }

/-- Line 211, negated: the owner of primitive `p` has `SD_OBJECT_HAS_VOLUME`. -/
def passesFilter (object p : Int) : Bool :=
  decide (ownerFlag cfg kg object p &&& cfg.SD_OBJECT_HAS_VOLUME ≠ 0)

/-- World space with the no-hit record: what the state looks like as long as nothing has
been hit and no instance has been entered. -/
def Untouched (isect0 : Intersection) (s : State) : Prop :=
  s.isect = noHitRecord cfg ray isect0 ∧ s.P = ray.P ∧ s.dir = K.bvh_clamp_direction ray.D ∧
    s.isect_precalc = K.triangle_intersect_precalc (K.bvh_clamp_direction ray.D) ∧
    s.object = cfg.OBJECT_NONE

/-! ## Any-hit mode -/

/-- Modelled from the spec: the any-hit mode of the traversal is not in this file. The spec
says it "differs only in that a qualifying leaf hit immediately transitions to terminate
without further traversal". This is the primitive loop of line 206 that stops at the first
primitive whose intersection routine reports a hit; the `Bool` says whether it stopped. -/
def primLoopAny (s : State) (primAddr : Int) : Nat → State × Bool
  | 0 => (s, false)
  | n + 1 =>
    if ownerFlag cfg kg s.object primAddr &&& cfg.SD_OBJECT_HAS_VOLUME = 0 then
      primLoopAny s (primAddr + 1) n
    else
      let r := primDispatch cfg K kg ray s.isect_precalc s.isect s.P s.dir s.object primAddr
      if r.1 = true then
        ({ s with isect := r.2 }, true)
      else
        primLoopAny { s with isect := r.2 } (primAddr + 1) n

/-- Modelled from the spec: the leaf step of the any-hit mode, `leafStep` with the
primitive loop that stops at the first reported hit. -/
def leafStepAny (s : State) : State × Bool :=
  let leaf := kg.bvh_nodes ((-s.nodeAddr - 1) * cfg.BVH_QNODE_SIZE + 6)
  let primAddr := leaf.x
  if cfg.BVH_INSTANCING = false ∨ primAddr ≥ 0 then
    let primAddr2 := leaf.y
    primLoopAny cfg K kg ray s.pop primAddr (primAddr2 - primAddr).toNat
  else
    (instanceLeaf cfg K kg ray s primAddr, false)

/-- Modelled from the spec: one move of the any-hit mode. It is `step`, except that a leaf
in which a hit is reported sends the control to the `return`. -/
def stepAny (s : State) : State :=
  match s.pc with
  | PC.leafTest =>
    if s.nodeAddr < 0 then
      if (leafStepAny cfg K kg ray s).2 = true then
        { (leafStepAny cfg K kg ray s).1 with pc := PC.done }
      else
        { (leafStepAny cfg K kg ray s).1 with pc := PC.midCond }
    else
      { s with pc := PC.midCond }
  | _ => step cfg K kg ray s

/-- Modelled from the spec: the state of the any-hit mode after `n` moves. -/
def iterAny : Nat → State → State
  | 0, s => s
  | n + 1, s => iterAny n (stepAny cfg K kg ray s)

/-- Modelled from the spec: the any-hit mode run for at most `fuel` moves; it returns
"whether a valid intersection was found (primitive id not none)". -/
def bvh_intersect_volume_any (isect0 : Intersection) (tfm0 : Transform) (fuel : Nat) :
    Option Bool :=
  let s := iterAny cfg K kg ray fuel (initState cfg K kg ray isect0 tfm0)
  if s.pc = PC.done then some (decide (s.isect.prim ≠ cfg.PRIM_NONE)) else none

/-- The contract of the primitive intersection routines (spec, 4.3): a routine "either
leaves the Intersection Result untouched or overwrites it" with a hit, and it returns
`true` exactly in the second case; a hit has a primitive id. -/
def PrimContract : Prop :=
  (∀ g pre r P d vis o p,
    ((K.triangle_intersect g pre r P d vis o p).1 = false →
      (K.triangle_intersect g pre r P d vis o p).2 = r) ∧
    ((K.triangle_intersect g pre r P d vis o p).1 = true →
      (K.triangle_intersect g pre r P d vis o p).2.prim ≠ cfg.PRIM_NONE)) ∧
  (∀ g r P d tm vis o p,
    ((K.motion_triangle_intersect g r P d tm vis o p).1 = false →
      (K.motion_triangle_intersect g r P d tm vis o p).2 = r) ∧
    ((K.motion_triangle_intersect g r P d tm vis o p).1 = true →
      (K.motion_triangle_intersect g r P d tm vis o p).2.prim ≠ cfg.PRIM_NONE)) ∧
  (∀ g r P d vis o p tm ty,
    ((K.bvh_cardinal_curve_intersect g r P d vis o p tm ty).1 = false →
      (K.bvh_cardinal_curve_intersect g r P d vis o p tm ty).2 = r) ∧
    ((K.bvh_cardinal_curve_intersect g r P d vis o p tm ty).1 = true →
      (K.bvh_cardinal_curve_intersect g r P d vis o p tm ty).2.prim ≠ cfg.PRIM_NONE)) ∧
  (∀ g r P d vis o p tm ty,
    ((K.bvh_curve_intersect g r P d vis o p tm ty).1 = false →
      (K.bvh_curve_intersect g r P d vis o p tm ty).2 = r) ∧
    ((K.bvh_curve_intersect g r P d vis o p tm ty).1 = true →
      (K.bvh_curve_intersect g r P d vis o p tm ty).2.prim ≠ cfg.PRIM_NONE))

/-- The any-hit mode has either made the same moves as the nearest-hit mode, or it
has returned with a hit while the nearest-hit mode holds a hit as well. -/
def Sim (a b : State) : Prop :=
  a = b ∨ (a.pc = PC.done ∧ a.isect.prim ≠ cfg.PRIM_NONE ∧ b.isect.prim ≠ cfg.PRIM_NONE)

end Traversal

/-! ## Concrete kernels and scenes used to instantiate the theorems -/

/-- The constants as the Cycles headers of this period define them (stack size 192,
node size 7, sentinel 0x76543210, `~0` for the two "none" ids), all features but motion
blur enabled. -/
def demoConfig : Config :=
  { BVH_STACK_SIZE := 192
    BVH_QNODE_SIZE := 7
    ENTRYPOINT_SENTINEL := 0x76543210
    OBJECT_NONE := -1
    PRIM_NONE := -1
    SD_OBJECT_HAS_VOLUME := 2
    PRIMITIVE_ALL := 15
    PRIMITIVE_TRIANGLE := 1
    PRIMITIVE_MOTION_TRIANGLE := 2
    PRIMITIVE_CURVE := 4
    PRIMITIVE_MOTION_CURVE := 8
    CURVE_KN_INTERPOLATE := 1
    PATH_RAY_ALL_VISIBILITY := 31
    BVH_INSTANCING := true
    BVH_HAIR := true
    BVH_MOTION := false
    KERNEL_AVX2 := false }

/-- A primitive test that hits at distance `h` (when there is one): it overwrites the
record exactly when `h` is strictly smaller than the distance stored so far. -/
def hitRec (r : Intersection) (h : Option ℚ) (p obj : Int) : Bool × Intersection :=
  match h with
  | some t => if t < r.t then (true, { r with t := t, prim := p, object := obj }) else (false, r)
  | none => (false, r)

/-- A kernel whose node test is the table `mask` (by node address), whose primitive tests
hit primitive `p` at distance `hit p`, and whose instance push multiplies `t` by `scale`
(the pop divides by it). -/
def demoCollab (mask : Int → Nat × float4) (hit : Int → Option ℚ) (scale : ℚ) : Collab :=
  { bvh_clamp_direction := fun d => d
    bvh_inverse_direction := fun d => d
    triangle_intersect_precalc := fun _ => ⟨0, 0, 0, 0, 0, 0⟩
    qbvh_node_intersect := fun _ _ _ _ _ _ _ _ _ _ _ a => mask a
    triangle_intersect := fun _ _ r _ _ _ o p => hitRec r (hit p) p o
    motion_triangle_intersect := fun _ r _ _ _ _ o p => hitRec r (hit p) p o
    bvh_cardinal_curve_intersect := fun _ r _ _ _ o p _ _ => hitRec r (hit p) p o
    bvh_curve_intersect := fun _ r _ _ _ o p _ _ => hitRec r (hit p) p o
    bvh_instance_push := fun _ _ _ P d i t => ⟨P, d, i, scale * t⟩
    bvh_instance_pop := fun _ _ _ P d i t => ⟨P, d, i, t / scale⟩
    bvh_instance_motion_push := fun _ _ _ P d i t m => (⟨P, d, i, scale * t⟩, m)
    bvh_instance_motion_pop := fun _ _ _ P d i t m => (⟨P, d, i, t / scale⟩, m) }

def demoRay : Ray := ⟨⟨0, 0, 0⟩, ⟨0, 0, 1⟩, 100, 0⟩

def demoIsect : Intersection := ⟨0, 0, 0, 0, 0, 0⟩

def demoTfm : Transform := ⟨⟨0, 0, 0, 0⟩, ⟨0, 0, 0, 0⟩, ⟨0, 0, 0, 0⟩, ⟨0, 0, 0, 0⟩⟩

/-- Scene A: the root (node 0) has two leaves, node 1 (address -2) with primitives 0, 1
and node 2 (address -3) with primitive 2; every primitive is a triangle of object 0, which
is a volume object. -/
def sceneA : KernelGlobals :=
  { bvh_root := 0
    curveflags := 0
    bvh_nodes := fun i =>
      if i = 6 then ⟨-2, -3, 0, 0⟩
      else if i = 13 then ⟨0, 2, 0, 0⟩
      else if i = 20 then ⟨2, 3, 0, 0⟩
      else ⟨0, 0, 0, 0⟩
    prim_object := fun _ => 0
    prim_type := fun _ => 1
    object_flag := fun _ => 2
    object_node := fun _ => 0 }

/-- Node test of scene A: the root reports children 0 and 1 at distances 1 and 2. -/
def maskA (a : Int) : Nat × float4 :=
  if a = 0 then (3, ⟨1, 2, 0, 0⟩) else (0, ⟨0, 0, 0, 0⟩)

/-- Hit distances of scene A: primitives 0, 1, 2 at 5, 3, 4. -/
def hitA (p : Int) : Option ℚ :=
  if p = 0 then some 5 else if p = 1 then some 3 else if p = 2 then some 4 else none

def collabA : Collab := demoCollab maskA hitA 1

/-- The kernel of scene A with primitive tests that never hit. -/
def collabMiss : Collab := demoCollab maskA (fun _ => none) 1

/-- Scene A with every primitive of a type the kernel does not know (bit 4 only). -/
def sceneU : KernelGlobals :=
  { sceneA with prim_type := fun _ => 16 }

/-- Scene A with no volume object: every object flag word is 0. -/
def sceneN : KernelGlobals :=
  { sceneA with object_flag := fun _ => 0 }

/-- Scene B: the root (node 0) has one child, the instance leaf node 1 (address -2) of
object 0; object 0 is a volume object whose tree is the leaf node 2 (address -3) with
primitive 0. -/
def sceneB : KernelGlobals :=
  { bvh_root := 0
    curveflags := 0
    bvh_nodes := fun i =>
      if i = 6 then ⟨-2, 0, 0, 0⟩
      else if i = 13 then ⟨-1, 0, 0, 0⟩
      else if i = 20 then ⟨0, 1, 0, 0⟩
      else ⟨0, 0, 0, 0⟩
    prim_object := fun _ => 0
    prim_type := fun _ => 1
    object_flag := fun _ => 2
    object_node := fun _ => -3 }

/-- Scene S: scene B with no volume object, so that its instance leaf is skipped. -/
def sceneS : KernelGlobals :=
  { sceneB with object_flag := fun _ => 0 }

/-- Node test of scene B: the root reports child 0. -/
def maskB (a : Int) : Nat × float4 :=
  if a = 0 then (1, ⟨1, 0, 0, 0⟩) else (0, ⟨0, 0, 0, 0⟩)

/-- Kernel of scene B: no primitive is hit, and entering the instance doubles `t`. -/
def collabB : Collab := demoCollab maskB (fun _ => none) 2

/-- A node test that reports the mask `m` with the distances `d` at the root (node 0)
and nothing elsewhere. -/
def maskT (m : Nat) (d : float4) (a : Int) : Nat × float4 :=
  if a = 0 then (m, d) else (0, ⟨0, 0, 0, 0⟩)

/-- The kernel with the node test `maskT m d`, primitive tests that never hit and an
instance push that keeps the scale. -/
def collabT (m : Nat) (d : float4) : Collab := demoCollab (maskT m d) (fun _ => none) 1

/-- Scene D: the root (node 0) has the leaf at address -2 (primitive 0) and the inner
node 2, whose only child is the leaf at address -4 (primitive 1). -/
def sceneD : KernelGlobals :=
  { bvh_root := 0
    curveflags := 0
    bvh_nodes := fun i =>
      if i = 6 then ⟨-2, 2, 0, 0⟩
      else if i = 13 then ⟨0, 1, 0, 0⟩
      else if i = 20 then ⟨-4, 0, 0, 0⟩
      else if i = 27 then ⟨1, 2, 0, 0⟩
      else ⟨0, 0, 0, 0⟩
    prim_object := fun _ => 0
    prim_type := fun _ => 1
    object_flag := fun _ => 2
    object_node := fun _ => 0 }

/-- Node test of scene D: the root reports both children, the nearer being the leaf;
node 2 reports its child. -/
def maskD (a : Int) : Nat × float4 :=
  if a = 0 then (3, ⟨1, 2, 0, 0⟩) else if a = 2 then (1, ⟨3, 0, 0, 0⟩) else (0, ⟨0, 0, 0, 0⟩)

/-- Kernel of scene D: primitive 0 is hit at distance 5, primitive 1 is not hit. -/
def collabD : Collab := demoCollab maskD (fun p => if p = 0 then some 5 else none) 1

end QBVH


namespace QBVH

/-! ## Trees and walks -/

/-- The child slots a hit mask reports, in index order. -/
def hitList (m : Nat) : List Nat := (List.range 4).filter (fun i => m.testBit i)

/-- Stack segment: `xs` are the entries above index `base`, listed from the top down. -/
def Seg (st : Int → Int) (base : Int) : List Int → Prop
  | [] => True
  | x :: rest => st (base + rest.length + 1) = x ∧ Seg st base rest

/-- The shape of a (sub)tree of the QBVH as the traversal sees it. `dead` is a child slot
the node test never reports; `leaf` is a leaf with a primitive range; `skip` is an instance
leaf of an object without `SD_OBJECT_HAS_VOLUME`; `inst` is an instance leaf of a volume
object, with the tree of that object; `node` is an inner node with its four child slots. -/
inductive QTree where
  | dead : QTree
  | leaf (addr : Int) : QTree
  | skip (addr : Int) : QTree
  | inst (addr : Int) (sub : QTree) : QTree
  | node (addr : Int) (c0 c1 c2 c3 : QTree) : QTree

/-- The node address of a tree (`0` for a dead slot, whose word is never followed). -/
def QTree.addr : QTree → Int
  | QTree.dead => 0
  | QTree.leaf a => a
  | QTree.skip a => a
  | QTree.inst a _ => a
  | QTree.node a _ _ _ _ => a

def QTree.isDead : QTree → Bool
  | QTree.dead => true
  | _ => false

/-- The tree in child slot `i` (slots above 3 read as slot 3, as `int4.get` does). -/
def QTree.child : QTree → Nat → QTree
  | QTree.node _ c0 c1 c2 c3, i =>
    match i with
    | 0 => c0
    | 1 => c1
    | 2 => c2
    | _ => c3
  | _, _ => QTree.dead

/-- No instance leaf of either kind occurs in the tree. -/
def QTree.NoInst : QTree → Prop
  | QTree.dead => True
  | QTree.leaf _ => True
  | QTree.skip _ => False
  | QTree.inst _ _ => False
  | QTree.node _ c0 c1 c2 c3 => c0.NoInst ∧ c1.NoInst ∧ c2.NoInst ∧ c3.NoInst

/-- No instance is entered below a tree walked with active object `obj`, and a skipped
instance leaf (which resets the active object) occurs only when no object is active. -/
def QTree.Calm (none obj : Int) : QTree → Prop
  | QTree.dead => True
  | QTree.leaf _ => True
  | QTree.skip _ => obj = none
  | QTree.inst _ _ => False
  | QTree.node _ c0 c1 c2 c3 =>
    c0.Calm none obj ∧ c1.Calm none obj ∧ c2.Calm none obj ∧ c3.Calm none obj

def QTree.size : QTree → Nat
  | QTree.dead => 1
  | QTree.leaf _ => 1
  | QTree.skip _ => 1
  | QTree.inst _ sub => 1 + sub.size
  | QTree.node _ c0 c1 c2 c3 => 1 + c0.size + c1.size + c2.size + c3.size

def sizeF : List QTree → Nat
  | [] => 0
  | t :: rest => t.size + sizeF rest

/-- Nesting depth of the inner nodes of a tree, not counting instanced trees. -/
def QTree.height : QTree → Nat
  | QTree.node _ c0 c1 c2 c3 => 1 + max (max c0.height c1.height) (max c2.height c3.height)
  | _ => 0

/-- The largest nesting depth of the inner nodes of the trees instanced below a tree. -/
def QTree.instHeight : QTree → Nat
  | QTree.inst _ sub => sub.height
  | QTree.node _ c0 c1 c2 c3 =>
    max (max c0.instHeight c1.instHeight) (max c2.instHeight c3.instHeight)
  | _ => 0

/-- How far above the stack pointer of its visit the walk of a tree writes the stack: an
inner node pushes up to four children and visits the first with three of them on the stack;
an entered instance leaf pushes one sentinel. -/
def QTree.need : QTree → Nat
  | QTree.inst _ sub => 1 + sub.need
  | QTree.node _ c0 c1 c2 c3 => max 4 (3 + max (max c0.need c1.need) (max c2.need c3.need))
  | _ => 0

/-- How far above the stack pointer of its visit the stack pointer stands at a loop test
during the walk of a tree: an inner node leaves up to three children on the stack, an
entered instance leaf one sentinel. -/
def QTree.rise : QTree → Nat
  | QTree.inst _ sub => 1 + sub.rise
  | QTree.node _ c0 c1 c2 c3 => 3 + max (max c0.rise c1.rise) (max c2.rise c3.rise)
  | _ => 0

/-- The highest stack index the walk of a forest reaches when each tree reaches `f t`
above the stack pointer of its visit; the forest lies above index `base`, its first tree
being the current node. -/
def reach (f : QTree → Nat) (base : Int) : List QTree → Int
  | [] => base - 1
  | t :: rest => max (base + rest.length + f t) (reach f base rest)

/-- Stack bounds of a state: the stack pointer is between `lo` and `hi`, and no index
above `top` has been written. -/
def Within (lo hi top : Int) (u : State) : Prop :=
  lo ≤ u.stackPtr ∧ u.stackPtr ≤ hi ∧ u.stackMax ≤ top

/-- How many nodes of the tree, the instanced trees unfolded at each instance leaf, have
the address `a`. -/
def QTree.occ (a : Int) : QTree → Nat
  | QTree.dead => 0
  | QTree.leaf b => if b = a then 1 else 0
  | QTree.skip b => if b = a then 1 else 0
  | QTree.inst b sub => (if b = a then 1 else 0) + sub.occ a
  | QTree.node b c0 c1 c2 c3 =>
    (if b = a then 1 else 0) + c0.occ a + c1.occ a + c2.occ a + c3.occ a

def occF (a : Int) : List QTree → Nat
  | [] => 0
  | t :: rest => t.occ a + occF a rest

/-- How many nodes of the top-level tree itself have the address `a`. -/
def QTree.occTop (a : Int) : QTree → Nat
  | QTree.dead => 0
  | QTree.leaf b => if b = a then 1 else 0
  | QTree.skip b => if b = a then 1 else 0
  | QTree.inst b _ => if b = a then 1 else 0
  | QTree.node b c0 c1 c2 c3 =>
    (if b = a then 1 else 0) + c0.occTop a + c1.occTop a + c2.occTop a + c3.occTop a

/-- How many nodes of the instanced trees below a tree have the address `a`. -/
def QTree.occSub (a : Int) : QTree → Nat
  | QTree.inst _ sub => sub.occ a
  | QTree.node _ c0 c1 c2 c3 => c0.occSub a + c1.occSub a + c2.occSub a + c3.occSub a
  | _ => 0

/-- Each instanced tree is a tree: no two of its nodes share an address. -/
def QTree.SubTrees : QTree → Prop
  | QTree.inst _ sub => ∀ a, sub.occ a ≤ 1
  | QTree.node _ c0 c1 c2 c3 => c0.SubTrees ∧ c1.SubTrees ∧ c2.SubTrees ∧ c3.SubTrees
  | _ => True

section TreeDefs

variable (cfg : Config) (K : Collab) (kg : KernelGlobals) (ray : Ray)

/-- What `qbvh_node_intersect` returns for the node and ray space of `s` (lines 97-109). -/
def nodeTest (s : State) : Nat × float4 :=
  K.qbvh_node_intersect kg s.tnear s.tfar s.org s.idir4
    s.near_x s.near_y s.near_z s.far_x s.far_y s.far_z s.nodeAddr

/-- The child words `kernel_tex_fetch(__bvh_nodes, nodeAddr*BVH_QNODE_SIZE+6)` (line 112). -/
def childWords (nodeAddr : Int) : int4 :=
  kg.bvh_nodes (nodeAddr * cfg.BVH_QNODE_SIZE + 6)

/-- What one pass of the inner loop body leaves: the hit children, in some order `order`,
are the new current node followed by the new stack entries from the top down; the entries
up to the old stack pointer are untouched. -/
def NodeStepSpec (s s1 : State) (order : List Nat) : Prop :=
  s1.stackPtr = s.stackPtr + order.length - 1 ∧
  (∀ j, j ≤ s.stackPtr → s1.traversalStack j = s.traversalStack j) ∧
  s.stackMax ≤ s1.stackMax ∧
  s1.stackMax ≤ max s.stackMax (s.stackPtr + order.length) ∧
  (order.length ≤ 1 → s1.stackMax = s.stackMax) ∧
  (order = [] → s1.nodeAddr = s.traversalStack s.stackPtr) ∧
  (∀ i rest, order = i :: rest →
    s1.nodeAddr = (childWords cfg kg s.nodeAddr).get i ∧
    Seg s1.traversalStack s.stackPtr (rest.map (childWords cfg kg s.nodeAddr).get))

/-- The node test never reports child slot `i` of node `a`, whatever the ray. -/
def NeverHit (a : Int) (i : Nat) : Prop :=
  ∀ tn tf o id nx ny nz fx fy fz,
    (K.qbvh_node_intersect kg tn tf o id nx ny nz fx fy fz a).1.testBit i = false

/-- The node test of node `a` returns a mask of four bits. -/
def MaskOK (a : Int) : Prop :=
  ∀ tn tf o id nx ny nz fx fy fz, (K.qbvh_node_intersect kg tn tf o id nx ny nz fx fy fz a).1 < 16

/-- Child slot `i` of node `a` holds the tree `c`: its word is the address of `c`, or the
slot is never reported when `c` is dead. -/
def SlotOK (a : Int) (i : Nat) (c : QTree) : Prop :=
  if c.isDead then NeverHit K kg a i else (childWords cfg kg a).get i = c.addr

/-- The object an instance leaf at `a` names: `__prim_object[-primAddr-1]` (line 248). -/
def leafObject (a : Int) : Int :=
  kg.prim_object (-(leafWords cfg kg a).x - 1)

/-- The scene data encode the tree: addresses have the sign of their kind, leaves are of
the stated kind, the child words of a node are the addresses of its children, the tree of
an instanced object starts at `__object_node[object]` and holds no instance leaf. -/
def Encodes : QTree → Prop
  | QTree.dead => True
  | QTree.leaf a => a < 0 ∧ (cfg.BVH_INSTANCING = false ∨ (leafWords cfg kg a).x ≥ 0)
  | QTree.skip a => a < 0 ∧ cfg.BVH_INSTANCING = true ∧ (leafWords cfg kg a).x < 0 ∧
      kg.object_flag (leafObject cfg kg a) &&& cfg.SD_OBJECT_HAS_VOLUME = 0
  | QTree.inst a sub => a < 0 ∧ cfg.BVH_INSTANCING = true ∧ (leafWords cfg kg a).x < 0 ∧
      kg.object_flag (leafObject cfg kg a) &&& cfg.SD_OBJECT_HAS_VOLUME ≠ 0 ∧
      kg.object_node (leafObject cfg kg a) = sub.addr ∧ sub.isDead = false ∧ sub.NoInst ∧
      Encodes sub
  | QTree.node a c0 c1 c2 c3 => 0 ≤ a ∧ a ≠ cfg.ENTRYPOINT_SENTINEL ∧ MaskOK K kg a ∧
      SlotOK cfg K kg a 0 c0 ∧ SlotOK cfg K kg a 1 c1 ∧ SlotOK cfg K kg a 2 c2 ∧
      SlotOK cfg K kg a 3 c3 ∧ Encodes c0 ∧ Encodes c1 ∧ Encodes c2 ∧ Encodes c3

/-- A well-formed scene: the sentinel is not a leaf address, and the data encode a tree
whose root is `kernel_data.bvh.root`. -/
def WellFormed (t : QTree) : Prop :=
  0 ≤ cfg.ENTRYPOINT_SENTINEL ∧ t.isDead = false ∧ t.addr = kg.bvh_root ∧ Encodes cfg K kg t

/-- The state is about to walk the forest `ts`: the control is at the inner loop test,
the current node is the first tree, the others are on the stack above index `base` (the
next to visit on top), and index `base` holds a sentinel. With nothing left to walk the
current node is that sentinel and the stack pointer is below `base`. -/
def Pre (ts : List QTree) (s : State) (base : Int) : Prop :=
  0 ≤ cfg.ENTRYPOINT_SENTINEL ∧ 0 ≤ base ∧ s.traversalStack base = cfg.ENTRYPOINT_SENTINEL ∧
  (∀ t ∈ ts, t.isDead = false ∧ Encodes cfg K kg t) ∧
  match ts with
  | [] => s.nodeAddr = cfg.ENTRYPOINT_SENTINEL ∧ s.stackPtr = base - 1 ∧
      (s.pc = PC.inner ∨ s.pc = PC.outerIf ∨ s.pc = PC.done)
  | t :: rest => s.pc = PC.inner ∧ s.nodeAddr = t.addr ∧ s.stackPtr = base + rest.length ∧
      Seg s.traversalStack base (rest.map QTree.addr)

/-- The next move of `s` processes node `a`: it runs the body of the inner loop (line 91)
for the inner node `a`, or the leaf branch (line 192) for the leaf `a`. -/
def processes (s : State) (a : Int) : Prop :=
  s.nodeAddr = a ∧
    ((s.pc = PC.inner ∧ 0 ≤ s.nodeAddr ∧ s.nodeAddr ≠ cfg.ENTRYPOINT_SENTINEL) ∨
      (s.pc = PC.leafTest ∧ s.nodeAddr < 0))

instance processesDecidable (s : State) (a : Int) : Decidable (processes cfg s a) := by
  unfold processes
  infer_instance

/-- How many of the next `n` moves from `s` process node `a`. -/
def visits (a : Int) : Nat → State → Nat
  | 0, _ => 0
  | n + 1, s => (if processes cfg s a then 1 else 0) + visits a n (step cfg K kg ray s)

/-- The primitives stored beneath a tree: the ranges of its leaves, in slot order. -/
def treePrims : QTree → List Int
  | QTree.leaf a =>
    primRange (leafWords cfg kg a).x ((leafWords cfg kg a).y - (leafWords cfg kg a).x).toNat
  | QTree.node _ c0 c1 c2 c3 => treePrims c0 ++ treePrims c1 ++ treePrims c2 ++ treePrims c3
  | _ => []

def forestPrims : List QTree → List Int
  | [] => []
  | t :: rest => treePrims cfg kg t ++ forestPrims rest

/-- The state `s` looks along the ray as `s0` does: the values handed to the node test and
to the intersection routines are those of `s0`. -/
def SameSpace (s0 s : State) : Prop :=
  s.P = s0.P ∧ s.dir = s0.dir ∧ s.isect_precalc = s0.isect_precalc ∧ s.object = s0.object ∧
  s.tnear = s0.tnear ∧ s.tfar = s0.tfar ∧ s.org = s0.org ∧ s.idir4 = s0.idir4 ∧
  s.near_x = s0.near_x ∧ s.near_y = s0.near_y ∧ s.near_z = s0.near_z ∧
  s.far_x = s0.far_x ∧ s.far_y = s0.far_y ∧ s.far_z = s0.far_z

/-- The primitive test of lines 216-242 as the traversal applies it to primitive `p` in
world space: with the ray origin, the clamped direction and no active object. -/
def worldTest (r : Intersection) (p : Int) : Bool × Intersection :=
  primDispatch cfg K kg ray (K.triangle_intersect_precalc (K.bvh_clamp_direction ray.D)) r
    ray.P (K.bvh_clamp_direction ray.D) cfg.OBJECT_NONE p

/-- "Each primitive test overwrites the result exactly when it finds a hit with strictly
smaller t": the ray hits primitive `p` at the distance `hit p`, if at all, and never behind
its origin; the test stores that distance and a primitive id and returns `true` when the
distance is strictly smaller than the stored one, and leaves the record otherwise. -/
def TestsHit (hit : Int → Option ℚ) : Prop :=
  (∀ p d, hit p = some d → 0 ≤ d) ∧
  (∀ r p d, hit p = some d → d < r.t →
    (worldTest cfg K kg ray r p).1 = true ∧ (worldTest cfg K kg ray r p).2.t = d ∧
      (worldTest cfg K kg ray r p).2.prim ≠ cfg.PRIM_NONE) ∧
  (∀ r p, (∀ d, hit p = some d → r.t ≤ d) → worldTest cfg K kg ray r p = (false, r))

/-- "The node test reports a child as hit whenever the ray can hit a primitive stored
beneath that child within [0, ray.t]", for every inner node of the tree; `s0` is the state
whose ray space the node test is called with. -/
def Conservative (hit : Int → Option ℚ) (s0 : State) : QTree → Prop
  | QTree.node a c0 c1 c2 c3 =>
    (∀ i, i < 4 → ∀ p ∈ treePrims cfg kg ((QTree.node a c0 c1 c2 c3).child i), ∀ d,
      hit p = some d → d ≤ ray.t →
        (nodeTest K kg { s0 with nodeAddr := a }).1.testBit i = true) ∧
    Conservative hit s0 c0 ∧ Conservative hit s0 c1 ∧ Conservative hit s0 c2 ∧
    Conservative hit s0 c3
  | _ => True

/-- The linear scan of the spec ("a brute-force linear scan over all primitives"): every
primitive of the list that passes the volume filter is tested in turn, in list order,
starting from the no-hit record; the `Bool` says whether a test has found a hit. -/
def linearScan (isect0 : Intersection) (prims : List Int) : Bool × Intersection :=
  (prims.filter (passesFilter cfg kg cfg.OBJECT_NONE)).foldl
    (fun acc p => (acc.1 || (worldTest cfg K kg ray acc.2 p).1,
      (worldTest cfg K kg ray acc.2 p).2))
    (false, noHitRecord cfg ray isect0)

/-- The record `r1` is what tests of the primitives in `S`, applied to `r0` in some order,
leave: its distance is not above that of `r0` nor above any hit distance of `S`, and it
is `r0` itself or a hit of a primitive of `S` strictly nearer than `r0`. -/
def Scanned (hit : Int → Option ℚ) (r0 r1 : Intersection) (S : Int → Prop) : Prop :=
  r1.t ≤ r0.t ∧ (∀ p d, S p → hit p = some d → r1.t ≤ d) ∧
  (r1 = r0 ∨ (r1.prim ≠ cfg.PRIM_NONE ∧ r1.t < r0.t ∧ ∃ p, S p ∧ hit p = some r1.t))

/-- No instance push or pop is executed by the next move of `s`. -/
def Quiet (s : State) : Prop := ¬ entersInstance cfg kg s ∧ ¬ leavesInstance cfg s

/-- From each instance push within the next `n` moves of `s` until the next instance pop,
node `a` is processed at most once. -/
def Windows (a : Int) (n : Nat) (s : State) : Prop :=
  ∀ k len, k + 1 + len ≤ n → entersInstance cfg kg (iter cfg K kg ray k s) →
    (∀ j, j < len → ¬ leavesInstance cfg (iter cfg K kg ray (k + 1 + j) s)) →
    visits cfg K kg ray a len (iter cfg K kg ray (k + 1) s) ≤ 1

/-- A state in the middle of a walk over index `base`: the stack pointer is not below
`base - 1`, it is `base - 1` only with the sentinel as current node, the function has not
returned, and the control is at line 289 only for an instance pop. -/
def Running (base : Int) (u : State) : Prop :=
  base - 1 ≤ u.stackPtr ∧ (u.stackPtr = base - 1 → u.nodeAddr = cfg.ENTRYPOINT_SENTINEL) ∧
  u.pc ≠ PC.done ∧ (u.pc = PC.outerIf → cfg.BVH_INSTANCING = true ∧ 0 ≤ u.stackPtr)

/-- The state `u` in which a walk that started at `s` over index `base` has ended: the
sentinel of index `base` has been popped, the control is at the test of line 289 or at the
`return`, and the stack up to `base` is as it was. -/
def Ended (s u : State) (base : Int) : Prop :=
  u.nodeAddr = cfg.ENTRYPOINT_SENTINEL ∧ u.stackPtr = base - 1 ∧
  (u.pc = PC.outerIf ∨ u.pc = PC.done) ∧
  ∀ j, j ≤ base → u.traversalStack j = s.traversalStack j

/-- The run of the machine from `s` over the forest `ts`, as a derivation: which moves are
made for each tree, in which order the hit children of a node are visited, and how many
moves the whole takes. Each start state satisfies `Pre`. -/
inductive Walk : List QTree → State → Int → Nat → Prop
  | nil (s : State) (base : Int) :
      Pre cfg K kg [] s base → Walk [] s base (if s.pc = PC.inner then 3 else 0)
  | leaf (a : Int) (rest : List QTree) (s : State) (base : Int) (n : Nat) :
      Pre cfg K kg (QTree.leaf a :: rest) s base →
      Walk rest (iter cfg K kg ray 3 s) base n →
      Walk (QTree.leaf a :: rest) s base (3 + n)
  | skip (a : Int) (rest : List QTree) (s : State) (base : Int) (n : Nat) :
      Pre cfg K kg (QTree.skip a :: rest) s base →
      Walk rest (iter cfg K kg ray 3 s) base n →
      Walk (QTree.skip a :: rest) s base (3 + n)
  | inst (a : Int) (sub : QTree) (rest : List QTree) (s : State) (base : Int) (n1 n2 : Nat) :
      Pre cfg K kg (QTree.inst a sub :: rest) s base →
      Walk [sub] (iter cfg K kg ray 3 s) (s.stackPtr + 1) n1 →
      Walk rest (iter cfg K kg ray (3 + n1 + 2) s) base n2 →
      Walk (QTree.inst a sub :: rest) s base (3 + n1 + 2 + n2)
  | nodeHit (a : Int) (c0 c1 c2 c3 : QTree) (rest : List QTree) (s : State) (base : Int)
      (n : Nat) (order : List Nat) :
      Pre cfg K kg (QTree.node a c0 c1 c2 c3 :: rest) s base →
      order ≠ [] → order.Perm (hitList (nodeTest K kg s).1) →
      Walk (order.map (QTree.node a c0 c1 c2 c3).child ++ rest) (step cfg K kg ray s) base n →
      Walk (QTree.node a c0 c1 c2 c3 :: rest) s base (1 + n)
  | nodeMiss (a : Int) (c0 c1 c2 c3 : QTree) (rest : List QTree) (s : State) (base : Int)
      (n : Nat) :
      Pre cfg K kg (QTree.node a c0 c1 c2 c3 :: rest) s base →
      (nodeTest K kg s).1 = 0 →
      Walk rest (step cfg K kg ray s) base n →
      Walk (QTree.node a c0 c1 c2 c3 :: rest) s base (1 + n)

end TreeDefs

/-- The tree of scenes A and N: the root with its two leaves and two unused slots. -/
def treeA : QTree :=
  QTree.node 0 (QTree.leaf (-2)) (QTree.leaf (-3)) QTree.dead QTree.dead

/-- The constants of `demoConfig` with a traversal stack of eight entries. -/
def smallConfig : Config := { demoConfig with BVH_STACK_SIZE := 8 }

/-- Scene C: the root (node 0) has four children: the instance leaf at address -2 of
object 0, and the primitive leaves at -3, -4, -5. The tree of object 0 is the inner node 5
with the four primitive leaves at -7, -8, -9, -10. -/
def sceneC : KernelGlobals :=
  { bvh_root := 0
    curveflags := 0
    bvh_nodes := fun i =>
      if i = 6 then ⟨-2, -3, -4, -5⟩
      else if i = 13 then ⟨-1, 0, 0, 0⟩
      else if i = 20 then ⟨0, 1, 0, 0⟩
      else if i = 27 then ⟨1, 2, 0, 0⟩
      else if i = 34 then ⟨2, 3, 0, 0⟩
      else if i = 41 then ⟨-7, -8, -9, -10⟩
      else if i = 48 then ⟨3, 4, 0, 0⟩
      else if i = 55 then ⟨4, 5, 0, 0⟩
      else if i = 62 then ⟨5, 6, 0, 0⟩
      else if i = 69 then ⟨6, 7, 0, 0⟩
      else ⟨0, 0, 0, 0⟩
    prim_object := fun _ => 0
    prim_type := fun _ => 1
    object_flag := fun _ => 2
    object_node := fun _ => 5 }

/-- Node test of scene C: both inner nodes report all four children. -/
def maskC (a : Int) : Nat × float4 :=
  if a = 0 then (15, ⟨2, 1, 3, 4⟩) else if a = 5 then (15, ⟨2, 1, 3, 4⟩) else (0, ⟨0, 0, 0, 0⟩)

/-- Kernel of scene C: no primitive is hit, the instance keeps the scale. -/
def collabC : Collab := demoCollab maskC (fun _ => none) 1

/-- The tree of scene C: one level of inner nodes at the top, one in the instanced tree. -/
def treeC : QTree :=
  QTree.node 0
    (QTree.inst (-2)
      (QTree.node 5 (QTree.leaf (-7)) (QTree.leaf (-8)) (QTree.leaf (-9)) (QTree.leaf (-10))))
    (QTree.leaf (-3)) (QTree.leaf (-4)) (QTree.leaf (-5))

end QBVH


namespace QBVH

/-! ## Vocabulary of the claims on leaves, node passes and stack accesses -/

/-- The near/far offsets are the ones the three `if(idir.? >= 0.0f)` lines select for the
inverse direction of the state. -/
def NearFar (s : State) : Prop :=
  s.near_x = (if s.idir.x ≥ 0 then 0 else 1) ∧ s.far_x = (if s.idir.x ≥ 0 then 1 else 0) ∧
  s.near_y = (if s.idir.y ≥ 0 then 2 else 3) ∧ s.far_y = (if s.idir.y ≥ 0 then 3 else 2) ∧
  s.near_z = (if s.idir.z ≥ 0 then 4 else 5) ∧ s.far_z = (if s.idir.z ≥ 0 then 5 else 4)

/-- How many hit children the cascade of `__bscf` calls of lines 113-175 finds in the
mask `m`: it stops at the first call that leaves `traverseChild == 0`, and after the third
call that does not, it takes a fourth child. -/
def hitCount (m : Nat) : Nat :=
  if m = 0 then 0
  else if (bscf m).2 = 0 then 1
  else if (bscf (bscf m).2).2 = 0 then 2
  else if (bscf (bscf (bscf m).2).2).2 = 0 then 3
  else 4

/-- How many of the stack slots `0 .. n-1` hold the value `sentinel`. -/
def sentinelsBelow (st : Int → Int) (sentinel : Int) : Nat → Nat
  | 0 => 0
  | n + 1 => sentinelsBelow st sentinel n + (if st (n : Int) = sentinel then 1 else 0)

/-- The stack slots a pass of the inner loop writes when it finds `h` hit children and the
stack pointer is `sp`: one push for two hit children (lines 134, 140), three or four pushes
for three or four (lines 147-150, 157, 176-179; the sort stores to the same slots). -/
def pushedSlots (sp : Int) : Nat → List Int
  | 2 => [sp + 1]
  | 3 => [sp + 1, sp + 2, sp + 3]
  | 4 => [sp + 1, sp + 2, sp + 3, sp + 4]
  | _ => []

/-- The stack slots a pass of the inner loop reads when it finds `h` hit children and the
stack pointer is `sp`: the pop of line 187 for no hit child, and for three or four the
reads of the sort and of the pop, all of entries just pushed (lines 158-163, 180-187). -/
def readSlots (sp : Int) : Nat → List Int
  | 0 => [sp]
  | 3 => [sp + 3, sp + 2, sp + 1]
  | 4 => [sp + 4, sp + 3, sp + 2, sp + 1]
  | _ => []

section Accesses

variable (cfg : Config) (K : Collab) (kg : KernelGlobals) (ray : Ray)

/-- The indices of `traversalStack` that the next move of `s` writes: the pushes of a pass
of the inner loop, and the sentinel of the instance push (line 273). No other statement
writes the stack. -/
def writes (s : State) : List Int :=
  match s.pc with
  | PC.inner =>
    if 0 ≤ s.nodeAddr ∧ s.nodeAddr ≠ cfg.ENTRYPOINT_SENTINEL then
      pushedSlots s.stackPtr (hitCount (nodeTest K kg s).1)
    else
      []
  | PC.leafTest => if entersInstance cfg kg s then [s.stackPtr + 1] else []
  | _ => []

/-- The indices of `traversalStack` that the next move of `s` reads: those of a pass of the
inner loop; a primitive leaf and a skipped instance leaf pop (lines 202, 280); the instance
pop reads the entry beneath the sentinel (line 313). No other statement reads the stack. -/
def reads (s : State) : List Int :=
  match s.pc with
  | PC.inner =>
    if 0 ≤ s.nodeAddr ∧ s.nodeAddr ≠ cfg.ENTRYPOINT_SENTINEL then
      readSlots s.stackPtr (hitCount (nodeTest K kg s).1)
    else
      []
  | PC.leafTest =>
    if s.nodeAddr < 0 ∧ ¬ entersInstance cfg kg s then [s.stackPtr] else []
  | PC.outerIf => if leavesInstance cfg s then [s.stackPtr] else []
  | _ => []

/-- How many of the stack slots `0 .. stackPtr` hold the sentinel. -/
def sentinels (s : State) : Nat :=
  sentinelsBelow s.traversalStack cfg.ENTRYPOINT_SENTINEL (s.stackPtr + 1).toNat

/-- The active object of `s` agrees with the sentinels on the stack: at the test of the
inner loop with a current node other than the sentinel, either no object is active and
slots `0 .. stackPtr` hold one sentinel, or an object is active and they hold two; and at
line 289 with a stack pointer of at least 0 an object is active (the `kernel_assert` of
line 290 holds). -/
def ObjectLevel (s : State) : Prop :=
  (s.pc = PC.inner → s.nodeAddr ≠ cfg.ENTRYPOINT_SENTINEL →
    (s.object = cfg.OBJECT_NONE ∧ sentinels cfg s = 1) ∨
    (s.object ≠ cfg.OBJECT_NONE ∧ sentinels cfg s = 2)) ∧
  (s.pc = PC.outerIf → 0 ≤ s.stackPtr → s.object ≠ cfg.OBJECT_NONE)

/-- Every instance leaf of the tree that is entered names an object other than
`OBJECT_NONE`. -/
def Named : QTree → Prop
  | QTree.inst a _ => kg.prim_object (-(leafWords cfg kg a).x - 1) ≠ cfg.OBJECT_NONE
  | QTree.node _ c0 c1 c2 c3 => Named c0 ∧ Named c1 ∧ Named c2 ∧ Named c3
  | _ => True

/-- The two kernels differ at most in what their primitive intersection routines return
for a visibility mask other than `PATH_RAY_ALL_VISIBILITY`. -/
def SameAtAllVisibility (K1 K2 : Collab) : Prop :=
  K1.bvh_clamp_direction = K2.bvh_clamp_direction ∧
  K1.bvh_inverse_direction = K2.bvh_inverse_direction ∧
  K1.triangle_intersect_precalc = K2.triangle_intersect_precalc ∧
  K1.qbvh_node_intersect = K2.qbvh_node_intersect ∧
  K1.bvh_instance_push = K2.bvh_instance_push ∧
  K1.bvh_instance_pop = K2.bvh_instance_pop ∧
  K1.bvh_instance_motion_push = K2.bvh_instance_motion_push ∧
  K1.bvh_instance_motion_pop = K2.bvh_instance_motion_pop ∧
  (∀ g pre r P d o p, K1.triangle_intersect g pre r P d cfg.PATH_RAY_ALL_VISIBILITY o p =
    K2.triangle_intersect g pre r P d cfg.PATH_RAY_ALL_VISIBILITY o p) ∧
  (∀ g r P d tm o p, K1.motion_triangle_intersect g r P d tm cfg.PATH_RAY_ALL_VISIBILITY o p =
    K2.motion_triangle_intersect g r P d tm cfg.PATH_RAY_ALL_VISIBILITY o p) ∧
  (∀ g r P d o p tm ty,
    K1.bvh_cardinal_curve_intersect g r P d cfg.PATH_RAY_ALL_VISIBILITY o p tm ty =
      K2.bvh_cardinal_curve_intersect g r P d cfg.PATH_RAY_ALL_VISIBILITY o p tm ty) ∧
  (∀ g r P d o p tm ty, K1.bvh_curve_intersect g r P d cfg.PATH_RAY_ALL_VISIBILITY o p tm ty =
    K2.bvh_curve_intersect g r P d cfg.PATH_RAY_ALL_VISIBILITY o p tm ty)

end Accesses

/-- The kernel of scene A, except that its triangle routine, asked with a visibility mask
other than the 31 of `PATH_RAY_ALL_VISIBILITY`, reports a hit at distance 0. -/
def collabV : Collab :=
  { collabA with
    triangle_intersect := fun _ _ r _ _ vis o p =>
      if vis = 31 then hitRec r (hitA p) p o else (true, { r with t := 0, prim := p }) }

end QBVH


/-!
# Alembic point cache (source/blender/pointcache/alembic)

A shallow embedding of `AbcReader::test_sample` (abc_reader.cpp) and of the path-cache and
child-strand sample functions of abc_particles.cpp.

* Floats are exact rationals.
* A C array reached through a pointer is a function of the index; a `std::vector` or an
  Alembic array sample is a list. A read of a sample past its end, undefined in C, reads a
  zero value.
* Functions of other Blender libraries that the file calls are the fields of `Blenlib`.
-/

namespace PTC

/-! ## Data -/

/-- The enumeration `PTCReadSampleResult`. -/
inductive PTCReadSampleResult where
  | PTC_READ_SAMPLE_INVALID
  | PTC_READ_SAMPLE_EARLY
  | PTC_READ_SAMPLE_LATE
  | PTC_READ_SAMPLE_EXACT
  | PTC_READ_SAMPLE_INTERPOLATED
deriving DecidableEq

/-- The classes `V3f` and `C3f`, and a `float[3]`. -/
structure V3f where
  x : ℚ
  y : ℚ
  z : ℚ
deriving DecidableEq

/-- The class `Quatf`, and a `float[4]`; `a0` is component `[0]`. -/
structure Quatf where
  a0 : ℚ
  a1 : ℚ
  a2 : ℚ
  a3 : ℚ
deriving DecidableEq

/-- An `int[4]`. -/
structure Int4 where
  a0 : Int
  a1 : Int
  a2 : Int
  a3 : Int
deriving DecidableEq

/-- The class `M33f`, and a `float[3][3]`, by rows. -/
structure M33f where
  r0 : V3f
  r1 : V3f
  r2 : V3f
deriving DecidableEq

/-- A `float[4][4]`, by rows. -/
structure M44f where
  r0 : Quatf
  r1 : Quatf
  r2 : Quatf
  r3 : Quatf
deriving DecidableEq

/-- The fields of `ParticleCacheKey` that the sample functions read and write. -/
structure ParticleCacheKey where
  co : V3f
  vel : V3f
  rot : Quatf
  col : V3f
  time : ℚ
  segments : Int
deriving DecidableEq

/-- The struct `ParticlePathcacheSample` (abc_particles.cpp, line 1086). -/
structure ParticlePathcacheSample where
  numkeys : List Int
  positions : List V3f
  velocities : List V3f
  rotations : List Quatf
  colors : List V3f
  times : List ℚ
deriving DecidableEq

/-- The fields of `StrandsChildCurve` that `read_sample` writes. -/
structure StrandsChildCurve where
  numverts : Int
  root_matrix : M44f
  parents : Int4
  parent_weights : Quatf
deriving DecidableEq

/-- The fields of `StrandsChildVertex` that `read_sample` writes, and its normal. -/
structure StrandsChildVertex where
  co : V3f
  time : ℚ
  nor : V3f
deriving DecidableEq

/-- The struct `StrandsChildren`: the two counts and the two arrays. -/
structure StrandsChildren where
  totcurves : Int
  totverts : Int
  curves : Nat → StrandsChildCurve
  verts : Nat → StrandsChildVertex

/-- Functions of other libraries called by the sample functions. -/
structure Blenlib where
  mul_m4_m4m4 : M44f → M44f → M44f
  invert_m4 : M44f → M44f
  mul_v3_m4v3 : M44f → V3f → V3f
  copy_m3_m4 : M44f → M33f
  copy_m4_m3 : M33f → M44f
  BKE_strands_children_new : Int → Int → StrandsChildren
  BKE_strands_children_ensure_normals : StrandsChildren → StrandsChildren

/-- The loop `for (i = 0; i < n; ++i) s = body i s`. -/
def loop {σ : Type} (body : Nat → σ → σ) : Nat → σ → σ
  | 0, s => s
  | n + 1, s => body n (loop body n s)

/-- The store `pathcache[p][k] = v`. -/
def setKey (pathcache : Nat → Nat → ParticleCacheKey) (p k : Nat) (v : ParticleCacheKey) :
    Nat → Nat → ParticleCacheKey :=
  fun p2 k2 => if p2 = p ∧ k2 = k then v else pathcache p2 k2

/-- The cast `(int)` of a float: truncation towards zero. -/
def toInt (q : ℚ) : Int := if 0 ≤ q then Int.floor q else Int.ceil q

/-! ## abc_reader.cpp -/

/-- What `AbcReaderArchive::get_frame_range` reads of the archive object: whether
`m_abc_archive` is valid and the two times `GetArchiveStartAndEndTime` delivers. -/
structure AbcReaderArchive where
  valid : Bool
  start_time : ℚ
  end_time : ℚ
deriving DecidableEq

/-- The function `AbcReaderArchive::get_frame_range` (lines 92-105): the returned `bool`
and the values left in `start_frame` and `end_frame`. `time_to_frame` is the function of
the base class `FrameMapper`. -/
def AbcReaderArchive.get_frame_range (time_to_frame : ℚ → ℚ) (a : AbcReaderArchive) :
    Bool × Int × Int :=
  if a.valid then
    (true, toInt (time_to_frame a.start_time), toInt (time_to_frame a.end_time))
  else
    (false, 1, 1)

/-- The function `AbcReader::test_sample` (lines 124-145); `m_abc_archive` is the pointer
member of the reader, `none` when it is null. The comparisons convert the frame numbers
to `float`. -/
def AbcReader.test_sample (time_to_frame : ℚ → ℚ) (m_abc_archive : Option AbcReaderArchive)
    (frame : ℚ) : PTCReadSampleResult :=
  match m_abc_archive with
  | some a =>
    let r := a.get_frame_range time_to_frame
    let start_frame := r.2.1
    let end_frame := r.2.2
    if frame < (start_frame : ℚ) then
      PTCReadSampleResult.PTC_READ_SAMPLE_EARLY
    else if frame > (end_frame : ℚ) then
      PTCReadSampleResult.PTC_READ_SAMPLE_LATE
    else
      PTCReadSampleResult.PTC_READ_SAMPLE_INTERPOLATED
  | none => PTCReadSampleResult.PTC_READ_SAMPLE_INVALID

/-! ## abc_particles.cpp: path cache -/

/-- The function `paths_count_totkeys` (lines 1125-1136). -/
def paths_count_totkeys (pathcache : Nat → Nat → ParticleCacheKey) (totpart : Int) : Int :=
  loop (fun p totkeys => totkeys + ((pathcache p 0).segments + 1)) totpart.toNat 0

/-- Lines 1160-1164: the five `push_back` calls for one key. -/
def pushKey (sample : ParticlePathcacheSample) (key : ParticleCacheKey) :
    ParticlePathcacheSample :=
  { sample with
    positions := sample.positions ++ [⟨key.co.x, key.co.y, key.co.z⟩]
    velocities := sample.velocities ++ [⟨key.vel.x, key.vel.y, key.vel.z⟩]
    rotations := sample.rotations ++ [⟨key.rot.a0, key.rot.a1, key.rot.a2, key.rot.a3⟩]
    colors := sample.colors ++ [⟨key.col.x, key.col.y, key.col.z⟩]
    times := sample.times ++ [key.time] }

/-- Lines 1151-1165: the body of the outer loop of `paths_create_sample` for path `p`. -/
def createPath (pathcache : Nat → Nat → ParticleCacheKey) (do_numkeys : Bool) (p : Nat)
    (sample : ParticlePathcacheSample) : ParticlePathcacheSample :=
  let keys := pathcache p
  let numkeys := (keys 0).segments + 1
  let sample :=
    if do_numkeys then { sample with numkeys := sample.numkeys ++ [numkeys] } else sample
  loop (fun k sample => pushKey sample (keys k)) numkeys.toNat sample

/-- The function `paths_create_sample` (lines 1138-1167). The `reserve` calls, the only use
of `totkeys`, do not change the vectors; that they throw for a negative count is left out
of this definition. -/
def paths_create_sample (pathcache : Nat → Nat → ParticleCacheKey) (totpart : Int)
    (_totkeys : Int) (sample : ParticlePathcacheSample) (do_numkeys : Bool) :
    ParticlePathcacheSample :=
  loop (createPath pathcache do_numkeys) totpart.toNat sample

/-- Lines 1233-1239: the body of the outer loop of `paths_apply_sample_nvertices` for path
`p`; `data` is the array of the sample. -/
def applyNverticesPath (data : List Int) (p : Nat) (pathcache : Nat → Nat → ParticleCacheKey) :
    Nat → Nat → ParticleCacheKey :=
  let num_keys := data.getD p 0
  let segments := num_keys - 1
  loop (fun k pathcache => setKey pathcache p k { pathcache p k with segments := segments })
    num_keys.toNat pathcache

/-- The function `paths_apply_sample_nvertices` (lines 1224-1241). The `BLI_assert` is
compiled out of release builds. -/
def paths_apply_sample_nvertices (pathcache : Nat → Nat → ParticleCacheKey) (totpart : Int)
    (data : List Int) : Nat → Nat → ParticleCacheKey :=
  loop (applyNverticesPath data) totpart.toNat pathcache

/-- Lines 1267-1281: the body of the inner loop of `paths_apply_sample_data` for key `k` of
path `p`; the second component is the common offset of the five data pointers. -/
def applyKey (data_pos data_vel : List V3f) (data_rot : List Quatf) (data_col : List V3f)
    (data_time : List ℚ) (p k : Nat) (st : (Nat → Nat → ParticleCacheKey) × Nat) :
    (Nat → Nat → ParticleCacheKey) × Nat :=
  (setKey st.1 p k
    { st.1 p k with
      co := data_pos.getD st.2 ⟨0, 0, 0⟩
      vel := data_vel.getD st.2 ⟨0, 0, 0⟩
      rot := ⟨(data_rot.getD st.2 ⟨0, 0, 0, 0⟩).a0, (data_rot.getD st.2 ⟨0, 0, 0, 0⟩).a1,
        (data_rot.getD st.2 ⟨0, 0, 0, 0⟩).a2, (data_rot.getD st.2 ⟨0, 0, 0, 0⟩).a3⟩
      col := data_col.getD st.2 ⟨0, 0, 0⟩
      time := data_time.getD st.2 0 },
    st.2 + 1)

/-- Lines 1263-1284: the body of the outer loop of `paths_apply_sample_data` for path `p`. -/
def applyDataPath (data_pos data_vel : List V3f) (data_rot : List Quatf) (data_col : List V3f)
    (data_time : List ℚ) (p : Nat) (st : (Nat → Nat → ParticleCacheKey) × Nat) :
    (Nat → Nat → ParticleCacheKey) × Nat :=
  let num_keys := (st.1 p 0).segments + 1
  loop (applyKey data_pos data_vel data_rot data_col data_time p) num_keys.toNat st

/-- The function `paths_apply_sample_data` (lines 1244-1286). -/
def paths_apply_sample_data (pathcache : Nat → Nat → ParticleCacheKey) (totpart : Int)
    (sample_pos sample_vel : List V3f) (sample_rot : List Quatf) (sample_col : List V3f)
    (sample_time : List ℚ) : Nat → Nat → ParticleCacheKey :=
  (loop (applyDataPath sample_pos sample_vel sample_rot sample_col sample_time)
    totpart.toNat (pathcache, 0)).1

/-- Where the keys of path `p` start in the arrays of a sample: the number of keys that the
paths before it contribute. -/
def keyOffset (pathcache : Nat → Nat → ParticleCacheKey) : Nat → Nat
  | 0 => 0
  | p + 1 => keyOffset pathcache p + ((pathcache p 0).segments + 1).toNat

/-! ## abc_particles.cpp: child strands -/

/-- What the Alembic objects of `AbcStrandsChildrenReader` deliver for the sample selector
of a frame (lines 790-808): whether `m_curves` is valid, the number of samples of the
schema, and the arrays; positions and vertex counts are `none` for a null pointer. -/
structure ChildrenArrays where
  curves_valid : Bool
  num_samples : Nat
  sample_co : Option (List V3f)
  sample_numvert : Option (List Int)
  sample_root_matrix : List M33f
  sample_root_positions : List V3f
  sample_time : List ℚ
  sample_parents : List Int
  sample_parent_weights : List ℚ

/-- Lines 833-848: the body of the first loop of `read_sample`, for curve `i`. -/
def readCurve (B : Blenlib) (a : ChildrenArrays) (numvert : List Int) (i : Nat)
    (st : StrandsChildren) : StrandsChildren :=
  let m := B.copy_m4_m3 (a.sample_root_matrix.getD i ⟨⟨0, 0, 0⟩, ⟨0, 0, 0⟩, ⟨0, 0, 0⟩⟩)
  let rp := a.sample_root_positions.getD i ⟨0, 0, 0⟩
  let scurve : StrandsChildCurve :=
    { numverts := numvert.getD i 0
      root_matrix := { m with r3 := ⟨rp.x, rp.y, rp.z, m.r3.a3⟩ }
      parents := ⟨a.sample_parents.getD (4 * i) 0, a.sample_parents.getD (4 * i + 1) 0,
        a.sample_parents.getD (4 * i + 2) 0, a.sample_parents.getD (4 * i + 3) 0⟩
      parent_weights := ⟨a.sample_parent_weights.getD (4 * i) 0,
        a.sample_parent_weights.getD (4 * i + 1) 0, a.sample_parent_weights.getD (4 * i + 2) 0,
        a.sample_parent_weights.getD (4 * i + 3) 0⟩ }
  { st with curves := fun j => if j = i then scurve else st.curves j }

/-- Lines 860-862: the body of the second loop of `read_sample`, for vertex `i`. -/
def readVertex (a : ChildrenArrays) (co : List V3f) (i : Nat) (st : StrandsChildren) :
    StrandsChildren :=
  { st with verts := fun j =>
      if j = i then { st.verts i with co := co.getD i ⟨0, 0, 0⟩, time := a.sample_time.getD i 0 }
      else st.verts j }

/-- The function `AbcStrandsChildrenReader::read_sample` (lines 788-871): the returned
value and the member `m_strands` after the call (`none` for a null pointer; the object it
points to is the value). -/
def AbcStrandsChildrenReader.read_sample (B : Blenlib) (m_strands : Option StrandsChildren)
    (a : ChildrenArrays) : PTCReadSampleResult × Option StrandsChildren :=
  if a.curves_valid = false then
    (PTCReadSampleResult.PTC_READ_SAMPLE_INVALID, m_strands)
  else if a.num_samples = 0 then
    (PTCReadSampleResult.PTC_READ_SAMPLE_INVALID, m_strands)
  else
    match a.sample_co, a.sample_numvert with
    | some sample_co, some sample_numvert =>
      let totcurves : Int := sample_numvert.length
      let totverts : Int := sample_co.length
      if (a.sample_root_matrix.length : Int) ≠ totcurves ∨
          (a.sample_root_positions.length : Int) ≠ totcurves ∨
          (a.sample_parents.length : Int) ≠ 4 * totcurves ∨
          (a.sample_parent_weights.length : Int) ≠ 4 * totcurves then
        (PTCReadSampleResult.PTC_READ_SAMPLE_INVALID, m_strands)
      else
        let kept : Option StrandsChildren :=
          match m_strands with
          | some st => if st.totcurves ≠ totcurves ∨ st.totverts ≠ totverts then none else some st
          | none => none
        let st : StrandsChildren :=
          match kept with
          | some st => st
          | none => B.BKE_strands_children_new totcurves totverts
        let st := loop (readCurve B a sample_numvert) sample_numvert.length st
        let st := loop (readVertex a sample_co) sample_co.length st
        (PTCReadSampleResult.PTC_READ_SAMPLE_EXACT,
          some (B.BKE_strands_children_ensure_normals st))
    | _, _ => (PTCReadSampleResult.PTC_READ_SAMPLE_INVALID, m_strands)

def zeroKey : ParticleCacheKey := ⟨⟨0, 0, 0⟩, ⟨0, 0, 0⟩, ⟨0, 0, 0, 0⟩, ⟨0, 0, 0⟩, 0, 0⟩

/-- A path cache of two paths: path 0 has two keys (one segment), path 1 has one key. -/
def demoCache : Nat → Nat → ParticleCacheKey :=
  fun p k =>
    if p = 0 then ⟨⟨1, k, 0⟩, ⟨0, 1, 0⟩, ⟨1, 0, 0, 0⟩, ⟨1, 1, 1⟩, k, 1⟩
    else ⟨⟨2, k, 0⟩, ⟨0, 2, 0⟩, ⟨1, 0, 0, 0⟩, ⟨0, 0, 1⟩, k, 0⟩

def emptyPathSample : ParticlePathcacheSample := ⟨[], [], [], [], [], []⟩

def zeroM44 : M44f := ⟨⟨0, 0, 0, 0⟩, ⟨0, 0, 0, 0⟩, ⟨0, 0, 0, 0⟩, ⟨0, 0, 0, 0⟩⟩

def zeroStrands : StrandsChildren :=
  ⟨0, 0, fun _ => ⟨0, zeroM44, ⟨0, 0, 0, 0⟩, ⟨0, 0, 0, 0⟩⟩, fun _ => ⟨⟨0, 0, 0⟩, 0, ⟨0, 0, 0⟩⟩⟩

/-- Library functions that do nothing of interest: matrices are left alone. -/
def demoLib : Blenlib :=
  { mul_m4_m4m4 := fun a _ => a
    invert_m4 := fun a => a
    mul_v3_m4v3 := fun _ v => v
    copy_m3_m4 := fun _ => ⟨⟨0, 0, 0⟩, ⟨0, 0, 0⟩, ⟨0, 0, 0⟩⟩
    copy_m4_m3 := fun _ => zeroM44
    BKE_strands_children_new := fun c v => { zeroStrands with totcurves := c, totverts := v }
    BKE_strands_children_ensure_normals := fun s => s }

end PTC


/-! ## Lemmas -/

namespace QBVH

section Basic

variable (cfg : Config) (K : Collab) (kg : KernelGlobals) (ray : Ray)

theorem iter_succ_last (n : Nat) : ∀ s : State,
    iter cfg K kg ray (n + 1) s = step cfg K kg ray (iter cfg K kg ray n s) := by
  induction n with
  | zero => intro s; rfl
  | succ n ih => intro s; exact ih (step cfg K kg ray s)

theorem iter_add (m n : Nat) : ∀ s : State,
    iter cfg K kg ray (m + n) s = iter cfg K kg ray n (iter cfg K kg ray m s) := by
  induction m with
  | zero => intro s; simp [iter]
  | succ m ih =>
    intro s
    have h : m + 1 + n = (m + n) + 1 := by omega
    rw [h]
    exact ih (step cfg K kg ray s)

theorem traverseNode_frame (s : State) :
    ∃ st sp nd mx, traverseNode cfg K kg s =
      { s with traversalStack := st, stackPtr := sp, nodeAddr := nd, stackMax := mx } := by
  unfold traverseNode
  dsimp only
  split_ifs <;> exact ⟨_, _, _, _, rfl⟩

theorem primBody_frame (s : State) (p : Int) :
    ∃ r, primBody cfg K kg ray s p = { s with isect := r } := by
  unfold primBody
  dsimp only
  split_ifs
  · exact ⟨s.isect, rfl⟩
  · exact ⟨_, rfl⟩

theorem primLoop_frame (n : Nat) : ∀ (s : State) (p : Int),
    ∃ r, primLoop cfg K kg ray s p n = { s with isect := r } := by
  induction n with
  | zero => intro s p; exact ⟨s.isect, rfl⟩
  | succ n ih =>
    intro s p
    obtain ⟨r, hr⟩ := primBody_frame cfg K kg ray s p
    obtain ⟨r2, hr2⟩ := ih (primBody cfg K kg ray s p) (p + 1)
    refine ⟨r2, ?_⟩
    simp only [primLoop, hr2]
    rw [hr]

/-- A primitive that fails the volume filter is skipped. -/
theorem primBody_filtered (s : State) (p : Int)
    (h : ownerFlag cfg kg s.object p &&& cfg.SD_OBJECT_HAS_VOLUME = 0) :
    primBody cfg K kg ray s p = s := by
  unfold primBody
  simp [h]

/-- The dispatch leaves a distance not larger than the one it was given. -/
theorem primDispatch_narrow (hN : Narrowing K) (pre : IsectPrecalc) (r : Intersection)
    (P d : float3) (o p : Int) :
    (primDispatch cfg K kg ray pre r P d o p).2.t ≤ r.t := by
  obtain ⟨h1, h2, h3, h4⟩ := hN
  unfold primDispatch
  dsimp only
  split_ifs
  · exact h1 _ _ _ _ _ _ _ _
  · exact h2 _ _ _ _ _ _ _ _
  · exact h3 _ _ _ _ _ _ _ _ _
  · exact h4 _ _ _ _ _ _ _ _ _
  · exact le_refl _

theorem primBody_narrow (hN : Narrowing K) (s : State) (p : Int) :
    (primBody cfg K kg ray s p).isect.t ≤ s.isect.t := by
  unfold primBody
  dsimp only
  split_ifs
  · exact le_refl _
  · exact primDispatch_narrow cfg K kg ray hN _ _ _ _ _ _

theorem primLoop_narrow (hN : Narrowing K) (n : Nat) : ∀ (s : State) (p : Int),
    (primLoop cfg K kg ray s p n).isect.t ≤ s.isect.t := by
  induction n with
  | zero => intro s p; exact le_refl _
  | succ n ih =>
    intro s p
    exact le_trans (ih _ _) (primBody_narrow cfg K kg ray hN s p)

end Basic

end QBVH


namespace QBVH

section Steps

variable (cfg : Config) (K : Collab) (kg : KernelGlobals) (ray : Ray)

theorem leafStep_prims (s : State)
    (h : cfg.BVH_INSTANCING = false ∨ (leafWords cfg kg s.nodeAddr).x ≥ 0) :
    leafStep cfg K kg ray s =
      primLoop cfg K kg ray s.pop (leafWords cfg kg s.nodeAddr).x
        ((leafWords cfg kg s.nodeAddr).y - (leafWords cfg kg s.nodeAddr).x).toNat := by
  unfold leafStep leafWords at *
  simp only [h, if_true]

theorem leafStep_instance (s : State)
    (h : ¬ (cfg.BVH_INSTANCING = false ∨ (leafWords cfg kg s.nodeAddr).x ≥ 0)) :
    leafStep cfg K kg ray s = instanceLeaf cfg K kg ray s (leafWords cfg kg s.nodeAddr).x := by
  unfold leafStep leafWords at *
  simp only [h, if_false]

theorem instanceLeaf_skip (s : State) (x : Int)
    (h : kg.object_flag (kg.prim_object (-x - 1)) &&& cfg.SD_OBJECT_HAS_VOLUME = 0) :
    instanceLeaf cfg K kg ray s x =
      ({ s with object := cfg.OBJECT_NONE }).pop := by
  unfold instanceLeaf
  simp [h, State.pop]

theorem step_inner_node (s : State) (hpc : s.pc = PC.inner)
    (h : 0 ≤ s.nodeAddr ∧ s.nodeAddr ≠ cfg.ENTRYPOINT_SENTINEL) :
    step cfg K kg ray s = traverseNode cfg K kg s := by
  unfold step
  simp only [hpc, h, and_self, if_true, ne_eq, not_false_eq_true]

theorem step_inner_exit (s : State) (hpc : s.pc = PC.inner)
    (h : ¬ (0 ≤ s.nodeAddr ∧ s.nodeAddr ≠ cfg.ENTRYPOINT_SENTINEL)) :
    step cfg K kg ray s = { s with pc := PC.leafTest } := by
  unfold step
  simp only [hpc, h, if_false]

theorem step_leafTest_leaf (s : State) (hpc : s.pc = PC.leafTest) (h : s.nodeAddr < 0) :
    step cfg K kg ray s = { leafStep cfg K kg ray s with pc := PC.midCond } := by
  unfold step
  simp only [hpc, h, if_true]

theorem step_leafTest_skip (s : State) (hpc : s.pc = PC.leafTest) (h : ¬ s.nodeAddr < 0) :
    step cfg K kg ray s = { s with pc := PC.midCond } := by
  unfold step
  simp only [hpc, h, if_false]

theorem step_midCond (s : State) (hpc : s.pc = PC.midCond) :
    step cfg K kg ray s =
      { s with pc := if s.nodeAddr ≠ cfg.ENTRYPOINT_SENTINEL then PC.inner else PC.outerIf } := by
  unfold step
  simp only [hpc]
  split_ifs <;> rfl

theorem step_outerIf_pop (s : State) (hpc : s.pc = PC.outerIf)
    (h : cfg.BVH_INSTANCING = true ∧ 0 ≤ s.stackPtr) :
    step cfg K kg ray s = { instancePop cfg K kg ray s with pc := PC.outerCond } := by
  unfold step
  simp only [hpc, h, and_self, if_true]

theorem step_outerIf_skip (s : State) (hpc : s.pc = PC.outerIf)
    (h : ¬ (cfg.BVH_INSTANCING = true ∧ 0 ≤ s.stackPtr)) :
    step cfg K kg ray s = { s with pc := PC.outerCond } := by
  unfold step
  simp only [hpc, h, if_false]

theorem step_outerCond (s : State) (hpc : s.pc = PC.outerCond) :
    step cfg K kg ray s =
      { s with pc := if s.nodeAddr ≠ cfg.ENTRYPOINT_SENTINEL then PC.inner else PC.done } := by
  unfold step
  simp only [hpc]
  split_ifs <;> rfl

theorem step_done (s : State) (hpc : s.pc = PC.done) : step cfg K kg ray s = s := by
  unfold step
  simp only [hpc]

theorem iter_done (n : Nat) : ∀ s : State, s.pc = PC.done → iter cfg K kg ray n s = s := by
  induction n with
  | zero => intro s _; rfl
  | succ n ih =>
    intro s h
    simp only [iter, step_done cfg K kg ray s h]
    exact ih s h

/-- A move that is neither an instance push nor an instance pop does not enlarge the
stored distance and keeps `tfar`, given narrowing primitive tests. -/
theorem step_narrow (hN : Narrowing K) (s : State)
    (h1 : ¬ entersInstance cfg kg s) (h2 : ¬ leavesInstance cfg s) :
    (step cfg K kg ray s).isect.t ≤ s.isect.t ∧ (step cfg K kg ray s).tfar = s.tfar := by
  rcases hpc : s.pc with _ | _ | _ | _ | _ | _
  · by_cases h : 0 ≤ s.nodeAddr ∧ s.nodeAddr ≠ cfg.ENTRYPOINT_SENTINEL
    · rw [step_inner_node cfg K kg ray s hpc h]
      obtain ⟨st, sp, nd, mx, he⟩ := traverseNode_frame cfg K kg s
      rw [he]
      exact ⟨le_refl _, rfl⟩
    · rw [step_inner_exit cfg K kg ray s hpc h]
      exact ⟨le_refl _, rfl⟩
  · by_cases h : s.nodeAddr < 0
    · rw [step_leafTest_leaf cfg K kg ray s hpc h]
      by_cases hp : cfg.BVH_INSTANCING = false ∨ (leafWords cfg kg s.nodeAddr).x ≥ 0
      · rw [leafStep_prims cfg K kg ray s hp]
        obtain ⟨r, hr⟩ := primLoop_frame cfg K kg ray
          ((leafWords cfg kg s.nodeAddr).y - (leafWords cfg kg s.nodeAddr).x).toNat s.pop
          (leafWords cfg kg s.nodeAddr).x
        refine ⟨?_, ?_⟩
        · exact primLoop_narrow cfg K kg ray hN _ s.pop _
        · rw [hr]; rfl
      · rw [leafStep_instance cfg K kg ray s hp]
        have hflag : kg.object_flag (kg.prim_object (-(leafWords cfg kg s.nodeAddr).x - 1)) &&&
            cfg.SD_OBJECT_HAS_VOLUME = 0 := by
          by_contra hne
          apply h1
          simp only [not_or, Bool.not_eq_false, ge_iff_le, not_le] at hp
          exact ⟨hpc, h, hp.1, hp.2, hne⟩
        rw [instanceLeaf_skip cfg K kg ray s _ hflag]
        exact ⟨le_refl _, rfl⟩
    · rw [step_leafTest_skip cfg K kg ray s hpc h]
      exact ⟨le_refl _, rfl⟩
  · rw [step_midCond cfg K kg ray s hpc]
    exact ⟨le_refl _, rfl⟩
  · have h : ¬ (cfg.BVH_INSTANCING = true ∧ 0 ≤ s.stackPtr) := fun hh => h2 ⟨hpc, hh.1, hh.2⟩
    rw [step_outerIf_skip cfg K kg ray s hpc h]
    exact ⟨le_refl _, rfl⟩
  · rw [step_outerCond cfg K kg ray s hpc]
    exact ⟨le_refl _, rfl⟩
  · rw [step_done cfg K kg ray s hpc]
    exact ⟨le_refl _, rfl⟩

end Steps

end QBVH


namespace QBVH

section TN

variable (cfg : Config) (K : Collab) (kg : KernelGlobals) (ray : Ray)

theorem bscf_table : ∀ m, m < 16 → m ≠ 0 →
    hitList m = (bscf m).1 :: hitList (bscf m).2 ∧ (bscf m).2 < 16 := by
  decide

theorem hitList_zero : hitList 0 = [] := by decide

theorem bscf_four : ∀ m, m < 16 →
    (bscf (bscf (bscf (bscf m).2).2).2).2 = 0 := by
  decide

theorem sort3_natural (f : Int → Int) (a b c : Int) (d1 d2 d3 : ℚ) :
    qbvh_stack_sort3 ⟨f a, f b, f c, d1, d2, d3⟩ =
      ⟨f (qbvh_stack_sort3 ⟨a, b, c, d1, d2, d3⟩).s1, f (qbvh_stack_sort3 ⟨a, b, c, d1, d2, d3⟩).s2,
        f (qbvh_stack_sort3 ⟨a, b, c, d1, d2, d3⟩).s3, (qbvh_stack_sort3 ⟨a, b, c, d1, d2, d3⟩).d1,
        (qbvh_stack_sort3 ⟨a, b, c, d1, d2, d3⟩).d2, (qbvh_stack_sort3 ⟨a, b, c, d1, d2, d3⟩).d3⟩ := by
  unfold qbvh_stack_sort3
  dsimp only
  split_ifs <;> rfl

theorem sort4_natural (f : Int → Int) (a b c d : Int) (d1 d2 d3 d4 : ℚ) :
    qbvh_stack_sort4 ⟨f a, f b, f c, f d, d1, d2, d3, d4⟩ =
      ⟨f (qbvh_stack_sort4 ⟨a, b, c, d, d1, d2, d3, d4⟩).s1,
        f (qbvh_stack_sort4 ⟨a, b, c, d, d1, d2, d3, d4⟩).s2,
        f (qbvh_stack_sort4 ⟨a, b, c, d, d1, d2, d3, d4⟩).s3,
        f (qbvh_stack_sort4 ⟨a, b, c, d, d1, d2, d3, d4⟩).s4,
        (qbvh_stack_sort4 ⟨a, b, c, d, d1, d2, d3, d4⟩).d1,
        (qbvh_stack_sort4 ⟨a, b, c, d, d1, d2, d3, d4⟩).d2,
        (qbvh_stack_sort4 ⟨a, b, c, d, d1, d2, d3, d4⟩).d3,
        (qbvh_stack_sort4 ⟨a, b, c, d, d1, d2, d3, d4⟩).d4⟩ := by
  unfold qbvh_stack_sort4
  dsimp only
  split_ifs <;> rfl

theorem sort3_perm (a : Sort3) :
    List.Perm [(qbvh_stack_sort3 a).s1, (qbvh_stack_sort3 a).s2, (qbvh_stack_sort3 a).s3]
      [a.s1, a.s2, a.s3] := by
  unfold qbvh_stack_sort3
  dsimp only
  split_ifs <;> (try dsimp only) <;> first
    | exact List.Perm.refl _
    | (rw [← Multiset.coe_eq_coe]
       simp only [← Multiset.cons_coe, ← Multiset.singleton_add]
       ac_rfl)

theorem sort4_perm (a : Sort4) :
    List.Perm [(qbvh_stack_sort4 a).s1, (qbvh_stack_sort4 a).s2, (qbvh_stack_sort4 a).s3,
      (qbvh_stack_sort4 a).s4] [a.s1, a.s2, a.s3, a.s4] := by
  unfold qbvh_stack_sort4
  dsimp only
  split_ifs <;> (try dsimp only) <;> first
    | exact List.Perm.refl _
    | (rw [← Multiset.coe_eq_coe]
       simp only [← Multiset.cons_coe, ← Multiset.singleton_add]
       ac_rfl)

end TN

end QBVH


namespace QBVH

section TN2

variable (cfg : Config) (K : Collab) (kg : KernelGlobals) (ray : Ray)

theorem traverseNode_miss (s : State) (h : (nodeTest K kg s).1 = 0) :
    traverseNode cfg K kg s = s.pop := by
  unfold nodeTest at h
  unfold traverseNode
  simp only [h, ne_eq, not_true_eq_false, if_false]

theorem traverseNode_one (s : State) (h : (nodeTest K kg s).1 ≠ 0)
    (h1 : (bscf (nodeTest K kg s).1).2 = 0) :
    traverseNode cfg K kg s =
      { s with nodeAddr := (childWords cfg kg s.nodeAddr).get (bscf (nodeTest K kg s).1).1 } := by
  unfold nodeTest at h h1
  unfold traverseNode childWords nodeTest
  simp only [h, h1, ne_eq, not_false_eq_true, if_true]

theorem traverseNode_two (s : State) (h : (nodeTest K kg s).1 ≠ 0)
    (h1 : (bscf (nodeTest K kg s).1).2 ≠ 0)
    (h2 : (bscf (bscf (nodeTest K kg s).1).2).2 = 0) :
    traverseNode cfg K kg s =
      if (nodeTest K kg s).2.get (bscf (bscf (nodeTest K kg s).1).2).1 <
          (nodeTest K kg s).2.get (bscf (nodeTest K kg s).1).1 then
        ({ s with nodeAddr :=
            (childWords cfg kg s.nodeAddr).get (bscf (bscf (nodeTest K kg s).1).2).1 }).push
          ((childWords cfg kg s.nodeAddr).get (bscf (nodeTest K kg s).1).1)
      else
        ({ s with nodeAddr :=
            (childWords cfg kg s.nodeAddr).get (bscf (nodeTest K kg s).1).1 }).push
          ((childWords cfg kg s.nodeAddr).get (bscf (bscf (nodeTest K kg s).1).2).1) := by
  unfold nodeTest at h h1 h2
  unfold traverseNode childWords nodeTest
  simp only [h, h1, h2, ne_eq, not_false_eq_true, if_true, if_false]

end TN2

end QBVH


namespace QBVH

section TN3

variable (cfg : Config) (K : Collab) (kg : KernelGlobals) (ray : Ray)

theorem perm3_toNat (r1 r2 r3 : Int) (a b c : Nat)
    (h : List.Perm [r1, r2, r3] [(a : Int), (b : Int), (c : Int)]) :
    List.Perm [r1.toNat, r2.toNat, r3.toNat] [a, b, c] := by
  have := h.map Int.toNat
  simpa using this

theorem perm4_toNat (r1 r2 r3 r4 : Int) (a b c d : Nat)
    (h : List.Perm [r1, r2, r3, r4] [(a : Int), (b : Int), (c : Int), (d : Int)]) :
    List.Perm [r1.toNat, r2.toNat, r3.toNat, r4.toNat] [a, b, c, d] := by
  have := h.map Int.toNat
  simpa using this

/-- Reads of the stack after one push. -/
theorem push_spec (s : State) (v : Int) :
    (s.push v).stackPtr = s.stackPtr + 1 ∧
    (s.push v).traversalStack (s.stackPtr + 1) = v ∧
    (∀ j, j ≤ s.stackPtr → (s.push v).traversalStack j = s.traversalStack j) ∧
    (s.push v).stackMax = max s.stackMax (s.stackPtr + 1) ∧
    (s.push v).nodeAddr = s.nodeAddr := by
  refine ⟨rfl, ?_, ?_, rfl, rfl⟩
  · simp [State.push]
  · intro j hj
    simp only [State.push]
    rw [if_neg (by omega)]

/-- In-place sort of the three top entries followed by a pop. -/
theorem sortTop3_pop_spec (t : State) (a b c : ℚ) (x1 x2 x3 : Int)
    (h1 : t.traversalStack t.stackPtr = x1) (h2 : t.traversalStack (t.stackPtr - 1) = x2)
    (h3 : t.traversalStack (t.stackPtr - 2) = x3) :
    ((t.sortTop3 a b c).pop).nodeAddr = (qbvh_stack_sort3 ⟨x1, x2, x3, a, b, c⟩).s1 ∧
    ((t.sortTop3 a b c).pop).stackPtr = t.stackPtr - 1 ∧
    ((t.sortTop3 a b c).pop).traversalStack (t.stackPtr - 1) =
      (qbvh_stack_sort3 ⟨x1, x2, x3, a, b, c⟩).s2 ∧
    ((t.sortTop3 a b c).pop).traversalStack (t.stackPtr - 2) =
      (qbvh_stack_sort3 ⟨x1, x2, x3, a, b, c⟩).s3 ∧
    (∀ j, j ≤ t.stackPtr - 3 →
      ((t.sortTop3 a b c).pop).traversalStack j = t.traversalStack j) ∧
    ((t.sortTop3 a b c).pop).stackMax = max t.stackMax t.stackPtr := by
  unfold State.sortTop3
  rw [h1, h2, h3]
  generalize qbvh_stack_sort3 ⟨x1, x2, x3, a, b, c⟩ = r
  refine ⟨?_, ?_, ?_, ?_, ?_, ?_⟩
  · simp (disch := omega) only [State.store, State.pop, if_neg, if_true]
  · simp only [State.store, State.pop]
  · simp (disch := omega) only [State.store, State.pop, if_neg, if_true]
  · simp (disch := omega) only [State.store, State.pop, if_neg, if_true]
  · intro j hj
    simp (disch := omega) only [State.store, State.pop, if_neg]
  · simp only [State.store, State.pop, max_def]
    split_ifs <;> omega

/-- In-place sort of the four top entries followed by a pop. -/
theorem sortTop4_pop_spec (t : State) (a b c d : ℚ) (x1 x2 x3 x4 : Int)
    (h1 : t.traversalStack t.stackPtr = x1) (h2 : t.traversalStack (t.stackPtr - 1) = x2)
    (h3 : t.traversalStack (t.stackPtr - 2) = x3)
    (h4 : t.traversalStack (t.stackPtr - 3) = x4) :
    ((t.sortTop4 a b c d).pop).nodeAddr = (qbvh_stack_sort4 ⟨x1, x2, x3, x4, a, b, c, d⟩).s1 ∧
    ((t.sortTop4 a b c d).pop).stackPtr = t.stackPtr - 1 ∧
    ((t.sortTop4 a b c d).pop).traversalStack (t.stackPtr - 1) =
      (qbvh_stack_sort4 ⟨x1, x2, x3, x4, a, b, c, d⟩).s2 ∧
    ((t.sortTop4 a b c d).pop).traversalStack (t.stackPtr - 2) =
      (qbvh_stack_sort4 ⟨x1, x2, x3, x4, a, b, c, d⟩).s3 ∧
    ((t.sortTop4 a b c d).pop).traversalStack (t.stackPtr - 3) =
      (qbvh_stack_sort4 ⟨x1, x2, x3, x4, a, b, c, d⟩).s4 ∧
    (∀ j, j ≤ t.stackPtr - 4 →
      ((t.sortTop4 a b c d).pop).traversalStack j = t.traversalStack j) ∧
    ((t.sortTop4 a b c d).pop).stackMax = max t.stackMax t.stackPtr := by
  unfold State.sortTop4
  rw [h1, h2, h3, h4]
  generalize qbvh_stack_sort4 ⟨x1, x2, x3, x4, a, b, c, d⟩ = r
  refine ⟨?_, ?_, ?_, ?_, ?_, ?_, ?_⟩
  · simp (disch := omega) only [State.store, State.pop, if_neg, if_true]
  · simp only [State.store, State.pop]
  · simp (disch := omega) only [State.store, State.pop, if_neg, if_true]
  · simp (disch := omega) only [State.store, State.pop, if_neg, if_true]
  · simp (disch := omega) only [State.store, State.pop, if_neg, if_true]
  · intro j hj
    simp (disch := omega) only [State.store, State.pop, if_neg]
  · simp only [State.store, State.pop, max_def]
    split_ifs <;> omega

end TN3

end QBVH


namespace QBVH

section TN4

variable (cfg : Config) (K : Collab) (kg : KernelGlobals) (ray : Ray)

theorem push2_spec (s : State) (a b : Int) :
    ((s.push a).push b).stackPtr = s.stackPtr + 2 ∧
    ((s.push a).push b).traversalStack (s.stackPtr + 2) = b ∧
    ((s.push a).push b).traversalStack (s.stackPtr + 1) = a ∧
    (∀ j, j ≤ s.stackPtr → ((s.push a).push b).traversalStack j = s.traversalStack j) ∧
    ((s.push a).push b).stackMax = max s.stackMax (s.stackPtr + 2) := by
  refine ⟨?_, ?_, ?_, ?_, ?_⟩
  · simp only [State.push]; omega
  · simp (disch := omega) only [State.push, if_pos]
  · simp (disch := omega) only [State.push, if_neg, if_true]
  · intro j hj
    simp (disch := omega) only [State.push, if_neg]
  · simp only [State.push, max_def]
    split_ifs <;> omega

theorem push3_spec (s : State) (a b c : Int) :
    (((s.push a).push b).push c).stackPtr = s.stackPtr + 3 ∧
    (((s.push a).push b).push c).traversalStack (s.stackPtr + 3) = c ∧
    (((s.push a).push b).push c).traversalStack (s.stackPtr + 2) = b ∧
    (((s.push a).push b).push c).traversalStack (s.stackPtr + 1) = a ∧
    (∀ j, j ≤ s.stackPtr →
      (((s.push a).push b).push c).traversalStack j = s.traversalStack j) ∧
    (((s.push a).push b).push c).stackMax = max s.stackMax (s.stackPtr + 3) := by
  obtain ⟨h1, h2, h3, h4, h5⟩ := push2_spec s a b
  obtain ⟨g1, g2, g3, g4, _⟩ := push_spec ((s.push a).push b) c
  rw [h1] at g1 g2 g3
  refine ⟨by rw [g1]; omega, ?_, ?_, ?_, ?_, ?_⟩
  · rwa [show s.stackPtr + 2 + 1 = s.stackPtr + 3 by omega] at g2
  · rw [g3 _ (by omega), h2]
  · rw [g3 _ (by omega), h3]
  · intro j hj
    rw [g3 _ (by omega), h4 j hj]
  · rw [g4, h5, h1]
    omega

theorem push4_spec (s : State) (a b c d : Int) :
    ((((s.push a).push b).push c).push d).stackPtr = s.stackPtr + 4 ∧
    ((((s.push a).push b).push c).push d).traversalStack (s.stackPtr + 4) = d ∧
    ((((s.push a).push b).push c).push d).traversalStack (s.stackPtr + 3) = c ∧
    ((((s.push a).push b).push c).push d).traversalStack (s.stackPtr + 2) = b ∧
    ((((s.push a).push b).push c).push d).traversalStack (s.stackPtr + 1) = a ∧
    (∀ j, j ≤ s.stackPtr →
      ((((s.push a).push b).push c).push d).traversalStack j = s.traversalStack j) ∧
    ((((s.push a).push b).push c).push d).stackMax = max s.stackMax (s.stackPtr + 4) := by
  obtain ⟨h1, h2, h3, h4, h5, h6⟩ := push3_spec s a b c
  obtain ⟨g1, g2, g3, g4, _⟩ := push_spec (((s.push a).push b).push c) d
  rw [h1] at g1 g2 g3
  refine ⟨by rw [g1]; omega, ?_, ?_, ?_, ?_, ?_, ?_⟩
  · rwa [show s.stackPtr + 3 + 1 = s.stackPtr + 4 by omega] at g2
  · rw [g3 _ (by omega), h2]
  · rw [g3 _ (by omega), h3]
  · rw [g3 _ (by omega), h4]
  · intro j hj
    rw [g3 _ (by omega), h5 j hj]
  · rw [g4, h6, h1]
    omega

end TN4

end QBVH


namespace QBVH

section TN5

variable (cfg : Config) (K : Collab) (kg : KernelGlobals) (ray : Ray)

theorem traverseNode_spec (s : State) (hm : (nodeTest K kg s).1 < 16) :
    ∃ order : List Nat, order.Perm (hitList (nodeTest K kg s).1) ∧
      NodeStepSpec cfg kg s (traverseNode cfg K kg s) order := by
  have h4 := bscf_four _ hm
  unfold NodeStepSpec traverseNode childWords
  unfold nodeTest at hm h4 ⊢
  generalize K.qbvh_node_intersect kg s.tnear s.tfar s.org s.idir4
    s.near_x s.near_y s.near_z s.far_x s.far_y s.far_z s.nodeAddr = nt at *
  obtain ⟨m, dist⟩ := nt
  generalize kg.bvh_nodes (s.nodeAddr * cfg.BVH_QNODE_SIZE + 6) = cn
  dsimp only at *
  by_cases h0 : m = 0
  · subst h0
    refine ⟨[], by rw [hitList_zero], ?_⟩
    simp [State.pop]
  · obtain ⟨hl0, hb0⟩ := bscf_table m hm h0
    generalize bscf m = b0 at *
    obtain ⟨i0, m0⟩ := b0
    dsimp only at *
    by_cases h1 : m0 = 0
    · subst h1
      refine ⟨[i0], by rw [hl0, hitList_zero], ?_⟩
      simp [h0, Seg]
    · obtain ⟨hl1, hb1⟩ := bscf_table m0 hb0 h1
      generalize bscf m0 = b1 at *
      obtain ⟨i1, m1⟩ := b1
      dsimp only at *
      by_cases h2 : m1 = 0
      · subst h2
        by_cases hd : dist.get i1 < dist.get i0
        · refine ⟨[i1, i0], by rw [hl0, hl1, hitList_zero]; exact List.Perm.swap _ _ _, ?_⟩
          simp [h0, h1, hd, Seg, State.push]
          refine ⟨by omega, fun j hj hj2 => by omega, by omega⟩
        · refine ⟨[i0, i1], by rw [hl0, hl1, hitList_zero], ?_⟩
          simp [h0, h1, hd, Seg, State.push]
          refine ⟨by omega, fun j hj hj2 => by omega, by omega⟩
      · obtain ⟨hl2, hb2⟩ := bscf_table m1 hb1 h2
        generalize bscf m1 = b2 at *
        obtain ⟨i2, m2⟩ := b2
        dsimp only at *
        by_cases h3 : m2 = 0
        · subst h3
          have hnat := sort3_natural (fun z => cn.get z.toNat) i2 i0 i1
            (dist.get i2) (dist.get i1) (dist.get i0)
          have hperm := sort3_perm ⟨i2, i0, i1, dist.get i2, dist.get i1, dist.get i0⟩
          generalize qbvh_stack_sort3 ⟨i2, i0, i1, dist.get i2, dist.get i1, dist.get i0⟩ = R
            at hnat hperm
          simp only [Int.toNat_ofNat] at hnat
          refine ⟨[R.s1.toNat, R.s2.toNat, R.s3.toNat], ?_, ?_⟩
          · rw [hl0, hl1, hl2, hitList_zero]
            refine (perm3_toNat _ _ _ _ _ _ hperm).trans ?_
            rw [← Multiset.coe_eq_coe]
            simp only [← Multiset.cons_coe, ← Multiset.singleton_add]
            ac_rfl
          · simp only [h0, h1, h2, ne_eq, not_false_eq_true, not_true_eq_false, if_true, if_false]
            obtain ⟨p1, p2, p3, p4, p5, p6⟩ :=
              push3_spec s (cn.get i1) (cn.get i0) (cn.get i2)
            generalize ((s.push (cn.get i1)).push (cn.get i0)).push (cn.get i2) = t at *
            obtain ⟨g1, g2, g3, g4, g5, g6⟩ := sortTop3_pop_spec t (dist.get i2) (dist.get i1)
              (dist.get i0) (cn.get i2) (cn.get i0) (cn.get i1)
              (by rw [p1, p2]) (by rw [p1, ← p3]; congr 1; omega)
              (by rw [p1, ← p4]; congr 1; omega)
            rw [hnat] at g1 g3 g4
            dsimp only at g1 g3 g4
            generalize (t.sortTop3 (dist.get i2) (dist.get i1) (dist.get i0)).pop = u at *
            refine ⟨?_, ?_, ?_, ?_, ?_, ?_, ?_⟩
            · rw [g2, p1]; simp only [List.length_cons, List.length_nil]; omega
            · intro j hj
              rw [g5 j (by omega), p5 j hj]
            · rw [g6, p6]; omega
            · rw [g6, p6, p1]; simp only [List.length_cons, List.length_nil]; omega
            · intro hh; simp at hh
            · intro hh; simp at hh
            · intro i rest hh
              simp only [List.cons.injEq] at hh
              obtain ⟨rfl, rfl⟩ := hh
              refine ⟨g1, ?_, ?_, trivial⟩
              · rw [← g3]; congr 1; simp only [List.map, List.length_cons, List.length_nil]; omega
              · rw [← g4]; congr 1; simp only [List.map, List.length_cons, List.length_nil]; omega
        · obtain ⟨hl3, hb3⟩ := bscf_table m2 hb2 h3
          generalize bscf m2 = b3 at *
          obtain ⟨i3, m3⟩ := b3
          dsimp only at *
          subst h4
          have hnat := sort4_natural (fun z => cn.get z.toNat) i2 i3 i0 i1
            (dist.get i3) (dist.get i2) (dist.get i1) (dist.get i0)
          have hperm := sort4_perm
            ⟨i2, i3, i0, i1, dist.get i3, dist.get i2, dist.get i1, dist.get i0⟩
          generalize qbvh_stack_sort4
            ⟨i2, i3, i0, i1, dist.get i3, dist.get i2, dist.get i1, dist.get i0⟩ = R
            at hnat hperm
          simp only [Int.toNat_ofNat] at hnat
          refine ⟨[R.s1.toNat, R.s2.toNat, R.s3.toNat, R.s4.toNat], ?_, ?_⟩
          · rw [hl0, hl1, hl2, hl3, hitList_zero]
            refine (perm4_toNat _ _ _ _ _ _ _ _ hperm).trans ?_
            rw [← Multiset.coe_eq_coe]
            simp only [← Multiset.cons_coe, ← Multiset.singleton_add]
            ac_rfl
          · simp only [h0, h1, h2, h3, ne_eq, not_false_eq_true, not_true_eq_false, if_true,
              if_false]
            obtain ⟨p1, p2, p3, p4, p5, p6, p7⟩ :=
              push4_spec s (cn.get i1) (cn.get i0) (cn.get i3) (cn.get i2)
            generalize (((s.push (cn.get i1)).push (cn.get i0)).push (cn.get i3)).push
              (cn.get i2) = t at *
            obtain ⟨g1, g2, g3, g4, g5, g6, g7⟩ := sortTop4_pop_spec t (dist.get i3)
              (dist.get i2) (dist.get i1) (dist.get i0) (cn.get i2) (cn.get i3) (cn.get i0)
              (cn.get i1)
              (by rw [p1, p2]) (by rw [p1, ← p3]; congr 1; omega)
              (by rw [p1, ← p4]; congr 1; omega) (by rw [p1, ← p5]; congr 1; omega)
            rw [hnat] at g1 g3 g4 g5
            dsimp only at g1 g3 g4 g5
            generalize (t.sortTop4 (dist.get i3) (dist.get i2) (dist.get i1) (dist.get i0)).pop
              = u at *
            refine ⟨?_, ?_, ?_, ?_, ?_, ?_, ?_⟩
            · rw [g2, p1]; simp only [List.length_cons, List.length_nil]; omega
            · intro j hj
              rw [g6 j (by omega), p6 j hj]
            · rw [g7, p7]; omega
            · rw [g7, p7, p1]; simp only [List.length_cons, List.length_nil]; omega
            · intro hh; simp at hh
            · intro hh; simp at hh
            · intro i rest hh
              simp only [List.cons.injEq] at hh
              obtain ⟨rfl, rfl⟩ := hh
              refine ⟨g1, ?_, ?_, ?_, trivial⟩
              · rw [← g3]; congr 1; simp only [List.map, List.length_cons, List.length_nil]; omega
              · rw [← g4]; congr 1; simp only [List.map, List.length_cons, List.length_nil]; omega
              · rw [← g5]; congr 1; simp only [List.map, List.length_cons, List.length_nil]; omega

end TN5

end QBVH


namespace QBVH

section Moves

variable (cfg : Config) (K : Collab) (kg : KernelGlobals) (ray : Ray)

theorem iter_one (s : State) : iter cfg K kg ray 1 s = step cfg K kg ray s := rfl

theorem iter_two (s : State) :
    iter cfg K kg ray 2 s = step cfg K kg ray (step cfg K kg ray s) := rfl

theorem iter_three (s : State) :
    iter cfg K kg ray 3 s =
      step cfg K kg ray (step cfg K kg ray (step cfg K kg ray s)) := rfl

theorem primBody_isect_congr (s s2 : State) (p : Int) (h1 : s.isect = s2.isect)
    (h2 : s.isect_precalc = s2.isect_precalc) (h3 : s.P = s2.P) (h4 : s.dir = s2.dir)
    (h5 : s.object = s2.object) :
    (primBody cfg K kg ray s p).isect = (primBody cfg K kg ray s2 p).isect := by
  unfold primBody
  rw [h1, h2, h3, h4, h5]
  dsimp only
  split_ifs
  · exact h1
  · rfl

theorem primLoop_isect_congr (n : Nat) : ∀ (s s2 : State) (p : Int), s.isect = s2.isect →
    s.isect_precalc = s2.isect_precalc → s.P = s2.P → s.dir = s2.dir → s.object = s2.object →
    (primLoop cfg K kg ray s p n).isect = (primLoop cfg K kg ray s2 p n).isect := by
  induction n with
  | zero => intro s s2 p h1 _ _ _ _; exact h1
  | succ n ih =>
    intro s s2 p h1 h2 h3 h4 h5
    simp only [primLoop]
    obtain ⟨r, hr⟩ := primBody_frame cfg K kg ray s p
    obtain ⟨r2, hr2⟩ := primBody_frame cfg K kg ray s2 p
    apply ih
    · exact primBody_isect_congr cfg K kg ray s s2 p h1 h2 h3 h4 h5
    · rw [hr, hr2]; exact h2
    · rw [hr, hr2]; exact h3
    · rw [hr, hr2]; exact h4
    · rw [hr, hr2]; exact h5

theorem leaf_first (s : State) (hpc : s.pc = PC.inner) (hneg : s.nodeAddr < 0) :
    step cfg K kg ray s = { s with pc := PC.leafTest } :=
  step_inner_exit cfg K kg ray s hpc (fun h => by omega)

theorem moves_leaf (s : State) (hpc : s.pc = PC.inner) (hneg : s.nodeAddr < 0)
    (hp : cfg.BVH_INSTANCING = false ∨ (leafWords cfg kg s.nodeAddr).x ≥ 0) :
    iter cfg K kg ray 2 s =
        { s with pc := PC.midCond, nodeAddr := s.traversalStack s.stackPtr,
                 stackPtr := s.stackPtr - 1,
                 isect := (primLoop cfg K kg ray s (leafWords cfg kg s.nodeAddr).x
                   ((leafWords cfg kg s.nodeAddr).y -
                     (leafWords cfg kg s.nodeAddr).x).toNat).isect } ∧
      iter cfg K kg ray 3 s =
        { s with pc := if s.traversalStack s.stackPtr ≠ cfg.ENTRYPOINT_SENTINEL
                   then PC.inner else PC.outerIf,
                 nodeAddr := s.traversalStack s.stackPtr,
                 stackPtr := s.stackPtr - 1,
                 isect := (primLoop cfg K kg ray s (leafWords cfg kg s.nodeAddr).x
                   ((leafWords cfg kg s.nodeAddr).y -
                     (leafWords cfg kg s.nodeAddr).x).toNat).isect } := by
  have h2 : iter cfg K kg ray 2 s =
        { s with pc := PC.midCond, nodeAddr := s.traversalStack s.stackPtr,
                 stackPtr := s.stackPtr - 1,
                 isect := (primLoop cfg K kg ray s (leafWords cfg kg s.nodeAddr).x
                   ((leafWords cfg kg s.nodeAddr).y -
                     (leafWords cfg kg s.nodeAddr).x).toNat).isect } := by
    rw [iter_two, leaf_first cfg K kg ray s hpc hneg,
      step_leafTest_leaf cfg K kg ray ({ s with pc := PC.leafTest } : State) rfl hneg,
      leafStep_prims cfg K kg ray ({ s with pc := PC.leafTest } : State) hp]
    obtain ⟨r, hr⟩ := primLoop_frame cfg K kg ray
      ((leafWords cfg kg s.nodeAddr).y - (leafWords cfg kg s.nodeAddr).x).toNat
      ({ s with pc := PC.leafTest } : State).pop (leafWords cfg kg s.nodeAddr).x
    have hi := primLoop_isect_congr cfg K kg ray
      ((leafWords cfg kg s.nodeAddr).y - (leafWords cfg kg s.nodeAddr).x).toNat
      ({ s with pc := PC.leafTest } : State).pop s (leafWords cfg kg s.nodeAddr).x
      rfl rfl rfl rfl rfl
    rw [← hi]
    show ({ primLoop cfg K kg ray ({ s with pc := PC.leafTest } : State).pop
      (leafWords cfg kg s.nodeAddr).x _ with pc := PC.midCond } : State) = _
    rw [hr]
    rfl
  refine ⟨h2, ?_⟩
  have h3 : iter cfg K kg ray 3 s = step cfg K kg ray (iter cfg K kg ray 2 s) := rfl
  rw [h3, h2, step_midCond cfg K kg ray _ rfl]

theorem moves_skip (s : State) (hpc : s.pc = PC.inner) (hneg : s.nodeAddr < 0)
    (hi : cfg.BVH_INSTANCING = true) (hx : (leafWords cfg kg s.nodeAddr).x < 0)
    (hf : kg.object_flag (leafObject cfg kg s.nodeAddr) &&& cfg.SD_OBJECT_HAS_VOLUME = 0) :
    iter cfg K kg ray 2 s =
        { s with pc := PC.midCond, nodeAddr := s.traversalStack s.stackPtr,
                 stackPtr := s.stackPtr - 1, object := cfg.OBJECT_NONE } ∧
      iter cfg K kg ray 3 s =
        { s with pc := if s.traversalStack s.stackPtr ≠ cfg.ENTRYPOINT_SENTINEL
                   then PC.inner else PC.outerIf,
                 nodeAddr := s.traversalStack s.stackPtr,
                 stackPtr := s.stackPtr - 1, object := cfg.OBJECT_NONE } := by
  have hp : ¬ (cfg.BVH_INSTANCING = false ∨ (leafWords cfg kg s.nodeAddr).x ≥ 0) := by
    rw [hi]
    simp only [Bool.true_eq_false, false_or, ge_iff_le, not_le]
    exact hx
  have h2 : iter cfg K kg ray 2 s =
        { s with pc := PC.midCond, nodeAddr := s.traversalStack s.stackPtr,
                 stackPtr := s.stackPtr - 1, object := cfg.OBJECT_NONE } := by
    rw [iter_two, leaf_first cfg K kg ray s hpc hneg,
      step_leafTest_leaf cfg K kg ray ({ s with pc := PC.leafTest } : State) rfl hneg,
      leafStep_instance cfg K kg ray ({ s with pc := PC.leafTest } : State) hp,
      instanceLeaf_skip cfg K kg ray ({ s with pc := PC.leafTest } : State) _ hf]
    rfl
  refine ⟨h2, ?_⟩
  have h3 : iter cfg K kg ray 3 s = step cfg K kg ray (iter cfg K kg ray 2 s) := rfl
  rw [h3, h2, step_midCond cfg K kg ray _ rfl]

theorem moves_end (s : State) (hpc : s.pc = PC.inner)
    (hn : s.nodeAddr = cfg.ENTRYPOINT_SENTINEL) (hs : 0 ≤ cfg.ENTRYPOINT_SENTINEL) :
    iter cfg K kg ray 1 s = { s with pc := PC.leafTest } ∧
    iter cfg K kg ray 2 s = { s with pc := PC.midCond } ∧
    iter cfg K kg ray 3 s = { s with pc := PC.outerIf } := by
  have h1 : iter cfg K kg ray 1 s = { s with pc := PC.leafTest } := by
    rw [iter_one]
    exact step_inner_exit cfg K kg ray s hpc (fun h => h.2 hn)
  have h2 : iter cfg K kg ray 2 s = { s with pc := PC.midCond } := by
    have : iter cfg K kg ray 2 s = step cfg K kg ray (iter cfg K kg ray 1 s) := rfl
    rw [this, h1]
    exact step_leafTest_skip cfg K kg ray _ rfl (by show ¬ s.nodeAddr < 0; omega)
  refine ⟨h1, h2, ?_⟩
  have : iter cfg K kg ray 3 s = step cfg K kg ray (iter cfg K kg ray 2 s) := rfl
  rw [this, h2, step_midCond cfg K kg ray _ rfl]
  show ({ s with pc := if s.nodeAddr ≠ cfg.ENTRYPOINT_SENTINEL then PC.inner else PC.outerIf }
    : State) = _
  rw [if_neg (by simp [hn])]

end Moves

end QBVH


namespace QBVH

section W1

variable (cfg : Config) (K : Collab) (kg : KernelGlobals) (ray : Ray)

theorem seg_congr (st st2 : Int → Int) (base : Int) : ∀ xs : List Int,
    Seg st base xs → (∀ j, j ≤ base + xs.length → st2 j = st j) → Seg st2 base xs := by
  intro xs
  induction xs with
  | nil => intro _ _; trivial
  | cons x rest ih =>
    intro h hj
    obtain ⟨h1, h2⟩ := h
    refine ⟨?_, ih h2 (fun j hle => hj j ?_)⟩
    · rw [hj _ (by simp only [List.length_cons]; push_cast; omega)]
      exact h1
    · simp only [List.length_cons]; push_cast; omega

theorem seg_append (st : Int → Int) (base : Int) (ys : List Int) : ∀ xs : List Int,
    Seg st (base + ys.length) xs → Seg st base ys → Seg st base (xs ++ ys) := by
  intro xs
  induction xs with
  | nil => intro _ h; exact h
  | cons x rest ih =>
    intro h hy
    obtain ⟨h1, h2⟩ := h
    refine ⟨?_, ih h2 hy⟩
    rw [← h1]
    congr 1
    have hl : (rest.append ys).length = rest.length + ys.length := List.length_append rest ys
    rw [hl]
    push_cast
    ring

theorem addr_ne_sentinel (t : QTree) (hs : 0 ≤ cfg.ENTRYPOINT_SENTINEL)
    (hl : t.isDead = false) (he : Encodes cfg K kg t) : t.addr ≠ cfg.ENTRYPOINT_SENTINEL := by
  cases t with
  | dead => simp [QTree.isDead] at hl
  | leaf a => have := he.1; simp only [QTree.addr]; omega
  | skip a => have := he.1; simp only [QTree.addr]; omega
  | inst a sub => have := he.1; simp only [QTree.addr]; omega
  | node a c0 c1 c2 c3 => exact he.2.1

/-- After a pop that leaves the stack below the old pointer alone, the machine is ready for
the rest of the forest. -/
theorem pre_pop (t : QTree) (rest : List QTree) (s u : State) (base : Int)
    (hpre : Pre cfg K kg (t :: rest) s base)
    (hst : ∀ j, j ≤ s.stackPtr → u.traversalStack j = s.traversalStack j)
    (hn : u.nodeAddr = s.traversalStack s.stackPtr) (hsp : u.stackPtr = s.stackPtr - 1)
    (hpc : u.nodeAddr ≠ cfg.ENTRYPOINT_SENTINEL → u.pc = PC.inner)
    (hpc2 : u.pc = PC.inner ∨ u.pc = PC.outerIf ∨ u.pc = PC.done) :
    Pre cfg K kg rest u base := by
  obtain ⟨h0, hb, hbase, henc, hpc0, hnode, hsp0, hseg⟩ := hpre
  have hlen : (0 : Int) ≤ rest.length := Int.natCast_nonneg _
  refine ⟨h0, hb, ?_, fun x hx => henc x (List.mem_cons_of_mem _ hx), ?_⟩
  · rw [hst base (by omega)]; exact hbase
  · cases rest with
    | nil =>
      simp only [List.length_nil, Nat.cast_zero, add_zero] at hsp0
      refine ⟨?_, by omega, hpc2⟩
      rw [hn, hsp0]; exact hbase
    | cons t2 rest2 =>
      simp only [List.map, Seg, List.length_map] at hseg
      simp only [List.length_cons] at hsp0
      push_cast at hsp0
      have hne : t2.addr ≠ cfg.ENTRYPOINT_SENTINEL :=
        addr_ne_sentinel cfg K kg t2 h0
          (henc t2 (List.mem_cons_of_mem _ (List.mem_cons_self _ _))).1
          (henc t2 (List.mem_cons_of_mem _ (List.mem_cons_self _ _))).2
      have hnode2 : u.nodeAddr = t2.addr := by
        rw [hn, hsp0, ← hseg.1]; congr 1; ring
      refine ⟨hpc (by rw [hnode2]; exact hne), hnode2, by omega, ?_⟩
      refine seg_congr _ _ _ _ hseg.2 (fun j hj => hst j ?_)
      simp only [List.length_map] at hj
      omega

end W1

end QBVH


namespace QBVH

section W2

variable (cfg : Config) (K : Collab) (kg : KernelGlobals) (ray : Ray)

theorem instanceLeaf_enter (s : State) (x : Int)
    (hf : kg.object_flag (kg.prim_object (-x - 1)) &&& cfg.SD_OBJECT_HAS_VOLUME ≠ 0) :
    (instanceLeaf cfg K kg ray s x).pc = s.pc ∧
    (instanceLeaf cfg K kg ray s x).nodeAddr = kg.object_node (kg.prim_object (-x - 1)) ∧
    (instanceLeaf cfg K kg ray s x).stackPtr = s.stackPtr + 1 ∧
    (instanceLeaf cfg K kg ray s x).traversalStack (s.stackPtr + 1) =
      cfg.ENTRYPOINT_SENTINEL ∧
    (∀ j, j ≠ s.stackPtr + 1 →
      (instanceLeaf cfg K kg ray s x).traversalStack j = s.traversalStack j) ∧
    (instanceLeaf cfg K kg ray s x).stackMax = max s.stackMax (s.stackPtr + 1) ∧
    (instanceLeaf cfg K kg ray s x).object = kg.prim_object (-x - 1) ∧
    (instanceLeaf cfg K kg ray s x).isect.prim = s.isect.prim := by
  unfold instanceLeaf
  simp only [hf, ne_eq, not_false_eq_true, if_true]
  cases cfg.BVH_MOTION <;>
    simp (disch := omega) [State.push, State.reload, State.setNearFar] <;>
    (intro j h1 h2; exact absurd h2 h1)

theorem instancePop_spec (s : State) :
    (instancePop cfg K kg ray s).pc = s.pc ∧
    (instancePop cfg K kg ray s).nodeAddr = s.traversalStack s.stackPtr ∧
    (instancePop cfg K kg ray s).stackPtr = s.stackPtr - 1 ∧
    (instancePop cfg K kg ray s).traversalStack = s.traversalStack ∧
    (instancePop cfg K kg ray s).stackMax = s.stackMax ∧
    (instancePop cfg K kg ray s).object = cfg.OBJECT_NONE ∧
    (instancePop cfg K kg ray s).isect.prim = s.isect.prim := by
  unfold instancePop
  cases cfg.BVH_MOTION <;>
    simp [State.pop, State.reload, State.setNearFar]

theorem moves_enter (s : State) (hpc : s.pc = PC.inner) (hneg : s.nodeAddr < 0)
    (hi : cfg.BVH_INSTANCING = true) (hx : (leafWords cfg kg s.nodeAddr).x < 0)
    (hroot : kg.object_node (leafObject cfg kg s.nodeAddr) ≠ cfg.ENTRYPOINT_SENTINEL)
    (hf : kg.object_flag (leafObject cfg kg s.nodeAddr) &&& cfg.SD_OBJECT_HAS_VOLUME ≠ 0) :
    iter cfg K kg ray 1 s = { s with pc := PC.leafTest } ∧
    iter cfg K kg ray 2 s =
      { instanceLeaf cfg K kg ray ({ s with pc := PC.leafTest } : State)
          (leafWords cfg kg s.nodeAddr).x with pc := PC.midCond } ∧
    iter cfg K kg ray 3 s =
      { instanceLeaf cfg K kg ray ({ s with pc := PC.leafTest } : State)
          (leafWords cfg kg s.nodeAddr).x with pc := PC.inner } := by
  have hp : ¬ (cfg.BVH_INSTANCING = false ∨ (leafWords cfg kg s.nodeAddr).x ≥ 0) := by
    rw [hi]
    simp only [Bool.true_eq_false, false_or, ge_iff_le, not_le]
    exact hx
  have h1 : iter cfg K kg ray 1 s = { s with pc := PC.leafTest } :=
    leaf_first cfg K kg ray s hpc hneg
  have h2 : iter cfg K kg ray 2 s =
      { instanceLeaf cfg K kg ray ({ s with pc := PC.leafTest } : State)
          (leafWords cfg kg s.nodeAddr).x with pc := PC.midCond } := by
    rw [iter_two, leaf_first cfg K kg ray s hpc hneg,
      step_leafTest_leaf cfg K kg ray ({ s with pc := PC.leafTest } : State) rfl hneg,
      leafStep_instance cfg K kg ray ({ s with pc := PC.leafTest } : State) hp]
  refine ⟨h1, h2, ?_⟩
  have h3 : iter cfg K kg ray 3 s = step cfg K kg ray (iter cfg K kg ray 2 s) := rfl
  rw [h3, h2, step_midCond cfg K kg ray _ rfl]
  have hn := (instanceLeaf_enter cfg K kg ray ({ s with pc := PC.leafTest } : State)
    (leafWords cfg kg s.nodeAddr).x hf).2.1
  show ({ instanceLeaf cfg K kg ray ({ s with pc := PC.leafTest } : State)
      (leafWords cfg kg s.nodeAddr).x with
    pc := if (instanceLeaf cfg K kg ray ({ s with pc := PC.leafTest } : State)
      (leafWords cfg kg s.nodeAddr).x).nodeAddr ≠ cfg.ENTRYPOINT_SENTINEL
      then PC.inner else PC.outerIf } : State) = _
  have hroot2 : kg.object_node (kg.prim_object (-(leafWords cfg kg s.nodeAddr).x - 1)) ≠
      cfg.ENTRYPOINT_SENTINEL := hroot
  rw [hn, if_pos hroot2]

theorem moves_exit (s : State) (hpc : s.pc = PC.outerIf)
    (hi : cfg.BVH_INSTANCING = true) (hsp : 0 ≤ s.stackPtr) :
    iter cfg K kg ray 1 s = { instancePop cfg K kg ray s with pc := PC.outerCond } ∧
    iter cfg K kg ray 2 s =
      { instancePop cfg K kg ray s with
        pc := if s.traversalStack s.stackPtr ≠ cfg.ENTRYPOINT_SENTINEL
          then PC.inner else PC.done } := by
  have h1 : iter cfg K kg ray 1 s = { instancePop cfg K kg ray s with pc := PC.outerCond } :=
    step_outerIf_pop cfg K kg ray s hpc ⟨hi, hsp⟩
  refine ⟨h1, ?_⟩
  have h2 : iter cfg K kg ray 2 s = step cfg K kg ray (iter cfg K kg ray 1 s) := rfl
  rw [h2, h1, step_outerCond cfg K kg ray _ rfl]
  have hn := (instancePop_spec cfg K kg ray s).2.1
  show ({ instancePop cfg K kg ray s with
    pc := if (instancePop cfg K kg ray s).nodeAddr ≠ cfg.ENTRYPOINT_SENTINEL
      then PC.inner else PC.done } : State) = _
  rw [hn]

end W2

end QBVH


namespace QBVH

section W3

variable (cfg : Config) (K : Collab) (kg : KernelGlobals) (ray : Ray)

theorem walk_pre {ts : List QTree} {s : State} {base : Int} {n : Nat}
    (h : Walk cfg K kg ray ts s base n) : Pre cfg K kg ts s base := by
  cases h with
  | nil _ _ hp => exact hp
  | leaf _ _ _ _ _ hp _ => exact hp
  | skip _ _ _ _ _ hp _ => exact hp
  | inst _ _ _ _ _ _ _ hp _ _ => exact hp
  | nodeHit _ _ _ _ _ _ _ _ _ _ hp _ _ _ => exact hp
  | nodeMiss _ _ _ _ _ _ _ _ _ hp _ _ => exact hp

theorem pre_after_leaf (a : Int) (rest : List QTree) (s : State) (base : Int)
    (hpre : Pre cfg K kg (QTree.leaf a :: rest) s base) :
    Pre cfg K kg rest (iter cfg K kg ray 3 s) base := by
  have hpre2 := hpre
  obtain ⟨h0, hb, hbase, henc, hpc0, hnode, hsp0, hseg⟩ := hpre2
  have he := (henc _ (List.mem_cons_self _ _)).2
  simp only [QTree.addr] at hnode
  obtain ⟨hneg, hp⟩ := he
  rw [← hnode] at hneg hp
  obtain ⟨_, h3⟩ := moves_leaf cfg K kg ray s hpc0 hneg hp
  rw [h3]
  refine pre_pop cfg K kg _ rest s _ base hpre (fun j _ => rfl) rfl rfl ?_ ?_
  · intro hne
    show (if s.traversalStack s.stackPtr ≠ cfg.ENTRYPOINT_SENTINEL then PC.inner else PC.outerIf)
      = PC.inner
    rw [if_pos hne]
  · show (if s.traversalStack s.stackPtr ≠ cfg.ENTRYPOINT_SENTINEL then PC.inner
      else PC.outerIf) = PC.inner ∨ _
    split_ifs
    · exact Or.inl rfl
    · exact Or.inr (Or.inl rfl)

theorem pre_after_skip (a : Int) (rest : List QTree) (s : State) (base : Int)
    (hpre : Pre cfg K kg (QTree.skip a :: rest) s base) :
    Pre cfg K kg rest (iter cfg K kg ray 3 s) base := by
  have hpre2 := hpre
  obtain ⟨h0, hb, hbase, henc, hpc0, hnode, hsp0, hseg⟩ := hpre2
  have he := (henc _ (List.mem_cons_self _ _)).2
  simp only [QTree.addr] at hnode
  obtain ⟨hneg, hi, hx, hf⟩ := he
  rw [← hnode] at hneg hx hf
  obtain ⟨_, h3⟩ := moves_skip cfg K kg ray s hpc0 hneg hi hx hf
  rw [h3]
  refine pre_pop cfg K kg _ rest s _ base hpre (fun j _ => rfl) rfl rfl ?_ ?_
  · intro hne
    show (if s.traversalStack s.stackPtr ≠ cfg.ENTRYPOINT_SENTINEL then PC.inner else PC.outerIf)
      = PC.inner
    rw [if_pos hne]
  · show (if s.traversalStack s.stackPtr ≠ cfg.ENTRYPOINT_SENTINEL then PC.inner
      else PC.outerIf) = PC.inner ∨ _
    split_ifs
    · exact Or.inl rfl
    · exact Or.inr (Or.inl rfl)

/-- The state that enters the instance `inst a sub`, three moves after `s`. -/
theorem enter_state (a : Int) (sub : QTree) (rest : List QTree) (s : State) (base : Int)
    (hpre : Pre cfg K kg (QTree.inst a sub :: rest) s base) :
    (iter cfg K kg ray 3 s).pc = PC.inner ∧
    (iter cfg K kg ray 3 s).nodeAddr = sub.addr ∧
    (iter cfg K kg ray 3 s).stackPtr = s.stackPtr + 1 ∧
    (iter cfg K kg ray 3 s).traversalStack (s.stackPtr + 1) = cfg.ENTRYPOINT_SENTINEL ∧
    (∀ j, j ≠ s.stackPtr + 1 →
      (iter cfg K kg ray 3 s).traversalStack j = s.traversalStack j) ∧
    (iter cfg K kg ray 3 s).stackMax = max s.stackMax (s.stackPtr + 1) ∧
    (iter cfg K kg ray 3 s).object = leafObject cfg kg a ∧
    (iter cfg K kg ray 3 s).isect.prim = s.isect.prim := by
  obtain ⟨h0, hb, hbase, henc, hpc0, hnode, hsp0, hseg⟩ := hpre
  have he := (henc _ (List.mem_cons_self _ _)).2
  simp only [QTree.addr] at hnode
  obtain ⟨hneg, hi, hx, hf, hroot, hlive, hni, hsub⟩ := he
  have hne : sub.addr ≠ cfg.ENTRYPOINT_SENTINEL := addr_ne_sentinel cfg K kg sub h0 hlive hsub
  rw [← hnode] at hneg hx hf hroot
  obtain ⟨_, _, h3⟩ := moves_enter cfg K kg ray s hpc0 hneg hi hx (by rw [hroot]; exact hne) hf
  obtain ⟨g1, g2, g3, g4, g5, g6, g7, g8⟩ := instanceLeaf_enter cfg K kg ray
    ({ s with pc := PC.leafTest } : State) (leafWords cfg kg s.nodeAddr).x hf
  rw [h3]
  rw [← hnode]
  exact ⟨rfl, g2.trans hroot, g3, g4, g5, g6, g7, g8⟩

theorem pre_enter (a : Int) (sub : QTree) (rest : List QTree) (s : State) (base : Int)
    (hpre : Pre cfg K kg (QTree.inst a sub :: rest) s base) :
    Pre cfg K kg [sub] (iter cfg K kg ray 3 s) (s.stackPtr + 1) := by
  obtain ⟨g1, g2, g3, g4, g5, g6, g7, _⟩ := enter_state cfg K kg ray a sub rest s base hpre
  obtain ⟨h0, hb, hbase, henc, hpc0, hnode, hsp0, hseg⟩ := hpre
  have he := (henc _ (List.mem_cons_self _ _)).2
  obtain ⟨hneg, hi, hx, hf, hroot, hlive, hni, hsub⟩ := he
  have hlen : (0 : Int) ≤ rest.length := Int.natCast_nonneg _
  refine ⟨h0, by omega, g4, ?_, g1, g2, ?_, trivial⟩
  · intro t ht
    simp only [List.mem_singleton] at ht
    subst ht
    exact ⟨hlive, hsub⟩
  · simp only [List.length_nil, Nat.cast_zero, add_zero]
    exact g3

end W3

end QBVH


namespace QBVH

section W4

variable (cfg : Config) (K : Collab) (kg : KernelGlobals) (ray : Ray)

theorem mem_hitList (m i : Nat) (h : i ∈ hitList m) : i < 4 ∧ m.testBit i = true := by
  unfold hitList at h
  rw [List.mem_filter, List.mem_range] at h
  exact h

theorem hitList_ne_nil (m : Nat) (hm : m < 16) (h0 : m ≠ 0) : hitList m ≠ [] := by
  rw [(bscf_table m hm h0).1]
  exact List.cons_ne_nil _ _

theorem hitList_eq_nil (m : Nat) (h0 : m = 0) : hitList m = [] := by
  rw [h0]; exact hitList_zero

theorem child_slot (a : Int) (c0 c1 c2 c3 : QTree)
    (he : Encodes cfg K kg (QTree.node a c0 c1 c2 c3)) (i : Nat) (hi : i < 4) :
    SlotOK cfg K kg a i ((QTree.node a c0 c1 c2 c3).child i) ∧
      Encodes cfg K kg ((QTree.node a c0 c1 c2 c3).child i) := by
  obtain ⟨_, _, _, s0, s1, s2, s3, e0, e1, e2, e3⟩ := he
  interval_cases i
  · exact ⟨s0, e0⟩
  · exact ⟨s1, e1⟩
  · exact ⟨s2, e2⟩
  · exact ⟨s3, e3⟩

theorem nodeTest_lt (s : State) (a : Int) (hn : s.nodeAddr = a) (hm : MaskOK K kg a) :
    (nodeTest K kg s).1 < 16 := by
  unfold nodeTest
  rw [hn]
  exact hm _ _ _ _ _ _ _ _ _ _

/-- A child slot the node test reports holds a live, encoded tree at the address read from
the child words. -/
theorem hit_child (a : Int) (c0 c1 c2 c3 : QTree) (s : State) (hn : s.nodeAddr = a)
    (he : Encodes cfg K kg (QTree.node a c0 c1 c2 c3)) (i : Nat)
    (hi : i ∈ hitList (nodeTest K kg s).1) :
    ((QTree.node a c0 c1 c2 c3).child i).isDead = false ∧
      Encodes cfg K kg ((QTree.node a c0 c1 c2 c3).child i) ∧
      (childWords cfg kg a).get i = ((QTree.node a c0 c1 c2 c3).child i).addr := by
  obtain ⟨hlt, hbit⟩ := mem_hitList _ _ hi
  obtain ⟨hslot, henc⟩ := child_slot cfg K kg a c0 c1 c2 c3 he i hlt
  unfold SlotOK at hslot
  cases hd : ((QTree.node a c0 c1 c2 c3).child i).isDead with
  | true =>
    rw [hd] at hslot
    simp only [if_true] at hslot
    have := hslot s.tnear s.tfar s.org s.idir4 s.near_x s.near_y s.near_z s.far_x s.far_y
      s.far_z
    unfold nodeTest at hbit
    rw [hn] at hbit
    rw [this] at hbit
    exact absurd hbit (by simp)
  | false =>
    rw [hd] at hslot
    simp only [Bool.false_eq_true, if_false] at hslot
    exact ⟨rfl, henc, hslot⟩

theorem node_step (a : Int) (c0 c1 c2 c3 : QTree) (rest : List QTree) (s : State) (base : Int)
    (hpre : Pre cfg K kg (QTree.node a c0 c1 c2 c3 :: rest) s base) :
    step cfg K kg ray s = traverseNode cfg K kg s ∧ (traverseNode cfg K kg s).pc = PC.inner ∧
      (nodeTest K kg s).1 < 16 := by
  obtain ⟨h0, hb, hbase, henc, hpc0, hnode, hsp0, hseg⟩ := hpre
  have he := (henc _ (List.mem_cons_self _ _)).2
  simp only [QTree.addr] at hnode
  have hstep := step_inner_node cfg K kg ray s hpc0 (by rw [hnode]; exact ⟨he.1, he.2.1⟩)
  obtain ⟨st, sp, nd, mx, hfr⟩ := traverseNode_frame cfg K kg s
  refine ⟨hstep, by rw [hfr]; exact hpc0, nodeTest_lt K kg s a hnode he.2.2.1⟩

theorem pre_after_miss (a : Int) (c0 c1 c2 c3 : QTree) (rest : List QTree) (s : State)
    (base : Int) (hpre : Pre cfg K kg (QTree.node a c0 c1 c2 c3 :: rest) s base)
    (hm : (nodeTest K kg s).1 = 0) :
    Pre cfg K kg rest (step cfg K kg ray s) base := by
  obtain ⟨hstep, hpc, _⟩ := node_step cfg K kg ray a c0 c1 c2 c3 rest s base hpre
  rw [hstep]
  rw [traverseNode_miss cfg K kg s hm] at hpc ⊢
  exact pre_pop cfg K kg _ rest s _ base hpre (fun j _ => rfl) rfl rfl (fun _ => hpc)
    (Or.inl hpc)

theorem seg_map_congr (st : Int → Int) (base : Int) (f g : Nat → Int) : ∀ xs : List Nat,
    (∀ i ∈ xs, f i = g i) → Seg st base (xs.map f) → Seg st base (xs.map g) := by
  intro xs
  induction xs with
  | nil => intro _ h; exact h
  | cons x rest ih =>
    intro hfg h
    simp only [List.map, Seg, List.length_map] at h ⊢
    refine ⟨?_, ih (fun i hi => hfg i (List.mem_cons_of_mem _ hi)) h.2⟩
    rw [← hfg x (List.mem_cons_self _ _)]
    exact h.1

theorem pre_after_hit (a : Int) (c0 c1 c2 c3 : QTree) (rest : List QTree) (s : State)
    (base : Int) (hpre : Pre cfg K kg (QTree.node a c0 c1 c2 c3 :: rest) s base)
    (order : List Nat) (hne : order ≠ [])
    (hperm : order.Perm (hitList (nodeTest K kg s).1))
    (hspec : NodeStepSpec cfg kg s (traverseNode cfg K kg s) order) :
    Pre cfg K kg (order.map (QTree.node a c0 c1 c2 c3).child ++ rest)
      (step cfg K kg ray s) base := by
  obtain ⟨hstep, hpc, _⟩ := node_step cfg K kg ray a c0 c1 c2 c3 rest s base hpre
  obtain ⟨h0, hb, hbase, henc, hpc0, hnode, hsp0, hseg⟩ := hpre
  have he := (henc _ (List.mem_cons_self _ _)).2
  simp only [QTree.addr] at hnode
  obtain ⟨q1, q2, q3, q4, q5, q6, q7⟩ := hspec
  have hlen : (0 : Int) ≤ rest.length := Int.natCast_nonneg _
  have hchild : ∀ i ∈ order, ((QTree.node a c0 c1 c2 c3).child i).isDead = false ∧
      Encodes cfg K kg ((QTree.node a c0 c1 c2 c3).child i) ∧
      (childWords cfg kg a).get i = ((QTree.node a c0 c1 c2 c3).child i).addr :=
    fun i hi => hit_child cfg K kg a c0 c1 c2 c3 s hnode he i (hperm.subset hi)
  rw [hstep]
  cases order with
  | nil => exact absurd rfl hne
  | cons i os =>
    obtain ⟨r1, r2⟩ := q7 i os rfl
    rw [hnode] at r1 r2
    refine ⟨h0, hb, ?_, ?_, hpc, ?_, ?_, ?_⟩
    · rw [q2 base (by omega)]; exact hbase
    · intro t ht
      simp only [List.map_cons, List.cons_append, List.mem_cons, List.mem_append,
        List.mem_map] at ht
      rcases ht with rfl | ⟨j, hj, rfl⟩ | ht
      · exact ⟨(hchild i (List.mem_cons_self _ _)).1, (hchild i (List.mem_cons_self _ _)).2.1⟩
      · exact ⟨(hchild j (List.mem_cons_of_mem _ hj)).1,
          (hchild j (List.mem_cons_of_mem _ hj)).2.1⟩
      · exact henc t (List.mem_cons_of_mem _ ht)
    · show (traverseNode cfg K kg s).nodeAddr = ((QTree.node a c0 c1 c2 c3).child i).addr
      rw [r1]; exact (hchild i (List.mem_cons_self _ _)).2.2
    · rw [q1, hsp0]
      simp only [List.append_eq, List.length_cons, List.length_append, List.length_map]
      push_cast
      omega
    · show Seg _ base ((os.map (QTree.node a c0 c1 c2 c3).child ++ rest).map QTree.addr)
      rw [List.map_append, List.map_map]
      refine seg_append _ _ _ _ ?_ ?_
      · simp only [List.length_map]
        rw [← hsp0]
        refine seg_map_congr _ _ _ _ os (fun j hj => ?_) r2
        exact (hchild j (List.mem_cons_of_mem _ hj)).2.2
      · refine seg_congr _ _ _ _ hseg (fun j hj => q2 j ?_)
        simp only [List.length_map] at hj
        omega

end W4

end QBVH


namespace QBVH

section W5

variable (cfg : Config) (K : Collab) (kg : KernelGlobals) (ray : Ray)

theorem calm_child (none obj a : Int) (c0 c1 c2 c3 : QTree)
    (h : (QTree.node a c0 c1 c2 c3).Calm none obj) (i : Nat) :
    ((QTree.node a c0 c1 c2 c3).child i).Calm none obj := by
  obtain ⟨h0, h1, h2, h3⟩ := h
  simp only [QTree.child]
  split <;> assumption

theorem calm_forest (none obj a : Int) (c0 c1 c2 c3 : QTree) (rest : List QTree)
    (order : List Nat)
    (h : ∀ t ∈ QTree.node a c0 c1 c2 c3 :: rest, t.Calm none obj) :
    ∀ t ∈ order.map (QTree.node a c0 c1 c2 c3).child ++ rest, t.Calm none obj := by
  intro t ht
  rw [List.mem_append, List.mem_map] at ht
  rcases ht with ⟨j, _, rfl⟩ | ht
  · exact calm_child none obj a c0 c1 c2 c3 (h _ (List.mem_cons_self _ _)) j
  · exact h t (List.mem_cons_of_mem _ ht)

theorem noInst_calm (none obj : Int) : ∀ t : QTree, t.NoInst → t.Calm none obj := by
  intro t
  induction t with
  | dead => intro _; trivial
  | leaf a => intro _; trivial
  | skip a => intro h; exact h.elim
  | inst a sub _ => intro h; exact h.elim
  | node a c0 c1 c2 c3 i0 i1 i2 i3 =>
    intro h
    exact ⟨i0 h.1, i1 h.2.1, i2 h.2.2.1, i3 h.2.2.2⟩

theorem leaf_pc (a : Int) (rest : List QTree) (s : State) (base : Int)
    (hpre : Pre cfg K kg (QTree.leaf a :: rest) s base) :
    (iter cfg K kg ray 3 s).pc ≠ PC.done ∧
    (iter cfg K kg ray 3 s).traversalStack = s.traversalStack ∧
    (iter cfg K kg ray 3 s).stackMax = s.stackMax ∧
    (iter cfg K kg ray 3 s).stackPtr = s.stackPtr - 1 := by
  obtain ⟨h0, hb, hbase, henc, hpc0, hnode, hsp0, hseg⟩ := hpre
  have he := (henc _ (List.mem_cons_self _ _)).2
  simp only [QTree.addr] at hnode
  obtain ⟨hneg, hp⟩ := he
  rw [← hnode] at hneg hp
  obtain ⟨_, h3⟩ := moves_leaf cfg K kg ray s hpc0 hneg hp
  rw [h3]
  refine ⟨?_, rfl, rfl, rfl⟩
  show (if s.traversalStack s.stackPtr ≠ cfg.ENTRYPOINT_SENTINEL then PC.inner
    else PC.outerIf) ≠ PC.done
  split_ifs <;> simp

theorem skip_pc (a : Int) (rest : List QTree) (s : State) (base : Int)
    (hpre : Pre cfg K kg (QTree.skip a :: rest) s base) :
    (iter cfg K kg ray 3 s).pc ≠ PC.done ∧
    (iter cfg K kg ray 3 s).traversalStack = s.traversalStack ∧
    (iter cfg K kg ray 3 s).stackMax = s.stackMax ∧
    (iter cfg K kg ray 3 s).stackPtr = s.stackPtr - 1 := by
  obtain ⟨h0, hb, hbase, henc, hpc0, hnode, hsp0, hseg⟩ := hpre
  have he := (henc _ (List.mem_cons_self _ _)).2
  simp only [QTree.addr] at hnode
  obtain ⟨hneg, hi, hx, hf⟩ := he
  rw [← hnode] at hneg hx hf
  obtain ⟨_, h3⟩ := moves_skip cfg K kg ray s hpc0 hneg hi hx hf
  rw [h3]
  refine ⟨?_, rfl, rfl, rfl⟩
  show (if s.traversalStack s.stackPtr ≠ cfg.ENTRYPOINT_SENTINEL then PC.inner
    else PC.outerIf) ≠ PC.done
  split_ifs <;> simp

/-- A walk that enters no instance ends at the test of line 289. -/
theorem walk_pc {ts : List QTree} {s : State} {base : Int} {n : Nat}
    (h : Walk cfg K kg ray ts s base n) (obj : Int)
    (hc : ∀ t ∈ ts, t.Calm cfg.OBJECT_NONE obj) (hs : s.pc ≠ PC.done) :
    (iter cfg K kg ray n s).pc = PC.outerIf := by
  induction h with
  | nil s base hpre =>
    obtain ⟨h0, _, _, _, hn, _, hpc⟩ := hpre
    split_ifs with hi
    · rw [(moves_end cfg K kg ray s hi hn h0).2.2]
    · rcases hpc with h | h | h
      · exact absurd h hi
      · exact h
      · exact absurd h hs
  | leaf a rest s base n hpre _ ih =>
    rw [iter_add]
    exact ih (fun t ht => hc t (List.mem_cons_of_mem _ ht))
      (leaf_pc cfg K kg ray a rest s base hpre).1
  | skip a rest s base n hpre _ ih =>
    rw [iter_add]
    exact ih (fun t ht => hc t (List.mem_cons_of_mem _ ht))
      (skip_pc cfg K kg ray a rest s base hpre).1
  | inst a sub rest s base n1 n2 hpre _ _ _ _ =>
    exact (hc _ (List.mem_cons_self _ _)).elim
  | nodeHit a c0 c1 c2 c3 rest s base n order hpre _ _ _ ih =>
    rw [iter_add, iter_one]
    obtain ⟨hstep, hpc, _⟩ := node_step cfg K kg ray a c0 c1 c2 c3 rest s base hpre
    refine ih (calm_forest _ _ a c0 c1 c2 c3 rest order hc) ?_
    rw [hstep, hpc]; simp
  | nodeMiss a c0 c1 c2 c3 rest s base n hpre _ _ ih =>
    rw [iter_add, iter_one]
    obtain ⟨hstep, hpc, _⟩ := node_step cfg K kg ray a c0 c1 c2 c3 rest s base hpre
    refine ih (fun t ht => hc t (List.mem_cons_of_mem _ ht)) ?_
    rw [hstep, hpc]; simp

/-- The state after the instance `inst a sub` has been walked and left. -/
theorem exit_state (a : Int) (sub : QTree) (rest : List QTree) (s : State) (base : Int)
    (n1 : Nat) (hpre : Pre cfg K kg (QTree.inst a sub :: rest) s base)
    (hE : Ended cfg (iter cfg K kg ray 3 s) (iter cfg K kg ray n1 (iter cfg K kg ray 3 s))
      (s.stackPtr + 1))
    (hpcE : (iter cfg K kg ray n1 (iter cfg K kg ray 3 s)).pc = PC.outerIf) :
    iter cfg K kg ray (3 + n1 + 1) s =
      { instancePop cfg K kg ray (iter cfg K kg ray n1 (iter cfg K kg ray 3 s)) with
        pc := PC.outerCond } ∧
    iter cfg K kg ray (3 + n1 + 2) s =
      { instancePop cfg K kg ray (iter cfg K kg ray n1 (iter cfg K kg ray 3 s)) with
        pc := if s.traversalStack s.stackPtr ≠ cfg.ENTRYPOINT_SENTINEL
          then PC.inner else PC.done } := by
  obtain ⟨g1, g2, g3, g4, g5, g6, g7, _⟩ := enter_state cfg K kg ray a sub rest s base hpre
  obtain ⟨h0, hb, hbase, henc, hpc0, hnode, hsp0, hseg⟩ := hpre
  have he := (henc _ (List.mem_cons_self _ _)).2
  obtain ⟨hneg, hi, hx, hf, hroot, hlive, hni, hsub⟩ := he
  obtain ⟨e1, e2, e3, e4⟩ := hE
  have hlen : (0 : Int) ≤ rest.length := Int.natCast_nonneg _
  have hsp4 : (iter cfg K kg ray n1 (iter cfg K kg ray 3 s)).stackPtr = s.stackPtr := by
    rw [e2]; omega
  obtain ⟨m1, m2⟩ := moves_exit cfg K kg ray _ hpcE hi (by rw [hsp4]; omega)
  rw [iter_add, iter_add, m1, iter_add, iter_add, m2, hsp4, e4 _ (by omega),
    g5 _ (by omega)]
  exact ⟨rfl, rfl⟩

theorem pre_after_inst (a : Int) (sub : QTree) (rest : List QTree) (s : State) (base : Int)
    (n1 : Nat) (hpre : Pre cfg K kg (QTree.inst a sub :: rest) s base)
    (hE : Ended cfg (iter cfg K kg ray 3 s) (iter cfg K kg ray n1 (iter cfg K kg ray 3 s))
      (s.stackPtr + 1))
    (hpcE : (iter cfg K kg ray n1 (iter cfg K kg ray 3 s)).pc = PC.outerIf) :
    Pre cfg K kg rest (iter cfg K kg ray (3 + n1 + 2) s) base := by
  obtain ⟨_, hx2⟩ := exit_state cfg K kg ray a sub rest s base n1 hpre hE hpcE
  obtain ⟨g1, g2, g3, g4, g5, g6, g7, _⟩ := enter_state cfg K kg ray a sub rest s base hpre
  obtain ⟨e1, e2, e3, e4⟩ := hE
  obtain ⟨p1, p2, p3, p4, p5, p6, _⟩ := instancePop_spec cfg K kg ray
    (iter cfg K kg ray n1 (iter cfg K kg ray 3 s))
  have hsp4 : (iter cfg K kg ray n1 (iter cfg K kg ray 3 s)).stackPtr = s.stackPtr := by
    rw [e2]; omega
  have hn : (instancePop cfg K kg ray (iter cfg K kg ray n1 (iter cfg K kg ray 3 s))).nodeAddr
      = s.traversalStack s.stackPtr := by
    rw [p2, hsp4, e4 _ (by omega), g5 _ (by omega)]
  have hsp5 : (instancePop cfg K kg ray
      (iter cfg K kg ray n1 (iter cfg K kg ray 3 s))).stackPtr = s.stackPtr - 1 := by
    rw [p3, hsp4]
  rw [hx2]
  refine pre_pop cfg K kg _ rest s _ base hpre ?_ hn hsp5 ?_ ?_
  · intro j hj
    show (instancePop _ _ _ _ _).traversalStack j = _
    rw [p4, e4 _ (by omega), g5 _ (by omega)]
  · intro hne
    show (if s.traversalStack s.stackPtr ≠ cfg.ENTRYPOINT_SENTINEL then PC.inner
      else PC.done) = PC.inner
    have hne2 : s.traversalStack s.stackPtr ≠ cfg.ENTRYPOINT_SENTINEL := by
      rw [← hn]; exact hne
    rw [if_pos hne2]
  · show (if s.traversalStack s.stackPtr ≠ cfg.ENTRYPOINT_SENTINEL then PC.inner
      else PC.done) = PC.inner ∨ _
    split_ifs
    · exact Or.inl rfl
    · exact Or.inr (Or.inr rfl)

end W5

end QBVH


namespace QBVH

section W6

variable (cfg : Config) (K : Collab) (kg : KernelGlobals) (ray : Ray)

theorem node_frame (a : Int) (c0 c1 c2 c3 : QTree) (rest : List QTree) (s : State) (base : Int)
    (hpre : Pre cfg K kg (QTree.node a c0 c1 c2 c3 :: rest) s base) :
    ∀ j, j ≤ s.stackPtr → (step cfg K kg ray s).traversalStack j = s.traversalStack j := by
  obtain ⟨hstep, hpc, hlt⟩ := node_step cfg K kg ray a c0 c1 c2 c3 rest s base hpre
  obtain ⟨order, _, hspec⟩ := traverseNode_spec cfg K kg s hlt
  rw [hstep]
  exact hspec.2.1

theorem pre_sp_ge {t : QTree} {rest : List QTree} {s : State} {base : Int}
    (hpre : Pre cfg K kg (t :: rest) s base) : base ≤ s.stackPtr ∧ 0 ≤ s.stackPtr := by
  obtain ⟨h0, hb, hbase, henc, hpc0, hnode, hsp0, hseg⟩ := hpre
  have hlen : (0 : Int) ≤ rest.length := Int.natCast_nonneg _
  constructor <;> omega

theorem inst_sub_calm (a : Int) (sub : QTree) (rest : List QTree) (s : State) (base : Int)
    (hpre : Pre cfg K kg (QTree.inst a sub :: rest) s base) (obj : Int) :
    ∀ t ∈ [sub], t.Calm cfg.OBJECT_NONE obj := by
  obtain ⟨h0, hb, hbase, henc, hpc0, hnode, hsp0, hseg⟩ := hpre
  have he := (henc _ (List.mem_cons_self _ _)).2
  obtain ⟨hneg, hi, hx, hf, hroot, hlive, hni, hsub⟩ := he
  intro t ht
  simp only [List.mem_singleton] at ht
  subst ht
  exact noInst_calm _ _ _ hni

/-- A walk ends with the sentinel of its base popped and the stack up to the base as it
was at the start. -/
theorem walk_ended {ts : List QTree} {s : State} {base : Int} {n : Nat}
    (h : Walk cfg K kg ray ts s base n) :
    Ended cfg s (iter cfg K kg ray n s) base := by
  induction h with
  | nil s base hpre =>
    obtain ⟨h0, _, _, _, hn, hsp, hpc⟩ := hpre
    split_ifs with hi
    · rw [(moves_end cfg K kg ray s hi hn h0).2.2]
      exact ⟨hn, hsp, Or.inl rfl, fun _ _ => rfl⟩
    · refine ⟨hn, hsp, ?_, fun _ _ => rfl⟩
      rcases hpc with h | h | h
      · exact absurd h hi
      · exact Or.inl h
      · exact Or.inr h
  | leaf a rest s base n hpre _ ih =>
    rw [iter_add]
    obtain ⟨e1, e2, e3, e4⟩ := ih
    refine ⟨e1, e2, e3, fun j hj => ?_⟩
    rw [e4 j hj, (leaf_pc cfg K kg ray a rest s base hpre).2.1]
  | skip a rest s base n hpre _ ih =>
    rw [iter_add]
    obtain ⟨e1, e2, e3, e4⟩ := ih
    refine ⟨e1, e2, e3, fun j hj => ?_⟩
    rw [e4 j hj, (skip_pc cfg K kg ray a rest s base hpre).2.1]
  | inst a sub rest s base n1 n2 hpre hw1 _ ih1 ih2 =>
    rw [iter_add]
    have hpcE := walk_pc cfg K kg ray hw1 0 (inst_sub_calm cfg K kg a sub rest s base hpre 0)
      (by rw [(enter_state cfg K kg ray a sub rest s base hpre).1]; simp)
    obtain ⟨_, hx2⟩ := exit_state cfg K kg ray a sub rest s base n1 hpre ih1 hpcE
    obtain ⟨g1, g2, g3, g4, g5, g6, g7, _⟩ := enter_state cfg K kg ray a sub rest s base hpre
    obtain ⟨p1, p2, p3, p4, p5, p6, _⟩ := instancePop_spec cfg K kg ray
      (iter cfg K kg ray n1 (iter cfg K kg ray 3 s))
    obtain ⟨hge, _⟩ := pre_sp_ge cfg K kg hpre
    obtain ⟨e1, e2, e3, e4⟩ := ih2
    refine ⟨e1, e2, e3, fun j hj => ?_⟩
    rw [e4 j hj, hx2]
    show (instancePop _ _ _ _ _).traversalStack j = _
    rw [p4, ih1.2.2.2 j (by omega), g5 j (by omega)]
  | nodeHit a c0 c1 c2 c3 rest s base n order hpre _ _ _ ih =>
    rw [iter_add, iter_one]
    obtain ⟨e1, e2, e3, e4⟩ := ih
    obtain ⟨hge, _⟩ := pre_sp_ge cfg K kg hpre
    refine ⟨e1, e2, e3, fun j hj => ?_⟩
    rw [e4 j hj, node_frame cfg K kg ray a c0 c1 c2 c3 rest s base hpre j (by omega)]
  | nodeMiss a c0 c1 c2 c3 rest s base n hpre _ _ ih =>
    rw [iter_add, iter_one]
    obtain ⟨e1, e2, e3, e4⟩ := ih
    obtain ⟨hge, _⟩ := pre_sp_ge cfg K kg hpre
    refine ⟨e1, e2, e3, fun j hj => ?_⟩
    rw [e4 j hj, node_frame cfg K kg ray a c0 c1 c2 c3 rest s base hpre j (by omega)]

theorem size_pos (t : QTree) : 1 ≤ t.size := by
  cases t <;> simp only [QTree.size] <;> omega

theorem sizeF_append (xs ys : List QTree) : sizeF (xs ++ ys) = sizeF xs + sizeF ys := by
  induction xs with
  | nil => simp [sizeF]
  | cons x rest ih =>
    show x.size + sizeF (rest ++ ys) = x.size + sizeF rest + sizeF ys
    rw [ih]; omega

theorem sizeF_perm {xs ys : List QTree} (h : xs.Perm ys) : sizeF xs = sizeF ys := by
  induction h with
  | nil => rfl
  | cons x _ ih => simp only [sizeF, ih]
  | swap x y l => simp only [sizeF]; omega
  | trans _ _ ih1 ih2 => exact ih1.trans ih2

theorem sizeF_sublist {xs ys : List QTree} (h : xs.Sublist ys) : sizeF xs ≤ sizeF ys := by
  induction h with
  | slnil => exact le_refl _
  | cons x _ ih => simp only [sizeF]; omega
  | cons₂ x _ ih => simp only [sizeF]; omega

theorem size_children (a : Int) (c0 c1 c2 c3 : QTree) (order : List Nat) (m : Nat)
    (hperm : order.Perm (hitList m)) :
    sizeF (order.map (QTree.node a c0 c1 c2 c3).child) < (QTree.node a c0 c1 c2 c3).size := by
  have h1 := sizeF_perm (hperm.map (QTree.node a c0 c1 c2 c3).child)
  have h2 : ((hitList m).map (QTree.node a c0 c1 c2 c3).child).Sublist
      ((List.range 4).map (QTree.node a c0 c1 c2 c3).child) :=
    (List.filter_sublist _).map _
  have h3 := sizeF_sublist h2
  have h4 : sizeF ((List.range 4).map (QTree.node a c0 c1 c2 c3).child) =
      c0.size + c1.size + c2.size + c3.size := by
    simp [List.range_succ, sizeF, QTree.child]
    omega
  rw [h1]
  simp only [QTree.size]
  omega

/-- Every encoded forest is walked: the traversal of a finite tree terminates. -/
theorem walk_exists : ∀ (N : Nat) (ts : List QTree) (s : State) (base : Int),
    sizeF ts ≤ N → Pre cfg K kg ts s base → ∃ n, Walk cfg K kg ray ts s base n := by
  intro N
  induction N with
  | zero =>
    intro ts s base hsz hpre
    cases ts with
    | nil => exact ⟨_, Walk.nil s base hpre⟩
    | cons t rest =>
      have := size_pos t
      simp only [sizeF] at hsz
      omega
  | succ N ih =>
    intro ts s base hsz hpre
    cases ts with
    | nil => exact ⟨_, Walk.nil s base hpre⟩
    | cons t rest =>
      simp only [sizeF] at hsz
      have hrest : sizeF rest ≤ N := by have := size_pos t; omega
      cases t with
      | dead =>
        have := (hpre.2.2.2.1 _ (List.mem_cons_self _ _)).1
        simp [QTree.isDead] at this
      | leaf a =>
        obtain ⟨n, hw⟩ := ih rest _ base hrest (pre_after_leaf cfg K kg ray a rest s base hpre)
        exact ⟨_, Walk.leaf a rest s base n hpre hw⟩
      | skip a =>
        obtain ⟨n, hw⟩ := ih rest _ base hrest (pre_after_skip cfg K kg ray a rest s base hpre)
        exact ⟨_, Walk.skip a rest s base n hpre hw⟩
      | inst a sub =>
        simp only [QTree.size] at hsz
        obtain ⟨n1, hw1⟩ := ih [sub] _ _ (by simp only [sizeF]; omega)
          (pre_enter cfg K kg ray a sub rest s base hpre)
        have hE := walk_ended cfg K kg ray hw1
        have hpcE := walk_pc cfg K kg ray hw1 0
          (inst_sub_calm cfg K kg a sub rest s base hpre 0)
          (by rw [(enter_state cfg K kg ray a sub rest s base hpre).1]; simp)
        obtain ⟨n2, hw2⟩ := ih rest _ base hrest
          (pre_after_inst cfg K kg ray a sub rest s base n1 hpre hE hpcE)
        exact ⟨_, Walk.inst a sub rest s base n1 n2 hpre hw1 hw2⟩
      | node a c0 c1 c2 c3 =>
        obtain ⟨hstep, hpc, hlt⟩ := node_step cfg K kg ray a c0 c1 c2 c3 rest s base hpre
        by_cases hm : (nodeTest K kg s).1 = 0
        · obtain ⟨n, hw⟩ := ih rest _ base hrest
            (pre_after_miss cfg K kg ray a c0 c1 c2 c3 rest s base hpre hm)
          exact ⟨_, Walk.nodeMiss a c0 c1 c2 c3 rest s base n hpre hm hw⟩
        · obtain ⟨order, hperm, hspec⟩ := traverseNode_spec cfg K kg s hlt
          have hne : order ≠ [] := by
            intro h0
            rw [h0] at hperm
            exact hitList_ne_nil _ hlt hm (List.Perm.nil_eq hperm).symm
          have hsize := size_children a c0 c1 c2 c3 order _ hperm
          obtain ⟨n, hw⟩ := ih (order.map (QTree.node a c0 c1 c2 c3).child ++ rest) _ base
            (by rw [sizeF_append]; omega)
            (pre_after_hit cfg K kg ray a c0 c1 c2 c3 rest s base hpre order hne hperm hspec)
          exact ⟨_, Walk.nodeHit a c0 c1 c2 c3 rest s base n order hpre hne hperm hw⟩

end W6

end QBVH


namespace QBVH

section W7

variable (cfg : Config) (K : Collab) (kg : KernelGlobals) (ray : Ray)

theorem init_pre (t : QTree) (hwf : WellFormed cfg K kg t) (isect0 : Intersection)
    (tfm0 : Transform) :
    Pre cfg K kg [t] (initState cfg K kg ray isect0 tfm0) 0 := by
  obtain ⟨h0, hlive, hroot, henc⟩ := hwf
  refine ⟨h0, le_refl _, rfl, ?_, rfl, hroot.symm, rfl, trivial⟩
  intro x hx
  simp only [List.mem_singleton] at hx
  subst hx
  exact ⟨hlive, henc⟩

/-- From the end of the outermost walk the function returns within two moves. -/
theorem finish (s u : State) (hE : Ended cfg s u 0) :
    iter cfg K kg ray 2 u = { u with pc := PC.done } ∧
    (iter cfg K kg ray 1 u).pc ≠ PC.leafTest ∧ (iter cfg K kg ray 1 u).pc ≠ PC.outerIf ∧
    (iter cfg K kg ray 1 u).isect = u.isect ∧
    (iter cfg K kg ray 1 u).stackMax = u.stackMax ∧
    (iter cfg K kg ray 1 u).stackPtr = u.stackPtr := by
  obtain ⟨e1, e2, e3, _⟩ := hE
  rcases e3 with h | h
  · have h1 : iter cfg K kg ray 1 u = { u with pc := PC.outerCond } :=
      step_outerIf_skip cfg K kg ray u h (fun hh => by omega)
    have h2 : iter cfg K kg ray 2 u = step cfg K kg ray (iter cfg K kg ray 1 u) := rfl
    rw [h2, h1, step_outerCond cfg K kg ray _ rfl]
    refine ⟨?_, by simp, by simp, rfl, rfl, rfl⟩
    show ({ u with pc := if u.nodeAddr ≠ cfg.ENTRYPOINT_SENTINEL then PC.inner else PC.done }
      : State) = _
    rw [if_neg (by simp [e1])]
  · rw [iter_done cfg K kg ray 2 u h, iter_done cfg K kg ray 1 u h]
    refine ⟨?_, by simp [h], by simp [h], rfl, rfl, rfl⟩
    cases u
    simp only at h
    subst h
    rfl

/-- The traversal of a well-formed scene returns: after some number of moves the walk of
the root has ended, and two moves later the control is at line 319. -/
theorem traversal_walk (t : QTree) (hwf : WellFormed cfg K kg t) (isect0 : Intersection)
    (tfm0 : Transform) :
    ∃ n, Walk cfg K kg ray [t] (initState cfg K kg ray isect0 tfm0) 0 n ∧
      (iter cfg K kg ray (n + 2) (initState cfg K kg ray isect0 tfm0)).pc = PC.done ∧
      (iter cfg K kg ray (n + 2) (initState cfg K kg ray isect0 tfm0)).isect =
        (iter cfg K kg ray n (initState cfg K kg ray isect0 tfm0)).isect := by
  obtain ⟨n, hw⟩ := walk_exists cfg K kg ray (sizeF [t]) [t] _ 0 (le_refl _)
    (init_pre cfg K kg ray t hwf isect0 tfm0)
  refine ⟨n, hw, ?_⟩
  have hE := walk_ended cfg K kg ray hw
  rw [iter_add, (finish cfg K kg ray _ _ hE).1]
  exact ⟨rfl, rfl⟩

theorem forall_lt_add (Q : State → Prop) (m n : Nat) (s : State)
    (h1 : ∀ k, k < m → Q (iter cfg K kg ray k s))
    (h2 : ∀ k, k < n → Q (iter cfg K kg ray k (iter cfg K kg ray m s))) :
    ∀ k, k < m + n → Q (iter cfg K kg ray k s) := by
  intro k hk
  by_cases h : k < m
  · exact h1 k h
  · have := h2 (k - m) (by omega)
    rw [← iter_add] at this
    have e : m + (k - m) = k := by omega
    rw [e] at this
    exact this

theorem forall_lt_three (Q : State → Prop) (s : State) (h0 : Q s)
    (h1 : Q (iter cfg K kg ray 1 s)) (h2 : Q (iter cfg K kg ray 2 s)) :
    ∀ k, k < 3 → Q (iter cfg K kg ray k s) := by
  intro k hk
  interval_cases k
  · exact h0
  · exact h1
  · exact h2

theorem quiet_of_pc (s : State) (h1 : s.pc ≠ PC.leafTest) (h2 : s.pc ≠ PC.outerIf) :
    Quiet cfg kg s :=
  ⟨fun h => h1 h.1, fun h => h2 h.1⟩

/-- During a walk that enters no instance, no instance push or pop is executed. -/
theorem walk_quiet {ts : List QTree} {s : State} {base : Int} {n : Nat}
    (h : Walk cfg K kg ray ts s base n) (obj : Int)
    (hc : ∀ t ∈ ts, t.Calm cfg.OBJECT_NONE obj) :
    ∀ k, k < n → Quiet cfg kg (iter cfg K kg ray k s) := by
  induction h with
  | nil s base hpre =>
    obtain ⟨h0, _, _, _, hn, _, hpc⟩ := hpre
    split_ifs with hi
    · obtain ⟨m1, m2, _⟩ := moves_end cfg K kg ray s hi hn h0
      refine forall_lt_three cfg K kg ray _ s ?_ ?_ ?_
      · exact quiet_of_pc cfg kg s (by rw [hi]; simp) (by rw [hi]; simp)
      · rw [m1]
        refine ⟨fun h => ?_, fun h => ?_⟩
        · have : s.nodeAddr < 0 := h.2.1
          omega
        · exact absurd h.1 (by simp)
      · rw [m2]
        exact quiet_of_pc cfg kg _ (by simp) (by simp)
    · intro k hk
      omega
  | leaf a rest s base n hpre _ ih =>
    refine forall_lt_add cfg K kg ray _ 3 n s ?_
      (ih (fun t ht => hc t (List.mem_cons_of_mem _ ht)))
    obtain ⟨h0, hb, hbase, henc, hpc0, hnode, hsp0, hseg⟩ := hpre
    have he := (henc _ (List.mem_cons_self _ _)).2
    simp only [QTree.addr] at hnode
    obtain ⟨hneg, hp⟩ := he
    rw [← hnode] at hneg hp
    obtain ⟨m2, _⟩ := moves_leaf cfg K kg ray s hpc0 hneg hp
    refine forall_lt_three cfg K kg ray _ s ?_ ?_ ?_
    · exact quiet_of_pc cfg kg s (by rw [hpc0]; simp) (by rw [hpc0]; simp)
    · rw [iter_one, leaf_first cfg K kg ray s hpc0 hneg]
      refine ⟨fun h => ?_, fun h => absurd h.1 (by simp)⟩
      obtain ⟨_, _, hi, hx, _⟩ := h
      rcases hp with hp | hp
      · rw [hi] at hp; simp at hp
      · have : (leafWords cfg kg s.nodeAddr).x < 0 := hx
        omega
    · rw [m2]
      exact quiet_of_pc cfg kg _ (by simp) (by simp)
  | skip a rest s base n hpre _ ih =>
    refine forall_lt_add cfg K kg ray _ 3 n s ?_
      (ih (fun t ht => hc t (List.mem_cons_of_mem _ ht)))
    obtain ⟨h0, hb, hbase, henc, hpc0, hnode, hsp0, hseg⟩ := hpre
    have he := (henc _ (List.mem_cons_self _ _)).2
    simp only [QTree.addr] at hnode
    obtain ⟨hneg, hi, hx, hf⟩ := he
    rw [← hnode] at hneg hx hf
    obtain ⟨m2, _⟩ := moves_skip cfg K kg ray s hpc0 hneg hi hx hf
    refine forall_lt_three cfg K kg ray _ s ?_ ?_ ?_
    · exact quiet_of_pc cfg kg s (by rw [hpc0]; simp) (by rw [hpc0]; simp)
    · rw [iter_one, leaf_first cfg K kg ray s hpc0 hneg]
      refine ⟨fun h => ?_, fun h => absurd h.1 (by simp)⟩
      obtain ⟨_, _, _, _, hf2⟩ := h
      exact hf2 hf
    · rw [m2]
      exact quiet_of_pc cfg kg _ (by simp) (by simp)
  | inst a sub rest s base n1 n2 hpre _ _ _ _ =>
    exact (hc _ (List.mem_cons_self _ _)).elim
  | nodeHit a c0 c1 c2 c3 rest s base n order hpre _ _ _ ih =>
    refine forall_lt_add cfg K kg ray _ 1 n s ?_
      (ih (calm_forest _ _ a c0 c1 c2 c3 rest order hc))
    intro k hk
    interval_cases k
    exact quiet_of_pc cfg kg s (by rw [hpre.2.2.2.2.1]; simp) (by rw [hpre.2.2.2.2.1]; simp)
  | nodeMiss a c0 c1 c2 c3 rest s base n hpre _ _ ih =>
    refine forall_lt_add cfg K kg ray _ 1 n s ?_
      (ih (fun t ht => hc t (List.mem_cons_of_mem _ ht)))
    intro k hk
    interval_cases k
    exact quiet_of_pc cfg kg s (by rw [hpre.2.2.2.2.1]; simp) (by rw [hpre.2.2.2.2.1]; simp)

end W7

end QBVH


namespace QBVH

section Easy

variable (cfg : Config) (K : Collab) (kg : KernelGlobals) (ray : Ray)

theorem primBody_object (s : State) (p : Int) :
    (primBody cfg K kg ray s p).object = s.object := by
  obtain ⟨r, hr⟩ := primBody_frame cfg K kg ray s p
  rw [hr]

theorem primBody_passes (s : State) (p : Int)
    (h : ownerFlag cfg kg s.object p &&& cfg.SD_OBJECT_HAS_VOLUME ≠ 0) :
    primBody cfg K kg ray s p = applyTest cfg K kg ray s p := by
  unfold primBody applyTest
  simp [h]

theorem primLoop_eq_foldl (n : Nat) : ∀ (s : State) (a : Int),
    primLoop cfg K kg ray s a n =
      ((primRange a n).filter (passesFilter cfg kg s.object)).foldl
        (applyTest cfg K kg ray) s := by
  induction n with
  | zero => intro s a; rfl
  | succ n ih =>
    intro s a
    simp only [primLoop, primRange]
    rw [ih, primBody_object]
    by_cases h : ownerFlag cfg kg s.object a &&& cfg.SD_OBJECT_HAS_VOLUME = 0
    · have hf : passesFilter cfg kg s.object a = false := by simp [passesFilter, h]
      rw [primBody_filtered cfg K kg ray s a h, List.filter_cons_of_neg (by simp [hf])]
    · have hf : passesFilter cfg kg s.object a = true := by simp [passesFilter, h]
      rw [primBody_passes cfg K kg ray s a h, List.filter_cons_of_pos hf]
      rfl

/-- What the function returns once the control is at line 319. -/
theorem run_result (isect0 : Intersection) (tfm0 : Transform) (fuel : Nat) (b : Bool)
    (r : Intersection)
    (h : bvh_intersect_volume cfg K kg ray isect0 tfm0 fuel = some (b, r)) :
    r = (iter cfg K kg ray fuel (initState cfg K kg ray isect0 tfm0)).isect ∧
      (b = true ↔ r.prim ≠ cfg.PRIM_NONE) := by
  unfold bvh_intersect_volume at h
  dsimp only at h
  split_ifs at h with hd
  simp only [Option.some.injEq, Prod.mk.injEq] at h
  obtain ⟨hb, hr⟩ := h
  subst hr
  refine ⟨rfl, ?_⟩
  rw [← hb]
  simp

theorem run_done (isect0 : Intersection) (tfm0 : Transform) (fuel : Nat)
    (h : (iter cfg K kg ray fuel (initState cfg K kg ray isect0 tfm0)).pc = PC.done) :
    bvh_intersect_volume cfg K kg ray isect0 tfm0 fuel =
      some (decide ((iter cfg K kg ray fuel (initState cfg K kg ray isect0 tfm0)).isect.prim ≠
        cfg.PRIM_NONE), (iter cfg K kg ray fuel (initState cfg K kg ray isect0 tfm0)).isect) := by
  unfold bvh_intersect_volume
  dsimp only
  rw [if_pos h]

/-- C3: when the traversal has returned, the returned `bool` is true exactly when the
primitive id stored in the result at the end of the traversal is not `PRIM_NONE`. -/
theorem C3_return_value (isect0 : Intersection) (tfm0 : Transform) (fuel : Nat) (b : Bool)
    (r : Intersection)
    (h : bvh_intersect_volume cfg K kg ray isect0 tfm0 fuel = some (b, r)) :
    r = (iter cfg K kg ray fuel (initState cfg K kg ray isect0 tfm0)).isect ∧
      (b = true ↔ r.prim ≠ cfg.PRIM_NONE) :=
  run_result cfg K kg ray isect0 tfm0 fuel b r h

/-- Witness of C3 on scene A: the traversal returns after 12 moves with primitive 1. -/
theorem C3_return_value_witness :
    (⟨3, 0, 0, 1, -1, 0⟩ : Intersection) =
        (iter demoConfig collabA sceneA demoRay 12
          (initState demoConfig collabA sceneA demoRay demoIsect demoTfm)).isect ∧
      (true = true ↔ (⟨3, 0, 0, 1, -1, 0⟩ : Intersection).prim ≠ demoConfig.PRIM_NONE) :=
  C3_return_value demoConfig collabA sceneA demoRay demoIsect demoTfm 12 true
    ⟨3, 0, 0, 1, -1, 0⟩ (by decide)

/-- C5: in a leaf range the intersection routines are applied to exactly the primitives
whose owner has `SD_OBJECT_HAS_VOLUME`, the owner being `__prim_object[p]` when no
instance is active and the active object otherwise; a primitive that fails the filter
leaves the whole state, the result included, as it is. -/
theorem C5_volume_filter :
    (∀ (s : State) (p : Int), s.object = cfg.OBJECT_NONE →
        ownerFlag cfg kg s.object p = kg.object_flag (kg.prim_object p)) ∧
    (∀ (s : State) (p : Int), s.object ≠ cfg.OBJECT_NONE →
        ownerFlag cfg kg s.object p = kg.object_flag s.object) ∧
    (∀ (s : State) (p : Int),
        ownerFlag cfg kg s.object p &&& cfg.SD_OBJECT_HAS_VOLUME = 0 →
        primBody cfg K kg ray s p = s) ∧
    (∀ (s : State) (a : Int) (n : Nat),
        primLoop cfg K kg ray s a n =
          ((primRange a n).filter (passesFilter cfg kg s.object)).foldl
            (applyTest cfg K kg ray) s) := by
  refine ⟨?_, ?_, ?_, ?_⟩
  · intro s p h
    simp [ownerFlag, h]
  · intro s p h
    simp [ownerFlag, h]
  · intro s p h
    exact primBody_filtered cfg K kg ray s p h
  · intro s a n
    exact primLoop_eq_foldl cfg K kg ray n s a

/-- C9: a primitive whose masked type is none of the kinds the kernel variant handles
causes no call (the dispatch yields `(false, isect)` whatever the routines are), leaves
the state as it is, and the loop goes on with the next primitive. -/
theorem C9_unknown_type (s : State) (p : Int)
    (h1 : kg.prim_type p &&& cfg.PRIMITIVE_ALL ≠ cfg.PRIMITIVE_TRIANGLE)
    (h2 : cfg.BVH_MOTION = true →
      kg.prim_type p &&& cfg.PRIMITIVE_ALL ≠ cfg.PRIMITIVE_MOTION_TRIANGLE)
    (h3 : cfg.BVH_HAIR = true →
      kg.prim_type p &&& cfg.PRIMITIVE_ALL ≠ cfg.PRIMITIVE_CURVE ∧
      kg.prim_type p &&& cfg.PRIMITIVE_ALL ≠ cfg.PRIMITIVE_MOTION_CURVE) :
    (∀ (pre : IsectPrecalc) (r : Intersection) (P d : float3) (o : Int),
        primDispatch cfg K kg ray pre r P d o p = (false, r)) ∧
      primBody cfg K kg ray s p = s ∧
      ∀ n : Nat, primLoop cfg K kg ray s p (n + 1) = primLoop cfg K kg ray s (p + 1) n := by
  have hd : ∀ (pre : IsectPrecalc) (r : Intersection) (P d : float3) (o : Int),
      primDispatch cfg K kg ray pre r P d o p = (false, r) := by
    intro pre r P d o
    unfold primDispatch
    dsimp only
    rw [if_neg h1, if_neg (fun hh => h2 hh.1 hh.2),
      if_neg (fun hh => hh.2.elim (h3 hh.1).1 (h3 hh.1).2)]
  have hb : primBody cfg K kg ray s p = s := by
    unfold primBody
    dsimp only
    split_ifs
    · rfl
    · rw [hd]
  refine ⟨hd, hb, ?_⟩
  intro n
  simp only [primLoop, hb]

/-- Witness of C9: in scene U every primitive has type 16, which the kernel does not
know; the first state of the traversal is left as it is. -/
theorem C9_unknown_type_witness :
    (∀ (pre : IsectPrecalc) (r : Intersection) (P d : float3) (o : Int),
        primDispatch demoConfig collabA sceneU demoRay pre r P d o 0 = (false, r)) ∧
      primBody demoConfig collabA sceneU demoRay
        (initState demoConfig collabA sceneU demoRay demoIsect demoTfm) 0 =
        initState demoConfig collabA sceneU demoRay demoIsect demoTfm ∧
      ∀ n : Nat, primLoop demoConfig collabA sceneU demoRay
        (initState demoConfig collabA sceneU demoRay demoIsect demoTfm) 0 (n + 1) =
        primLoop demoConfig collabA sceneU demoRay
          (initState demoConfig collabA sceneU demoRay demoIsect demoTfm) (0 + 1) n :=
  C9_unknown_type demoConfig collabA sceneU demoRay
    (initState demoConfig collabA sceneU demoRay demoIsect demoTfm) 0
    (by decide) (by decide) (by decide)

end Easy

end QBVH


namespace QBVH

section Frame

variable (cfg : Config) (K : Collab) (kg : KernelGlobals) (ray : Ray)

theorem untouched_initState (isect0 : Intersection) (tfm0 : Transform) :
    Untouched cfg K ray isect0 (initState cfg K kg ray isect0 tfm0) :=
  ⟨rfl, rfl, rfl, rfl, rfl⟩

theorem untouched_primBody (isect0 : Intersection)
    (hprim : NoPrimitiveHit cfg K kg ray isect0) (s : State) (p : Int)
    (hs : Untouched cfg K ray isect0 s) :
    Untouched cfg K ray isect0 (primBody cfg K kg ray s p) := by
  obtain ⟨h1, h2, h3, h4, h5⟩ := hs
  by_cases h : ownerFlag cfg kg s.object p &&& cfg.SD_OBJECT_HAS_VOLUME = 0
  · rw [primBody_filtered cfg K kg ray s p h]
    exact ⟨h1, h2, h3, h4, h5⟩
  · rw [primBody_passes cfg K kg ray s p h]
    refine ⟨?_, h2, h3, h4, h5⟩
    show (primDispatch cfg K kg ray s.isect_precalc s.isect s.P s.dir s.object p).2 = _
    rw [h1, h2, h3, h4, h5]
    rw [h5] at h
    exact hprim p h

theorem untouched_primLoop (isect0 : Intersection)
    (hprim : NoPrimitiveHit cfg K kg ray isect0) (n : Nat) : ∀ (s : State) (p : Int),
    Untouched cfg K ray isect0 s → Untouched cfg K ray isect0 (primLoop cfg K kg ray s p n) := by
  induction n with
  | zero => intro s p hs; exact hs
  | succ n ih =>
    intro s p hs
    exact ih _ _ (untouched_primBody cfg K kg ray isect0 hprim s p hs)

theorem untouched_step (isect0 : Intersection)
    (hprim : NoPrimitiveHit cfg K kg ray isect0) (s : State)
    (hs : Untouched cfg K ray isect0 s)
    (h1 : ¬ entersInstance cfg kg s) (h2 : ¬ leavesInstance cfg s) :
    Untouched cfg K ray isect0 (step cfg K kg ray s) := by
  rcases hpc : s.pc with _ | _ | _ | _ | _ | _
  · by_cases h : 0 ≤ s.nodeAddr ∧ s.nodeAddr ≠ cfg.ENTRYPOINT_SENTINEL
    · rw [step_inner_node cfg K kg ray s hpc h]
      obtain ⟨st, sp, nd, mx, he⟩ := traverseNode_frame cfg K kg s
      rw [he]
      exact hs
    · rw [step_inner_exit cfg K kg ray s hpc h]
      exact hs
  · by_cases h : s.nodeAddr < 0
    · rw [step_leafTest_leaf cfg K kg ray s hpc h]
      by_cases hp : cfg.BVH_INSTANCING = false ∨ (leafWords cfg kg s.nodeAddr).x ≥ 0
      · rw [leafStep_prims cfg K kg ray s hp]
        exact untouched_primLoop cfg K kg ray isect0 hprim _ s.pop _ hs
      · rw [leafStep_instance cfg K kg ray s hp]
        have hflag : kg.object_flag (kg.prim_object (-(leafWords cfg kg s.nodeAddr).x - 1)) &&&
            cfg.SD_OBJECT_HAS_VOLUME = 0 := by
          by_contra hne
          apply h1
          simp only [not_or, Bool.not_eq_false, ge_iff_le, not_le] at hp
          exact ⟨hpc, h, hp.1, hp.2, hne⟩
        rw [instanceLeaf_skip cfg K kg ray s _ hflag]
        exact ⟨hs.1, hs.2.1, hs.2.2.1, hs.2.2.2.1, rfl⟩
    · rw [step_leafTest_skip cfg K kg ray s hpc h]
      exact hs
  · rw [step_midCond cfg K kg ray s hpc]
    exact hs
  · have h : ¬ (cfg.BVH_INSTANCING = true ∧ 0 ≤ s.stackPtr) := fun hh => h2 ⟨hpc, hh.1, hh.2⟩
    rw [step_outerIf_skip cfg K kg ray s hpc h]
    exact hs
  · rw [step_outerCond cfg K kg ray s hpc]
    exact hs
  · rw [step_done cfg K kg ray s hpc]
    exact hs

theorem untouched_iter (isect0 : Intersection)
    (hprim : NoPrimitiveHit cfg K kg ray isect0) (n : Nat) (s : State)
    (hs : Untouched cfg K ray isect0 s)
    (hinst : ∀ k, k < n → ¬ entersInstance cfg kg (iter cfg K kg ray k s) ∧
      ¬ leavesInstance cfg (iter cfg K kg ray k s)) :
    Untouched cfg K ray isect0 (iter cfg K kg ray n s) := by
  induction n with
  | zero => exact hs
  | succ n ih =>
    rw [iter_succ_last]
    have hn := hinst n (Nat.lt_succ_self n)
    exact untouched_step cfg K kg ray isect0 hprim _
      (ih (fun k hk => hinst k (Nat.lt_succ_of_lt hk))) hn.1 hn.2

/-- C4: the result starts as the record (t = ray.t, u = 0, v = 0, prim = PRIM_NONE,
object = OBJECT_NONE); in a traversal in which no primitive test changes the record and
no instance push or pop is executed, the result is that record after every move, and the
function returns it together with `false`. -/
theorem C4_result_frame (isect0 : Intersection) (tfm0 : Transform) (n : Nat)
    (hprim : NoPrimitiveHit cfg K kg ray isect0)
    (hinst : ∀ k, k < n →
      ¬ entersInstance cfg kg (iter cfg K kg ray k (initState cfg K kg ray isect0 tfm0)) ∧
      ¬ leavesInstance cfg (iter cfg K kg ray k (initState cfg K kg ray isect0 tfm0))) :
    (initState cfg K kg ray isect0 tfm0).isect = noHitRecord cfg ray isect0 ∧
      (iter cfg K kg ray n (initState cfg K kg ray isect0 tfm0)).isect =
        noHitRecord cfg ray isect0 ∧
      ∀ (b : Bool) (r : Intersection),
        bvh_intersect_volume cfg K kg ray isect0 tfm0 n = some (b, r) →
        b = false ∧ r = noHitRecord cfg ray isect0 := by
  have hU := untouched_iter cfg K kg ray isect0 hprim n _
    (untouched_initState cfg K kg ray isect0 tfm0) hinst
  refine ⟨rfl, hU.1, ?_⟩
  intro b r h
  obtain ⟨hr, hb⟩ := run_result cfg K kg ray isect0 tfm0 n b r h
  rw [hU.1] at hr
  refine ⟨?_, hr⟩
  cases b with
  | false => rfl
  | true =>
    exfalso
    have := hb.1 rfl
    rw [hr] at this
    exact this rfl

/-- Witness of C4: scene A with primitive tests that never hit. -/
theorem C4_result_frame_witness :
    (initState demoConfig collabMiss sceneA demoRay demoIsect demoTfm).isect =
        noHitRecord demoConfig demoRay demoIsect ∧
      (iter demoConfig collabMiss sceneA demoRay 12
        (initState demoConfig collabMiss sceneA demoRay demoIsect demoTfm)).isect =
        noHitRecord demoConfig demoRay demoIsect ∧
      ∀ (b : Bool) (r : Intersection),
        bvh_intersect_volume demoConfig collabMiss sceneA demoRay demoIsect demoTfm 12 =
          some (b, r) →
        b = false ∧ r = noHitRecord demoConfig demoRay demoIsect :=
  C4_result_frame demoConfig collabMiss sceneA demoRay demoIsect demoTfm 12
    (by intro p _; simp [primDispatch, sceneA, demoConfig, collabMiss, demoCollab, hitRec])
    (by decide)

theorem hitRec_narrow (r : Intersection) (h : Option ℚ) (p o : Int) :
    (hitRec r h p o).2.t ≤ r.t := by
  unfold hitRec
  cases h with
  | none => exact le_refl _
  | some t =>
    dsimp only
    split_ifs with hlt
    · exact le_of_lt hlt
    · exact le_refl _

theorem demoCollab_narrowing (mask : Int → Nat × float4) (hit : Int → Option ℚ) (scale : ℚ) :
    Narrowing (demoCollab mask hit scale) :=
  ⟨fun _ _ _ _ _ _ _ _ => hitRec_narrow _ _ _ _, fun _ _ _ _ _ _ _ _ => hitRec_narrow _ _ _ _,
    fun _ _ _ _ _ _ _ _ _ => hitRec_narrow _ _ _ _,
    fun _ _ _ _ _ _ _ _ _ => hitRec_narrow _ _ _ _⟩

/-- C6 as stated fails: in scene B the primitive tests are narrowing, and the move that
enters the instance takes the stored distance and `tfar` from 100 to 200, above `ray.t`. -/
theorem C6_counterexample :
    Narrowing collabB ∧
      (iter demoConfig collabB sceneB demoRay 2
        (initState demoConfig collabB sceneB demoRay demoIsect demoTfm)).isect.t <
      (iter demoConfig collabB sceneB demoRay 3
        (initState demoConfig collabB sceneB demoRay demoIsect demoTfm)).isect.t ∧
      (iter demoConfig collabB sceneB demoRay 2
        (initState demoConfig collabB sceneB demoRay demoIsect demoTfm)).tfar <
      (iter demoConfig collabB sceneB demoRay 3
        (initState demoConfig collabB sceneB demoRay demoIsect demoTfm)).tfar ∧
      demoRay.t <
      (iter demoConfig collabB sceneB demoRay 3
        (initState demoConfig collabB sceneB demoRay demoIsect demoTfm)).isect.t := by
  refine ⟨demoCollab_narrowing _ _ _, ?_, ?_, ?_⟩
  · show (100 : ℚ) < 2 * 100
    norm_num
  · show (100 : ℚ) < 2 * 100
    norm_num
  · show (100 : ℚ) < 2 * 100
    norm_num

/-- C6, amended: given narrowing primitive tests, a move that is neither an instance push
nor an instance pop does not enlarge the stored distance and keeps `tfar`; hence in a
traversal that executes no instance push or pop the stored distance never exceeds `ray.t`
and `tfar` stays `ray.t`. -/
theorem C6_tmax_monotone (hN : Narrowing K) :
    (∀ s : State, ¬ entersInstance cfg kg s → ¬ leavesInstance cfg s →
        (step cfg K kg ray s).isect.t ≤ s.isect.t ∧ (step cfg K kg ray s).tfar = s.tfar) ∧
    (∀ (isect0 : Intersection) (tfm0 : Transform) (n : Nat),
        (∀ k, k < n →
          ¬ entersInstance cfg kg (iter cfg K kg ray k (initState cfg K kg ray isect0 tfm0)) ∧
          ¬ leavesInstance cfg (iter cfg K kg ray k (initState cfg K kg ray isect0 tfm0))) →
        (iter cfg K kg ray n (initState cfg K kg ray isect0 tfm0)).isect.t ≤ ray.t ∧
        (iter cfg K kg ray n (initState cfg K kg ray isect0 tfm0)).tfar = ray.t) := by
  refine ⟨fun s h1 h2 => step_narrow cfg K kg ray hN s h1 h2, ?_⟩
  intro isect0 tfm0 n
  induction n with
  | zero => intro _; exact ⟨le_refl _, rfl⟩
  | succ n ih =>
    intro hinst
    rw [iter_succ_last]
    have hn := hinst n (Nat.lt_succ_self n)
    have hprev := ih (fun k hk => hinst k (Nat.lt_succ_of_lt hk))
    have hstep := step_narrow cfg K kg ray hN _ hn.1 hn.2
    exact ⟨le_trans hstep.1 hprev.1, hstep.2.trans hprev.2⟩

/-- Witness of C6 (amended) on scene A, whose traversal enters no instance. -/
theorem C6_tmax_monotone_witness :
    (iter demoConfig collabA sceneA demoRay 12
        (initState demoConfig collabA sceneA demoRay demoIsect demoTfm)).isect.t ≤ demoRay.t ∧
      (iter demoConfig collabA sceneA demoRay 12
        (initState demoConfig collabA sceneA demoRay demoIsect demoTfm)).tfar = demoRay.t :=
  (C6_tmax_monotone demoConfig collabA sceneA demoRay (demoCollab_narrowing _ _ _)).2
    demoIsect demoTfm 12 (by decide)

end Frame

end QBVH


namespace QBVH

section C2

variable (cfg : Config) (K : Collab) (kg : KernelGlobals) (ray : Ray)

theorem calm_of_no_volume
    (hflag : ∀ o, kg.object_flag o &&& cfg.SD_OBJECT_HAS_VOLUME = 0) :
    ∀ t : QTree, Encodes cfg K kg t → t.Calm cfg.OBJECT_NONE cfg.OBJECT_NONE := by
  intro t
  induction t with
  | dead => intro _; trivial
  | leaf a => intro _; trivial
  | skip a => intro _; rfl
  | inst a sub _ => intro h; exact absurd (hflag _) h.2.2.2.1
  | node a c0 c1 c2 c3 i0 i1 i2 i3 =>
    intro h
    obtain ⟨_, _, _, _, _, _, _, e0, e1, e2, e3⟩ := h
    exact ⟨i0 e0, i1 e1, i2 e2, i3 e3⟩

/-- In a well-formed scene whose root walk enters no instance, no move of the whole
traversal executes an instance push or pop. -/
theorem traversal_quiet (t : QTree) (isect0 : Intersection) (tfm0 : Transform) (n : Nat)
    (hw : Walk cfg K kg ray [t] (initState cfg K kg ray isect0 tfm0) 0 n)
    (hc : t.Calm cfg.OBJECT_NONE cfg.OBJECT_NONE) :
    ∀ k, Quiet cfg kg (iter cfg K kg ray k (initState cfg K kg ray isect0 tfm0)) := by
  have hq := walk_quiet cfg K kg ray hw cfg.OBJECT_NONE (by
    intro x hx
    simp only [List.mem_singleton] at hx
    subst hx
    exact hc)
  have hE := walk_ended cfg K kg ray hw
  obtain ⟨f1, f2, f3, _⟩ := finish cfg K kg ray _ _ hE
  intro k
  by_cases h1 : k < n
  · exact hq k h1
  · by_cases h2 : k = n
    · subst h2
      refine ⟨fun h => ?_, fun h => ?_⟩
      · rcases hE.2.2.1 with hp | hp
        · rw [h.1] at hp; simp at hp
        · rw [h.1] at hp; simp at hp
      · have := h.2.2
        have := hE.2.1
        omega
    · by_cases h3 : k = n + 1
      · subst h3
        rw [iter_add]
        exact quiet_of_pc cfg kg _ f2 f3
      · have e : k = n + 2 + (k - (n + 2)) := by omega
        rw [e, iter_add, iter_add, f1, iter_done cfg K kg ray _ _ rfl]
        exact quiet_of_pc cfg kg _ (by simp) (by simp)

/-- C2: in a well-formed scene in which no object has `SD_OBJECT_HAS_VOLUME`, the
traversal returns `false` and the no-hit record, whatever the intersection routines and
the instance push and pop are: at every state the loop body skips every primitive before
the dispatch, no move executes an instance push or pop, and the record is never written. -/
theorem C2_no_volume_no_hit (t : QTree) (hwf : WellFormed cfg K kg t)
    (hflag : ∀ o, kg.object_flag o &&& cfg.SD_OBJECT_HAS_VOLUME = 0)
    (isect0 : Intersection) (tfm0 : Transform) :
    (∃ n, bvh_intersect_volume cfg K kg ray isect0 tfm0 n =
        some (false, noHitRecord cfg ray isect0)) ∧
    (∀ k p, primBody cfg K kg ray (iter cfg K kg ray k (initState cfg K kg ray isect0 tfm0)) p
        = iter cfg K kg ray k (initState cfg K kg ray isect0 tfm0)) ∧
    (∀ k, ¬ entersInstance cfg kg (iter cfg K kg ray k (initState cfg K kg ray isect0 tfm0)) ∧
        ¬ leavesInstance cfg (iter cfg K kg ray k (initState cfg K kg ray isect0 tfm0))) ∧
    (∀ k, (iter cfg K kg ray k (initState cfg K kg ray isect0 tfm0)).isect =
        noHitRecord cfg ray isect0) := by
  obtain ⟨n, hw, hdone, _⟩ := traversal_walk cfg K kg ray t hwf isect0 tfm0
  have hq := traversal_quiet cfg K kg ray t isect0 tfm0 n hw
    (calm_of_no_volume cfg K kg hflag t hwf.2.2.2)
  have hprim : NoPrimitiveHit cfg K kg ray isect0 := fun p hp => absurd (hflag _) hp
  have hU : ∀ k, (iter cfg K kg ray k (initState cfg K kg ray isect0 tfm0)).isect =
      noHitRecord cfg ray isect0 := fun k =>
    (untouched_iter cfg K kg ray isect0 hprim k _
      (untouched_initState cfg K kg ray isect0 tfm0) (fun j _ => hq j)).1
  refine ⟨⟨n + 2, ?_⟩, ?_, hq, hU⟩
  · rw [run_done cfg K kg ray isect0 tfm0 (n + 2) hdone, hU (n + 2)]
    simp [noHitRecord]
  · intro k p
    exact primBody_filtered cfg K kg ray _ p (hflag _)

theorem treeA_wellFormed (hit : Int → Option ℚ) (scale : ℚ) (kg : KernelGlobals)
    (hroot : kg.bvh_root = 0) (hnodes : kg.bvh_nodes = sceneA.bvh_nodes) :
    WellFormed demoConfig (demoCollab maskA hit scale) kg treeA := by
  refine ⟨by decide, rfl, hroot.symm, ?_⟩
  simp [treeA, Encodes, MaskOK, NeverHit, SlotOK, QTree.isDead, childWords, leafWords,
    hnodes, demoCollab, maskA, sceneA, demoConfig, QTree.addr, int4.get, Nat.testBit]

/-- Witness of C2: scene N is scene A with all object flags 0; the primitive tests of its
kernel would hit, and the traversal still returns `false`. -/
theorem C2_no_volume_no_hit_witness :
    (∃ n, bvh_intersect_volume demoConfig collabA sceneN demoRay demoIsect demoTfm n =
        some (false, noHitRecord demoConfig demoRay demoIsect)) ∧
    (∀ k p, primBody demoConfig collabA sceneN demoRay
        (iter demoConfig collabA sceneN demoRay k
          (initState demoConfig collabA sceneN demoRay demoIsect demoTfm)) p
        = iter demoConfig collabA sceneN demoRay k
          (initState demoConfig collabA sceneN demoRay demoIsect demoTfm)) ∧
    (∀ k, ¬ entersInstance demoConfig sceneN (iter demoConfig collabA sceneN demoRay k
          (initState demoConfig collabA sceneN demoRay demoIsect demoTfm)) ∧
        ¬ leavesInstance demoConfig (iter demoConfig collabA sceneN demoRay k
          (initState demoConfig collabA sceneN demoRay demoIsect demoTfm))) ∧
    (∀ k, (iter demoConfig collabA sceneN demoRay k
          (initState demoConfig collabA sceneN demoRay demoIsect demoTfm)).isect =
        noHitRecord demoConfig demoRay demoIsect) :=
  C2_no_volume_no_hit demoConfig collabA sceneN demoRay treeA
    (treeA_wellFormed hitA 1 sceneN rfl rfl) (fun _ => by simp [sceneN]) demoIsect demoTfm

end C2

end QBVH


namespace QBVH

section C10

variable (cfg : Config) (K : Collab) (kg : KernelGlobals) (ray : Ray)

theorem primDispatch_contract (hC : PrimContract cfg K) (pre : IsectPrecalc)
    (r : Intersection) (P d : float3) (o p : Int) :
    ((primDispatch cfg K kg ray pre r P d o p).1 = false →
      (primDispatch cfg K kg ray pre r P d o p).2 = r) ∧
    ((primDispatch cfg K kg ray pre r P d o p).1 = true →
      (primDispatch cfg K kg ray pre r P d o p).2.prim ≠ cfg.PRIM_NONE) := by
  obtain ⟨h1, h2, h3, h4⟩ := hC
  unfold primDispatch
  dsimp only
  split_ifs
  · exact h1 _ _ _ _ _ _ _ _
  · exact h2 _ _ _ _ _ _ _ _
  · exact h3 _ _ _ _ _ _ _ _ _
  · exact h4 _ _ _ _ _ _ _ _ _
  · exact ⟨fun _ => rfl, fun h => by simp at h⟩

theorem primDispatch_keeps (hC : PrimContract cfg K) (pre : IsectPrecalc)
    (r : Intersection) (P d : float3) (o p : Int) (h : r.prim ≠ cfg.PRIM_NONE) :
    (primDispatch cfg K kg ray pre r P d o p).2.prim ≠ cfg.PRIM_NONE := by
  obtain ⟨c1, c2⟩ := primDispatch_contract cfg K kg ray hC pre r P d o p
  cases hb : (primDispatch cfg K kg ray pre r P d o p).1 with
  | false => rw [c1 hb]; exact h
  | true => exact c2 hb

theorem primBody_keeps (hC : PrimContract cfg K) (s : State) (p : Int)
    (h : s.isect.prim ≠ cfg.PRIM_NONE) :
    (primBody cfg K kg ray s p).isect.prim ≠ cfg.PRIM_NONE := by
  unfold primBody
  dsimp only
  split_ifs
  · exact h
  · exact primDispatch_keeps cfg K kg ray hC _ _ _ _ _ _ h

theorem primLoop_keeps (hC : PrimContract cfg K) (n : Nat) : ∀ (s : State) (p : Int),
    s.isect.prim ≠ cfg.PRIM_NONE → (primLoop cfg K kg ray s p n).isect.prim ≠ cfg.PRIM_NONE := by
  induction n with
  | zero => intro s p h; exact h
  | succ n ih =>
    intro s p h
    exact ih _ _ (primBody_keeps cfg K kg ray hC s p h)

/-- A move of the nearest-hit traversal never loses a hit. -/
theorem step_keeps (hC : PrimContract cfg K) (s : State)
    (h : s.isect.prim ≠ cfg.PRIM_NONE) :
    (step cfg K kg ray s).isect.prim ≠ cfg.PRIM_NONE := by
  rcases hpc : s.pc with _ | _ | _ | _ | _ | _
  · by_cases hn : 0 ≤ s.nodeAddr ∧ s.nodeAddr ≠ cfg.ENTRYPOINT_SENTINEL
    · rw [step_inner_node cfg K kg ray s hpc hn]
      obtain ⟨st, sp, nd, mx, he⟩ := traverseNode_frame cfg K kg s
      rw [he]; exact h
    · rw [step_inner_exit cfg K kg ray s hpc hn]; exact h
  · by_cases hn : s.nodeAddr < 0
    · rw [step_leafTest_leaf cfg K kg ray s hpc hn]
      by_cases hp : cfg.BVH_INSTANCING = false ∨ (leafWords cfg kg s.nodeAddr).x ≥ 0
      · rw [leafStep_prims cfg K kg ray s hp]
        exact primLoop_keeps cfg K kg ray hC _ s.pop _ h
      · rw [leafStep_instance cfg K kg ray s hp]
        by_cases hf : kg.object_flag (kg.prim_object (-(leafWords cfg kg s.nodeAddr).x - 1))
            &&& cfg.SD_OBJECT_HAS_VOLUME = 0
        · rw [instanceLeaf_skip cfg K kg ray s _ hf]; exact h
        · show (instanceLeaf cfg K kg ray s (leafWords cfg kg s.nodeAddr).x).isect.prim ≠ _
          rw [(instanceLeaf_enter cfg K kg ray s _ hf).2.2.2.2.2.2.2]; exact h
    · rw [step_leafTest_skip cfg K kg ray s hpc hn]; exact h
  · rw [step_midCond cfg K kg ray s hpc]; exact h
  · by_cases hi : cfg.BVH_INSTANCING = true ∧ 0 ≤ s.stackPtr
    · rw [step_outerIf_pop cfg K kg ray s hpc hi]
      show (instancePop cfg K kg ray s).isect.prim ≠ _
      rw [(instancePop_spec cfg K kg ray s).2.2.2.2.2.2]; exact h
    · rw [step_outerIf_skip cfg K kg ray s hpc hi]; exact h
  · rw [step_outerCond cfg K kg ray s hpc]; exact h
  · rw [step_done cfg K kg ray s hpc]; exact h

/-- The stopping primitive loop against the full one: without a reported hit they leave
the same state; with one, both records hold a hit. -/
theorem primLoopAny_spec (hC : PrimContract cfg K) (n : Nat) : ∀ (s : State) (p : Int),
    ((primLoopAny cfg K kg ray s p n).2 = false →
      (primLoopAny cfg K kg ray s p n).1 = primLoop cfg K kg ray s p n) ∧
    ((primLoopAny cfg K kg ray s p n).2 = true →
      (primLoopAny cfg K kg ray s p n).1.isect.prim ≠ cfg.PRIM_NONE ∧
      (primLoop cfg K kg ray s p n).isect.prim ≠ cfg.PRIM_NONE) := by
  induction n with
  | zero =>
    intro s p
    exact ⟨fun _ => rfl, fun h => by simp [primLoopAny] at h⟩
  | succ n ih =>
    intro s p
    by_cases hf : ownerFlag cfg kg s.object p &&& cfg.SD_OBJECT_HAS_VOLUME = 0
    · have e1 : primLoopAny cfg K kg ray s p (n + 1) = primLoopAny cfg K kg ray s (p + 1) n := by
        simp only [primLoopAny, hf, if_true]
      have e2 : primLoop cfg K kg ray s p (n + 1) = primLoop cfg K kg ray s (p + 1) n := by
        simp only [primLoop, primBody_filtered cfg K kg ray s p hf]
      rw [e1, e2]
      exact ih s (p + 1)
    · have e2 : primLoop cfg K kg ray s p (n + 1) =
          primLoop cfg K kg ray (applyTest cfg K kg ray s p) (p + 1) n := by
        simp only [primLoop, primBody_passes cfg K kg ray s p hf]
      obtain ⟨c1, c2⟩ := primDispatch_contract cfg K kg ray hC s.isect_precalc s.isect s.P
        s.dir s.object p
      cases hb : (primDispatch cfg K kg ray s.isect_precalc s.isect s.P s.dir s.object p).1 with
      | true =>
        have e1 : primLoopAny cfg K kg ray s p (n + 1) = (applyTest cfg K kg ray s p, true) := by
          simp only [primLoopAny, hf, if_false, hb, if_true]
          rfl
        rw [e1, e2]
        refine ⟨fun h => by simp at h, fun _ => ⟨c2 hb, ?_⟩⟩
        exact primLoop_keeps cfg K kg ray hC n _ _ (c2 hb)
      | false =>
        have e1 : primLoopAny cfg K kg ray s p (n + 1) =
            primLoopAny cfg K kg ray (applyTest cfg K kg ray s p) (p + 1) n := by
          simp only [primLoopAny, hf, if_false, hb, Bool.false_eq_true]
          rfl
        rw [e1, e2]
        exact ih _ (p + 1)

theorem stepAny_done (s : State) (h : s.pc = PC.done) : stepAny cfg K kg ray s = s := by
  unfold stepAny
  simp only [h]
  exact step_done cfg K kg ray s h

theorem sim_step (hC : PrimContract cfg K) (a b : State) (h : Sim cfg a b) :
    Sim cfg (stepAny cfg K kg ray a) (step cfg K kg ray b) := by
  rcases h with rfl | ⟨h1, h2, h3⟩
  · by_cases hpc : a.pc = PC.leafTest
    · by_cases hn : a.nodeAddr < 0
      · rw [step_leafTest_leaf cfg K kg ray a hpc hn]
        have hs : stepAny cfg K kg ray a =
            if (leafStepAny cfg K kg ray a).2 = true then
              { (leafStepAny cfg K kg ray a).1 with pc := PC.done }
            else { (leafStepAny cfg K kg ray a).1 with pc := PC.midCond } := by
          unfold stepAny
          simp only [hpc, hn, if_true]
        rw [hs]
        by_cases hp : cfg.BVH_INSTANCING = false ∨ (leafWords cfg kg a.nodeAddr).x ≥ 0
        · have hl : leafStepAny cfg K kg ray a = primLoopAny cfg K kg ray a.pop
              (leafWords cfg kg a.nodeAddr).x
              ((leafWords cfg kg a.nodeAddr).y - (leafWords cfg kg a.nodeAddr).x).toNat := by
            unfold leafStepAny leafWords at *
            simp only [hp, if_true]
          rw [hl, leafStep_prims cfg K kg ray a hp]
          obtain ⟨q1, q2⟩ := primLoopAny_spec cfg K kg ray hC
            ((leafWords cfg kg a.nodeAddr).y - (leafWords cfg kg a.nodeAddr).x).toNat a.pop
            (leafWords cfg kg a.nodeAddr).x
          cases hb : (primLoopAny cfg K kg ray a.pop (leafWords cfg kg a.nodeAddr).x
              ((leafWords cfg kg a.nodeAddr).y - (leafWords cfg kg a.nodeAddr).x).toNat).2 with
          | true =>
            rw [if_pos rfl]
            exact Or.inr ⟨rfl, (q2 hb).1, (q2 hb).2⟩
          | false =>
            rw [if_neg (by simp), q1 hb]
            exact Or.inl rfl
        · have hl : leafStepAny cfg K kg ray a =
              (instanceLeaf cfg K kg ray a (leafWords cfg kg a.nodeAddr).x, false) := by
            unfold leafStepAny leafWords at *
            simp only [hp, if_false]
          rw [hl, leafStep_instance cfg K kg ray a hp]
          exact Or.inl rfl
      · have hs : stepAny cfg K kg ray a = { a with pc := PC.midCond } := by
          unfold stepAny
          simp only [hpc, hn, if_false]
        rw [hs, step_leafTest_skip cfg K kg ray a hpc hn]
        exact Or.inl rfl
    · have hs : stepAny cfg K kg ray a = step cfg K kg ray a := by
        unfold stepAny
        split
        · rename_i h; exact absurd h hpc
        · rfl
      rw [hs]
      exact Or.inl rfl
  · rw [stepAny_done cfg K kg ray a h1]
    exact Or.inr ⟨h1, h2, step_keeps cfg K kg ray hC b h3⟩

theorem sim_iter (hC : PrimContract cfg K) (n : Nat) : ∀ a b : State, Sim cfg a b →
    Sim cfg (iterAny cfg K kg ray n a) (iter cfg K kg ray n b) := by
  induction n with
  | zero => intro a b h; exact h
  | succ n ih =>
    intro a b h
    exact ih _ _ (sim_step cfg K kg ray hC a b h)

/-- Once the nearest-hit traversal has returned, the any-hit traversal has returned the
same `bool`. -/
theorem any_of_nearest (hC : PrimContract cfg K) (isect0 : Intersection) (tfm0 : Transform)
    (n : Nat) (hd : (iter cfg K kg ray n (initState cfg K kg ray isect0 tfm0)).pc = PC.done) :
    ∃ r, bvh_intersect_volume cfg K kg ray isect0 tfm0 n =
        some (decide (r.prim ≠ cfg.PRIM_NONE), r) ∧
      bvh_intersect_volume_any cfg K kg ray isect0 tfm0 n =
        some (decide (r.prim ≠ cfg.PRIM_NONE)) := by
  refine ⟨_, run_done cfg K kg ray isect0 tfm0 n hd, ?_⟩
  have hs := sim_iter cfg K kg ray hC n _ _
    (Or.inl rfl : Sim cfg (initState cfg K kg ray isect0 tfm0) _)
  unfold bvh_intersect_volume_any
  dsimp only
  rcases hs with h | ⟨h1, h2, h3⟩
  · rw [h, if_pos hd]
  · rw [if_pos h1]
    simp [h2, h3]

theorem iterAny_done (n : Nat) : ∀ s : State, s.pc = PC.done →
    iterAny cfg K kg ray n s = s := by
  induction n with
  | zero => intro s _; rfl
  | succ n ih =>
    intro s h
    simp only [iterAny, stepAny_done cfg K kg ray s h]
    exact ih s h

theorem iterAny_add (m n : Nat) : ∀ s : State,
    iterAny cfg K kg ray (m + n) s = iterAny cfg K kg ray n (iterAny cfg K kg ray m s) := by
  induction m with
  | zero => intro s; simp [iterAny]
  | succ m ih =>
    intro s
    have h : m + 1 + n = (m + n) + 1 := by omega
    rw [h]
    exact ih (stepAny cfg K kg ray s)

/-- A result of either mode is the result for every larger fuel. -/
theorem nearest_mono (isect0 : Intersection) (tfm0 : Transform) (n m : Nat) (x : Bool × Intersection)
    (h : bvh_intersect_volume cfg K kg ray isect0 tfm0 n = some x) :
    bvh_intersect_volume cfg K kg ray isect0 tfm0 (n + m) = some x := by
  unfold bvh_intersect_volume at h ⊢
  dsimp only at h ⊢
  split_ifs at h with hd
  rw [iter_add, iter_done cfg K kg ray m _ hd, if_pos hd]
  exact h

theorem any_mono (isect0 : Intersection) (tfm0 : Transform) (n m : Nat) (x : Bool)
    (h : bvh_intersect_volume_any cfg K kg ray isect0 tfm0 n = some x) :
    bvh_intersect_volume_any cfg K kg ray isect0 tfm0 (n + m) = some x := by
  unfold bvh_intersect_volume_any at h ⊢
  dsimp only at h ⊢
  split_ifs at h with hd
  rw [iterAny_add, iterAny_done cfg K kg ray m _ hd, if_pos hd]
  exact h

theorem any_of_nearest_result (hC : PrimContract cfg K) (isect0 : Intersection)
    (tfm0 : Transform) (n : Nat) (b : Bool) (r : Intersection)
    (h : bvh_intersect_volume cfg K kg ray isect0 tfm0 n = some (b, r)) :
    bvh_intersect_volume_any cfg K kg ray isect0 tfm0 n = some b := by
  have hd : (iter cfg K kg ray n (initState cfg K kg ray isect0 tfm0)).pc = PC.done := by
    unfold bvh_intersect_volume at h
    dsimp only at h
    split_ifs at h with hd
    exact hd
  obtain ⟨r2, h1, h2⟩ := any_of_nearest cfg K kg ray hC isect0 tfm0 n hd
  rw [h] at h1
  simp only [Option.some.injEq, Prod.mk.injEq] at h1
  rw [h2, h1.1]

/-- C10: with intersection routines that report a hit exactly when they overwrite the
result, the any-hit mode (modelled from the spec) and the nearest-hit mode of a well-formed
scene both return, and they return the same `bool`: whenever the nearest-hit mode has
returned `b`, the any-hit mode has returned `b` with the same fuel; any `bool` returned by
the any-hit mode is the `bool` returned by the nearest-hit mode; and for all fuels from
some point on both modes return the same `bool`. -/
theorem C10_any_hit_equivalence (t : QTree) (hwf : WellFormed cfg K kg t)
    (hC : PrimContract cfg K) (isect0 : Intersection) (tfm0 : Transform) :
    (∀ n b r, bvh_intersect_volume cfg K kg ray isect0 tfm0 n = some (b, r) →
      bvh_intersect_volume_any cfg K kg ray isect0 tfm0 n = some b) ∧
    (∀ n m b c r, bvh_intersect_volume_any cfg K kg ray isect0 tfm0 n = some b →
      bvh_intersect_volume cfg K kg ray isect0 tfm0 m = some (c, r) → (b = true ↔ c = true)) ∧
    (∃ n b r, ∀ m, n ≤ m →
      bvh_intersect_volume cfg K kg ray isect0 tfm0 m = some (b, r) ∧
      bvh_intersect_volume_any cfg K kg ray isect0 tfm0 m = some b ∧
      (b = true ↔ r.prim ≠ cfg.PRIM_NONE)) := by
  refine ⟨fun n b r h => any_of_nearest_result cfg K kg ray hC isect0 tfm0 n b r h, ?_, ?_⟩
  · intro n m b c r ha hn
    have h1 := any_mono cfg K kg ray isect0 tfm0 n m b ha
    have h2 := nearest_mono cfg K kg ray isect0 tfm0 m n (c, r) hn
    rw [Nat.add_comm] at h2
    have h3 := any_of_nearest_result cfg K kg ray hC isect0 tfm0 _ c r h2
    rw [h1] at h3
    simp only [Option.some.injEq] at h3
    rw [h3]
  · obtain ⟨n, _, hdone, _⟩ := traversal_walk cfg K kg ray t hwf isect0 tfm0
    have h0 := run_done cfg K kg ray isect0 tfm0 (n + 2) hdone
    refine ⟨n + 2,
      decide ((iter cfg K kg ray (n + 2) (initState cfg K kg ray isect0 tfm0)).isect.prim ≠
        cfg.PRIM_NONE),
      (iter cfg K kg ray (n + 2) (initState cfg K kg ray isect0 tfm0)).isect, fun m hm => ?_⟩
    obtain ⟨k, rfl⟩ : ∃ k, m = n + 2 + k := ⟨m - (n + 2), by omega⟩
    have h1 := nearest_mono cfg K kg ray isect0 tfm0 (n + 2) k _ h0
    exact ⟨h1, any_of_nearest_result cfg K kg ray hC isect0 tfm0 _ _ _ h1, by simp⟩

theorem hitRec_contract (r : Intersection) (h : Option ℚ) (p o : Int) (hp : p ≠ -1 ∨ h = none) :
    ((hitRec r h p o).1 = false → (hitRec r h p o).2 = r) ∧
    ((hitRec r h p o).1 = true → (hitRec r h p o).2.prim ≠ -1) := by
  unfold hitRec
  cases h with
  | none => simp
  | some t =>
    rcases hp with hp | hp
    · dsimp only
      split_ifs <;> simp [hp]
    · simp at hp

theorem demoCollab_contract (mask : Int → Nat × float4) (hit : Int → Option ℚ) (scale : ℚ)
    (h : hit (-1) = none) : PrimContract demoConfig (demoCollab mask hit scale) := by
  have key : ∀ (r : Intersection) (p o : Int),
      ((hitRec r (hit p) p o).1 = false → (hitRec r (hit p) p o).2 = r) ∧
      ((hitRec r (hit p) p o).1 = true → (hitRec r (hit p) p o).2.prim ≠ -1) := by
    intro r p o
    apply hitRec_contract
    by_cases hp : p = -1
    · right; rw [hp]; exact h
    · left; exact hp
  refine ⟨?_, ?_, ?_, ?_⟩ <;> intros <;> exact key _ _ _

/-- Witness of C10: scene A, whose primitives are hit; both modes return `true`. -/
theorem C10_any_hit_equivalence_witness :
    (∀ n b r, bvh_intersect_volume demoConfig collabA sceneA demoRay demoIsect demoTfm n =
        some (b, r) →
      bvh_intersect_volume_any demoConfig collabA sceneA demoRay demoIsect demoTfm n = some b) ∧
    (∀ n m b c r,
      bvh_intersect_volume_any demoConfig collabA sceneA demoRay demoIsect demoTfm n = some b →
      bvh_intersect_volume demoConfig collabA sceneA demoRay demoIsect demoTfm m = some (c, r) →
      (b = true ↔ c = true)) ∧
    (∃ n b r, ∀ m, n ≤ m →
      bvh_intersect_volume demoConfig collabA sceneA demoRay demoIsect demoTfm m = some (b, r) ∧
      bvh_intersect_volume_any demoConfig collabA sceneA demoRay demoIsect demoTfm m = some b ∧
      (b = true ↔ r.prim ≠ demoConfig.PRIM_NONE)) :=
  C10_any_hit_equivalence demoConfig collabA sceneA demoRay treeA
    (treeA_wellFormed hitA 1 sceneA rfl rfl) (demoCollab_contract maskA hitA 1 (by decide))
    demoIsect demoTfm

end C10

end QBVH


namespace QBVH

section C7a

variable (cfg : Config) (K : Collab) (kg : KernelGlobals) (ray : Ray)

theorem reach_ge (f : QTree → Nat) (base : Int) : ∀ ts : List QTree, base - 1 ≤ reach f base ts
  | [] => le_refl _
  | _ :: rest => le_trans (reach_ge f base rest) (le_max_right _ _)

theorem reach_append (f : QTree → Nat) (base : Int) (rest : List QTree) (M : Nat)
    (cs : List QTree) (h : ∀ c ∈ cs, f c ≤ M) :
    reach f base (cs ++ rest) ≤
      max (base + rest.length + cs.length - 1 + M) (reach f base rest) := by
  induction cs with
  | nil => exact le_max_right _ _
  | cons c cs ih =>
    have ih2 := ih (fun x hx => h x (List.mem_cons_of_mem _ hx))
    have hc : f c ≤ M := h c (List.mem_cons_self _ _)
    have hl : ((cs ++ rest).length : Int) = cs.length + rest.length := by
      rw [List.length_append]; push_cast; rfl
    show max (base + ((cs ++ rest).length : Int) + f c) (reach f base (cs ++ rest)) ≤ _
    rw [hl]
    simp only [List.length_cons]
    push_cast
    omega

theorem order_length (order : List Nat) (m : Nat) (h : order.Perm (hitList m)) :
    order.length ≤ 4 := by
  rw [h.length_eq]
  unfold hitList
  exact le_trans (List.length_filter_le _ _) (by simp)

theorem child_rise (a : Int) (c0 c1 c2 c3 : QTree) (i : Nat) :
    ((QTree.node a c0 c1 c2 c3).child i).rise + 3 ≤ (QTree.node a c0 c1 c2 c3).rise := by
  simp only [QTree.child, QTree.rise]
  split <;> omega

theorem child_need (a : Int) (c0 c1 c2 c3 : QTree) (i : Nat) :
    ((QTree.node a c0 c1 c2 c3).child i).need + 3 ≤ (QTree.node a c0 c1 c2 c3).need := by
  simp only [QTree.child, QTree.need]
  split <;> omega

/-- The hit children of a node, walked in any order in its place, reach no higher than
the node does. -/
theorem reach_children (f : QTree → Nat) (base : Int) (a : Int) (c0 c1 c2 c3 : QTree)
    (rest : List QTree) (order : List Nat) (hlen : order.length ≤ 4)
    (hf : ∀ i, f ((QTree.node a c0 c1 c2 c3).child i) + 3 ≤ f (QTree.node a c0 c1 c2 c3)) :
    reach f base (order.map (QTree.node a c0 c1 c2 c3).child ++ rest) ≤
      reach f base (QTree.node a c0 c1 c2 c3 :: rest) := by
  have h := reach_append f base rest (f (QTree.node a c0 c1 c2 c3) - 3)
    (order.map (QTree.node a c0 c1 c2 c3).child) (by
      intro c hc
      obtain ⟨i, _, rfl⟩ := List.mem_map.1 hc
      have := hf i
      omega)
  have h3 := hf 0
  rw [List.length_map] at h
  simp only [reach]
  omega

theorem traverseNode_below (s : State) (j : Int) (hj : j ≤ s.stackPtr) :
    (traverseNode cfg K kg s).traversalStack j = s.traversalStack j := by
  unfold traverseNode
  dsimp only
  split_ifs
  · rfl
  · exact (push_spec _ _).2.2.1 j hj
  · exact (push_spec _ _).2.2.1 j hj
  · refine ((sortTop3_pop_spec _ _ _ _ _ _ _ rfl rfl rfl).2.2.2.2.1 j ?_).trans
      ((push3_spec _ _ _ _).2.2.2.2.1 j hj)
    rw [(push3_spec _ _ _ _).1]
    omega
  · refine ((sortTop4_pop_spec _ _ _ _ _ _ _ _ _ rfl rfl rfl rfl).2.2.2.2.2.1 j ?_).trans
      ((push4_spec _ _ _ _ _).2.2.2.2.2.1 j hj)
    rw [(push4_spec _ _ _ _ _).1]
    omega
  · rfl

theorem step_below (s : State) (j : Int) (hj : j ≤ s.stackPtr) :
    (step cfg K kg ray s).traversalStack j = s.traversalStack j := by
  rcases hpc : s.pc with _ | _ | _ | _ | _ | _
  · by_cases hn : 0 ≤ s.nodeAddr ∧ s.nodeAddr ≠ cfg.ENTRYPOINT_SENTINEL
    · rw [step_inner_node cfg K kg ray s hpc hn]
      exact traverseNode_below cfg K kg s j hj
    · rw [step_inner_exit cfg K kg ray s hpc hn]
  · by_cases hn : s.nodeAddr < 0
    · rw [step_leafTest_leaf cfg K kg ray s hpc hn]
      by_cases hp : cfg.BVH_INSTANCING = false ∨ (leafWords cfg kg s.nodeAddr).x ≥ 0
      · rw [leafStep_prims cfg K kg ray s hp]
        obtain ⟨r, hr⟩ := primLoop_frame cfg K kg ray
          ((leafWords cfg kg s.nodeAddr).y - (leafWords cfg kg s.nodeAddr).x).toNat s.pop
          (leafWords cfg kg s.nodeAddr).x
        rw [hr]
        rfl
      · rw [leafStep_instance cfg K kg ray s hp]
        by_cases hf : kg.object_flag (kg.prim_object (-(leafWords cfg kg s.nodeAddr).x - 1))
            &&& cfg.SD_OBJECT_HAS_VOLUME = 0
        · rw [instanceLeaf_skip cfg K kg ray s _ hf]; rfl
        · exact (instanceLeaf_enter cfg K kg ray s _ hf).2.2.2.2.1 j (by omega)
    · rw [step_leafTest_skip cfg K kg ray s hpc hn]
  · rw [step_midCond cfg K kg ray s hpc]
  · by_cases hi : cfg.BVH_INSTANCING = true ∧ 0 ≤ s.stackPtr
    · rw [step_outerIf_pop cfg K kg ray s hpc hi]
      show (instancePop cfg K kg ray s).traversalStack j = _
      rw [(instancePop_spec cfg K kg ray s).2.2.2.1]
    · rw [step_outerIf_skip cfg K kg ray s hpc hi]
  · rw [step_outerCond cfg K kg ray s hpc]
  · rw [step_done cfg K kg ray s hpc]

theorem max4_le (a b c d m : Nat) (ha : a ≤ m) (hb : b ≤ m) (hc : c ≤ m) (hd : d ≤ m) :
    max (max a b) (max c d) ≤ m := by
  omega

theorem noInst_bounds (t : QTree) : t.NoInst →
    t.rise ≤ 3 * t.height ∧ t.need ≤ 3 * t.height + 1 ∧ (t.height = 0 → t.need = 0) := by
  induction t with
  | dead => intro _; simp [QTree.rise, QTree.need, QTree.height]
  | leaf a => intro _; simp [QTree.rise, QTree.need, QTree.height]
  | skip a => intro h; exact h.elim
  | inst a sub _ => intro h; exact h.elim
  | node a c0 c1 c2 c3 i0 i1 i2 i3 =>
    intro h
    obtain ⟨h0, h1, h2, h3⟩ := h
    obtain ⟨a0, b0, _⟩ := i0 h0
    obtain ⟨a1, b1, _⟩ := i1 h1
    obtain ⟨a2, b2, _⟩ := i2 h2
    obtain ⟨a3, b3, _⟩ := i3 h3
    simp only [QTree.rise, QTree.need, QTree.height]
    generalize hH : max (max c0.height c1.height) (max c2.height c3.height) = H
    have g0 : c0.height ≤ H := by omega
    have g1 : c1.height ≤ H := by omega
    have g2 : c2.height ≤ H := by omega
    have g3 : c3.height ≤ H := by omega
    have hr := max4_le c0.rise c1.rise c2.rise c3.rise (3 * H) (by omega) (by omega)
      (by omega) (by omega)
    have hn := max4_le c0.need c1.need c2.need c3.need (3 * H + 1) (by omega) (by omega)
      (by omega) (by omega)
    refine ⟨by omega, by omega, by omega⟩

theorem encodes_bounds (t : QTree) : Encodes cfg K kg t →
    t.rise ≤ 3 * t.height + 1 + 3 * t.instHeight ∧
    t.need ≤ 3 * t.height + 3 * t.instHeight + 2 ∧
    (t.instHeight = 0 → t.need ≤ 3 * t.height + 1) := by
  induction t with
  | dead => intro _; simp [QTree.rise, QTree.need, QTree.height]
  | leaf a => intro _; simp [QTree.rise, QTree.need, QTree.height]
  | skip a => intro _; simp [QTree.rise, QTree.need, QTree.height]
  | inst a sub _ =>
    intro h
    obtain ⟨_, _, _, _, _, _, hni, _⟩ := h
    obtain ⟨a0, b0, c0⟩ := noInst_bounds sub hni
    simp only [QTree.rise, QTree.need, QTree.height, QTree.instHeight]
    refine ⟨by omega, by omega, fun h0 => ?_⟩
    have := c0 h0
    omega
  | node a c0 c1 c2 c3 i0 i1 i2 i3 =>
    intro h
    obtain ⟨_, _, _, _, _, _, _, h0, h1, h2, h3⟩ := h
    obtain ⟨a0, b0, e0⟩ := i0 h0
    obtain ⟨a1, b1, e1⟩ := i1 h1
    obtain ⟨a2, b2, e2⟩ := i2 h2
    obtain ⟨a3, b3, e3⟩ := i3 h3
    simp only [QTree.rise, QTree.need, QTree.height, QTree.instHeight]
    generalize hH : max (max c0.height c1.height) (max c2.height c3.height) = H
    generalize hE : max (max c0.instHeight c1.instHeight) (max c2.instHeight c3.instHeight) = E
    have g0 : c0.height ≤ H := by omega
    have g1 : c1.height ≤ H := by omega
    have g2 : c2.height ≤ H := by omega
    have g3 : c3.height ≤ H := by omega
    have f0 : c0.instHeight ≤ E := by omega
    have f1 : c1.instHeight ≤ E := by omega
    have f2 : c2.instHeight ≤ E := by omega
    have f3 : c3.instHeight ≤ E := by omega
    have hr := max4_le c0.rise c1.rise c2.rise c3.rise (3 * H + 1 + 3 * E) (by omega) (by omega)
      (by omega) (by omega)
    have hn := max4_le c0.need c1.need c2.need c3.need (3 * H + 3 * E + 2) (by omega) (by omega)
      (by omega) (by omega)
    refine ⟨by omega, by omega, fun hz => ?_⟩
    have hn2 := max4_le c0.need c1.need c2.need c3.need (3 * H + 1)
      (by have := e0 (by omega); omega) (by have := e1 (by omega); omega)
      (by have := e2 (by omega); omega) (by have := e3 (by omega); omega)
    omega

end C7a

end QBVH


namespace QBVH

section C7b

variable (cfg : Config) (K : Collab) (kg : KernelGlobals) (ray : Ray)

/-- The two moves that lead into an instance: stack pointer and written range. -/
theorem enter_mid (a : Int) (sub : QTree) (rest : List QTree) (s : State) (base : Int)
    (hpre : Pre cfg K kg (QTree.inst a sub :: rest) s base) :
    (iter cfg K kg ray 1 s).stackPtr = s.stackPtr ∧
    (iter cfg K kg ray 1 s).stackMax = s.stackMax ∧
    (iter cfg K kg ray 2 s).stackPtr = s.stackPtr + 1 ∧
    (iter cfg K kg ray 2 s).stackMax = max s.stackMax (s.stackPtr + 1) := by
  obtain ⟨h0, hb, hbase, henc, hpc0, hnode, hsp0, hseg⟩ := hpre
  have he := (henc _ (List.mem_cons_self _ _)).2
  simp only [QTree.addr] at hnode
  obtain ⟨hneg, hi, hx, hf, hroot, hlive, hni, hsub⟩ := he
  have hne : sub.addr ≠ cfg.ENTRYPOINT_SENTINEL := addr_ne_sentinel cfg K kg sub h0 hlive hsub
  rw [← hnode] at hneg hx hf hroot
  obtain ⟨h1, h2, _⟩ := moves_enter cfg K kg ray s hpc0 hneg hi hx (by rw [hroot]; exact hne) hf
  obtain ⟨g1, g2, g3, g4, g5, g6, g7, g8⟩ := instanceLeaf_enter cfg K kg ray
    ({ s with pc := PC.leafTest } : State) (leafWords cfg kg s.nodeAddr).x hf
  rw [h1, h2]
  exact ⟨rfl, rfl, g3, g6⟩

theorem within_mono {lo hi top lo2 hi2 top2 : Int} {u : State} (h : Within lo hi top u)
    (h1 : lo2 ≤ lo) (h2 : hi ≤ hi2) (h3 : top ≤ top2) : Within lo2 hi2 top2 u :=
  ⟨le_trans h1 h.1, le_trans h.2.1 h2, le_trans h.2.2 h3⟩

/-- The stack bounds of a walk: at every loop test of the walk of a forest the stack
pointer is between `base - 1` and the rise of the forest, and no index above the need
of the forest is written. -/
theorem walk_within {ts : List QTree} {s : State} {base : Int} {n : Nat}
    (h : Walk cfg K kg ray ts s base n) :
    ∀ lo hi top : Int, lo ≤ base - 1 → reach QTree.rise base ts ≤ hi → s.stackMax ≤ top →
      reach QTree.need base ts ≤ top →
      (∀ k, k < n → Within lo hi top (iter cfg K kg ray k s)) ∧
        (iter cfg K kg ray n s).stackMax ≤ top := by
  induction h with
  | nil s base hpre =>
    intro lo hi top hlo hhi hmax htop
    obtain ⟨h0, _, _, _, hn, hsp, hpc⟩ := hpre
    simp only [reach] at hhi
    have hs : Within lo hi top s := ⟨by omega, by omega, hmax⟩
    split_ifs with hi
    · obtain ⟨m1, m2, m3⟩ := moves_end cfg K kg ray s hi hn h0
      refine ⟨forall_lt_three cfg K kg ray _ s hs ?_ ?_, ?_⟩
      · rw [m1]; exact hs
      · rw [m2]; exact hs
      · rw [m3]; exact hmax
    · exact ⟨fun k hk => by omega, hmax⟩
  | leaf a rest s base n hpre _ ih =>
    intro lo hi top hlo hhi hmax htop
    obtain ⟨_, h3a, h3b, h3c⟩ := leaf_pc cfg K kg ray a rest s base hpre
    obtain ⟨hge, _⟩ := pre_sp_ge cfg K kg hpre
    obtain ⟨h0, hb, hbase, henc, hpc0, hnode, hsp0, hseg⟩ := hpre
    have he := (henc _ (List.mem_cons_self _ _)).2
    simp only [QTree.addr] at hnode
    obtain ⟨hneg, hp⟩ := he
    rw [← hnode] at hneg hp
    obtain ⟨m2, _⟩ := moves_leaf cfg K kg ray s hpc0 hneg hp
    simp only [reach, QTree.rise, QTree.need] at hhi htop
    have hs : Within lo hi top s := ⟨by omega, by omega, hmax⟩
    obtain ⟨q1, q2⟩ := ih lo hi top hlo (by omega) (by rw [h3b]; exact hmax) (by omega)
    refine ⟨forall_lt_add cfg K kg ray _ 3 n s ?_ q1, by rw [iter_add]; exact q2⟩
    refine forall_lt_three cfg K kg ray _ s hs ?_ ?_
    · rw [iter_one, leaf_first cfg K kg ray s hpc0 hneg]; exact hs
    · rw [m2]
      exact ⟨by show lo ≤ s.stackPtr - 1; omega, by show s.stackPtr - 1 ≤ hi; omega, hmax⟩
  | skip a rest s base n hpre _ ih =>
    intro lo hi top hlo hhi hmax htop
    obtain ⟨_, h3a, h3b, h3c⟩ := skip_pc cfg K kg ray a rest s base hpre
    obtain ⟨hge, _⟩ := pre_sp_ge cfg K kg hpre
    obtain ⟨h0, hb, hbase, henc, hpc0, hnode, hsp0, hseg⟩ := hpre
    have he := (henc _ (List.mem_cons_self _ _)).2
    simp only [QTree.addr] at hnode
    obtain ⟨hneg, hi2, hx, hf⟩ := he
    rw [← hnode] at hneg hx hf
    obtain ⟨m2, _⟩ := moves_skip cfg K kg ray s hpc0 hneg hi2 hx hf
    simp only [reach, QTree.rise, QTree.need] at hhi htop
    have hs : Within lo hi top s := ⟨by omega, by omega, hmax⟩
    obtain ⟨q1, q2⟩ := ih lo hi top hlo (by omega) (by rw [h3b]; exact hmax) (by omega)
    refine ⟨forall_lt_add cfg K kg ray _ 3 n s ?_ q1, by rw [iter_add]; exact q2⟩
    refine forall_lt_three cfg K kg ray _ s hs ?_ ?_
    · rw [iter_one, leaf_first cfg K kg ray s hpc0 hneg]; exact hs
    · rw [m2]
      exact ⟨by show lo ≤ s.stackPtr - 1; omega, by show s.stackPtr - 1 ≤ hi; omega, hmax⟩
  | inst a sub rest s base n1 n2 hpre hw1 _ ih1 ih2 =>
    intro lo hi top hlo hhi hmax htop
    have hE := walk_ended cfg K kg ray hw1
    have hpcE := walk_pc cfg K kg ray hw1 0 (inst_sub_calm cfg K kg a sub rest s base hpre 0)
      (by rw [(enter_state cfg K kg ray a sub rest s base hpre).1]; simp)
    obtain ⟨hx1, hx2⟩ := exit_state cfg K kg ray a sub rest s base n1 hpre hE hpcE
    obtain ⟨g1, g2, g3, g4, g5, g6, g7, _⟩ := enter_state cfg K kg ray a sub rest s base hpre
    obtain ⟨p1, p2, p3, p4, p5, p6, _⟩ := instancePop_spec cfg K kg ray
      (iter cfg K kg ray n1 (iter cfg K kg ray 3 s))
    obtain ⟨k1, k2, k3, k4⟩ := enter_mid cfg K kg ray a sub rest s base hpre
    obtain ⟨hge, _⟩ := pre_sp_ge cfg K kg hpre
    have hsp0 : s.stackPtr = base + rest.length := hpre.2.2.2.2.2.2.1
    simp only [reach, QTree.rise, QTree.need, List.length_nil] at hhi htop
    push_cast at hhi htop
    have hs : Within lo hi top s := ⟨by omega, by omega, hmax⟩
    obtain ⟨q1, q2⟩ := ih1 lo hi top (by omega)
      (by simp only [reach, List.length_nil]; push_cast; omega) (by rw [g6]; omega)
      (by simp only [reach, List.length_nil]; push_cast; omega)
    have hu : (iter cfg K kg ray n1 (iter cfg K kg ray 3 s)).stackPtr = s.stackPtr := by
      rw [hE.2.1]; omega
    have hmaxE : (iter cfg K kg ray (3 + n1 + 2) s).stackMax ≤ top := by
      rw [hx2]
      show (instancePop cfg K kg ray _).stackMax ≤ top
      rw [p5]; exact q2
    obtain ⟨r1, r2⟩ := ih2 lo hi top hlo (by omega) hmaxE (by omega)
    refine ⟨forall_lt_add cfg K kg ray _ (3 + n1 + 2) n2 s ?_ r1, by rw [iter_add]; exact r2⟩
    refine forall_lt_add cfg K kg ray _ (3 + n1) 2 s ?_ ?_
    · refine forall_lt_add cfg K kg ray _ 3 n1 s ?_ q1
      refine forall_lt_three cfg K kg ray _ s hs ?_ ?_
      · exact ⟨by rw [k1]; omega, by rw [k1]; omega, by rw [k2]; exact hmax⟩
      · exact ⟨by rw [k3]; omega, by rw [k3]; omega, by rw [k4]; omega⟩
    · intro k hk
      interval_cases k
      · show Within lo hi top (iter cfg K kg ray (3 + n1) s)
        rw [iter_add]
        exact ⟨by rw [hu]; omega, by rw [hu]; omega, q2⟩
      · rw [← iter_add, hx1]
        refine ⟨?_, ?_, ?_⟩
        · show lo ≤ (instancePop cfg K kg ray _).stackPtr
          rw [p3, hu]; omega
        · show (instancePop cfg K kg ray _).stackPtr ≤ hi
          rw [p3, hu]; omega
        · show (instancePop cfg K kg ray _).stackMax ≤ top
          rw [p5]; exact q2
  | nodeHit a c0 c1 c2 c3 rest s base n order hpre hne hperm _ ih =>
    intro lo hi top hlo hhi hmax htop
    obtain ⟨hst, _, hlt⟩ := node_step cfg K kg ray a c0 c1 c2 c3 rest s base hpre
    obtain ⟨order2, hperm2, hspec⟩ := traverseNode_spec cfg K kg s hlt
    obtain ⟨hge, _⟩ := pre_sp_ge cfg K kg hpre
    have hsp0 : s.stackPtr = base + rest.length := hpre.2.2.2.2.2.2.1
    have hlen := order_length order _ hperm
    have hlen2 := order_length order2 _ hperm2
    have hr := reach_children QTree.rise base a c0 c1 c2 c3 rest order hlen
      (child_rise a c0 c1 c2 c3)
    have hn := reach_children QTree.need base a c0 c1 c2 c3 rest order hlen
      (child_need a c0 c1 c2 c3)
    have hmx := hspec.2.2.2.1
    have hn4 : 4 ≤ (QTree.node a c0 c1 c2 c3).need := by
      simp only [QTree.need]; omega
    have hhi2 := hhi
    have htop2 := htop
    simp only [reach] at hhi2 htop2
    have hs : Within lo hi top s := ⟨by omega, by omega, hmax⟩
    obtain ⟨q1, q2⟩ := ih lo hi top hlo (le_trans hr hhi)
      (by rw [hst]; omega) (le_trans hn htop)
    refine ⟨forall_lt_add cfg K kg ray _ 1 n s ?_ q1, by rw [iter_add]; exact q2⟩
    intro k hk
    interval_cases k
    exact hs
  | nodeMiss a c0 c1 c2 c3 rest s base n hpre hm _ ih =>
    intro lo hi top hlo hhi hmax htop
    obtain ⟨hst, _, hlt⟩ := node_step cfg K kg ray a c0 c1 c2 c3 rest s base hpre
    obtain ⟨hge, _⟩ := pre_sp_ge cfg K kg hpre
    have hsp0 : s.stackPtr = base + rest.length := hpre.2.2.2.2.2.2.1
    have hmx : (step cfg K kg ray s).stackMax = s.stackMax := by
      rw [hst, traverseNode_miss cfg K kg s hm]; rfl
    simp only [reach] at hhi htop
    have hs : Within lo hi top s := ⟨by omega, by omega, hmax⟩
    obtain ⟨q1, q2⟩ := ih lo hi top hlo (by omega) (by rw [hmx]; exact hmax) (by omega)
    refine ⟨forall_lt_add cfg K kg ray _ 1 n s ?_ q1, by rw [iter_add]; exact q2⟩
    intro k hk
    interval_cases k
    exact hs

/-- The stack bounds of the whole traversal, at every loop test up to and after the
return. -/
theorem traversal_within (t : QTree) (hwf : WellFormed cfg K kg t) (isect0 : Intersection)
    (tfm0 : Transform) (k : Nat) :
    Within (-1) t.rise t.need (iter cfg K kg ray k (initState cfg K kg ray isect0 tfm0)) := by
  obtain ⟨n, hw, hdone, _⟩ := traversal_walk cfg K kg ray t hwf isect0 tfm0
  have hE := walk_ended cfg K kg ray hw
  obtain ⟨f1, _, _, _, f5, f6⟩ := finish cfg K kg ray _ _ hE
  obtain ⟨q1, q2⟩ := walk_within cfg K kg ray hw (-1) t.rise t.need (by omega)
    (by simp only [reach, List.length_nil]; push_cast; omega)
    (by show (0 : Int) ≤ _; omega)
    (by simp only [reach, List.length_nil]; push_cast; omega)
  have hu : Within (-1) t.rise t.need
      (iter cfg K kg ray n (initState cfg K kg ray isect0 tfm0)) :=
    ⟨by rw [hE.2.1]; omega, by rw [hE.2.1]; omega, q2⟩
  by_cases h1 : k < n
  · exact q1 k h1
  · by_cases h2 : k = n
    · rw [h2]; exact hu
    · by_cases h3 : k = n + 1
      · rw [h3, iter_add]
        exact ⟨by rw [f6]; exact hu.1, by rw [f6]; exact hu.2.1, by rw [f5]; exact hu.2.2⟩
      · obtain ⟨m, rfl⟩ : ∃ m, k = n + 2 + m := ⟨k - (n + 2), by omega⟩
        rw [iter_add, iter_done cfg K kg ray m _ hdone, iter_add, f1]
        exact hu

end C7b

end QBVH


namespace QBVH

section C7c

variable (cfg : Config) (K : Collab) (kg : KernelGlobals) (ray : Ray)

/-- C7, amended: in a well-formed scene whose top-level tree nests inner nodes at most `d`
deep and whose instanced trees nest them at most `e` deep, at every loop test of the
traversal the stack pointer is between -1 and `3*d + 1 + 3*e`; the highest stack index
ever written, which the stack pointer reaches inside a node step, is at most
`3*d + 3*e + 2`, and at most `3*d + 1` when `e = 0`; hence with
`3*d + 3*e + 2 < BVH_STACK_SIZE` every write is below `BVH_STACK_SIZE`; and no move
changes an entry at or below the stack pointer it starts with. -/
theorem C7_stack_bound (t : QTree) (hwf : WellFormed cfg K kg t) (d e : Nat)
    (hd : t.height ≤ d) (he : t.instHeight ≤ e) (isect0 : Intersection) (tfm0 : Transform)
    (k : Nat) :
    (-1 ≤ (iter cfg K kg ray k (initState cfg K kg ray isect0 tfm0)).stackPtr ∧
      (iter cfg K kg ray k (initState cfg K kg ray isect0 tfm0)).stackPtr ≤
        3 * (d : Int) + 1 + 3 * (e : Int)) ∧
    (iter cfg K kg ray k (initState cfg K kg ray isect0 tfm0)).stackMax ≤
      3 * (d : Int) + 3 * (e : Int) + 2 ∧
    (e = 0 → (iter cfg K kg ray k (initState cfg K kg ray isect0 tfm0)).stackMax ≤
      3 * (d : Int) + 1) ∧
    (3 * (d : Int) + 3 * (e : Int) + 2 < cfg.BVH_STACK_SIZE →
      (iter cfg K kg ray k (initState cfg K kg ray isect0 tfm0)).stackMax <
        cfg.BVH_STACK_SIZE) ∧
    (∀ j, j ≤ (iter cfg K kg ray k (initState cfg K kg ray isect0 tfm0)).stackPtr →
      (iter cfg K kg ray (k + 1) (initState cfg K kg ray isect0 tfm0)).traversalStack j =
        (iter cfg K kg ray k (initState cfg K kg ray isect0 tfm0)).traversalStack j) := by
  obtain ⟨w1, w2, w3⟩ := traversal_within cfg K kg ray t hwf isect0 tfm0 k
  obtain ⟨b1, b2, b3⟩ := encodes_bounds cfg K kg t hwf.2.2.2
  refine ⟨⟨w1, by omega⟩, by omega, fun h0 => ?_, fun hc => by omega, fun j hj => ?_⟩
  · have := b3 (by omega)
    omega
  · rw [iter_succ_last]
    exact step_below cfg K kg ray _ j hj

theorem treeC_wellFormed (n : Int) :
    WellFormed { demoConfig with BVH_STACK_SIZE := n } collabC sceneC treeC := by
  refine ⟨by show (0 : Int) ≤ 0x76543210; decide, rfl, rfl, ?_⟩
  simp [treeC, Encodes, MaskOK, NeverHit, SlotOK, QTree.isDead, childWords, leafWords,
    leafObject, QTree.NoInst, collabC, demoCollab, maskC, sceneC, demoConfig, QTree.addr,
    int4.get, Nat.testBit]

/-- Witness of C7: scene C with a stack of 192 entries, `d = 1`, `e = 1`, at the loop test
after the node step inside the instance. -/
theorem C7_stack_bound_witness :
    (-1 ≤ (iter demoConfig collabC sceneC demoRay 5
        (initState demoConfig collabC sceneC demoRay demoIsect demoTfm)).stackPtr ∧
      (iter demoConfig collabC sceneC demoRay 5
        (initState demoConfig collabC sceneC demoRay demoIsect demoTfm)).stackPtr ≤
        3 * ((1 : Nat) : Int) + 1 + 3 * ((1 : Nat) : Int)) ∧
    (iter demoConfig collabC sceneC demoRay 5
        (initState demoConfig collabC sceneC demoRay demoIsect demoTfm)).stackMax ≤
      3 * ((1 : Nat) : Int) + 3 * ((1 : Nat) : Int) + 2 ∧
    (1 = 0 → (iter demoConfig collabC sceneC demoRay 5
        (initState demoConfig collabC sceneC demoRay demoIsect demoTfm)).stackMax ≤
      3 * ((1 : Nat) : Int) + 1) ∧
    (3 * ((1 : Nat) : Int) + 3 * ((1 : Nat) : Int) + 2 < demoConfig.BVH_STACK_SIZE →
      (iter demoConfig collabC sceneC demoRay 5
        (initState demoConfig collabC sceneC demoRay demoIsect demoTfm)).stackMax <
        demoConfig.BVH_STACK_SIZE) ∧
    (∀ j, j ≤ (iter demoConfig collabC sceneC demoRay 5
        (initState demoConfig collabC sceneC demoRay demoIsect demoTfm)).stackPtr →
      (iter demoConfig collabC sceneC demoRay (5 + 1)
        (initState demoConfig collabC sceneC demoRay demoIsect demoTfm)).traversalStack j =
        (iter demoConfig collabC sceneC demoRay 5
          (initState demoConfig collabC sceneC demoRay demoIsect demoTfm)).traversalStack j) :=
  C7_stack_bound demoConfig collabC sceneC demoRay treeC (treeC_wellFormed 192) 1 1
    (by decide) (by decide) demoIsect demoTfm 5

/-- C7 as stated fails: scene C is well formed, its trees nest inner nodes one deep at the
top and one deep in the instance, and `3*1 + 3*1 + 1 = 7` is below the stack size 8; the
node step inside the instance still sets the stack pointer to 8, above `3*1 + 1 + 3*1`,
and writes `traversalStack[8]`, outside the eight entries. -/
theorem C7_counterexample :
    WellFormed smallConfig collabC sceneC treeC ∧ treeC.height ≤ 1 ∧ treeC.instHeight ≤ 1 ∧
      (3 * 1 + 3 * 1 + 1 : Int) < smallConfig.BVH_STACK_SIZE ∧
      smallConfig.BVH_STACK_SIZE ≤
        (iter smallConfig collabC sceneC demoRay 5
          (initState smallConfig collabC sceneC demoRay demoIsect demoTfm)).stackMax ∧
      (3 * 1 + 1 + 3 * 1 : Int) <
        (iter smallConfig collabC sceneC demoRay 5
          (initState smallConfig collabC sceneC demoRay demoIsect demoTfm)).stackMax := by
  refine ⟨treeC_wellFormed 8, by decide, by decide, by decide, ?_, ?_⟩
  · decide
  · decide

end C7c

end QBVH


namespace QBVH

section C8a

variable (cfg : Config) (K : Collab) (kg : KernelGlobals) (ray : Ray)

theorem visits_add (a : Int) (m n : Nat) : ∀ s : State,
    visits cfg K kg ray a (m + n) s =
      visits cfg K kg ray a m s + visits cfg K kg ray a n (iter cfg K kg ray m s) := by
  induction m with
  | zero => intro s; simp [visits, iter]
  | succ m ih =>
    intro s
    have h : m + 1 + n = (m + n) + 1 := by omega
    rw [h]
    simp only [visits, iter, ih]
    omega

theorem visits_mono (a : Int) (m n : Nat) (h : m ≤ n) (s : State) :
    visits cfg K kg ray a m s ≤ visits cfg K kg ray a n s := by
  obtain ⟨d, rfl⟩ : ∃ d, n = m + d := ⟨n - m, by omega⟩
  rw [visits_add]
  omega

theorem visits_one (a : Int) (s : State) :
    visits cfg K kg ray a 1 s = if processes cfg s a then 1 else 0 := rfl

theorem visits_three (a : Int) (s : State) :
    visits cfg K kg ray a 3 s =
      (if processes cfg s a then 1 else 0) +
      (if processes cfg (iter cfg K kg ray 1 s) a then 1 else 0) +
      (if processes cfg (iter cfg K kg ray 2 s) a then 1 else 0) := by
  show _ + (_ + (_ + 0)) = _
  rw [iter_one, iter_two]
  omega

/-- A state whose control is at neither of the two loop heads processes no node. -/
theorem idle_of_pc (s : State) (a : Int) (h1 : s.pc ≠ PC.inner) (h2 : s.pc ≠ PC.leafTest) :
    (if processes cfg s a then 1 else 0) = 0 := by
  rw [if_neg]
  rintro ⟨_, h | h⟩
  · exact h1 h.1
  · exact h2 h.1

/-- At the inner loop test a leaf address or the sentinel is not processed. -/
theorem idle_inner (s : State) (a : Int) (hpc : s.pc = PC.inner)
    (h : s.nodeAddr < 0 ∨ s.nodeAddr = cfg.ENTRYPOINT_SENTINEL) :
    (if processes cfg s a then 1 else 0) = 0 := by
  rw [if_neg]
  rintro ⟨_, h1 | h1⟩
  · rcases h with h | h
    · omega
    · exact h1.2.2 h
  · rw [hpc] at h1
    exact absurd h1.1 (by simp)

theorem busy_le (s : State) (a b : Int) (h : s.nodeAddr = b) :
    (if processes cfg s a then 1 else 0) ≤ (if b = a then 1 else 0) := by
  by_cases hp : processes cfg s a
  · rw [if_pos hp, if_pos (h.symm.trans hp.1)]
  · rw [if_neg hp]
    exact Nat.zero_le _

theorem visits_idle (a : Int) (n : Nat) : ∀ s : State,
    (∀ j, (iter cfg K kg ray j s).pc ≠ PC.inner ∧ (iter cfg K kg ray j s).pc ≠ PC.leafTest) →
    visits cfg K kg ray a n s = 0 := by
  induction n with
  | zero => intro s _; rfl
  | succ n ih =>
    intro s h
    have h0 := h 0
    simp only [visits]
    rw [idle_of_pc cfg s a h0.1 h0.2, ih (step cfg K kg ray s) (fun j => h (j + 1))]

theorem occF_append (a : Int) (xs ys : List QTree) :
    occF a (xs ++ ys) = occF a xs + occF a ys := by
  induction xs with
  | nil => simp [occF]
  | cons x xs ih =>
    show x.occ a + occF a (xs ++ ys) = x.occ a + occF a xs + occF a ys
    rw [ih]; omega

theorem occF_perm (a : Int) {xs ys : List QTree} (h : xs.Perm ys) : occF a xs = occF a ys := by
  induction h with
  | nil => rfl
  | cons x _ ih => simp only [occF, ih]
  | swap x y l => simp only [occF]; omega
  | trans _ _ ih1 ih2 => exact ih1.trans ih2

theorem occF_sublist (a : Int) {xs ys : List QTree} (h : xs.Sublist ys) :
    occF a xs ≤ occF a ys := by
  induction h with
  | slnil => exact le_refl _
  | cons x _ ih => simp only [occF]; omega
  | cons₂ x _ ih => simp only [occF]; omega

theorem occ_children (x : Int) (a : Int) (c0 c1 c2 c3 : QTree) (order : List Nat) (m : Nat)
    (hperm : order.Perm (hitList m)) :
    occF x (order.map (QTree.node a c0 c1 c2 c3).child) ≤
      c0.occ x + c1.occ x + c2.occ x + c3.occ x := by
  have h1 := occF_perm x (hperm.map (QTree.node a c0 c1 c2 c3).child)
  have h2 : ((hitList m).map (QTree.node a c0 c1 c2 c3).child).Sublist
      ((List.range 4).map (QTree.node a c0 c1 c2 c3).child) :=
    (List.filter_sublist _).map _
  have h3 := occF_sublist x h2
  have h4 : occF x ((List.range 4).map (QTree.node a c0 c1 c2 c3).child) =
      c0.occ x + c1.occ x + c2.occ x + c3.occ x := by
    simp [List.range_succ, occF, QTree.child]
    omega
  omega

theorem occ_split (a : Int) (t : QTree) : t.occ a = t.occTop a + t.occSub a := by
  induction t with
  | dead => rfl
  | leaf b => rfl
  | skip b => rfl
  | inst b sub _ => rfl
  | node b c0 c1 c2 c3 i0 i1 i2 i3 =>
    simp only [QTree.occ, QTree.occTop, QTree.occSub, i0, i1, i2, i3]
    omega

theorem subTrees_child (a : Int) (c0 c1 c2 c3 : QTree)
    (h : (QTree.node a c0 c1 c2 c3).SubTrees) (i : Nat) :
    ((QTree.node a c0 c1 c2 c3).child i).SubTrees := by
  obtain ⟨h0, h1, h2, h3⟩ := h
  simp only [QTree.child]
  split <;> assumption

theorem subTrees_forest (a : Int) (c0 c1 c2 c3 : QTree) (rest : List QTree)
    (order : List Nat) (h : ∀ t ∈ QTree.node a c0 c1 c2 c3 :: rest, t.SubTrees) :
    ∀ t ∈ order.map (QTree.node a c0 c1 c2 c3).child ++ rest, t.SubTrees := by
  intro t ht
  rcases List.mem_append.1 ht with h1 | h1
  · obtain ⟨i, _, rfl⟩ := List.mem_map.1 h1
    exact subTrees_child a c0 c1 c2 c3 (h _ (List.mem_cons_self _ _)) i
  · exact h t (List.mem_cons_of_mem _ h1)

/-- Once the outermost walk has ended the control stays off the loop heads. -/
theorem after_end (s u : State) (hE : Ended cfg s u 0) (j : Nat) :
    (iter cfg K kg ray j u).pc ≠ PC.inner ∧ (iter cfg K kg ray j u).pc ≠ PC.leafTest := by
  obtain ⟨f1, _, _, _, _, _⟩ := finish cfg K kg ray s u hE
  obtain ⟨e1, e2, e3, _⟩ := hE
  have hd : ∀ m, (iter cfg K kg ray (2 + m) u).pc = PC.done := by
    intro m
    rw [iter_add, f1, iter_done cfg K kg ray m _ rfl]
  by_cases h0 : j = 0
  · subst h0
    show u.pc ≠ _ ∧ u.pc ≠ _
    rcases e3 with h | h <;> rw [h] <;> simp
  · by_cases h1 : j = 1
    · subst h1
      rcases e3 with h | h
      · have h1 : iter cfg K kg ray 1 u = { u with pc := PC.outerCond } :=
          step_outerIf_skip cfg K kg ray u h (fun hh => by omega)
        rw [h1]; simp
      · rw [iter_done cfg K kg ray 1 u h, h]; simp
    · obtain ⟨m, rfl⟩ : ∃ m, j = 2 + m := ⟨j - 2, by omega⟩
      rw [hd m]; simp

end C8a

end QBVH


namespace QBVH

section C8b

variable (cfg : Config) (K : Collab) (kg : KernelGlobals) (ray : Ray)

theorem visits_two (a : Int) (s : State) :
    visits cfg K kg ray a 2 s =
      (if processes cfg s a then 1 else 0) +
      (if processes cfg (iter cfg K kg ray 1 s) a then 1 else 0) := by
  show _ + (_ + 0) = _
  rw [iter_one]
  omega

theorem idle_leafTest (s : State) (a : Int) (hpc : s.pc = PC.leafTest) (h : 0 ≤ s.nodeAddr) :
    (if processes cfg s a then 1 else 0) = 0 := by
  rw [if_neg]
  rintro ⟨_, h1 | h1⟩
  · rw [hpc] at h1
    exact absurd h1.1 (by simp)
  · omega

/-- The first two moves at an entered instance leaf. -/
theorem enter_pcs (a : Int) (sub : QTree) (rest : List QTree) (s : State) (base : Int)
    (hpre : Pre cfg K kg (QTree.inst a sub :: rest) s base) :
    iter cfg K kg ray 1 s = { s with pc := PC.leafTest } ∧
      (iter cfg K kg ray 2 s).pc = PC.midCond := by
  obtain ⟨h0, hb, hbase, henc, hpc0, hnode, hsp0, hseg⟩ := hpre
  have he := (henc _ (List.mem_cons_self _ _)).2
  simp only [QTree.addr] at hnode
  obtain ⟨hneg, hi, hx, hf, hroot, hlive, hni, hsub⟩ := he
  have hne : sub.addr ≠ cfg.ENTRYPOINT_SENTINEL := addr_ne_sentinel cfg K kg sub h0 hlive hsub
  rw [← hnode] at hneg hx hf hroot
  obtain ⟨h1, h2, _⟩ := moves_enter cfg K kg ray s hpc0 hneg hi hx (by rw [hroot]; exact hne) hf
  rw [h1, h2]
  exact ⟨rfl, rfl⟩

/-- The moves of a walk process each node of the forest at most once: node `a` is
processed at most as often as the unfolded forest has nodes with address `a`. -/
theorem walk_visits {ts : List QTree} {s : State} {base : Int} {n : Nat}
    (h : Walk cfg K kg ray ts s base n) (x : Int) :
    visits cfg K kg ray x n s ≤ occF x ts := by
  induction h with
  | nil s base hpre =>
    obtain ⟨h0, _, _, _, hn, hsp, hpc⟩ := hpre
    split_ifs with hi
    · obtain ⟨m1, m2, m3⟩ := moves_end cfg K kg ray s hi hn h0
      have z0 := idle_inner cfg s x hi (Or.inr hn)
      have z1 : (if processes cfg (iter cfg K kg ray 1 s) x then 1 else 0) = 0 := by
        rw [m1]
        exact idle_leafTest cfg _ x rfl (by show 0 ≤ s.nodeAddr; omega)
      have z2 : (if processes cfg (iter cfg K kg ray 2 s) x then 1 else 0) = 0 := by
        rw [m2]
        exact idle_of_pc cfg _ x (by simp) (by simp)
      rw [visits_three, z0, z1, z2]
      exact Nat.zero_le _
    · exact Nat.zero_le _
  | leaf a rest s base n hpre _ ih =>
    obtain ⟨h0, hb, hbase, henc, hpc0, hnode, hsp0, hseg⟩ := hpre
    have he := (henc _ (List.mem_cons_self _ _)).2
    simp only [QTree.addr] at hnode
    obtain ⟨hneg, hp⟩ := he
    rw [← hnode] at hneg hp
    obtain ⟨m2, _⟩ := moves_leaf cfg K kg ray s hpc0 hneg hp
    have z0 := idle_inner cfg s x hpc0 (Or.inl hneg)
    have z1 : (if processes cfg (iter cfg K kg ray 1 s) x then 1 else 0) ≤
        (if a = x then 1 else 0) := by
      rw [iter_one, leaf_first cfg K kg ray s hpc0 hneg]
      exact busy_le cfg _ x a hnode
    have z2 : (if processes cfg (iter cfg K kg ray 2 s) x then 1 else 0) = 0 := by
      rw [m2]
      exact idle_of_pc cfg _ x (by simp) (by simp)
    rw [visits_add, visits_three, z0, z2]
    simp only [occF, QTree.occ]
    omega
  | skip a rest s base n hpre _ ih =>
    obtain ⟨h0, hb, hbase, henc, hpc0, hnode, hsp0, hseg⟩ := hpre
    have he := (henc _ (List.mem_cons_self _ _)).2
    simp only [QTree.addr] at hnode
    obtain ⟨hneg, hi2, hx, hf⟩ := he
    rw [← hnode] at hneg hx hf
    obtain ⟨m2, _⟩ := moves_skip cfg K kg ray s hpc0 hneg hi2 hx hf
    have z0 := idle_inner cfg s x hpc0 (Or.inl hneg)
    have z1 : (if processes cfg (iter cfg K kg ray 1 s) x then 1 else 0) ≤
        (if a = x then 1 else 0) := by
      rw [iter_one, leaf_first cfg K kg ray s hpc0 hneg]
      exact busy_le cfg _ x a hnode
    have z2 : (if processes cfg (iter cfg K kg ray 2 s) x then 1 else 0) = 0 := by
      rw [m2]
      exact idle_of_pc cfg _ x (by simp) (by simp)
    rw [visits_add, visits_three, z0, z2]
    simp only [occF, QTree.occ]
    omega
  | inst a sub rest s base n1 n2 hpre hw1 _ ih1 ih2 =>
    have hE := walk_ended cfg K kg ray hw1
    have hpcE := walk_pc cfg K kg ray hw1 0 (inst_sub_calm cfg K kg a sub rest s base hpre 0)
      (by rw [(enter_state cfg K kg ray a sub rest s base hpre).1]; simp)
    obtain ⟨hx1, hx2⟩ := exit_state cfg K kg ray a sub rest s base n1 hpre hE hpcE
    obtain ⟨k1, k2⟩ := enter_pcs cfg K kg ray a sub rest s base hpre
    have hpc0 : s.pc = PC.inner := hpre.2.2.2.2.1
    have hnode : s.nodeAddr = a := hpre.2.2.2.2.2.1
    have hneg : s.nodeAddr < 0 := by
      rw [hnode]; exact ((hpre.2.2.2.1 _ (List.mem_cons_self _ _)).2).1
    have z0 := idle_inner cfg s x hpc0 (Or.inl hneg)
    have z1 : (if processes cfg (iter cfg K kg ray 1 s) x then 1 else 0) ≤
        (if a = x then 1 else 0) := by
      rw [k1]
      exact busy_le cfg _ x a hnode
    have z2 : (if processes cfg (iter cfg K kg ray 2 s) x then 1 else 0) = 0 :=
      idle_of_pc cfg _ x (by rw [k2]; simp) (by rw [k2]; simp)
    have e1 : (if processes cfg (iter cfg K kg ray (3 + n1) s) x then 1 else 0) = 0 := by
      rw [iter_add]
      exact idle_of_pc cfg _ x (by rw [hpcE]; simp) (by rw [hpcE]; simp)
    have e2 : (if processes cfg (iter cfg K kg ray 1 (iter cfg K kg ray (3 + n1) s)) x
        then 1 else 0) = 0 := by
      rw [← iter_add, hx1]
      exact idle_of_pc cfg _ x (by simp) (by simp)
    rw [visits_add, visits_add _ _ _ _ _ (3 + n1) 2, visits_add _ _ _ _ _ 3 n1, visits_three,
      visits_two, e1, e2, z0, z2]
    simp only [occF, QTree.occ] at ih1 ⊢
    omega
  | nodeHit a c0 c1 c2 c3 rest s base n order hpre hne hperm _ ih =>
    have hnode : s.nodeAddr = a := hpre.2.2.2.2.2.1
    have b1 := busy_le cfg s x a hnode
    have hc := occ_children x a c0 c1 c2 c3 order _ hperm
    rw [occF_append] at ih
    rw [visits_add, visits_one, iter_one]
    simp only [occF, QTree.occ]
    omega
  | nodeMiss a c0 c1 c2 c3 rest s base n hpre hm _ ih =>
    have hnode : s.nodeAddr = a := hpre.2.2.2.2.2.1
    have b1 := busy_le cfg s x a hnode
    rw [visits_add, visits_one, iter_one]
    simp only [occF, QTree.occ]
    omega

/-- Windows of a run from windows of its later part, when the pushes of the first `m`
moves are accounted for. -/
theorem windows_split (a : Int) (m n : Nat) (s : State)
    (h1 : ∀ k, k < m → entersInstance cfg kg (iter cfg K kg ray k s) →
      ∀ len, (∀ j, j < len → ¬ leavesInstance cfg (iter cfg K kg ray (k + 1 + j) s)) →
        visits cfg K kg ray a len (iter cfg K kg ray (k + 1) s) ≤ 1)
    (h2 : Windows cfg K kg ray a n (iter cfg K kg ray m s)) :
    Windows cfg K kg ray a (m + n) s := by
  intro k len hk he hl
  by_cases hkm : k < m
  · exact h1 k hkm he len hl
  · obtain ⟨d, rfl⟩ : ∃ d, k = m + d := ⟨k - m, by omega⟩
    have e1 : m + d + 1 = m + (d + 1) := by omega
    rw [e1, iter_add]
    rw [iter_add] at he
    refine h2 d len (by omega) he (fun j hj => ?_)
    have := hl j hj
    have e2 : m + d + 1 + j = m + (d + 1 + j) := by omega
    rw [e2, iter_add] at this
    exact this

theorem no_enter_of_pc (s : State) (h : s.pc ≠ PC.leafTest) : ¬ entersInstance cfg kg s :=
  fun he => h he.1

/-- Between an instance push and the next instance pop each node of the instanced tree
is processed at most once. -/
theorem walk_windows {ts : List QTree} {s : State} {base : Int} {n : Nat}
    (h : Walk cfg K kg ray ts s base n) (x : Int) (hs : ∀ t ∈ ts, t.SubTrees) :
    Windows cfg K kg ray x n s := by
  induction h with
  | nil s base hpre =>
    obtain ⟨h0, _, _, _, hn, hsp, hpc⟩ := hpre
    intro k len hk he hl
    split_ifs at hk with hi
    · obtain ⟨m1, m2, m3⟩ := moves_end cfg K kg ray s hi hn h0
      exfalso
      have hk3 : k < 3 := by omega
      interval_cases k
      · exact no_enter_of_pc cfg kg s (by rw [hi]; simp) he
      · rw [m1] at he
        have : s.nodeAddr < 0 := he.2.1
        omega
      · rw [m2] at he
        exact no_enter_of_pc cfg kg _ (by simp) he
    · omega
  | leaf a rest s base n hpre _ ih =>
    obtain ⟨h0, hb, hbase, henc, hpc0, hnode, hsp0, hseg⟩ := hpre
    have he := (henc _ (List.mem_cons_self _ _)).2
    simp only [QTree.addr] at hnode
    obtain ⟨hneg, hp⟩ := he
    rw [← hnode] at hneg hp
    obtain ⟨m2, _⟩ := moves_leaf cfg K kg ray s hpc0 hneg hp
    refine windows_split cfg K kg ray x 3 n s ?_ (ih (fun t ht => hs t (List.mem_cons_of_mem _ ht)))
    intro k hk he
    exfalso
    interval_cases k
    · exact no_enter_of_pc cfg kg s (by rw [hpc0]; simp) he
    · rw [iter_one, leaf_first cfg K kg ray s hpc0 hneg] at he
      obtain ⟨_, _, hi, hx, _⟩ := he
      rcases hp with hp | hp
      · rw [hp] at hi; exact absurd hi (by simp)
      · have hx2 : (leafWords cfg kg s.nodeAddr).x < 0 := hx
        omega
    · rw [m2] at he
      exact no_enter_of_pc cfg kg _ (by simp) he
  | skip a rest s base n hpre _ ih =>
    obtain ⟨h0, hb, hbase, henc, hpc0, hnode, hsp0, hseg⟩ := hpre
    have he := (henc _ (List.mem_cons_self _ _)).2
    simp only [QTree.addr] at hnode
    obtain ⟨hneg, hi2, hx, hf⟩ := he
    rw [← hnode] at hneg hx hf
    obtain ⟨m2, _⟩ := moves_skip cfg K kg ray s hpc0 hneg hi2 hx hf
    refine windows_split cfg K kg ray x 3 n s ?_ (ih (fun t ht => hs t (List.mem_cons_of_mem _ ht)))
    intro k hk he
    exfalso
    interval_cases k
    · exact no_enter_of_pc cfg kg s (by rw [hpc0]; simp) he
    · rw [iter_one, leaf_first cfg K kg ray s hpc0 hneg] at he
      exact he.2.2.2.2 hf
    · rw [m2] at he
      exact no_enter_of_pc cfg kg _ (by simp) he
  | inst a sub rest s base n1 n2 hpre hw1 _ ih1 ih2 =>
    have hE := walk_ended cfg K kg ray hw1
    have hcalm := inst_sub_calm cfg K kg a sub rest s base hpre 0
    have hpcE := walk_pc cfg K kg ray hw1 0 hcalm
      (by rw [(enter_state cfg K kg ray a sub rest s base hpre).1]; simp)
    have hq := walk_quiet cfg K kg ray hw1 0 hcalm
    obtain ⟨hx1, hx2⟩ := exit_state cfg K kg ray a sub rest s base n1 hpre hE hpcE
    obtain ⟨k1, k2⟩ := enter_pcs cfg K kg ray a sub rest s base hpre
    obtain ⟨hge, hsp⟩ := pre_sp_ge cfg K kg hpre
    have hpc0 : s.pc = PC.inner := hpre.2.2.2.2.1
    have hinst : cfg.BVH_INSTANCING = true :=
      ((hpre.2.2.2.1 _ (List.mem_cons_self _ _)).2).2.1
    have hsub : ∀ y, sub.occ y ≤ 1 := hs _ (List.mem_cons_self _ _)
    have hv := walk_visits cfg K kg ray hw1 x
    refine windows_split cfg K kg ray x (3 + n1 + 2) n2 s ?_
      (ih2 (fun t ht => hs t (List.mem_cons_of_mem _ ht)))
    intro k hk he len hl
    by_cases hk1 : k = 1
    · subst hk1
      have hlen : len ≤ n1 + 1 := by
        by_contra hc
        have := hl (n1 + 1) (by omega)
        have e : 1 + 1 + (n1 + 1) = 3 + n1 := by omega
        rw [e, iter_add] at this
        exact this ⟨hpcE, hinst, by rw [hE.2.1]; omega⟩
      have h2 : (if processes cfg (iter cfg K kg ray 2 s) x then 1 else 0) = 0 :=
        idle_of_pc cfg _ x (by rw [k2]; simp) (by rw [k2]; simp)
      have h3 := visits_mono cfg K kg ray x len (n1 + 1) hlen (iter cfg K kg ray 2 s)
      have e3 : visits cfg K kg ray x (n1 + 1) (iter cfg K kg ray 2 s) =
          visits cfg K kg ray x n1 (iter cfg K kg ray 3 s) := by
        rw [Nat.add_comm, visits_add, visits_one, h2, Nat.zero_add]
        rfl
      have h4 := hsub x
      have hv2 : occF x [sub] = sub.occ x := by simp [occF]
      show visits cfg K kg ray x len (iter cfg K kg ray 2 s) ≤ 1
      omega
    · exfalso
      by_cases hk0 : k = 0
      · subst hk0
        exact no_enter_of_pc cfg kg s (by rw [hpc0]; simp) he
      · by_cases hk2 : k = 2
        · subst hk2
          exact no_enter_of_pc cfg kg _ (by rw [k2]; simp) he
        · by_cases hk3 : k < 3 + n1
          · obtain ⟨d, rfl⟩ : ∃ d, k = 3 + d := ⟨k - 3, by omega⟩
            rw [iter_add] at he
            exact (hq d (by omega)).1 he
          · by_cases hk4 : k = 3 + n1
            · subst hk4
              rw [iter_add] at he
              exact no_enter_of_pc cfg kg _ (by rw [hpcE]; simp) he
            · have hk5 : k = 3 + n1 + 1 := by omega
              subst hk5
              rw [hx1] at he
              exact no_enter_of_pc cfg kg _ (by simp) he
  | nodeHit a c0 c1 c2 c3 rest s base n order hpre hne hperm _ ih =>
    have hpc0 : s.pc = PC.inner := hpre.2.2.2.2.1
    refine windows_split cfg K kg ray x 1 n s ?_
      (ih (subTrees_forest a c0 c1 c2 c3 rest order hs))
    intro k hk he
    exfalso
    interval_cases k
    exact no_enter_of_pc cfg kg s (by rw [hpc0]; simp) he
  | nodeMiss a c0 c1 c2 c3 rest s base n hpre hm _ ih =>
    have hpc0 : s.pc = PC.inner := hpre.2.2.2.2.1
    refine windows_split cfg K kg ray x 1 n s ?_
      (ih (fun t ht => hs t (List.mem_cons_of_mem _ ht)))
    intro k hk he
    exfalso
    interval_cases k
    exact no_enter_of_pc cfg kg s (by rw [hpc0]; simp) he

end C8b

end QBVH


namespace QBVH

section C8c

variable (cfg : Config) (K : Collab) (kg : KernelGlobals) (ray : Ray)

/-- Moves after the end of the outermost walk process nothing. -/
theorem visits_all (a : Int) (s u : State) (n : Nat) (hu : u = iter cfg K kg ray n s)
    (hE : Ended cfg s u 0) (N : Nat) :
    visits cfg K kg ray a N s ≤ visits cfg K kg ray a n s := by
  by_cases h : N ≤ n
  · exact visits_mono cfg K kg ray a N n h s
  · obtain ⟨d, rfl⟩ : ∃ d, N = n + d := ⟨N - n, by omega⟩
    rw [visits_add, ← hu, visits_idle cfg K kg ray a d u (after_end cfg K kg ray s u hE)]
    omega

/-- C8: the traversal of a well-formed scene (the data encode a finite tree, no child
address is the sentinel, instanced trees hold no instance leaf) whose top-level tree and
instanced trees have pairwise distinct node addresses terminates: from some fuel on it
returns. It processes node `a` at most as often as the unfolded tree has nodes with address
`a`; a node that is in no instanced tree is processed at most once; and between an instance
push and the next instance pop every node is processed at most once. -/
theorem C8_terminates_once (t : QTree) (hwf : WellFormed cfg K kg t)
    (hTop : ∀ a, t.occTop a ≤ 1) (hSub : t.SubTrees) (isect0 : Intersection)
    (tfm0 : Transform) :
    (∃ n, ∀ m, n ≤ m → ∃ r, bvh_intersect_volume cfg K kg ray isect0 tfm0 m = some r) ∧
    (∀ a N, visits cfg K kg ray a N (initState cfg K kg ray isect0 tfm0) ≤ t.occ a) ∧
    (∀ a N, t.occSub a = 0 →
      visits cfg K kg ray a N (initState cfg K kg ray isect0 tfm0) ≤ 1) ∧
    (∀ a k len,
      entersInstance cfg kg (iter cfg K kg ray k (initState cfg K kg ray isect0 tfm0)) →
      (∀ j, j < len → ¬ leavesInstance cfg
        (iter cfg K kg ray (k + 1 + j) (initState cfg K kg ray isect0 tfm0))) →
      visits cfg K kg ray a len
        (iter cfg K kg ray (k + 1) (initState cfg K kg ray isect0 tfm0)) ≤ 1) := by
  obtain ⟨n, hw, hdone, _⟩ := traversal_walk cfg K kg ray t hwf isect0 tfm0
  have hE := walk_ended cfg K kg ray hw
  have hidle := after_end cfg K kg ray _ _ hE
  have hocc : ∀ a N, visits cfg K kg ray a N (initState cfg K kg ray isect0 tfm0) ≤ t.occ a := by
    intro a N
    have h1 := visits_all cfg K kg ray a _ _ n rfl hE N
    have h2 := walk_visits cfg K kg ray hw a
    simp only [occF] at h2
    omega
  refine ⟨⟨n + 2, fun m hm => ?_⟩, hocc, fun a N h0 => ?_, fun a k len he hl => ?_⟩
  · obtain ⟨d, rfl⟩ : ∃ d, m = n + 2 + d := ⟨m - (n + 2), by omega⟩
    exact ⟨_, run_done cfg K kg ray isect0 tfm0 _
      (by rw [iter_add, iter_done cfg K kg ray d _ hdone]; exact hdone)⟩
  · have h1 := hocc a N
    have h2 := occ_split a t
    have h3 := hTop a
    omega
  · have hwin := walk_windows cfg K kg ray hw a (fun x hx => by
      simp only [List.mem_singleton] at hx
      subst hx
      exact hSub)
    by_cases hk : k < n
    · by_cases hlen : k + 1 + len ≤ n
      · exact hwin k len hlen he hl
      · obtain ⟨d, rfl⟩ : ∃ d, len = (n - k - 1) + d := ⟨len - (n - k - 1), by omega⟩
        have h1 := hwin k (n - k - 1) (by omega) he (fun j hj => hl j (by omega))
        have e : iter cfg K kg ray (n - k - 1)
            (iter cfg K kg ray (k + 1) (initState cfg K kg ray isect0 tfm0)) =
            iter cfg K kg ray n (initState cfg K kg ray isect0 tfm0) := by
          rw [← iter_add]
          congr 1
          omega
        rw [visits_add, e, visits_idle cfg K kg ray a d _ hidle]
        omega
    · exfalso
      obtain ⟨d, rfl⟩ : ∃ d, k = n + d := ⟨k - n, by omega⟩
      rw [iter_add] at he
      exact (hidle d).2 he.1

theorem treeC_distinct : (∀ a, treeC.occTop a ≤ 1) ∧ treeC.SubTrees := by
  refine ⟨fun a => ?_, ?_⟩
  · simp only [treeC, QTree.occTop]
    split_ifs <;> omega
  · simp only [treeC, QTree.SubTrees]
    refine ⟨fun a => ?_, trivial, trivial, trivial⟩
    simp only [QTree.occ]
    split_ifs <;> omega

/-- Witness of C8: scene C, whose root has an instance leaf among its children. -/
theorem C8_terminates_once_witness :
    (∃ n, ∀ m, n ≤ m →
      ∃ r, bvh_intersect_volume demoConfig collabC sceneC demoRay demoIsect demoTfm m = some r) ∧
    (∀ a N, visits demoConfig collabC sceneC demoRay a N
      (initState demoConfig collabC sceneC demoRay demoIsect demoTfm) ≤ treeC.occ a) ∧
    (∀ a N, treeC.occSub a = 0 →
      visits demoConfig collabC sceneC demoRay a N
        (initState demoConfig collabC sceneC demoRay demoIsect demoTfm) ≤ 1) ∧
    (∀ a k len,
      entersInstance demoConfig sceneC (iter demoConfig collabC sceneC demoRay k
        (initState demoConfig collabC sceneC demoRay demoIsect demoTfm)) →
      (∀ j, j < len → ¬ leavesInstance demoConfig
        (iter demoConfig collabC sceneC demoRay (k + 1 + j)
          (initState demoConfig collabC sceneC demoRay demoIsect demoTfm))) →
      visits demoConfig collabC sceneC demoRay a len
        (iter demoConfig collabC sceneC demoRay (k + 1)
          (initState demoConfig collabC sceneC demoRay demoIsect demoTfm)) ≤ 1) :=
  C8_terminates_once demoConfig collabC sceneC demoRay treeC (treeC_wellFormed 192)
    treeC_distinct.1 treeC_distinct.2 demoIsect demoTfm

end C8c

end QBVH


namespace QBVH

section C1a

variable (cfg : Config) (K : Collab) (kg : KernelGlobals) (ray : Ray)

/-- A primitive test leaves the record, or it stores a strictly nearer hit. -/
theorem test_cases (hit : Int → Option ℚ) (ht : TestsHit cfg K kg ray hit)
    (r : Intersection) (p : Int) :
    worldTest cfg K kg ray r p = (false, r) ∨
    (∃ d, hit p = some d ∧ d < r.t ∧ (worldTest cfg K kg ray r p).1 = true ∧
      (worldTest cfg K kg ray r p).2.t = d ∧
      (worldTest cfg K kg ray r p).2.prim ≠ cfg.PRIM_NONE) := by
  obtain ⟨_, h2, h3⟩ := ht
  cases hh : hit p with
  | none =>
    left
    exact h3 r p (fun d hd => by rw [hh] at hd; cases hd)
  | some d =>
    by_cases hlt : d < r.t
    · right
      exact ⟨d, rfl, hlt, h2 r p d hh hlt⟩
    · left
      refine h3 r p (fun d2 hd => ?_)
      rw [hh] at hd
      cases hd
      exact not_lt.1 hlt

theorem scanned_refl (hit : Int → Option ℚ) (r : Intersection) (S : Int → Prop)
    (h : ∀ p d, S p → hit p = some d → r.t ≤ d) : Scanned cfg hit r r S :=
  ⟨le_refl _, h, Or.inl rfl⟩

theorem scanned_trans (hit : Int → Option ℚ) (r0 r1 r2 : Intersection) (S1 S2 : Int → Prop)
    (h1 : Scanned cfg hit r0 r1 S1) (h2 : Scanned cfg hit r1 r2 S2) :
    Scanned cfg hit r0 r2 (fun p => S1 p ∨ S2 p) := by
  obtain ⟨a1, a2, a3⟩ := h1
  obtain ⟨b1, b2, b3⟩ := h2
  refine ⟨le_trans b1 a1, ?_, ?_⟩
  · intro p d hp hd
    rcases hp with hp | hp
    · exact le_trans b1 (a2 p d hp hd)
    · exact b2 p d hp hd
  · rcases b3 with rfl | ⟨c1, c2, p, c3, c4⟩
    · rcases a3 with rfl | ⟨c1, c2, p, c3, c4⟩
      · exact Or.inl rfl
      · exact Or.inr ⟨c1, c2, p, Or.inl c3, c4⟩
    · exact Or.inr ⟨c1, lt_of_lt_of_le c2 a1, p, Or.inr c3, c4⟩

theorem scanned_weaken (hit : Int → Option ℚ) (r0 r1 : Intersection) (S T : Int → Prop)
    (h : Scanned cfg hit r0 r1 S) (hsub : ∀ p, S p → T p)
    (hout : ∀ p d, T p → ¬ S p → hit p = some d → r0.t ≤ d) :
    Scanned cfg hit r0 r1 T := by
  obtain ⟨a1, a2, a3⟩ := h
  refine ⟨a1, ?_, ?_⟩
  · intro p d hp hd
    by_cases hs : S p
    · exact a2 p d hs hd
    · exact le_trans a1 (hout p d hp hs hd)
  · rcases a3 with rfl | ⟨c1, c2, p, c3, c4⟩
    · exact Or.inl rfl
    · exact Or.inr ⟨c1, c2, p, hsub p c3, c4⟩

theorem scanned_one (hit : Int → Option ℚ) (ht : TestsHit cfg K kg ray hit)
    (r : Intersection) (p : Int) :
    Scanned cfg hit r (worldTest cfg K kg ray r p).2 (fun q => q = p) := by
  rcases test_cases cfg K kg ray hit ht r p with h | ⟨d, h1, h2, h3, h4, h5⟩
  · rw [h]
    refine ⟨le_refl _, ?_, Or.inl rfl⟩
    intro q d hq hd
    subst hq
    by_contra hlt
    have := (ht.2.1 r q d hd (not_le.1 hlt)).1
    rw [h] at this
    exact absurd this (by simp)
  · refine ⟨by rw [h4]; exact le_of_lt h2, ?_, Or.inr ⟨h5, by rw [h4]; exact h2, p, rfl, ?_⟩⟩
    · intro q d2 hq hd
      subst hq
      rw [h1] at hd
      cases hd
      rw [h4]
    · rw [h4, h1]

/-- Tests of the primitives of a list, applied in list order. -/
theorem fold_scanned (hit : Int → Option ℚ) (ht : TestsHit cfg K kg ray hit) (L : List Int) :
    ∀ r0 : Intersection,
      Scanned cfg hit r0 (L.foldl (fun r p => (worldTest cfg K kg ray r p).2) r0)
        (fun p => p ∈ L) := by
  induction L with
  | nil =>
    intro r0
    exact scanned_refl cfg hit r0 _ (fun p d hp _ => absurd hp (List.not_mem_nil p))
  | cons p L ih =>
    intro r0
    have h1 := scanned_one cfg K kg ray hit ht r0 p
    have h2 := ih (worldTest cfg K kg ray r0 p).2
    have h3 := scanned_trans cfg hit _ _ _ _ _ h1 h2
    refine scanned_weaken cfg hit _ _ _ _ h3 ?_ ?_
    · intro q hq
      rcases hq with hq | hq
      · rw [hq]; exact List.mem_cons_self _ _
      · exact List.mem_cons_of_mem _ hq
    · intro q d hq hn _
      exfalso
      apply hn
      rcases List.mem_cons.1 hq with hq | hq
      · exact Or.inl hq
      · exact Or.inr hq

/-- Two scans of the same primitives from a no-hit record end with the same distance, and
either both or none with a hit. -/
theorem scanned_unique (hit : Int → Option ℚ) (r0 r1 r2 : Intersection) (S : Int → Prop)
    (h1 : Scanned cfg hit r0 r1 S) (h2 : Scanned cfg hit r0 r2 S)
    (h0 : r0.prim = cfg.PRIM_NONE) :
    r1.t = r2.t ∧ (r1.prim ≠ cfg.PRIM_NONE ↔ r2.prim ≠ cfg.PRIM_NONE) := by
  obtain ⟨a1, a2, a3⟩ := h1
  obtain ⟨b1, b2, b3⟩ := h2
  rcases a3 with rfl | ⟨c1, c2, p, c3, c4⟩
  · rcases b3 with rfl | ⟨e1, e2, q, e3, e4⟩
    · exact ⟨rfl, Iff.rfl⟩
    · exact absurd (a2 q _ e3 e4) (not_le.2 e2)
  · rcases b3 with rfl | ⟨e1, e2, q, e3, e4⟩
    · exact absurd (b2 p _ c3 c4) (not_le.2 c2)
    · exact ⟨le_antisymm (a2 q _ e3 e4) (b2 p _ c3 c4), ⟨fun _ => e1, fun _ => c1⟩⟩

/-- The flag of the linear scan: it is set exactly when the scan has lowered the
distance, and the record is the fold of the tests. -/
theorem scan_flag (hit : Int → Option ℚ) (ht : TestsHit cfg K kg ray hit) (L : List Int) :
    ∀ (f0 : Bool) (r0 : Intersection),
      (L.foldl (fun acc p => (acc.1 || (worldTest cfg K kg ray acc.2 p).1,
        (worldTest cfg K kg ray acc.2 p).2)) (f0, r0)).2 =
        L.foldl (fun r p => (worldTest cfg K kg ray r p).2) r0 ∧
      ((L.foldl (fun acc p => (acc.1 || (worldTest cfg K kg ray acc.2 p).1,
        (worldTest cfg K kg ray acc.2 p).2)) (f0, r0)).1 = true ↔
        f0 = true ∨ (L.foldl (fun r p => (worldTest cfg K kg ray r p).2) r0).t < r0.t) := by
  induction L with
  | nil =>
    intro f0 r0
    simp
  | cons p L ih =>
    intro f0 r0
    obtain ⟨i1, i2⟩ := ih (f0 || (worldTest cfg K kg ray r0 p).1) (worldTest cfg K kg ray r0 p).2
    have hF := (fold_scanned cfg K kg ray hit ht L (worldTest cfg K kg ray r0 p).2).1
    simp only [List.foldl_cons]
    refine ⟨i1, ?_⟩
    rw [i2]
    rcases test_cases cfg K kg ray hit ht r0 p with h | ⟨d, h1, h2, h3, h4, h5⟩
    · rw [h]
      simp
    · rw [h3]
      rw [h4] at hF
      simp only [Bool.or_true, true_or, true_iff]
      right
      exact lt_of_le_of_lt hF h2

end C1a

end QBVH


namespace QBVH

section C1b

variable (cfg : Config) (K : Collab) (kg : KernelGlobals) (ray : Ray)

theorem nodeTest_world (s0 s : State) (h : SameSpace s0 s) :
    nodeTest K kg s = nodeTest K kg { s0 with nodeAddr := s.nodeAddr } := by
  obtain ⟨_, _, _, _, h5, h6, h7, h8, h9, h10, h11, h12, h13, h14⟩ := h
  unfold nodeTest
  simp only [h5, h6, h7, h8, h9, h10, h11, h12, h13, h14]

/-- In the space of the initial state the loop body applies the world-space test. -/
theorem applyTest_world (isect0 : Intersection) (tfm0 : Transform) (s : State)
    (h : SameSpace (initState cfg K kg ray isect0 tfm0) s) (p : Int) :
    applyTest cfg K kg ray s p = { s with isect := (worldTest cfg K kg ray s.isect p).2 } := by
  obtain ⟨h1, h2, h3, h4, _⟩ := h
  unfold applyTest worldTest
  rw [h1, h2, h3, h4]
  rfl

theorem fold_world (isect0 : Intersection) (tfm0 : Transform) (L : List Int) :
    ∀ s : State, SameSpace (initState cfg K kg ray isect0 tfm0) s →
      (L.foldl (applyTest cfg K kg ray) s).isect =
        L.foldl (fun r p => (worldTest cfg K kg ray r p).2) s.isect := by
  induction L with
  | nil => intro s _; rfl
  | cons p L ih =>
    intro s hs
    simp only [List.foldl_cons]
    rw [applyTest_world cfg K kg ray isect0 tfm0 s hs p]
    exact ih _ hs

/-- The primitive loop of a leaf, run in world space, scans the primitives of the range
that pass the volume filter. -/
theorem leaf_scan (hit : Int → Option ℚ) (ht : TestsHit cfg K kg ray hit)
    (isect0 : Intersection) (tfm0 : Transform) (s : State)
    (hs : SameSpace (initState cfg K kg ray isect0 tfm0) s) (x : Int) (n : Nat) :
    Scanned cfg hit s.isect (primLoop cfg K kg ray s x n).isect
      (fun p => p ∈ primRange x n ∧ passesFilter cfg kg cfg.OBJECT_NONE p = true) := by
  have ho : s.object = cfg.OBJECT_NONE := hs.2.2.2.1
  rw [primLoop_eq_foldl, fold_world cfg K kg ray isect0 tfm0 _ s hs, ho]
  refine scanned_weaken cfg hit _ _ _ _ (fold_scanned cfg K kg ray hit ht _ s.isect) ?_ ?_
  · intro p hp
    exact List.mem_filter.1 hp
  · intro p d hp hn _
    exact absurd (List.mem_filter.2 hp) hn

theorem forestPrims_append (xs ys : List QTree) :
    forestPrims cfg kg (xs ++ ys) = forestPrims cfg kg xs ++ forestPrims cfg kg ys := by
  induction xs with
  | nil => rfl
  | cons x xs ih =>
    show treePrims cfg kg x ++ forestPrims cfg kg (xs ++ ys) = _
    rw [ih]
    simp [forestPrims]

theorem mem_forestPrims_map (f : Nat → QTree) (p : Int) (order : List Nat) :
    p ∈ forestPrims cfg kg (order.map f) ↔ ∃ i ∈ order, p ∈ treePrims cfg kg (f i) := by
  induction order with
  | nil => simp [forestPrims]
  | cons i order ih =>
    simp only [List.map_cons, forestPrims, List.mem_append, ih, List.mem_cons, exists_eq_or_imp]

theorem mem_node_prims (a : Int) (c0 c1 c2 c3 : QTree) (p : Int) :
    p ∈ treePrims cfg kg (QTree.node a c0 c1 c2 c3) ↔
      ∃ i, i < 4 ∧ p ∈ treePrims cfg kg ((QTree.node a c0 c1 c2 c3).child i) := by
  simp only [treePrims, List.mem_append]
  constructor
  · rintro (((h | h) | h) | h)
    · exact ⟨0, by omega, h⟩
    · exact ⟨1, by omega, h⟩
    · exact ⟨2, by omega, h⟩
    · exact ⟨3, by omega, h⟩
  · rintro ⟨i, hi, h⟩
    interval_cases i
    · exact Or.inl (Or.inl (Or.inl h))
    · exact Or.inl (Or.inl (Or.inr h))
    · exact Or.inl (Or.inr h)
    · exact Or.inr h

theorem not_hit_bit (m i : Nat) (hi : i < 4) (h : i ∉ hitList m) : m.testBit i = false := by
  by_contra hb
  apply h
  unfold hitList
  exact List.mem_filter.2 ⟨List.mem_range.2 hi, by simpa using hb⟩

theorem noInst_child (a : Int) (c0 c1 c2 c3 : QTree)
    (h : (QTree.node a c0 c1 c2 c3).NoInst) (i : Nat) :
    ((QTree.node a c0 c1 c2 c3).child i).NoInst := by
  obtain ⟨h0, h1, h2, h3⟩ := h
  simp only [QTree.child]
  split <;> assumption

theorem conservative_child (hit : Int → Option ℚ) (s0 : State) (a : Int)
    (c0 c1 c2 c3 : QTree) (h : Conservative cfg K kg ray hit s0 (QTree.node a c0 c1 c2 c3))
    (i : Nat) : Conservative cfg K kg ray hit s0 ((QTree.node a c0 c1 c2 c3).child i) := by
  obtain ⟨_, h0, h1, h2, h3⟩ := h
  simp only [QTree.child]
  split <;> assumption

theorem forest_children (Q : QTree → Prop) (a : Int) (c0 c1 c2 c3 : QTree)
    (rest : List QTree) (order : List Nat)
    (hc : ∀ i, Q ((QTree.node a c0 c1 c2 c3).child i))
    (h : ∀ t ∈ QTree.node a c0 c1 c2 c3 :: rest, Q t) :
    ∀ t ∈ order.map (QTree.node a c0 c1 c2 c3).child ++ rest, Q t := by
  intro t ht
  rcases List.mem_append.1 ht with h1 | h1
  · obtain ⟨i, _, rfl⟩ := List.mem_map.1 h1
    exact hc i
  · exact h t (List.mem_cons_of_mem _ h1)

/-- A primitive beneath a child that the node test does not report is not hit within
`[0, ray.t]`. -/
theorem unhit_far (hit : Int → Option ℚ) (isect0 : Intersection) (tfm0 : Transform)
    (a : Int) (c0 c1 c2 c3 : QTree) (s : State)
    (hs : SameSpace (initState cfg K kg ray isect0 tfm0) s) (hnode : s.nodeAddr = a)
    (hc : Conservative cfg K kg ray hit (initState cfg K kg ray isect0 tfm0)
      (QTree.node a c0 c1 c2 c3))
    (i : Nat) (hi : i < 4) (hni : i ∉ hitList (nodeTest K kg s).1) (p : Int)
    (hp : p ∈ treePrims cfg kg ((QTree.node a c0 c1 c2 c3).child i)) (d : ℚ)
    (hd : hit p = some d) : ray.t < d := by
  by_contra hle
  have hb := hc.1 i hi p hp d hd (not_lt.1 hle)
  have hn := not_hit_bit _ i hi hni
  rw [nodeTest_world K kg _ s hs, hnode] at hn
  rw [hb] at hn
  exact absurd hn (by simp)

/-- The walk of a forest without instance leaves scans the primitives beneath it: the
children a node test does not report hold no primitive that could lower the distance. -/
theorem walk_scan (hit : Int → Option ℚ) (ht : TestsHit cfg K kg ray hit)
    (isect0 : Intersection) (tfm0 : Transform)
    {ts : List QTree} {s : State} {base : Int} {n : Nat}
    (h : Walk cfg K kg ray ts s base n) :
    (∀ t ∈ ts, t.NoInst) →
    (∀ t ∈ ts, Conservative cfg K kg ray hit (initState cfg K kg ray isect0 tfm0) t) →
    SameSpace (initState cfg K kg ray isect0 tfm0) s → s.isect.t ≤ ray.t →
    SameSpace (initState cfg K kg ray isect0 tfm0) (iter cfg K kg ray n s) ∧
      Scanned cfg hit s.isect (iter cfg K kg ray n s).isect
        (fun p => p ∈ forestPrims cfg kg ts ∧ passesFilter cfg kg cfg.OBJECT_NONE p = true) := by
  induction h with
  | nil s base hpre =>
    intro _ _ hs _
    obtain ⟨h0, _, _, _, hn, hsp, hpc⟩ := hpre
    have hr : Scanned cfg hit s.isect s.isect
        (fun p => p ∈ forestPrims cfg kg [] ∧ passesFilter cfg kg cfg.OBJECT_NONE p = true) :=
      scanned_refl cfg hit _ _ (fun p d hp _ => absurd hp.1 (List.not_mem_nil p))
    split_ifs with hi
    · rw [(moves_end cfg K kg ray s hi hn h0).2.2]
      exact ⟨hs, hr⟩
    · exact ⟨hs, hr⟩
  | leaf a rest s base n hpre _ ih =>
    intro hni hcons hs hle
    obtain ⟨h0, hb, hbase, henc, hpc0, hnode, hsp0, hseg⟩ := hpre
    have he := (henc _ (List.mem_cons_self _ _)).2
    simp only [QTree.addr] at hnode
    obtain ⟨hneg, hp⟩ := he
    rw [← hnode] at hneg hp
    obtain ⟨_, m3⟩ := moves_leaf cfg K kg ray s hpc0 hneg hp
    have hl := leaf_scan cfg K kg ray hit ht isect0 tfm0 s hs (leafWords cfg kg s.nodeAddr).x
      ((leafWords cfg kg s.nodeAddr).y - (leafWords cfg kg s.nodeAddr).x).toNat
    have hs3 : SameSpace (initState cfg K kg ray isect0 tfm0) (iter cfg K kg ray 3 s) := by
      rw [m3]; exact hs
    have hi3 : (iter cfg K kg ray 3 s).isect =
        (primLoop cfg K kg ray s (leafWords cfg kg s.nodeAddr).x
          ((leafWords cfg kg s.nodeAddr).y - (leafWords cfg kg s.nodeAddr).x).toNat).isect := by
      rw [m3]
    obtain ⟨q1, q2⟩ := ih (fun t ht => hni t (List.mem_cons_of_mem _ ht))
      (fun t ht => hcons t (List.mem_cons_of_mem _ ht)) hs3
      (by rw [hi3]; exact le_trans hl.1 hle)
    rw [iter_add]
    refine ⟨q1, ?_⟩
    rw [hi3] at q2
    have h3 := scanned_trans cfg hit _ _ _ _ _ hl q2
    refine scanned_weaken cfg hit _ _ _ _ h3 ?_ ?_
    · intro p hp
      show p ∈ treePrims cfg kg (QTree.leaf a) ++ forestPrims cfg kg rest ∧ _
      rw [List.mem_append]
      rcases hp with hp | hp
      · refine ⟨Or.inl ?_, hp.2⟩
        rw [← hnode]
        exact hp.1
      · exact ⟨Or.inr hp.1, hp.2⟩
    · intro p d hp hn _
      exfalso
      apply hn
      obtain ⟨hp1, hp2⟩ := hp
      rcases List.mem_append.1 hp1 with h1 | h1
      · left
        refine ⟨?_, hp2⟩
        rw [← hnode] at h1
        exact h1
      · exact Or.inr ⟨h1, hp2⟩
  | skip a rest s base n hpre _ ih =>
    intro hni
    exact (hni _ (List.mem_cons_self _ _)).elim
  | inst a sub rest s base n1 n2 hpre _ _ _ _ =>
    intro hni
    exact (hni _ (List.mem_cons_self _ _)).elim
  | nodeHit a c0 c1 c2 c3 rest s base n order hpre hne hperm _ ih =>
    intro hni hcons hs hle
    obtain ⟨hst, _, hlt⟩ := node_step cfg K kg ray a c0 c1 c2 c3 rest s base hpre
    have hnode : s.nodeAddr = a := hpre.2.2.2.2.2.1
    obtain ⟨st, sp, nd, mx, hfr⟩ := traverseNode_frame cfg K kg s
    have hs1 : SameSpace (initState cfg K kg ray isect0 tfm0) (step cfg K kg ray s) := by
      rw [hst, hfr]; exact hs
    have hi1 : (step cfg K kg ray s).isect = s.isect := by
      rw [hst, hfr]
    obtain ⟨q1, q2⟩ := ih
      (forest_children QTree.NoInst a c0 c1 c2 c3 rest order
        (noInst_child a c0 c1 c2 c3 (hni _ (List.mem_cons_self _ _))) hni)
      (forest_children _ a c0 c1 c2 c3 rest order
        (conservative_child cfg K kg ray hit _ a c0 c1 c2 c3
          (hcons _ (List.mem_cons_self _ _))) hcons)
      hs1 (by rw [hi1]; exact hle)
    rw [iter_add, iter_one]
    refine ⟨q1, ?_⟩
    rw [hi1] at q2
    refine scanned_weaken cfg hit _ _ _ _ q2 ?_ ?_
    · intro p hp
      obtain ⟨hp1, hp2⟩ := hp
      refine ⟨?_, hp2⟩
      show p ∈ treePrims cfg kg (QTree.node a c0 c1 c2 c3) ++ forestPrims cfg kg rest
      rw [forestPrims_append, List.mem_append] at hp1
      rw [List.mem_append]
      rcases hp1 with h1 | h1
      · obtain ⟨i, hi, hpi⟩ := (mem_forestPrims_map cfg kg _ p order).1 h1
        exact Or.inl ((mem_node_prims cfg kg a c0 c1 c2 c3 p).2
          ⟨i, (mem_hitList _ i (hperm.mem_iff.1 hi)).1, hpi⟩)
      · exact Or.inr h1
    · intro p d hp hn hd
      obtain ⟨hp1, hp2⟩ := hp
      have hp1b : p ∈ treePrims cfg kg (QTree.node a c0 c1 c2 c3) ++ forestPrims cfg kg rest :=
        hp1
      rcases List.mem_append.1 hp1b with h1 | h1
      · obtain ⟨i, hi, hpi⟩ := (mem_node_prims cfg kg a c0 c1 c2 c3 p).1 h1
        have hni2 : i ∉ hitList (nodeTest K kg s).1 := by
          intro hmem
          apply hn
          refine ⟨?_, hp2⟩
          rw [forestPrims_append, List.mem_append]
          exact Or.inl ((mem_forestPrims_map cfg kg _ p order).2
            ⟨i, hperm.mem_iff.2 hmem, hpi⟩)
        have := unhit_far cfg K kg ray hit isect0 tfm0 a c0 c1 c2 c3 s hs hnode
          (hcons _ (List.mem_cons_self _ _)) i hi hni2 p hpi d hd
        exact le_trans hle (le_of_lt this)
      · exfalso
        apply hn
        refine ⟨?_, hp2⟩
        rw [forestPrims_append, List.mem_append]
        exact Or.inr h1
  | nodeMiss a c0 c1 c2 c3 rest s base n hpre hm _ ih =>
    intro hni hcons hs hle
    obtain ⟨hst, _, hlt⟩ := node_step cfg K kg ray a c0 c1 c2 c3 rest s base hpre
    have hnode : s.nodeAddr = a := hpre.2.2.2.2.2.1
    obtain ⟨st, sp, nd, mx, hfr⟩ := traverseNode_frame cfg K kg s
    have hs1 : SameSpace (initState cfg K kg ray isect0 tfm0) (step cfg K kg ray s) := by
      rw [hst, hfr]; exact hs
    have hi1 : (step cfg K kg ray s).isect = s.isect := by
      rw [hst, hfr]
    obtain ⟨q1, q2⟩ := ih (fun t ht => hni t (List.mem_cons_of_mem _ ht))
      (fun t ht => hcons t (List.mem_cons_of_mem _ ht)) hs1 (by rw [hi1]; exact hle)
    rw [iter_add, iter_one]
    refine ⟨q1, ?_⟩
    rw [hi1] at q2
    refine scanned_weaken cfg hit _ _ _ _ q2 ?_ ?_
    · intro p hp
      refine ⟨?_, hp.2⟩
      show p ∈ treePrims cfg kg (QTree.node a c0 c1 c2 c3) ++ forestPrims cfg kg rest
      exact List.mem_append.2 (Or.inr hp.1)
    · intro p d hp hn hd
      obtain ⟨hp1, hp2⟩ := hp
      have hp1b : p ∈ treePrims cfg kg (QTree.node a c0 c1 c2 c3) ++ forestPrims cfg kg rest :=
        hp1
      rcases List.mem_append.1 hp1b with h1 | h1
      · obtain ⟨i, hi, hpi⟩ := (mem_node_prims cfg kg a c0 c1 c2 c3 p).1 h1
        have hni2 : i ∉ hitList (nodeTest K kg s).1 := by
          rw [hitList_eq_nil _ hm]
          exact List.not_mem_nil i
        have := unhit_far cfg K kg ray hit isect0 tfm0 a c0 c1 c2 c3 s hs hnode
          (hcons _ (List.mem_cons_self _ _)) i hi hni2 p hpi d hd
        exact le_trans hle (le_of_lt this)
      · exact absurd ⟨h1, hp2⟩ hn

end C1b

end QBVH


namespace QBVH

section C1c

variable (cfg : Config) (K : Collab) (kg : KernelGlobals) (ray : Ray)

theorem sameSpace_refl (s : State) : SameSpace s s :=
  ⟨rfl, rfl, rfl, rfl, rfl, rfl, rfl, rfl, rfl, rfl, rfl, rfl, rfl, rfl⟩

/-- A scan from a no-hit record ends with a hit exactly when it has lowered the
distance. -/
theorem scanned_hit_iff (hit : Int → Option ℚ) (r0 r1 : Intersection) (S : Int → Prop)
    (h : Scanned cfg hit r0 r1 S) (h0 : r0.prim = cfg.PRIM_NONE) :
    r1.prim ≠ cfg.PRIM_NONE ↔ r1.t < r0.t := by
  obtain ⟨_, _, a3⟩ := h
  rcases a3 with rfl | ⟨c1, c2, _⟩
  · exact ⟨fun hh => absurd h0 hh, fun hh => absurd hh (lt_irrefl _)⟩
  · exact ⟨fun _ => c2, fun _ => c1⟩

/-- C1: in a well-formed scene without instance leaves whose leaf ranges hold exactly the
primitives of `prims`, with a node test that reports every child beneath which the ray can
hit a primitive within `[0, ray.t]` and primitive tests that overwrite the result exactly
when they find a strictly nearer hit, the traversal returns, and the distance it returns
lies in `[0, ray.t]` for a ray with the valid interval `[0, ray.t]` (it is at most `ray.t`,
and at least 0 when `ray.t` is), equals the distance the linear scan over the primitives
that pass the volume filter ends with, which is the minimum of `ray.t` and their hit
distances; the traversal returns `true` exactly when that scan finds a hit, and then the
distance is the hit distance of a primitive. -/
theorem C1_nearest_hit (t : QTree) (hwf : WellFormed cfg K kg t) (hni : t.NoInst)
    (prims : List Int) (hprims : (treePrims cfg kg t).Perm prims)
    (hit : Int → Option ℚ) (htest : TestsHit cfg K kg ray hit)
    (isect0 : Intersection) (tfm0 : Transform)
    (hcons : Conservative cfg K kg ray hit (initState cfg K kg ray isect0 tfm0) t) :
    ∃ n b r, (∀ m, n ≤ m → bvh_intersect_volume cfg K kg ray isect0 tfm0 m = some (b, r)) ∧
      r.t ≤ ray.t ∧ (0 ≤ ray.t → 0 ≤ r.t) ∧
      r.t = (linearScan cfg K kg ray isect0 prims).2.t ∧
      (b = true ↔ (linearScan cfg K kg ray isect0 prims).1 = true) ∧
      (∀ p ∈ prims, passesFilter cfg kg cfg.OBJECT_NONE p = true →
        ∀ d, hit p = some d → r.t ≤ d) ∧
      (b = true → ∃ p ∈ prims, passesFilter cfg kg cfg.OBJECT_NONE p = true ∧
        hit p = some r.t) := by
  obtain ⟨n, hw, hdone, hisect⟩ := traversal_walk cfg K kg ray t hwf isect0 tfm0
  have h0 : (initState cfg K kg ray isect0 tfm0).isect = noHitRecord cfg ray isect0 := rfl
  have hN : (noHitRecord cfg ray isect0).prim = cfg.PRIM_NONE := rfl
  have hT : (noHitRecord cfg ray isect0).t = ray.t := rfl
  obtain ⟨_, hsc⟩ := walk_scan cfg K kg ray hit htest isect0 tfm0 hw
    (fun x hx => by simp only [List.mem_singleton] at hx; subst hx; exact hni)
    (fun x hx => by simp only [List.mem_singleton] at hx; subst hx; exact hcons)
    (sameSpace_refl _) (by rw [h0, hT])
  rw [h0, ← hisect] at hsc
  have hmem : ∀ p, p ∈ forestPrims cfg kg [t] ↔ p ∈ prims := by
    intro p
    simp only [forestPrims, List.append_nil]
    exact hprims.mem_iff
  have hsc2 : Scanned cfg hit (noHitRecord cfg ray isect0)
      (iter cfg K kg ray (n + 2) (initState cfg K kg ray isect0 tfm0)).isect
      (fun p => p ∈ prims ∧ passesFilter cfg kg cfg.OBJECT_NONE p = true) :=
    scanned_weaken cfg hit _ _ _ _ hsc (fun p hp => ⟨(hmem p).1 hp.1, hp.2⟩)
      (fun p d hp hn _ => absurd ⟨(hmem p).2 hp.1, hp.2⟩ hn)
  obtain ⟨f1, f2⟩ := scan_flag cfg K kg ray hit htest
    (prims.filter (passesFilter cfg kg cfg.OBJECT_NONE)) false (noHitRecord cfg ray isect0)
  have hls : Scanned cfg hit (noHitRecord cfg ray isect0)
      (linearScan cfg K kg ray isect0 prims).2
      (fun p => p ∈ prims ∧ passesFilter cfg kg cfg.OBJECT_NONE p = true) := by
    unfold linearScan
    rw [f1]
    exact scanned_weaken cfg hit _ _ _ _ (fold_scanned cfg K kg ray hit htest _ _)
      (fun p hp => List.mem_filter.1 hp) (fun p d hp hn _ => absurd (List.mem_filter.2 hp) hn)
  have hflag : (linearScan cfg K kg ray isect0 prims).1 = true ↔
      (linearScan cfg K kg ray isect0 prims).2.t < (noHitRecord cfg ray isect0).t := by
    unfold linearScan
    rw [f2, f1]
    simp
  obtain ⟨u1, u2⟩ := scanned_unique cfg hit _ _ _ _ hsc2 hls hN
  have hi1 := scanned_hit_iff cfg hit _ _ _ hsc2 hN
  have hi2 := scanned_hit_iff cfg hit _ _ _ hls hN
  have hrun := run_done cfg K kg ray isect0 tfm0 (n + 2) hdone
  refine ⟨n + 2,
    decide ((iter cfg K kg ray (n + 2) (initState cfg K kg ray isect0 tfm0)).isect.prim ≠
      cfg.PRIM_NONE),
    (iter cfg K kg ray (n + 2) (initState cfg K kg ray isect0 tfm0)).isect,
    fun m hm => ?_, ?_, ?_, u1, ?_, ?_, ?_⟩
  · obtain ⟨k, rfl⟩ : ∃ k, m = n + 2 + k := ⟨m - (n + 2), by omega⟩
    exact nearest_mono cfg K kg ray isect0 tfm0 (n + 2) k _ hrun
  · exact hsc2.1
  · intro hray
    rcases hsc2.2.2 with he | ⟨_, _, p, _, hp⟩
    · rw [he, hT]; exact hray
    · exact htest.1 p _ hp
  · rw [decide_eq_true_iff, hflag, u2, hi2]
  · intro p hp hpass d hd
    exact hsc2.2.1 p d ⟨hp, hpass⟩ hd
  · intro hb
    rw [decide_eq_true_iff] at hb
    rcases hsc2.2.2 with he | ⟨_, _, p, hp, hd⟩
    · rw [he] at hb
      exact absurd hN hb
    · exact ⟨p, hp.1, hp.2, hd⟩

/-- The primitive tests of scene A find the hits of `hitA`, whatever the ray is. -/
theorem collabA_testsHit (r : Ray) : TestsHit demoConfig collabA sceneA r hitA := by
  have key : ∀ (rec : Intersection) (p : Int),
      worldTest demoConfig collabA sceneA r rec p = hitRec rec (hitA p) p (-1) := by
    intro rec p
    simp [worldTest, primDispatch, sceneA, demoConfig, collabA, demoCollab]
  refine ⟨?_, ?_, ?_⟩
  · intro p d hd
    unfold hitA at hd
    split_ifs at hd <;> simp at hd <;> rw [← hd] <;> norm_num
  · intro rec p d hd hlt
    rw [key, hd]
    have hp : p ≠ -1 := by
      intro hp
      rw [hp] at hd
      simp [hitA] at hd
    simp [hitRec, hlt, hp, demoConfig]
  · intro rec p h
    rw [key]
    cases hh : hitA p with
    | none => rfl
    | some d =>
      have := h d hh
      simp [hitRec, not_lt.2 this]

theorem treeA_facts (r : Ray) (isect0 : Intersection) (tfm0 : Transform) :
    treeA.NoInst ∧ (treePrims demoConfig sceneA treeA).Perm [0, 1, 2] ∧
      Conservative demoConfig collabA sceneA r hitA
        (initState demoConfig collabA sceneA r isect0 tfm0) treeA := by
  refine ⟨⟨trivial, trivial, trivial, trivial⟩, ?_, ?_⟩
  · have : treePrims demoConfig sceneA treeA = [0, 1, 2] := by
      simp [treeA, treePrims, leafWords, sceneA, demoConfig, primRange]
    rw [this]
  · refine ⟨?_, trivial, trivial, trivial, trivial⟩
    intro i hi p hp d _ _
    have hm : (nodeTest collabA sceneA
        { initState demoConfig collabA sceneA r isect0 tfm0 with nodeAddr := 0 }).1 = 3 := by
      simp [nodeTest, collabA, demoCollab, maskA]
    rw [hm]
    interval_cases i
    · decide
    · decide
    · simp [treeA, QTree.child, treePrims] at hp
    · simp [treeA, QTree.child, treePrims] at hp

/-- Witness of C1: scene A with the ray of extent 100; the primitives are hit at 5, 3
and 4. -/
theorem C1_nearest_hit_witness :
    ∃ n b r, (∀ m, n ≤ m →
        bvh_intersect_volume demoConfig collabA sceneA demoRay demoIsect demoTfm m =
          some (b, r)) ∧
      r.t ≤ demoRay.t ∧ (0 ≤ demoRay.t → 0 ≤ r.t) ∧
      r.t = (linearScan demoConfig collabA sceneA demoRay demoIsect [0, 1, 2]).2.t ∧
      (b = true ↔ (linearScan demoConfig collabA sceneA demoRay demoIsect [0, 1, 2]).1 = true) ∧
      (∀ p ∈ [0, 1, 2], passesFilter demoConfig sceneA demoConfig.OBJECT_NONE p = true →
        ∀ d, hitA p = some d → r.t ≤ d) ∧
      (b = true → ∃ p ∈ [0, 1, 2], passesFilter demoConfig sceneA demoConfig.OBJECT_NONE p = true ∧
        hitA p = some r.t) :=
  C1_nearest_hit demoConfig collabA sceneA demoRay treeA (treeA_wellFormed hitA 1 sceneA rfl rfl)
    (treeA_facts demoRay demoIsect demoTfm).1 [0, 1, 2]
    (treeA_facts demoRay demoIsect demoTfm).2.1 hitA (collabA_testsHit demoRay)
    demoIsect demoTfm (treeA_facts demoRay demoIsect demoTfm).2.2

end C1c

end QBVH


namespace QBVH

section C11

variable (cfg : Config) (K : Collab) (kg : KernelGlobals) (ray : Ray)

theorem bscf_single : ∀ i, i < 4 → bscf (2 ^ i) = (i, 0) := by decide

theorem bscf_pair : ∀ j, j < 4 → ∀ i, i < j → bscf (2 ^ i + 2 ^ j) = (i, 2 ^ j) := by decide

theorem bscf_triple : ∀ k, k < 4 → ∀ j, j < k → ∀ i, i < j →
    bscf (2 ^ i + 2 ^ j + 2 ^ k) = (i, 2 ^ j + 2 ^ k) := by decide

theorem pow_two_ne_zero (i : Nat) : 2 ^ i ≠ 0 := by positivity

/-- C12: when the node test reports exactly one hit child, child `i`, the pass of the inner
loop makes that child the current node and leaves the stack pointer, every stack entry and
every other variable as they are. -/
theorem C12_single_hit (s : State) (i : Nat) (hi : i < 4) (hpc : s.pc = PC.inner)
    (hnode : 0 ≤ s.nodeAddr ∧ s.nodeAddr ≠ cfg.ENTRYPOINT_SENTINEL)
    (hm : (nodeTest K kg s).1 = 2 ^ i) :
    step cfg K kg ray s = { s with nodeAddr := (childWords cfg kg s.nodeAddr).get i } ∧
    (step cfg K kg ray s).nodeAddr = (childWords cfg kg s.nodeAddr).get i ∧
    (step cfg K kg ray s).stackPtr = s.stackPtr ∧
    (step cfg K kg ray s).traversalStack = s.traversalStack ∧
    (step cfg K kg ray s).stackMax = s.stackMax := by
  have h1 : step cfg K kg ray s =
      { s with nodeAddr := (childWords cfg kg s.nodeAddr).get i } := by
    rw [step_inner_node cfg K kg ray s hpc hnode,
      traverseNode_one cfg K kg s (by rw [hm]; exact pow_two_ne_zero i)
        (by rw [hm, bscf_single i hi]),
      hm, bscf_single i hi]
  rw [h1]
  exact ⟨rfl, rfl, rfl, rfl, rfl⟩

/-- Witness of C12: the root of scene B, whose node test reports child 0 only. -/
theorem C12_single_hit_witness :
    step demoConfig collabB sceneB demoRay
        (initState demoConfig collabB sceneB demoRay demoIsect demoTfm) =
      { initState demoConfig collabB sceneB demoRay demoIsect demoTfm with
        nodeAddr := (childWords demoConfig sceneB
          (initState demoConfig collabB sceneB demoRay demoIsect demoTfm).nodeAddr).get 0 } ∧
    (step demoConfig collabB sceneB demoRay
        (initState demoConfig collabB sceneB demoRay demoIsect demoTfm)).nodeAddr =
      (childWords demoConfig sceneB
        (initState demoConfig collabB sceneB demoRay demoIsect demoTfm).nodeAddr).get 0 ∧
    (step demoConfig collabB sceneB demoRay
        (initState demoConfig collabB sceneB demoRay demoIsect demoTfm)).stackPtr =
      (initState demoConfig collabB sceneB demoRay demoIsect demoTfm).stackPtr ∧
    (step demoConfig collabB sceneB demoRay
        (initState demoConfig collabB sceneB demoRay demoIsect demoTfm)).traversalStack =
      (initState demoConfig collabB sceneB demoRay demoIsect demoTfm).traversalStack ∧
    (step demoConfig collabB sceneB demoRay
        (initState demoConfig collabB sceneB demoRay demoIsect demoTfm)).stackMax =
      (initState demoConfig collabB sceneB demoRay demoIsect demoTfm).stackMax :=
  C12_single_hit demoConfig collabB sceneB demoRay
    (initState demoConfig collabB sceneB demoRay demoIsect demoTfm) 0 (by decide) rfl
    (by decide) (by decide)

/-- C11: when the node test reports exactly two hit children, `i` the lower-indexed and
`j` the higher-indexed, with addresses `c0`, `c1` and entry distances `d0`, `d1`: if
`d1 < d0` the pass continues on `c1` and pushes `c0`, otherwise (also when `d0 = d1`) it
continues on `c0` and pushes `c1`. In both cases the stack pointer goes up by one, the new
top entry is the child not continued on, and every other stack entry is unchanged. -/
theorem C11_two_hits (s : State) (i j : Nat) (hij : i < j) (hj : j < 4)
    (hpc : s.pc = PC.inner)
    (hnode : 0 ≤ s.nodeAddr ∧ s.nodeAddr ≠ cfg.ENTRYPOINT_SENTINEL)
    (hm : (nodeTest K kg s).1 = 2 ^ i + 2 ^ j) :
    ((nodeTest K kg s).2.get j < (nodeTest K kg s).2.get i →
      step cfg K kg ray s =
        ({ s with nodeAddr := (childWords cfg kg s.nodeAddr).get j }).push
          ((childWords cfg kg s.nodeAddr).get i)) ∧
    (¬ (nodeTest K kg s).2.get j < (nodeTest K kg s).2.get i →
      step cfg K kg ray s =
        ({ s with nodeAddr := (childWords cfg kg s.nodeAddr).get i }).push
          ((childWords cfg kg s.nodeAddr).get j)) ∧
    (step cfg K kg ray s).stackPtr = s.stackPtr + 1 ∧
    (step cfg K kg ray s).nodeAddr =
      (if (nodeTest K kg s).2.get j < (nodeTest K kg s).2.get i
        then (childWords cfg kg s.nodeAddr).get j else (childWords cfg kg s.nodeAddr).get i) ∧
    (step cfg K kg ray s).traversalStack (s.stackPtr + 1) =
      (if (nodeTest K kg s).2.get j < (nodeTest K kg s).2.get i
        then (childWords cfg kg s.nodeAddr).get i else (childWords cfg kg s.nodeAddr).get j) ∧
    (∀ k, k ≠ s.stackPtr + 1 →
      (step cfg K kg ray s).traversalStack k = s.traversalStack k) := by
  have hb1 := bscf_pair j hj i hij
  have hb2 := bscf_single j hj
  have h1 : step cfg K kg ray s =
      if (nodeTest K kg s).2.get j < (nodeTest K kg s).2.get i then
        ({ s with nodeAddr := (childWords cfg kg s.nodeAddr).get j }).push
          ((childWords cfg kg s.nodeAddr).get i)
      else
        ({ s with nodeAddr := (childWords cfg kg s.nodeAddr).get i }).push
          ((childWords cfg kg s.nodeAddr).get j) := by
    rw [step_inner_node cfg K kg ray s hpc hnode,
      traverseNode_two cfg K kg s
        (by rw [hm]; positivity)
        (by rw [hm, hb1]; exact pow_two_ne_zero j)
        (by rw [hm, hb1]; show (bscf (2 ^ j)).2 = 0; rw [hb2]),
      hm, hb1]
    show (if (nodeTest K kg s).2.get (bscf (2 ^ j)).1 < _ then _ else _) = _
    rw [hb2]
  rw [h1]
  by_cases hlt : (nodeTest K kg s).2.get j < (nodeTest K kg s).2.get i
  · rw [if_pos hlt, if_pos hlt, if_pos hlt]
    refine ⟨fun _ => rfl, fun h => absurd hlt h, rfl, rfl, ?_, fun k hk => ?_⟩
    · simp [State.push]
    · simp [State.push, hk]
  · rw [if_neg hlt, if_neg hlt, if_neg hlt]
    refine ⟨fun h => absurd h hlt, fun _ => rfl, rfl, rfl, ?_, fun k hk => ?_⟩
    · simp [State.push]
    · simp [State.push, hk]

/-- Witness of C11: the root of scene A, whose node test reports children 0 and 1 at the
distances 1 and 2. -/
theorem C11_two_hits_witness :
    (step demoConfig collabA sceneA demoRay
      (initState demoConfig collabA sceneA demoRay demoIsect demoTfm)).stackPtr =
      (initState demoConfig collabA sceneA demoRay demoIsect demoTfm).stackPtr + 1 ∧
    (∀ k, k ≠ (initState demoConfig collabA sceneA demoRay demoIsect demoTfm).stackPtr + 1 →
      (step demoConfig collabA sceneA demoRay
        (initState demoConfig collabA sceneA demoRay demoIsect demoTfm)).traversalStack k =
        (initState demoConfig collabA sceneA demoRay demoIsect demoTfm).traversalStack k) :=
  ⟨(C11_two_hits demoConfig collabA sceneA demoRay
      (initState demoConfig collabA sceneA demoRay demoIsect demoTfm) 0 1 (by decide) (by decide)
      rfl (by decide) (by decide)).2.2.1,
    (C11_two_hits demoConfig collabA sceneA demoRay
      (initState demoConfig collabA sceneA demoRay demoIsect demoTfm) 0 1 (by decide) (by decide)
      rfl (by decide) (by decide)).2.2.2.2.2⟩

end C11

end QBVH


namespace QBVH

section C17

variable (cfg : Config) (K : Collab) (kg : KernelGlobals) (ray : Ray)

/-- C17: at an instance leaf whose object lacks `SD_OBJECT_HAS_VOLUME` the leaf branch only
clears the active object and pops: origin, direction, inverse direction, near/far offsets,
`tfar` and the whole stack are unchanged, no sentinel is written, the active object is
`OBJECT_NONE`, the current node is the former stack top and the stack pointer is one
lower. -/
theorem C17_instance_skip (s : State) (hpc : s.pc = PC.leafTest) (hneg : s.nodeAddr < 0)
    (hi : cfg.BVH_INSTANCING = true) (hx : (leafWords cfg kg s.nodeAddr).x < 0)
    (hf : kg.object_flag (kg.prim_object (-(leafWords cfg kg s.nodeAddr).x - 1)) &&&
      cfg.SD_OBJECT_HAS_VOLUME = 0) :
    step cfg K kg ray s =
      { s with pc := PC.midCond, object := cfg.OBJECT_NONE,
               nodeAddr := s.traversalStack s.stackPtr, stackPtr := s.stackPtr - 1 } ∧
    ((step cfg K kg ray s).P = s.P ∧ (step cfg K kg ray s).dir = s.dir ∧
      (step cfg K kg ray s).idir = s.idir ∧ (step cfg K kg ray s).isect = s.isect) ∧
    ((step cfg K kg ray s).near_x = s.near_x ∧ (step cfg K kg ray s).near_y = s.near_y ∧
      (step cfg K kg ray s).near_z = s.near_z ∧ (step cfg K kg ray s).far_x = s.far_x ∧
      (step cfg K kg ray s).far_y = s.far_y ∧ (step cfg K kg ray s).far_z = s.far_z) ∧
    (step cfg K kg ray s).tfar = s.tfar ∧
    ((step cfg K kg ray s).traversalStack = s.traversalStack ∧
      (step cfg K kg ray s).stackMax = s.stackMax) ∧
    (step cfg K kg ray s).object = cfg.OBJECT_NONE ∧
    (step cfg K kg ray s).nodeAddr = s.traversalStack s.stackPtr ∧
    (step cfg K kg ray s).stackPtr = s.stackPtr - 1 := by
  have h1 : step cfg K kg ray s =
      { s with pc := PC.midCond, object := cfg.OBJECT_NONE,
               nodeAddr := s.traversalStack s.stackPtr, stackPtr := s.stackPtr - 1 } := by
    rw [step_leafTest_leaf cfg K kg ray s hpc hneg,
      leafStep_instance cfg K kg ray s (by
        rintro (h | h)
        · rw [hi] at h; exact absurd h (by simp)
        · omega),
      instanceLeaf_skip cfg K kg ray s _ hf]
    rfl
  rw [h1]
  exact ⟨rfl, ⟨rfl, rfl, rfl, rfl⟩, ⟨rfl, rfl, rfl, rfl, rfl, rfl⟩, rfl, ⟨rfl, rfl⟩, rfl, rfl, rfl⟩

/-- Witness of C17: the instance leaf of scene S, reached after two moves. -/
theorem C17_instance_skip_witness :
    (step demoConfig collabB sceneS demoRay (iter demoConfig collabB sceneS demoRay 2
        (initState demoConfig collabB sceneS demoRay demoIsect demoTfm))).object =
      demoConfig.OBJECT_NONE ∧
    (step demoConfig collabB sceneS demoRay (iter demoConfig collabB sceneS demoRay 2
        (initState demoConfig collabB sceneS demoRay demoIsect demoTfm))).stackPtr =
      (iter demoConfig collabB sceneS demoRay 2
        (initState demoConfig collabB sceneS demoRay demoIsect demoTfm)).stackPtr - 1 :=
  ⟨(C17_instance_skip demoConfig collabB sceneS demoRay
      (iter demoConfig collabB sceneS demoRay 2
        (initState demoConfig collabB sceneS demoRay demoIsect demoTfm))
      (by decide) (by decide) (by decide) (by decide) (by decide)).2.2.2.2.2.1,
    (C17_instance_skip demoConfig collabB sceneS demoRay
      (iter demoConfig collabB sceneS demoRay 2
        (initState demoConfig collabB sceneS demoRay demoIsect demoTfm))
      (by decide) (by decide) (by decide) (by decide) (by decide)).2.2.2.2.2.2.2⟩

theorem instanceLeaf_space (s : State) (x : Int)
    (hf : kg.object_flag (kg.prim_object (-x - 1)) &&& cfg.SD_OBJECT_HAS_VOLUME ≠ 0) :
    (instanceLeaf cfg K kg ray s x).P = (pushedSpace cfg K kg ray s (kg.prim_object (-x - 1))).P ∧
    (instanceLeaf cfg K kg ray s x).dir =
      (pushedSpace cfg K kg ray s (kg.prim_object (-x - 1))).dir ∧
    (instanceLeaf cfg K kg ray s x).idir =
      (pushedSpace cfg K kg ray s (kg.prim_object (-x - 1))).idir ∧
    (instanceLeaf cfg K kg ray s x).isect.t =
      (pushedSpace cfg K kg ray s (kg.prim_object (-x - 1))).t ∧
    (instanceLeaf cfg K kg ray s x).tfar =
      (pushedSpace cfg K kg ray s (kg.prim_object (-x - 1))).t := by
  unfold instanceLeaf pushedSpace
  simp only [hf, ne_eq, not_false_eq_true, if_true]
  cases cfg.BVH_MOTION <;> simp [State.push, State.reload, State.setNearFar]

theorem instanceLeaf_nearFar (s : State) (x : Int)
    (hf : kg.object_flag (kg.prim_object (-x - 1)) &&& cfg.SD_OBJECT_HAS_VOLUME ≠ 0) :
    (instanceLeaf cfg K kg ray s x).near_x =
      (if (pushedSpace cfg K kg ray s (kg.prim_object (-x - 1))).idir.x ≥ 0 then 0 else 1) ∧
    (instanceLeaf cfg K kg ray s x).far_x =
      (if (pushedSpace cfg K kg ray s (kg.prim_object (-x - 1))).idir.x ≥ 0 then 1 else 0) ∧
    (instanceLeaf cfg K kg ray s x).near_y =
      (if (pushedSpace cfg K kg ray s (kg.prim_object (-x - 1))).idir.y ≥ 0 then 2 else 3) ∧
    (instanceLeaf cfg K kg ray s x).far_y =
      (if (pushedSpace cfg K kg ray s (kg.prim_object (-x - 1))).idir.y ≥ 0 then 3 else 2) ∧
    (instanceLeaf cfg K kg ray s x).near_z =
      (if (pushedSpace cfg K kg ray s (kg.prim_object (-x - 1))).idir.z ≥ 0 then 4 else 5) ∧
    (instanceLeaf cfg K kg ray s x).far_z =
      (if (pushedSpace cfg K kg ray s (kg.prim_object (-x - 1))).idir.z ≥ 0 then 5 else 4) := by
  unfold instanceLeaf pushedSpace
  simp only [hf, ne_eq, not_false_eq_true, if_true]
  cases cfg.BVH_MOTION <;> simp [State.push, State.reload, State.setNearFar]

/-- C18: at an instance leaf whose object `o = __prim_object[-primAddr-1]` has
`SD_OBJECT_HAS_VOLUME`, the leaf branch raises the stack pointer by one and stores
`ENTRYPOINT_SENTINEL` in the new top slot, leaving every other entry; the active object is
`o`, the current node is `__object_node[o]`; origin, direction, inverse direction and the
result's `t` are those the instance push returns; `tfar` is that `t`, and the near/far
offsets are recomputed from the pushed inverse direction. -/
theorem C18_instance_enter (s : State) (h : entersInstance cfg kg s) :
    (step cfg K kg ray s).stackPtr = s.stackPtr + 1 ∧
    (step cfg K kg ray s).traversalStack (s.stackPtr + 1) = cfg.ENTRYPOINT_SENTINEL ∧
    (∀ j, j ≠ s.stackPtr + 1 →
      (step cfg K kg ray s).traversalStack j = s.traversalStack j) ∧
    (step cfg K kg ray s).object = kg.prim_object (-(leafWords cfg kg s.nodeAddr).x - 1) ∧
    (step cfg K kg ray s).nodeAddr =
      kg.object_node (kg.prim_object (-(leafWords cfg kg s.nodeAddr).x - 1)) ∧
    ((step cfg K kg ray s).P = (pushedSpace cfg K kg ray s
        (kg.prim_object (-(leafWords cfg kg s.nodeAddr).x - 1))).P ∧
      (step cfg K kg ray s).dir = (pushedSpace cfg K kg ray s
        (kg.prim_object (-(leafWords cfg kg s.nodeAddr).x - 1))).dir ∧
      (step cfg K kg ray s).idir = (pushedSpace cfg K kg ray s
        (kg.prim_object (-(leafWords cfg kg s.nodeAddr).x - 1))).idir ∧
      (step cfg K kg ray s).isect.t = (pushedSpace cfg K kg ray s
        (kg.prim_object (-(leafWords cfg kg s.nodeAddr).x - 1))).t) ∧
    (step cfg K kg ray s).tfar = (step cfg K kg ray s).isect.t ∧
    ((step cfg K kg ray s).near_x = (if (step cfg K kg ray s).idir.x ≥ 0 then 0 else 1) ∧
      (step cfg K kg ray s).far_x = (if (step cfg K kg ray s).idir.x ≥ 0 then 1 else 0) ∧
      (step cfg K kg ray s).near_y = (if (step cfg K kg ray s).idir.y ≥ 0 then 2 else 3) ∧
      (step cfg K kg ray s).far_y = (if (step cfg K kg ray s).idir.y ≥ 0 then 3 else 2) ∧
      (step cfg K kg ray s).near_z = (if (step cfg K kg ray s).idir.z ≥ 0 then 4 else 5) ∧
      (step cfg K kg ray s).far_z = (if (step cfg K kg ray s).idir.z ≥ 0 then 5 else 4)) ∧
    (step cfg K kg ray s).pc = PC.midCond := by
  obtain ⟨hpc, hneg, hi, hx, hf⟩ := h
  have h1 : step cfg K kg ray s =
      { instanceLeaf cfg K kg ray s (leafWords cfg kg s.nodeAddr).x with pc := PC.midCond } := by
    rw [step_leafTest_leaf cfg K kg ray s hpc hneg,
      leafStep_instance cfg K kg ray s (by
        rintro (h | h)
        · rw [hi] at h; exact absurd h (by simp)
        · omega)]
  obtain ⟨g1, g2, g3, g4, g5, g6, g7, g8⟩ := instanceLeaf_enter cfg K kg ray s
    (leafWords cfg kg s.nodeAddr).x hf
  obtain ⟨p1, p2, p3, p4, p5⟩ := instanceLeaf_space cfg K kg ray s
    (leafWords cfg kg s.nodeAddr).x hf
  obtain ⟨n1, n2, n3, n4, n5, n6⟩ := instanceLeaf_nearFar cfg K kg ray s
    (leafWords cfg kg s.nodeAddr).x hf
  rw [h1]
  refine ⟨g3, g4, g5, g7, g2, ⟨p1, p2, p3, p4⟩, p5.trans p4.symm, ⟨?_, ?_, ?_, ?_, ?_, ?_⟩, rfl⟩
  · show (instanceLeaf cfg K kg ray s _).near_x =
      if (instanceLeaf cfg K kg ray s _).idir.x ≥ 0 then 0 else 1
    rw [n1, p3]
  · show (instanceLeaf cfg K kg ray s _).far_x =
      if (instanceLeaf cfg K kg ray s _).idir.x ≥ 0 then 1 else 0
    rw [n2, p3]
  · show (instanceLeaf cfg K kg ray s _).near_y =
      if (instanceLeaf cfg K kg ray s _).idir.y ≥ 0 then 2 else 3
    rw [n3, p3]
  · show (instanceLeaf cfg K kg ray s _).far_y =
      if (instanceLeaf cfg K kg ray s _).idir.y ≥ 0 then 3 else 2
    rw [n4, p3]
  · show (instanceLeaf cfg K kg ray s _).near_z =
      if (instanceLeaf cfg K kg ray s _).idir.z ≥ 0 then 4 else 5
    rw [n5, p3]
  · show (instanceLeaf cfg K kg ray s _).far_z =
      if (instanceLeaf cfg K kg ray s _).idir.z ≥ 0 then 5 else 4
    rw [n6, p3]

/-- Witness of C18: the instance leaf of scene B, reached after two moves. -/
theorem C18_instance_enter_witness :
    (step demoConfig collabB sceneB demoRay (iter demoConfig collabB sceneB demoRay 2
        (initState demoConfig collabB sceneB demoRay demoIsect demoTfm))).stackPtr =
      (iter demoConfig collabB sceneB demoRay 2
        (initState demoConfig collabB sceneB demoRay demoIsect demoTfm)).stackPtr + 1 ∧
    (step demoConfig collabB sceneB demoRay (iter demoConfig collabB sceneB demoRay 2
        (initState demoConfig collabB sceneB demoRay demoIsect demoTfm))).traversalStack
      ((iter demoConfig collabB sceneB demoRay 2
        (initState demoConfig collabB sceneB demoRay demoIsect demoTfm)).stackPtr + 1) =
      demoConfig.ENTRYPOINT_SENTINEL :=
  ⟨(C18_instance_enter demoConfig collabB sceneB demoRay
      (iter demoConfig collabB sceneB demoRay 2
        (initState demoConfig collabB sceneB demoRay demoIsect demoTfm)) (by decide)).1,
    (C18_instance_enter demoConfig collabB sceneB demoRay
      (iter demoConfig collabB sceneB demoRay 2
        (initState demoConfig collabB sceneB demoRay demoIsect demoTfm)) (by decide)).2.1⟩

/-- C19: when the sentinel has been popped and the stack pointer is still at least 0, the
move at line 289 is the instance exit: origin, direction, inverse direction and the
result's `t` are those the instance pop returns for the active object; `tfar` is that `t`
and the near/far offsets are recomputed from the restored inverse direction; the active
object is `OBJECT_NONE`; the current node is the entry beneath the sentinel and the stack
pointer is one lower; the stack itself is unchanged. -/
theorem C19_instance_exit (s : State) (h : leavesInstance cfg s) :
    ((step cfg K kg ray s).P = (poppedSpace cfg K kg ray s).P ∧
      (step cfg K kg ray s).dir = (poppedSpace cfg K kg ray s).dir ∧
      (step cfg K kg ray s).idir = (poppedSpace cfg K kg ray s).idir ∧
      (step cfg K kg ray s).isect.t = (poppedSpace cfg K kg ray s).t) ∧
    (step cfg K kg ray s).tfar = (step cfg K kg ray s).isect.t ∧
    ((step cfg K kg ray s).near_x = (if (step cfg K kg ray s).idir.x ≥ 0 then 0 else 1) ∧
      (step cfg K kg ray s).far_x = (if (step cfg K kg ray s).idir.x ≥ 0 then 1 else 0) ∧
      (step cfg K kg ray s).near_y = (if (step cfg K kg ray s).idir.y ≥ 0 then 2 else 3) ∧
      (step cfg K kg ray s).far_y = (if (step cfg K kg ray s).idir.y ≥ 0 then 3 else 2) ∧
      (step cfg K kg ray s).near_z = (if (step cfg K kg ray s).idir.z ≥ 0 then 4 else 5) ∧
      (step cfg K kg ray s).far_z = (if (step cfg K kg ray s).idir.z ≥ 0 then 5 else 4)) ∧
    (step cfg K kg ray s).object = cfg.OBJECT_NONE ∧
    (step cfg K kg ray s).nodeAddr = s.traversalStack s.stackPtr ∧
    (step cfg K kg ray s).stackPtr = s.stackPtr - 1 ∧
    (step cfg K kg ray s).traversalStack = s.traversalStack ∧
    (step cfg K kg ray s).pc = PC.outerCond := by
  obtain ⟨hpc, hi, hsp⟩ := h
  rw [step_outerIf_pop cfg K kg ray s hpc ⟨hi, hsp⟩]
  unfold instancePop poppedSpace
  cases cfg.BVH_MOTION <;>
    simp [State.pop, State.reload, State.setNearFar]

/-- Witness of C19: scene B after the walk of the instanced tree, seven moves in. -/
theorem C19_instance_exit_witness :
    (step demoConfig collabB sceneB demoRay (iter demoConfig collabB sceneB demoRay 7
        (initState demoConfig collabB sceneB demoRay demoIsect demoTfm))).object =
      demoConfig.OBJECT_NONE ∧
    (step demoConfig collabB sceneB demoRay (iter demoConfig collabB sceneB demoRay 7
        (initState demoConfig collabB sceneB demoRay demoIsect demoTfm))).stackPtr =
      (iter demoConfig collabB sceneB demoRay 7
        (initState demoConfig collabB sceneB demoRay demoIsect demoTfm)).stackPtr - 1 :=
  ⟨(C19_instance_exit demoConfig collabB sceneB demoRay
      (iter demoConfig collabB sceneB demoRay 7
        (initState demoConfig collabB sceneB demoRay demoIsect demoTfm)) (by decide)).2.2.2.1,
    (C19_instance_exit demoConfig collabB sceneB demoRay
      (iter demoConfig collabB sceneB demoRay 7
        (initState demoConfig collabB sceneB demoRay demoIsect demoTfm))
      (by decide)).2.2.2.2.2.1⟩

end C17

end QBVH


namespace QBVH

section C13

variable (cfg : Config) (K : Collab) (kg : KernelGlobals) (ray : Ray)

/-- The slow path for three hit children, lines 147-167. -/
theorem traverseNode_three (s : State) (h : (nodeTest K kg s).1 ≠ 0)
    (h1 : (bscf (nodeTest K kg s).1).2 ≠ 0)
    (h2 : (bscf (bscf (nodeTest K kg s).1).2).2 ≠ 0)
    (h3 : (bscf (bscf (bscf (nodeTest K kg s).1).2).2).2 = 0) :
    traverseNode cfg K kg s =
      ((((s.push ((childWords cfg kg s.nodeAddr).get (bscf (bscf (nodeTest K kg s).1).2).1)).push
          ((childWords cfg kg s.nodeAddr).get (bscf (nodeTest K kg s).1).1)).push
          ((childWords cfg kg s.nodeAddr).get
            (bscf (bscf (bscf (nodeTest K kg s).1).2).2).1)).sortTop3
        ((nodeTest K kg s).2.get (bscf (bscf (bscf (nodeTest K kg s).1).2).2).1)
        ((nodeTest K kg s).2.get (bscf (bscf (nodeTest K kg s).1).2).1)
        ((nodeTest K kg s).2.get (bscf (nodeTest K kg s).1).1)).pop := by
  unfold nodeTest at h h1 h2 h3
  unfold traverseNode childWords nodeTest
  simp only [h, h1, h2, h3, ne_eq, not_false_eq_true, if_true, if_false]

/-- The slow path for four hit children, lines 147-150 and 173-188. -/
theorem traverseNode_four (s : State) (h : (nodeTest K kg s).1 ≠ 0)
    (h1 : (bscf (nodeTest K kg s).1).2 ≠ 0)
    (h2 : (bscf (bscf (nodeTest K kg s).1).2).2 ≠ 0)
    (h3 : (bscf (bscf (bscf (nodeTest K kg s).1).2).2).2 ≠ 0) :
    traverseNode cfg K kg s =
      (((((s.push ((childWords cfg kg s.nodeAddr).get (bscf (bscf (nodeTest K kg s).1).2).1)).push
          ((childWords cfg kg s.nodeAddr).get (bscf (nodeTest K kg s).1).1)).push
          ((childWords cfg kg s.nodeAddr).get
            (bscf (bscf (bscf (bscf (nodeTest K kg s).1).2).2).2).1)).push
          ((childWords cfg kg s.nodeAddr).get
            (bscf (bscf (bscf (nodeTest K kg s).1).2).2).1)).sortTop4
        ((nodeTest K kg s).2.get (bscf (bscf (bscf (bscf (nodeTest K kg s).1).2).2).2).1)
        ((nodeTest K kg s).2.get (bscf (bscf (bscf (nodeTest K kg s).1).2).2).1)
        ((nodeTest K kg s).2.get (bscf (bscf (nodeTest K kg s).1).2).1)
        ((nodeTest K kg s).2.get (bscf (nodeTest K kg s).1).1)).pop := by
  unfold nodeTest at h h1 h2 h3
  unfold traverseNode childWords nodeTest
  simp only [h, h1, h2, h3, ne_eq, not_false_eq_true, if_true, if_false]

theorem sort3_equal (x1 x2 x3 : Int) (d : ℚ) :
    qbvh_stack_sort3 ⟨x1, x2, x3, d, d, d⟩ = ⟨x1, x2, x3, d, d, d⟩ := by
  simp [qbvh_stack_sort3]

theorem sort4_equal (x1 x2 x3 x4 : Int) (d : ℚ) :
    qbvh_stack_sort4 ⟨x1, x2, x3, x4, d, d, d, d⟩ = ⟨x1, x2, x3, x4, d, d, d, d⟩ := by
  simp [qbvh_stack_sort4]

theorem bscf_fifteen : bscf 15 = (0, 14) ∧ bscf 14 = (1, 12) ∧ bscf 12 = (2, 8) ∧
    bscf 8 = (3, 0) := by decide

/-- The pass of the inner loop for three hit children `i < j < k` with one common entry
distance. -/
theorem three_equal (s : State) (i j k : Nat) (hij : i < j) (hjk : j < k) (hk : k < 4)
    (hm : (nodeTest K kg s).1 = 2 ^ i + 2 ^ j + 2 ^ k)
    (e1 : (nodeTest K kg s).2.get i = (nodeTest K kg s).2.get j)
    (e2 : (nodeTest K kg s).2.get j = (nodeTest K kg s).2.get k) :
    (traverseNode cfg K kg s).nodeAddr = (childWords cfg kg s.nodeAddr).get k ∧
    (traverseNode cfg K kg s).stackPtr = s.stackPtr + 2 ∧
    (traverseNode cfg K kg s).traversalStack (s.stackPtr + 2) =
      (childWords cfg kg s.nodeAddr).get i ∧
    (traverseNode cfg K kg s).traversalStack (s.stackPtr + 1) =
      (childWords cfg kg s.nodeAddr).get j ∧
    (∀ n, n ≤ s.stackPtr → (traverseNode cfg K kg s).traversalStack n = s.traversalStack n) := by
  have hb1 := bscf_triple k hk j hjk i hij
  have hb2 := bscf_pair k hk j hjk
  have hb3 := bscf_single k hk
  have g1 : (bscf (nodeTest K kg s).1) = (i, 2 ^ j + 2 ^ k) := by rw [hm, hb1]
  have g2 : bscf (bscf (nodeTest K kg s).1).2 = (j, 2 ^ k) := by rw [g1]; exact hb2
  have g3 : bscf (bscf (bscf (nodeTest K kg s).1).2).2 = (k, 0) := by rw [g2]; exact hb3
  rw [traverseNode_three cfg K kg s (by rw [hm]; positivity) (by rw [g1]; positivity)
    (by rw [g2]; exact pow_two_ne_zero k) (by rw [g3]), g3, g2, g1]
  dsimp only
  rw [← e2, ← e1]
  generalize (nodeTest K kg s).2.get i = d
  generalize (childWords cfg kg s.nodeAddr).get i = a0
  generalize (childWords cfg kg s.nodeAddr).get j = a1
  generalize (childWords cfg kg s.nodeAddr).get k = a2
  obtain ⟨q1, q2, q3, q4, q5, _⟩ := push3_spec s a1 a0 a2
  obtain ⟨r1, r2, r3, r4, r5, _⟩ := sortTop3_pop_spec (((s.push a1).push a0).push a2)
    d d d a2 a0 a1
    (by rw [q1]; exact q2)
    (by rw [q1, show s.stackPtr + 3 - 1 = s.stackPtr + 2 by omega]; exact q3)
    (by rw [q1, show s.stackPtr + 3 - 2 = s.stackPtr + 1 by omega]; exact q4)
  rw [q1] at r2 r3 r4 r5
  rw [sort3_equal] at r1 r3 r4
  refine ⟨r1, by rw [r2]; omega, ?_, ?_, fun n hn => ?_⟩
  · rw [show s.stackPtr + 2 = s.stackPtr + 3 - 1 by omega]; exact r3
  · rw [show s.stackPtr + 1 = s.stackPtr + 3 - 2 by omega]; exact r4
  · rw [r5 n (by omega)]; exact q5 n hn

/-- The pass of the inner loop for four hit children with one common entry distance. -/
theorem four_equal (s : State) (hm : (nodeTest K kg s).1 = 15)
    (e1 : (nodeTest K kg s).2.get 0 = (nodeTest K kg s).2.get 1)
    (e2 : (nodeTest K kg s).2.get 1 = (nodeTest K kg s).2.get 2)
    (e3 : (nodeTest K kg s).2.get 2 = (nodeTest K kg s).2.get 3) :
    (traverseNode cfg K kg s).nodeAddr = (childWords cfg kg s.nodeAddr).get 2 ∧
    (traverseNode cfg K kg s).stackPtr = s.stackPtr + 3 ∧
    (traverseNode cfg K kg s).traversalStack (s.stackPtr + 3) =
      (childWords cfg kg s.nodeAddr).get 3 ∧
    (traverseNode cfg K kg s).traversalStack (s.stackPtr + 2) =
      (childWords cfg kg s.nodeAddr).get 0 ∧
    (traverseNode cfg K kg s).traversalStack (s.stackPtr + 1) =
      (childWords cfg kg s.nodeAddr).get 1 ∧
    (∀ n, n ≤ s.stackPtr → (traverseNode cfg K kg s).traversalStack n = s.traversalStack n) := by
  obtain ⟨b1, b2, b3, b4⟩ := bscf_fifteen
  have g1 : (bscf (nodeTest K kg s).1) = (0, 14) := by rw [hm, b1]
  have g2 : bscf (bscf (nodeTest K kg s).1).2 = (1, 12) := by rw [g1]; exact b2
  have g3 : bscf (bscf (bscf (nodeTest K kg s).1).2).2 = (2, 8) := by rw [g2]; exact b3
  have g4 : bscf (bscf (bscf (bscf (nodeTest K kg s).1).2).2).2 = (3, 0) := by rw [g3]; exact b4
  have n0 : (nodeTest K kg s).1 ≠ 0 := by rw [hm]; decide
  have n1 : (bscf (nodeTest K kg s).1).2 ≠ 0 := by rw [g1]; decide
  have n2 : (bscf (bscf (nodeTest K kg s).1).2).2 ≠ 0 := by rw [g2]; decide
  have n3 : (bscf (bscf (bscf (nodeTest K kg s).1).2).2).2 ≠ 0 := by rw [g3]; decide
  rw [traverseNode_four cfg K kg s n0 n1 n2 n3, g4, g3, g2, g1]
  dsimp only
  rw [← e3, ← e2, ← e1]
  generalize (nodeTest K kg s).2.get 0 = d
  generalize (childWords cfg kg s.nodeAddr).get 0 = a0
  generalize (childWords cfg kg s.nodeAddr).get 1 = a1
  generalize (childWords cfg kg s.nodeAddr).get 2 = a2
  generalize (childWords cfg kg s.nodeAddr).get 3 = a3
  obtain ⟨q1, q2, q3, q4, q5, q6, _⟩ := push4_spec s a1 a0 a3 a2
  obtain ⟨r1, r2, r3, r4, r5, r6, _⟩ := sortTop4_pop_spec ((((s.push a1).push a0).push a3).push a2)
    d d d d a2 a3 a0 a1
    (by rw [q1]; exact q2)
    (by rw [q1, show s.stackPtr + 4 - 1 = s.stackPtr + 3 by omega]; exact q3)
    (by rw [q1, show s.stackPtr + 4 - 2 = s.stackPtr + 2 by omega]; exact q4)
    (by rw [q1, show s.stackPtr + 4 - 3 = s.stackPtr + 1 by omega]; exact q5)
  rw [q1] at r2 r3 r4 r5 r6
  rw [sort4_equal] at r1 r3 r4 r5
  refine ⟨r1, by rw [r2]; omega, ?_, ?_, ?_, fun n hn => ?_⟩
  · rw [show s.stackPtr + 3 = s.stackPtr + 4 - 1 by omega]; exact r3
  · rw [show s.stackPtr + 2 = s.stackPtr + 4 - 2 by omega]; exact r4
  · rw [show s.stackPtr + 1 = s.stackPtr + 4 - 3 by omega]; exact r5
  · rw [r6 n (by omega)]; exact q6 n hn

/-- C13, the code at a failing input: in scene C with a root test that reports children
0, 1, 2 (addresses -2, -3, -4) at the entry distances 1, 2, 3, the pass continues on
child 1, whose distance is 2, and leaves child 0 (distance 1) on top of child 2 on the
stack. Line 161 hands `d1` with the entry of `c0` and `d0` with the entry of `c1`. -/
theorem C13_three_hit_order :
    (childWords demoConfig sceneC 0).get 0 = -2 ∧ (childWords demoConfig sceneC 0).get 1 = -3 ∧
    (childWords demoConfig sceneC 0).get 2 = -4 ∧
    (step demoConfig (collabT 7 ⟨1, 2, 3, 0⟩) sceneC demoRay
      (initState demoConfig (collabT 7 ⟨1, 2, 3, 0⟩) sceneC demoRay demoIsect demoTfm)).nodeAddr
      = -3 ∧
    (step demoConfig (collabT 7 ⟨1, 2, 3, 0⟩) sceneC demoRay
      (initState demoConfig (collabT 7 ⟨1, 2, 3, 0⟩) sceneC demoRay demoIsect demoTfm)).stackPtr
      = 2 ∧
    (step demoConfig (collabT 7 ⟨1, 2, 3, 0⟩) sceneC demoRay
      (initState demoConfig (collabT 7 ⟨1, 2, 3, 0⟩) sceneC demoRay demoIsect
        demoTfm)).traversalStack 2 = -2 ∧
    (step demoConfig (collabT 7 ⟨1, 2, 3, 0⟩) sceneC demoRay
      (initState demoConfig (collabT 7 ⟨1, 2, 3, 0⟩) sceneC demoRay demoIsect
        demoTfm)).traversalStack 1 = -4 := by
  decide

/-- C14, the code at the input of the claim: in scene C with a root test that reports all
four children (addresses -2, -3, -4, -5) at the entry distances 1, 4, 2, 3, the pass
continues on child 1 (distance 4) and leaves child 3, child 2, child 0 on the stack from
the top: the children are taken at distances 4, 3, 2, 1. Line 180 hands `d3` with the
entry of `c2`, `d2` with `c3`, `d1` with `c0` and `d0` with `c1`. -/
theorem C14_four_hit_order :
    (childWords demoConfig sceneC 0).get 0 = -2 ∧ (childWords demoConfig sceneC 0).get 1 = -3 ∧
    (childWords demoConfig sceneC 0).get 2 = -4 ∧ (childWords demoConfig sceneC 0).get 3 = -5 ∧
    (step demoConfig (collabT 15 ⟨1, 4, 2, 3⟩) sceneC demoRay
      (initState demoConfig (collabT 15 ⟨1, 4, 2, 3⟩) sceneC demoRay demoIsect
        demoTfm)).nodeAddr = -3 ∧
    (step demoConfig (collabT 15 ⟨1, 4, 2, 3⟩) sceneC demoRay
      (initState demoConfig (collabT 15 ⟨1, 4, 2, 3⟩) sceneC demoRay demoIsect
        demoTfm)).stackPtr = 3 ∧
    (step demoConfig (collabT 15 ⟨1, 4, 2, 3⟩) sceneC demoRay
      (initState demoConfig (collabT 15 ⟨1, 4, 2, 3⟩) sceneC demoRay demoIsect
        demoTfm)).traversalStack 3 = -5 ∧
    (step demoConfig (collabT 15 ⟨1, 4, 2, 3⟩) sceneC demoRay
      (initState demoConfig (collabT 15 ⟨1, 4, 2, 3⟩) sceneC demoRay demoIsect
        demoTfm)).traversalStack 2 = -4 ∧
    (step demoConfig (collabT 15 ⟨1, 4, 2, 3⟩) sceneC demoRay
      (initState demoConfig (collabT 15 ⟨1, 4, 2, 3⟩) sceneC demoRay demoIsect
        demoTfm)).traversalStack 1 = -2 := by
  decide

/-- C15, amended: when three or four children are hit and all of them have the same entry
distance, the sort swaps nothing and the children are taken in the order in which the
pass has put them on the stack: for three hit children `i < j < k` the pass continues on
child `k` and leaves child `i` on top of child `j`; for four it continues on child 2 and
leaves child 3, child 0, child 1 from the top. The entries beneath are unchanged. -/
theorem C15_equal_distances (s : State) (hpc : s.pc = PC.inner)
    (hnode : 0 ≤ s.nodeAddr ∧ s.nodeAddr ≠ cfg.ENTRYPOINT_SENTINEL) :
    (∀ i j k, i < j → j < k → k < 4 → (nodeTest K kg s).1 = 2 ^ i + 2 ^ j + 2 ^ k →
      (nodeTest K kg s).2.get i = (nodeTest K kg s).2.get j →
      (nodeTest K kg s).2.get j = (nodeTest K kg s).2.get k →
      (step cfg K kg ray s).nodeAddr = (childWords cfg kg s.nodeAddr).get k ∧
      (step cfg K kg ray s).stackPtr = s.stackPtr + 2 ∧
      (step cfg K kg ray s).traversalStack (s.stackPtr + 2) =
        (childWords cfg kg s.nodeAddr).get i ∧
      (step cfg K kg ray s).traversalStack (s.stackPtr + 1) =
        (childWords cfg kg s.nodeAddr).get j ∧
      (∀ n, n ≤ s.stackPtr → (step cfg K kg ray s).traversalStack n = s.traversalStack n)) ∧
    ((nodeTest K kg s).1 = 15 →
      (nodeTest K kg s).2.get 0 = (nodeTest K kg s).2.get 1 →
      (nodeTest K kg s).2.get 1 = (nodeTest K kg s).2.get 2 →
      (nodeTest K kg s).2.get 2 = (nodeTest K kg s).2.get 3 →
      (step cfg K kg ray s).nodeAddr = (childWords cfg kg s.nodeAddr).get 2 ∧
      (step cfg K kg ray s).stackPtr = s.stackPtr + 3 ∧
      (step cfg K kg ray s).traversalStack (s.stackPtr + 3) =
        (childWords cfg kg s.nodeAddr).get 3 ∧
      (step cfg K kg ray s).traversalStack (s.stackPtr + 2) =
        (childWords cfg kg s.nodeAddr).get 0 ∧
      (step cfg K kg ray s).traversalStack (s.stackPtr + 1) =
        (childWords cfg kg s.nodeAddr).get 1 ∧
      (∀ n, n ≤ s.stackPtr → (step cfg K kg ray s).traversalStack n = s.traversalStack n)) := by
  rw [step_inner_node cfg K kg ray s hpc hnode]
  exact ⟨fun i j k hij hjk hk hm e1 e2 => three_equal cfg K kg s i j k hij hjk hk hm e1 e2,
    fun hm e1 e2 e3 => four_equal cfg K kg s hm e1 e2 e3⟩

/-- Witness of C15: the root of scene C with three, and with four, children hit at the
distance 1. -/
theorem C15_equal_distances_witness :
    (step demoConfig (collabT 7 ⟨1, 1, 1, 0⟩) sceneC demoRay
      (initState demoConfig (collabT 7 ⟨1, 1, 1, 0⟩) sceneC demoRay demoIsect demoTfm)).nodeAddr
      = (childWords demoConfig sceneC
        (initState demoConfig (collabT 7 ⟨1, 1, 1, 0⟩) sceneC demoRay demoIsect
          demoTfm).nodeAddr).get 2 ∧
    (step demoConfig (collabT 15 ⟨1, 1, 1, 1⟩) sceneC demoRay
      (initState demoConfig (collabT 15 ⟨1, 1, 1, 1⟩) sceneC demoRay demoIsect demoTfm)).nodeAddr
      = (childWords demoConfig sceneC
        (initState demoConfig (collabT 15 ⟨1, 1, 1, 1⟩) sceneC demoRay demoIsect
          demoTfm).nodeAddr).get 2 :=
  ⟨((C15_equal_distances demoConfig (collabT 7 ⟨1, 1, 1, 0⟩) sceneC demoRay
      (initState demoConfig (collabT 7 ⟨1, 1, 1, 0⟩) sceneC demoRay demoIsect demoTfm) rfl
      (by decide)).1 0 1 2 (by decide) (by decide) (by decide) (by decide) (by decide)
      (by decide)).1,
    ((C15_equal_distances demoConfig (collabT 15 ⟨1, 1, 1, 1⟩) sceneC demoRay
      (initState demoConfig (collabT 15 ⟨1, 1, 1, 1⟩) sceneC demoRay demoIsect demoTfm) rfl
      (by decide)).2 (by decide) (by decide) (by decide) (by decide)).1⟩

/-- C15 as stated fails: with children 0, 1, 2 of the root of scene C (addresses -2, -3,
-4) all hit at the distance 1, the pass continues on child 2 and then takes child 0 and
child 1, not child 0 first. -/
theorem C15_counterexample :
    (childWords demoConfig sceneC 0).get 0 = -2 ∧ (childWords demoConfig sceneC 0).get 1 = -3 ∧
    (childWords demoConfig sceneC 0).get 2 = -4 ∧
    (nodeTest (collabT 7 ⟨1, 1, 1, 0⟩) sceneC
      (initState demoConfig (collabT 7 ⟨1, 1, 1, 0⟩) sceneC demoRay demoIsect demoTfm)).1 = 7 ∧
    (step demoConfig (collabT 7 ⟨1, 1, 1, 0⟩) sceneC demoRay
      (initState demoConfig (collabT 7 ⟨1, 1, 1, 0⟩) sceneC demoRay demoIsect demoTfm)).nodeAddr
      = -4 ∧
    (step demoConfig (collabT 7 ⟨1, 1, 1, 0⟩) sceneC demoRay
      (initState demoConfig (collabT 7 ⟨1, 1, 1, 0⟩) sceneC demoRay demoIsect
        demoTfm)).traversalStack 2 = -2 ∧
    (step demoConfig (collabT 7 ⟨1, 1, 1, 0⟩) sceneC demoRay
      (initState demoConfig (collabT 7 ⟨1, 1, 1, 0⟩) sceneC demoRay demoIsect
        demoTfm)).traversalStack 1 = -3 := by
  decide

end C13

end QBVH


namespace QBVH

section C16

variable (cfg : Config) (K : Collab) (kg : KernelGlobals) (ray : Ray)

theorem step_enter (s : State) (h : entersInstance cfg kg s) :
    step cfg K kg ray s =
      { instanceLeaf cfg K kg ray s (leafWords cfg kg s.nodeAddr).x with pc := PC.midCond } := by
  obtain ⟨hpc, hneg, hi, hx, hf⟩ := h
  rw [step_leafTest_leaf cfg K kg ray s hpc hneg,
    leafStep_instance cfg K kg ray s (by
      rintro (h | h)
      · rw [hi] at h; exact absurd h (by simp)
      · omega)]

theorem instancePop_interval (s : State) :
    (instancePop cfg K kg ray s).tfar = (instancePop cfg K kg ray s).isect.t ∧
    (instancePop cfg K kg ray s).tnear = s.tnear := by
  unfold instancePop
  cases cfg.BVH_MOTION <;> simp [State.pop, State.reload, State.setNearFar]

theorem instanceLeaf_tnear (s : State) (x : Int) :
    (instanceLeaf cfg K kg ray s x).tnear = s.tnear := by
  unfold instanceLeaf
  dsimp only
  split_ifs <;> simp [State.pop, State.push, State.reload, State.setNearFar]

/-- No move changes `tnear`. -/
theorem step_tnear (s : State) : (step cfg K kg ray s).tnear = s.tnear := by
  rcases hpc : s.pc with _ | _ | _ | _ | _ | _
  · by_cases hn : 0 ≤ s.nodeAddr ∧ s.nodeAddr ≠ cfg.ENTRYPOINT_SENTINEL
    · rw [step_inner_node cfg K kg ray s hpc hn]
      obtain ⟨st, sp, nd, mx, he⟩ := traverseNode_frame cfg K kg s
      rw [he]
    · rw [step_inner_exit cfg K kg ray s hpc hn]
  · by_cases hn : s.nodeAddr < 0
    · rw [step_leafTest_leaf cfg K kg ray s hpc hn]
      by_cases hp : cfg.BVH_INSTANCING = false ∨ (leafWords cfg kg s.nodeAddr).x ≥ 0
      · rw [leafStep_prims cfg K kg ray s hp]
        obtain ⟨r, hr⟩ := primLoop_frame cfg K kg ray
          ((leafWords cfg kg s.nodeAddr).y - (leafWords cfg kg s.nodeAddr).x).toNat s.pop
          (leafWords cfg kg s.nodeAddr).x
        rw [hr]
        rfl
      · rw [leafStep_instance cfg K kg ray s hp]
        exact instanceLeaf_tnear cfg K kg ray s _
    · rw [step_leafTest_skip cfg K kg ray s hpc hn]
  · rw [step_midCond cfg K kg ray s hpc]
  · by_cases hi : cfg.BVH_INSTANCING = true ∧ 0 ≤ s.stackPtr
    · rw [step_outerIf_pop cfg K kg ray s hpc hi]
      exact (instancePop_interval cfg K kg ray s).2
    · rw [step_outerIf_skip cfg K kg ray s hpc hi]
  · rw [step_outerCond cfg K kg ray s hpc]
  · rw [step_done cfg K kg ray s hpc]

/-- What a move does to `tfar`: an instance push or pop sets it to the result's new `t`,
every other move leaves it. -/
theorem step_tfar (s : State) :
    (¬ entersInstance cfg kg s → ¬ leavesInstance cfg s →
      (step cfg K kg ray s).tfar = s.tfar) ∧
    (entersInstance cfg kg s ∨ leavesInstance cfg s →
      (step cfg K kg ray s).tfar = (step cfg K kg ray s).isect.t) := by
  refine ⟨fun h1 h2 => ?_, fun h => ?_⟩
  · rcases hpc : s.pc with _ | _ | _ | _ | _ | _
    · by_cases hn : 0 ≤ s.nodeAddr ∧ s.nodeAddr ≠ cfg.ENTRYPOINT_SENTINEL
      · rw [step_inner_node cfg K kg ray s hpc hn]
        obtain ⟨st, sp, nd, mx, he⟩ := traverseNode_frame cfg K kg s
        rw [he]
      · rw [step_inner_exit cfg K kg ray s hpc hn]
    · by_cases hn : s.nodeAddr < 0
      · rw [step_leafTest_leaf cfg K kg ray s hpc hn]
        by_cases hp : cfg.BVH_INSTANCING = false ∨ (leafWords cfg kg s.nodeAddr).x ≥ 0
        · rw [leafStep_prims cfg K kg ray s hp]
          obtain ⟨r, hr⟩ := primLoop_frame cfg K kg ray
            ((leafWords cfg kg s.nodeAddr).y - (leafWords cfg kg s.nodeAddr).x).toNat s.pop
            (leafWords cfg kg s.nodeAddr).x
          rw [hr]
          rfl
        · rw [leafStep_instance cfg K kg ray s hp]
          have hflag : kg.object_flag
              (kg.prim_object (-(leafWords cfg kg s.nodeAddr).x - 1)) &&&
              cfg.SD_OBJECT_HAS_VOLUME = 0 := by
            by_contra hne
            apply h1
            simp only [not_or, Bool.not_eq_false, ge_iff_le, not_le] at hp
            exact ⟨hpc, hn, hp.1, hp.2, hne⟩
          rw [instanceLeaf_skip cfg K kg ray s _ hflag]
          rfl
      · rw [step_leafTest_skip cfg K kg ray s hpc hn]
    · rw [step_midCond cfg K kg ray s hpc]
    · have hh : ¬ (cfg.BVH_INSTANCING = true ∧ 0 ≤ s.stackPtr) :=
        fun hh => h2 ⟨hpc, hh.1, hh.2⟩
      rw [step_outerIf_skip cfg K kg ray s hpc hh]
    · rw [step_outerCond cfg K kg ray s hpc]
    · rw [step_done cfg K kg ray s hpc]
  · rcases h with h | h
    · rw [step_enter cfg K kg ray s h]
      obtain ⟨_, _, _, p4, p5⟩ := instanceLeaf_space cfg K kg ray s
        (leafWords cfg kg s.nodeAddr).x h.2.2.2.2
      exact p5.trans p4.symm
    · rw [step_outerIf_pop cfg K kg ray s h.1 ⟨h.2.1, h.2.2⟩]
      exact (instancePop_interval cfg K kg ray s).1

theorem step_interval (hN : Narrowing K) (s : State) (h : s.isect.t ≤ s.tfar) :
    (step cfg K kg ray s).isect.t ≤ (step cfg K kg ray s).tfar := by
  by_cases hq : entersInstance cfg kg s ∨ leavesInstance cfg s
  · rw [(step_tfar cfg K kg ray s).2 hq]
  · rw [not_or] at hq
    obtain ⟨a, b⟩ := step_narrow cfg K kg ray hN s hq.1 hq.2
    rw [b]
    exact le_trans a h

theorem iter_interval (hN : Narrowing K) (isect0 : Intersection) (tfm0 : Transform) (k : Nat) :
    (iter cfg K kg ray k (initState cfg K kg ray isect0 tfm0)).tnear = 0 ∧
    (iter cfg K kg ray k (initState cfg K kg ray isect0 tfm0)).isect.t ≤
      (iter cfg K kg ray k (initState cfg K kg ray isect0 tfm0)).tfar := by
  induction k with
  | zero => exact ⟨rfl, le_refl _⟩
  | succ k ih =>
    rw [iter_succ_last]
    exact ⟨(step_tnear cfg K kg ray _).trans ih.1, step_interval cfg K kg ray hN _ ih.2⟩

theorem quiet_tfar (isect0 : Intersection) (tfm0 : Transform) (k : Nat)
    (h : ∀ j, j < k →
      ¬ entersInstance cfg kg (iter cfg K kg ray j (initState cfg K kg ray isect0 tfm0)) ∧
      ¬ leavesInstance cfg (iter cfg K kg ray j (initState cfg K kg ray isect0 tfm0))) :
    (iter cfg K kg ray k (initState cfg K kg ray isect0 tfm0)).tfar = ray.t := by
  induction k with
  | zero => rfl
  | succ k ih =>
    rw [iter_succ_last, (step_tfar cfg K kg ray _).1 (h k (Nat.lt_succ_self k)).1
      (h k (Nat.lt_succ_self k)).2]
    exact ih (fun j hj => h j (Nat.lt_succ_of_lt hj))

/-- C16, amended: at every loop test, hence at every ray-node test, `tnear` is 0 and `tfar`
is the distance handed over when the current space was entered: `ray.t` as long as no
instance push or pop has been executed, and the result's `t` as left by the last instance
push or pop afterwards. Primitive tests do not change `tfar`: with tests that only ever
store a smaller `t`, the stored distance is at most `tfar`. -/
theorem C16_node_interval (hN : Narrowing K) (isect0 : Intersection) (tfm0 : Transform)
    (k : Nat) :
    (iter cfg K kg ray k (initState cfg K kg ray isect0 tfm0)).tnear = 0 ∧
    (iter cfg K kg ray k (initState cfg K kg ray isect0 tfm0)).isect.t ≤
      (iter cfg K kg ray k (initState cfg K kg ray isect0 tfm0)).tfar ∧
    (¬ entersInstance cfg kg (iter cfg K kg ray k (initState cfg K kg ray isect0 tfm0)) →
      ¬ leavesInstance cfg (iter cfg K kg ray k (initState cfg K kg ray isect0 tfm0)) →
      (iter cfg K kg ray (k + 1) (initState cfg K kg ray isect0 tfm0)).tfar =
        (iter cfg K kg ray k (initState cfg K kg ray isect0 tfm0)).tfar) ∧
    (entersInstance cfg kg (iter cfg K kg ray k (initState cfg K kg ray isect0 tfm0)) ∨
      leavesInstance cfg (iter cfg K kg ray k (initState cfg K kg ray isect0 tfm0)) →
      (iter cfg K kg ray (k + 1) (initState cfg K kg ray isect0 tfm0)).tfar =
        (iter cfg K kg ray (k + 1) (initState cfg K kg ray isect0 tfm0)).isect.t) ∧
    ((∀ j, j < k →
      ¬ entersInstance cfg kg (iter cfg K kg ray j (initState cfg K kg ray isect0 tfm0)) ∧
      ¬ leavesInstance cfg (iter cfg K kg ray j (initState cfg K kg ray isect0 tfm0))) →
      (iter cfg K kg ray k (initState cfg K kg ray isect0 tfm0)).tfar = ray.t) := by
  obtain ⟨a, b⟩ := iter_interval cfg K kg ray hN isect0 tfm0 k
  refine ⟨a, b, ?_, ?_, quiet_tfar cfg K kg ray isect0 tfm0 k⟩
  · rw [iter_succ_last]
    exact (step_tfar cfg K kg ray _).1
  · rw [iter_succ_last]
    exact (step_tfar cfg K kg ray _).2

/-- Witness of C16: scene D at the node test of node 2, after primitive 0 has been hit. -/
theorem C16_node_interval_witness :
    (iter demoConfig collabD sceneD demoRay 4
      (initState demoConfig collabD sceneD demoRay demoIsect demoTfm)).tnear = 0 ∧
    (iter demoConfig collabD sceneD demoRay 4
      (initState demoConfig collabD sceneD demoRay demoIsect demoTfm)).isect.t ≤
      (iter demoConfig collabD sceneD demoRay 4
        (initState demoConfig collabD sceneD demoRay demoIsect demoTfm)).tfar :=
  ⟨(C16_node_interval demoConfig collabD sceneD demoRay (demoCollab_narrowing _ _ _)
      demoIsect demoTfm 4).1,
    (C16_node_interval demoConfig collabD sceneD demoRay (demoCollab_narrowing _ _ _)
      demoIsect demoTfm 4).2.1⟩

/-- C16 as stated fails: in scene D the leaf with primitive 0 is visited first and the
hit lowers the stored distance to 5; at the loop test that runs the node test of node 2
afterwards `tfar` is still 100. -/
theorem C16_counterexample :
    Narrowing collabD ∧
    (iter demoConfig collabD sceneD demoRay 4
      (initState demoConfig collabD sceneD demoRay demoIsect demoTfm)).pc = PC.inner ∧
    (iter demoConfig collabD sceneD demoRay 4
      (initState demoConfig collabD sceneD demoRay demoIsect demoTfm)).nodeAddr = 2 ∧
    (iter demoConfig collabD sceneD demoRay 4
      (initState demoConfig collabD sceneD demoRay demoIsect demoTfm)).isect.t = 5 ∧
    (iter demoConfig collabD sceneD demoRay 4
      (initState demoConfig collabD sceneD demoRay demoIsect demoTfm)).tfar = 100 ∧
    (iter demoConfig collabD sceneD demoRay 4
      (initState demoConfig collabD sceneD demoRay demoIsect demoTfm)).tfar ≠
      (iter demoConfig collabD sceneD demoRay 4
        (initState demoConfig collabD sceneD demoRay demoIsect demoTfm)).isect.t := by
  refine ⟨demoCollab_narrowing _ _ _, by decide, by decide, by decide, by decide, by decide⟩

end C16

end QBVH


namespace QBVH

section C20

variable (cfg : Config) (K : Collab) (kg : KernelGlobals) (ray : Ray)

theorem pre_bottom {ts : List QTree} {u : State} {base : Int}
    (h : Pre cfg K kg ts u base) :
    base - 1 ≤ u.stackPtr ∧ (u.stackPtr = base - 1 → u.nodeAddr = cfg.ENTRYPOINT_SENTINEL) := by
  obtain ⟨_, _, _, _, hm⟩ := h
  cases ts with
  | nil =>
    obtain ⟨h1, h2, _⟩ := hm
    exact ⟨by omega, fun _ => h1⟩
  | cons t rest =>
    obtain ⟨_, _, h2, _⟩ := hm
    exact ⟨by omega, fun hh => by omega⟩

theorem running_mono {base base2 : Int} {u : State} (h : Running cfg base2 u)
    (hb : base + 1 ≤ base2) : Running cfg base u := by
  obtain ⟨h1, h2, h3, h4⟩ := h
  exact ⟨by omega, fun hh => by omega, h3, h4⟩

theorem running_of {base : Int} {u : State}
    (hb : base - 1 ≤ u.stackPtr ∧ (u.stackPtr = base - 1 → u.nodeAddr = cfg.ENTRYPOINT_SENTINEL))
    (h1 : u.pc ≠ PC.done) (h2 : u.pc ≠ PC.outerIf) : Running cfg base u :=
  ⟨hb.1, hb.2, h1, fun h => absurd h h2⟩

/-- Every state before the end of a walk is in the middle of it. -/
theorem walk_running {ts : List QTree} {s : State} {base : Int} {n : Nat}
    (h : Walk cfg K kg ray ts s base n) :
    ∀ k, k < n → Running cfg base (iter cfg K kg ray k s) := by
  induction h with
  | nil s base hpre =>
    have hb := pre_bottom cfg K kg hpre
    obtain ⟨h0, _, _, _, hn, hsp, hpc⟩ := hpre
    split_ifs with hi
    · obtain ⟨m1, m2, m3⟩ := moves_end cfg K kg ray s hi hn h0
      refine forall_lt_three cfg K kg ray _ s ?_ ?_ ?_
      · exact running_of cfg hb (by rw [hi]; simp) (by rw [hi]; simp)
      · rw [m1]; exact running_of cfg hb (by simp) (by simp)
      · rw [m2]; exact running_of cfg hb (by simp) (by simp)
    · intro k hk
      omega
  | leaf a rest s base n hpre _ ih =>
    refine forall_lt_add cfg K kg ray _ 3 n s ?_ ih
    have hb := pre_bottom cfg K kg hpre
    have hb3 := pre_bottom cfg K kg (pre_after_leaf cfg K kg ray a rest s base hpre)
    obtain ⟨h0, _, hbase, henc, hpc0, hnode, hsp0, hseg⟩ := hpre
    have he := (henc _ (List.mem_cons_self _ _)).2
    simp only [QTree.addr] at hnode
    obtain ⟨hneg, hp⟩ := he
    rw [← hnode] at hneg hp
    obtain ⟨m2, m3⟩ := moves_leaf cfg K kg ray s hpc0 hneg hp
    rw [m3] at hb3
    refine forall_lt_three cfg K kg ray _ s ?_ ?_ ?_
    · exact running_of cfg hb (by rw [hpc0]; simp) (by rw [hpc0]; simp)
    · rw [iter_one, leaf_first cfg K kg ray s hpc0 hneg]
      exact running_of cfg hb (by simp) (by simp)
    · rw [m2]
      exact running_of cfg hb3 (by simp) (by simp)
  | skip a rest s base n hpre _ ih =>
    refine forall_lt_add cfg K kg ray _ 3 n s ?_ ih
    have hb := pre_bottom cfg K kg hpre
    have hb3 := pre_bottom cfg K kg (pre_after_skip cfg K kg ray a rest s base hpre)
    obtain ⟨h0, _, hbase, henc, hpc0, hnode, hsp0, hseg⟩ := hpre
    have he := (henc _ (List.mem_cons_self _ _)).2
    simp only [QTree.addr] at hnode
    obtain ⟨hneg, hi2, hx, hf⟩ := he
    rw [← hnode] at hneg hx hf
    obtain ⟨m2, m3⟩ := moves_skip cfg K kg ray s hpc0 hneg hi2 hx hf
    rw [m3] at hb3
    refine forall_lt_three cfg K kg ray _ s ?_ ?_ ?_
    · exact running_of cfg hb (by rw [hpc0]; simp) (by rw [hpc0]; simp)
    · rw [iter_one, leaf_first cfg K kg ray s hpc0 hneg]
      exact running_of cfg hb (by simp) (by simp)
    · rw [m2]
      exact running_of cfg hb3 (by simp) (by simp)
  | inst a sub rest s base n1 n2 hpre hw1 _ ih1 ih2 =>
    have hE := walk_ended cfg K kg ray hw1
    have hpcE := walk_pc cfg K kg ray hw1 0 (inst_sub_calm cfg K kg a sub rest s base hpre 0)
      (by rw [(enter_state cfg K kg ray a sub rest s base hpre).1]; simp)
    obtain ⟨hx1, hx2⟩ := exit_state cfg K kg ray a sub rest s base n1 hpre hE hpcE
    have hb := pre_bottom cfg K kg hpre
    have hbE := pre_bottom cfg K kg
      (pre_after_inst cfg K kg ray a sub rest s base n1 hpre hE hpcE)
    obtain ⟨k1, k2⟩ := enter_pcs cfg K kg ray a sub rest s base hpre
    obtain ⟨e1, e2, e3, e4⟩ := enter_mid cfg K kg ray a sub rest s base hpre
    obtain ⟨hge, hsp⟩ := pre_sp_ge cfg K kg hpre
    have hpc0 : s.pc = PC.inner := hpre.2.2.2.2.1
    have hinst : cfg.BVH_INSTANCING = true :=
      ((hpre.2.2.2.1 _ (List.mem_cons_self _ _)).2).2.1
    rw [hx2] at hbE
    refine forall_lt_add cfg K kg ray _ (3 + n1 + 2) n2 s ?_ ih2
    refine forall_lt_add cfg K kg ray _ (3 + n1) 2 s ?_ ?_
    · refine forall_lt_add cfg K kg ray _ 3 n1 s ?_
        (fun k hk => running_mono cfg (ih1 k hk) (by omega))
      refine forall_lt_three cfg K kg ray _ s ?_ ?_ ?_
      · exact running_of cfg hb (by rw [hpc0]; simp) (by rw [hpc0]; simp)
      · rw [k1]
        exact running_of cfg hb (by simp) (by simp)
      · exact running_of cfg ⟨by rw [e3]; omega, fun hh => by rw [e3] at hh; omega⟩
          (by rw [k2]; simp) (by rw [k2]; simp)
    · intro k hk
      interval_cases k
      · show Running cfg base (iter cfg K kg ray (3 + n1) s)
        rw [iter_add]
        have hu : (iter cfg K kg ray n1 (iter cfg K kg ray 3 s)).stackPtr = s.stackPtr := by
          rw [hE.2.1]; omega
        exact ⟨by rw [hu]; omega, fun hh => by rw [hu] at hh; omega, by rw [hpcE]; simp,
          fun _ => ⟨hinst, by rw [hu]; exact hsp⟩⟩
      · rw [← iter_add, hx1]
        exact running_of cfg hbE (by simp) (by simp)
  | nodeHit a c0 c1 c2 c3 rest s base n order hpre hne hperm _ ih =>
    have hb := pre_bottom cfg K kg hpre
    have hpc0 : s.pc = PC.inner := hpre.2.2.2.2.1
    refine forall_lt_add cfg K kg ray _ 1 n s ?_ ih
    intro k hk
    interval_cases k
    show Running cfg base s
    exact running_of cfg hb (by rw [hpc0]; simp) (by rw [hpc0]; simp)
  | nodeMiss a c0 c1 c2 c3 rest s base n hpre hm _ ih =>
    have hb := pre_bottom cfg K kg hpre
    have hpc0 : s.pc = PC.inner := hpre.2.2.2.2.1
    refine forall_lt_add cfg K kg ray _ 1 n s ?_ ih
    intro k hk
    interval_cases k
    show Running cfg base s
    exact running_of cfg hb (by rw [hpc0]; simp) (by rw [hpc0]; simp)

/-- With the sentinel as current node and the stack pointer below 0 a move only passes
to the next loop test. -/
theorem drain_step (u : State) (h0 : 0 ≤ cfg.ENTRYPOINT_SENTINEL)
    (hn : u.nodeAddr = cfg.ENTRYPOINT_SENTINEL) (hs : u.stackPtr < 0) :
    step cfg K kg ray u = { u with pc := (step cfg K kg ray u).pc } ∧
    (step cfg K kg ray u).pc.rank = min 5 (u.pc.rank + 1) := by
  rcases hpc : u.pc with _ | _ | _ | _ | _ | _
  · rw [step_inner_exit cfg K kg ray u hpc (fun h => h.2 hn)]
    exact ⟨rfl, rfl⟩
  · rw [step_leafTest_skip cfg K kg ray u hpc (by omega)]
    exact ⟨rfl, rfl⟩
  · rw [step_midCond cfg K kg ray u hpc]
    simp [hn, PC.rank]
  · rw [step_outerIf_skip cfg K kg ray u hpc (fun h => by omega)]
    exact ⟨rfl, rfl⟩
  · rw [step_outerCond cfg K kg ray u hpc]
    simp [hn, PC.rank]
  · rw [step_done cfg K kg ray u hpc]
    refine ⟨?_, by rw [hpc]; rfl⟩
    cases u
    simp only at hpc
    subst hpc
    rfl

theorem drain_iter (h0 : 0 ≤ cfg.ENTRYPOINT_SENTINEL) (j : Nat) : ∀ u : State,
    u.nodeAddr = cfg.ENTRYPOINT_SENTINEL → u.stackPtr < 0 →
    (iter cfg K kg ray j u).nodeAddr = cfg.ENTRYPOINT_SENTINEL ∧
    (iter cfg K kg ray j u).stackPtr = u.stackPtr ∧
    (iter cfg K kg ray j u).traversalStack = u.traversalStack ∧
    (iter cfg K kg ray j u).pc.rank = min 5 (u.pc.rank + j) ∧
    iter cfg K kg ray j u = { u with pc := (iter cfg K kg ray j u).pc } := by
  induction j with
  | zero =>
    intro u hn hs
    refine ⟨hn, rfl, rfl, ?_, rfl⟩
    show u.pc.rank = _
    cases u.pc <;> simp [PC.rank]
  | succ j ih =>
    intro u hn hs
    obtain ⟨d1, d2⟩ := drain_step cfg K kg ray u h0 hn hs
    have hn1 : (step cfg K kg ray u).nodeAddr = cfg.ENTRYPOINT_SENTINEL := by rw [d1]; exact hn
    have hs1 : (step cfg K kg ray u).stackPtr = u.stackPtr := by rw [d1]
    have ht1 : (step cfg K kg ray u).traversalStack = u.traversalStack := by rw [d1]
    obtain ⟨i1, i2, i3, i4, i5⟩ := ih (step cfg K kg ray u) hn1 (by rw [hs1]; exact hs)
    show (iter cfg K kg ray j (step cfg K kg ray u)).nodeAddr = _ ∧ _
    refine ⟨i1, i2.trans hs1, i3.trans ht1, ?_, ?_⟩
    · show (iter cfg K kg ray j (step cfg K kg ray u)).pc.rank = _
      rw [i4, d2]
      omega
    · show iter cfg K kg ray j (step cfg K kg ray u) =
        { u with pc := (iter cfg K kg ray j (step cfg K kg ray u)).pc }
      refine i5.trans ?_
      generalize (iter cfg K kg ray j (step cfg K kg ray u)).pc = X
      rw [d1]

theorem rank_done (p : PC) (h : p.rank = 5) : p = PC.done := by
  cases p <;> simp [PC.rank] at h ⊢

/-- The control reaches line 289 only with the sentinel as current node. -/
theorem outerIf_sentinel (s : State) (h : (step cfg K kg ray s).pc = PC.outerIf)
    (hs : s.pc ≠ PC.outerIf) :
    (step cfg K kg ray s).nodeAddr = cfg.ENTRYPOINT_SENTINEL := by
  rcases hpc : s.pc with _ | _ | _ | _ | _ | _
  · by_cases hn : 0 ≤ s.nodeAddr ∧ s.nodeAddr ≠ cfg.ENTRYPOINT_SENTINEL
    · rw [step_inner_node cfg K kg ray s hpc hn] at h
      obtain ⟨st, sp, nd, mx, he⟩ := traverseNode_frame cfg K kg s
      rw [he] at h
      rw [hpc] at h
      exact absurd h (by simp)
    · rw [step_inner_exit cfg K kg ray s hpc hn] at h
      exact absurd h (by simp)
  · by_cases hn : s.nodeAddr < 0
    · rw [step_leafTest_leaf cfg K kg ray s hpc hn] at h
      exact absurd h (by simp)
    · rw [step_leafTest_skip cfg K kg ray s hpc hn] at h
      exact absurd h (by simp)
  · rw [step_midCond cfg K kg ray s hpc] at h ⊢
    by_contra hne
    simp [hne] at h
  · exact absurd hpc hs
  · rw [step_outerCond cfg K kg ray s hpc] at h
    by_cases hne : s.nodeAddr ≠ cfg.ENTRYPOINT_SENTINEL
    · simp [hne] at h
    · simp [hne] at h
  · rw [step_done cfg K kg ray s hpc, hpc] at h
    exact absurd h (by simp)

theorem traverseNode_fall (s : State) :
    s.stackPtr - 1 ≤ (traverseNode cfg K kg s).stackPtr := by
  unfold traverseNode
  dsimp only
  split_ifs
  · exact Int.sub_le_self _ (by decide)
  · rw [(push_spec _ _).1]
    show s.stackPtr - 1 ≤ s.stackPtr + 1
    omega
  · rw [(push_spec _ _).1]
    show s.stackPtr - 1 ≤ s.stackPtr + 1
    omega
  · rw [(sortTop3_pop_spec _ _ _ _ _ _ _ rfl rfl rfl).2.1, (push3_spec _ _ _ _).1]
    omega
  · rw [(sortTop4_pop_spec _ _ _ _ _ _ _ _ _ rfl rfl rfl rfl).2.1, (push4_spec _ _ _ _ _).1]
    omega
  · exact le_refl _

/-- A move lowers the stack pointer by at most one. -/
theorem step_fall (s : State) : s.stackPtr - 1 ≤ (step cfg K kg ray s).stackPtr := by
  rcases hpc : s.pc with _ | _ | _ | _ | _ | _
  · by_cases hn : 0 ≤ s.nodeAddr ∧ s.nodeAddr ≠ cfg.ENTRYPOINT_SENTINEL
    · rw [step_inner_node cfg K kg ray s hpc hn]
      exact traverseNode_fall cfg K kg s
    · rw [step_inner_exit cfg K kg ray s hpc hn]
      exact Int.sub_le_self _ (by decide)
  · by_cases hn : s.nodeAddr < 0
    · rw [step_leafTest_leaf cfg K kg ray s hpc hn]
      by_cases hp : cfg.BVH_INSTANCING = false ∨ (leafWords cfg kg s.nodeAddr).x ≥ 0
      · rw [leafStep_prims cfg K kg ray s hp]
        obtain ⟨r, hr⟩ := primLoop_frame cfg K kg ray
          ((leafWords cfg kg s.nodeAddr).y - (leafWords cfg kg s.nodeAddr).x).toNat s.pop
          (leafWords cfg kg s.nodeAddr).x
        rw [hr]
        exact le_refl _
      · rw [leafStep_instance cfg K kg ray s hp]
        by_cases hf : kg.object_flag (kg.prim_object (-(leafWords cfg kg s.nodeAddr).x - 1))
            &&& cfg.SD_OBJECT_HAS_VOLUME = 0
        · rw [instanceLeaf_skip cfg K kg ray s _ hf]
          exact le_refl _
        · show s.stackPtr - 1 ≤ (instanceLeaf cfg K kg ray s _).stackPtr
          rw [(instanceLeaf_enter cfg K kg ray s _ hf).2.2.1]
          omega
    · rw [step_leafTest_skip cfg K kg ray s hpc hn]
      exact Int.sub_le_self _ (by decide)
  · rw [step_midCond cfg K kg ray s hpc]
    exact Int.sub_le_self _ (by decide)
  · by_cases hi : cfg.BVH_INSTANCING = true ∧ 0 ≤ s.stackPtr
    · rw [step_outerIf_pop cfg K kg ray s hpc hi]
      show s.stackPtr - 1 ≤ (instancePop cfg K kg ray s).stackPtr
      rw [(instancePop_spec cfg K kg ray s).2.2.1]
    · rw [step_outerIf_skip cfg K kg ray s hpc hi]
      exact Int.sub_le_self _ (by decide)
  · rw [step_outerCond cfg K kg ray s hpc]
    exact Int.sub_le_self _ (by decide)
  · rw [step_done cfg K kg ray s hpc]
    exact Int.sub_le_self _ (by decide)

/-- A move from line 289 leaves line 289. -/
theorem step_outerIf_pc (s : State) (hpc : s.pc = PC.outerIf) :
    (step cfg K kg ray s).pc = PC.outerCond := by
  by_cases hi : cfg.BVH_INSTANCING = true ∧ 0 ≤ s.stackPtr
  · rw [step_outerIf_pop cfg K kg ray s hpc hi]
  · rw [step_outerIf_skip cfg K kg ray s hpc hi]

/-- The shape of every state of the traversal of a well-formed scene: the stack pointer is
at least -1, with -1 the current node is the sentinel, at line 319 the stack pointer is -1,
and line 289 is reached with a stack pointer of at least 0 only with instancing. -/
theorem traversal_running (t : QTree) (hwf : WellFormed cfg K kg t) (isect0 : Intersection)
    (tfm0 : Transform) (k : Nat) :
    -1 ≤ (iter cfg K kg ray k (initState cfg K kg ray isect0 tfm0)).stackPtr ∧
    ((iter cfg K kg ray k (initState cfg K kg ray isect0 tfm0)).stackPtr = -1 →
      (iter cfg K kg ray k (initState cfg K kg ray isect0 tfm0)).nodeAddr =
        cfg.ENTRYPOINT_SENTINEL) ∧
    ((iter cfg K kg ray k (initState cfg K kg ray isect0 tfm0)).pc = PC.done →
      (iter cfg K kg ray k (initState cfg K kg ray isect0 tfm0)).stackPtr = -1) ∧
    ((iter cfg K kg ray k (initState cfg K kg ray isect0 tfm0)).pc = PC.outerIf →
      0 ≤ (iter cfg K kg ray k (initState cfg K kg ray isect0 tfm0)).stackPtr →
      cfg.BVH_INSTANCING = true) := by
  obtain ⟨n, hw, _, _⟩ := traversal_walk cfg K kg ray t hwf isect0 tfm0
  by_cases hk : k < n
  · obtain ⟨h1, h2, h3, h4⟩ := walk_running cfg K kg ray hw k hk
    exact ⟨by omega, fun h => h2 (by omega), fun h => absurd h h3, fun h _ => (h4 h).1⟩
  · obtain ⟨d, rfl⟩ : ∃ d, k = n + d := ⟨k - n, by omega⟩
    obtain ⟨e1, e2, _, _⟩ := walk_ended cfg K kg ray hw
    obtain ⟨i1, i2, _, _, _⟩ := drain_iter cfg K kg ray hwf.1 d _ e1 (by omega)
    rw [iter_add]
    exact ⟨by omega, fun _ => i1, fun _ => by omega, fun _ h => by omega⟩

/-- Slot 0 of the stack holds the sentinel in every state of the traversal of a
well-formed scene. -/
theorem traversal_slot (t : QTree) (hwf : WellFormed cfg K kg t) (isect0 : Intersection)
    (tfm0 : Transform) (k : Nat) :
    (iter cfg K kg ray k (initState cfg K kg ray isect0 tfm0)).traversalStack 0 =
      cfg.ENTRYPOINT_SENTINEL := by
  induction k with
  | zero => rfl
  | succ k ih =>
    rw [iter_succ_last]
    obtain ⟨h1, h2, _, _⟩ := traversal_running cfg K kg ray t hwf isect0 tfm0 k
    by_cases h : 0 ≤ (iter cfg K kg ray k (initState cfg K kg ray isect0 tfm0)).stackPtr
    · rw [step_below cfg K kg ray _ 0 h]
      exact ih
    · obtain ⟨d1, _⟩ := drain_step cfg K kg ray _ hwf.1 (h2 (by omega)) (by omega)
      rw [d1]
      exact ih

/-- C20: in the traversal of a well-formed scene (the data encode a finite tree, no child
address is the sentinel, instanced trees hold no instance leaf) the function returns, and
in every state `k` of the run: the stack pointer is at least -1 and slot 0 holds the
sentinel; the function has returned only with stack pointer -1; the stack pointer becomes
-1 only from 0, by the pop of the sentinel of slot 0; with stack pointer -1 the current node
is that sentinel and the function returns within five moves that change nothing but the
control point; and at line 289 with a stack pointer of at least 0 the current node is a
sentinel popped from a slot above 0 and the instance pop is executed, after which the
current node is the entry beneath that sentinel, the stack pointer is one less, the active
object is `OBJECT_NONE`, and the outer loop continues exactly when that entry is not the
sentinel. -/
theorem C20_return_at_bottom (t : QTree) (hwf : WellFormed cfg K kg t)
    (isect0 : Intersection) (tfm0 : Transform) (k : Nat) :
    (∃ n r, bvh_intersect_volume cfg K kg ray isect0 tfm0 n = some r) ∧
    -1 ≤ (iter cfg K kg ray k (initState cfg K kg ray isect0 tfm0)).stackPtr ∧
    (iter cfg K kg ray k (initState cfg K kg ray isect0 tfm0)).traversalStack 0 =
      cfg.ENTRYPOINT_SENTINEL ∧
    (∀ r, bvh_intersect_volume cfg K kg ray isect0 tfm0 k = some r →
      (iter cfg K kg ray k (initState cfg K kg ray isect0 tfm0)).stackPtr = -1) ∧
    (0 ≤ (iter cfg K kg ray k (initState cfg K kg ray isect0 tfm0)).stackPtr →
      (iter cfg K kg ray (k + 1) (initState cfg K kg ray isect0 tfm0)).stackPtr = -1 →
      (iter cfg K kg ray k (initState cfg K kg ray isect0 tfm0)).stackPtr = 0 ∧
      (iter cfg K kg ray (k + 1) (initState cfg K kg ray isect0 tfm0)).nodeAddr =
        (iter cfg K kg ray k (initState cfg K kg ray isect0 tfm0)).traversalStack 0) ∧
    ((iter cfg K kg ray k (initState cfg K kg ray isect0 tfm0)).stackPtr = -1 →
      (iter cfg K kg ray k (initState cfg K kg ray isect0 tfm0)).nodeAddr =
        cfg.ENTRYPOINT_SENTINEL ∧
      (∃ r, bvh_intersect_volume cfg K kg ray isect0 tfm0 (k + 5) = some r) ∧
      ∀ j, iter cfg K kg ray (k + j) (initState cfg K kg ray isect0 tfm0) =
        { iter cfg K kg ray k (initState cfg K kg ray isect0 tfm0) with
          pc := (iter cfg K kg ray (k + j) (initState cfg K kg ray isect0 tfm0)).pc }) ∧
    ((iter cfg K kg ray k (initState cfg K kg ray isect0 tfm0)).pc = PC.outerIf →
      0 ≤ (iter cfg K kg ray k (initState cfg K kg ray isect0 tfm0)).stackPtr →
      leavesInstance cfg (iter cfg K kg ray k (initState cfg K kg ray isect0 tfm0)) ∧
      (iter cfg K kg ray k (initState cfg K kg ray isect0 tfm0)).nodeAddr =
        cfg.ENTRYPOINT_SENTINEL ∧
      (iter cfg K kg ray (k + 1) (initState cfg K kg ray isect0 tfm0)).nodeAddr =
        (iter cfg K kg ray k (initState cfg K kg ray isect0 tfm0)).traversalStack
          (iter cfg K kg ray k (initState cfg K kg ray isect0 tfm0)).stackPtr ∧
      (iter cfg K kg ray (k + 1) (initState cfg K kg ray isect0 tfm0)).stackPtr =
        (iter cfg K kg ray k (initState cfg K kg ray isect0 tfm0)).stackPtr - 1 ∧
      (iter cfg K kg ray (k + 1) (initState cfg K kg ray isect0 tfm0)).object =
        cfg.OBJECT_NONE ∧
      (iter cfg K kg ray (k + 1) (initState cfg K kg ray isect0 tfm0)).pc = PC.outerCond ∧
      (iter cfg K kg ray (k + 2) (initState cfg K kg ray isect0 tfm0)).pc =
        if (iter cfg K kg ray (k + 1) (initState cfg K kg ray isect0 tfm0)).nodeAddr ≠
          cfg.ENTRYPOINT_SENTINEL then PC.inner else PC.done) := by
  obtain ⟨n, _, hdone, _⟩ := traversal_walk cfg K kg ray t hwf isect0 tfm0
  obtain ⟨r1, r2, r3, r4⟩ := traversal_running cfg K kg ray t hwf isect0 tfm0 k
  obtain ⟨q1, q2, _, _⟩ := traversal_running cfg K kg ray t hwf isect0 tfm0 (k + 1)
  have hslot := traversal_slot cfg K kg ray t hwf isect0 tfm0 k
  refine ⟨⟨n + 2, _, run_done cfg K kg ray isect0 tfm0 _ hdone⟩, r1, hslot, ?_, ?_, ?_, ?_⟩
  · intro r hr
    unfold bvh_intersect_volume at hr
    dsimp only at hr
    split_ifs at hr with hd
    exact r3 hd
  · intro h0 h1
    have hf := step_fall cfg K kg ray (iter cfg K kg ray k (initState cfg K kg ray isect0 tfm0))
    rw [← iter_succ_last, h1] at hf
    exact ⟨by omega, by rw [q2 h1, hslot]⟩
  · intro hs
    have hn := r2 hs
    refine ⟨hn, ?_, fun j => ?_⟩
    · obtain ⟨_, _, _, i4, _⟩ := drain_iter cfg K kg ray hwf.1 5 _ hn (by omega)
      have hp : (iter cfg K kg ray (k + 5) (initState cfg K kg ray isect0 tfm0)).pc =
          PC.done := by
        rw [iter_add]
        exact rank_done _ (by rw [i4]; omega)
      exact ⟨_, run_done cfg K kg ray isect0 tfm0 _ hp⟩
    · obtain ⟨_, _, _, _, i5⟩ := drain_iter cfg K kg ray hwf.1 j _ hn (by omega)
      rw [iter_add]
      exact i5
  · intro hpc hsp
    have hi := r4 hpc hsp
    have hsent : (iter cfg K kg ray k (initState cfg K kg ray isect0 tfm0)).nodeAddr =
        cfg.ENTRYPOINT_SENTINEL := by
      cases k with
      | zero =>
        have h0 : (initState cfg K kg ray isect0 tfm0).pc = PC.inner :=
          (init_pre cfg K kg ray t hwf isect0 tfm0).2.2.2.2.1
        have hpc0 : (initState cfg K kg ray isect0 tfm0).pc = PC.outerIf := hpc
        rw [h0] at hpc0
        exact absurd hpc0 (by simp)
      | succ m =>
        rw [iter_succ_last] at hpc ⊢
        refine outerIf_sentinel cfg K kg ray _ hpc (fun hm => ?_)
        rw [step_outerIf_pc cfg K kg ray _ hm] at hpc
        exact absurd hpc (by simp)
    have h1 : iter cfg K kg ray (k + 1) (initState cfg K kg ray isect0 tfm0) =
        { instancePop cfg K kg ray
            (iter cfg K kg ray k (initState cfg K kg ray isect0 tfm0)) with
          pc := PC.outerCond } := by
      rw [iter_succ_last]
      exact step_outerIf_pop cfg K kg ray _ hpc ⟨hi, hsp⟩
    obtain ⟨_, p2, p3, _, _, p6, _⟩ := instancePop_spec cfg K kg ray
      (iter cfg K kg ray k (initState cfg K kg ray isect0 tfm0))
    have h2 : (iter cfg K kg ray (k + 2) (initState cfg K kg ray isect0 tfm0)).pc =
        (step cfg K kg ray
          (iter cfg K kg ray (k + 1) (initState cfg K kg ray isect0 tfm0))).pc := by
      rw [← iter_succ_last]
    refine ⟨⟨hpc, hi, hsp⟩, hsent, ?_, ?_, ?_, ?_, ?_⟩
    · rw [h1]; exact p2
    · rw [h1]; exact p3
    · rw [h1]; exact p6
    · rw [h1]
    · rw [h2, step_outerCond cfg K kg ray _ (by rw [h1])]

end C20

/-- Witness of C20 on scene C, whose root has an instance leaf among its children: state 17
is at line 289 with stack pointer 3 and executes the instance pop, state 26 pops the
sentinel of slot 0, and from state 27, with stack pointer -1, the function returns. -/
theorem C20_return_at_bottom_witness :
    WellFormed demoConfig collabC sceneC treeC ∧
    ((iter demoConfig collabC sceneC demoRay 17
        (initState demoConfig collabC sceneC demoRay demoIsect demoTfm)).pc = PC.outerIf ∧
      0 ≤ (iter demoConfig collabC sceneC demoRay 17
        (initState demoConfig collabC sceneC demoRay demoIsect demoTfm)).stackPtr ∧
      leavesInstance demoConfig (iter demoConfig collabC sceneC demoRay 17
        (initState demoConfig collabC sceneC demoRay demoIsect demoTfm)) ∧
      (iter demoConfig collabC sceneC demoRay 17
        (initState demoConfig collabC sceneC demoRay demoIsect demoTfm)).nodeAddr =
        demoConfig.ENTRYPOINT_SENTINEL ∧
      (iter demoConfig collabC sceneC demoRay (17 + 1)
        (initState demoConfig collabC sceneC demoRay demoIsect demoTfm)).nodeAddr =
        (iter demoConfig collabC sceneC demoRay 17
        (initState demoConfig collabC sceneC demoRay demoIsect demoTfm)).traversalStack
          (iter demoConfig collabC sceneC demoRay 17
        (initState demoConfig collabC sceneC demoRay demoIsect demoTfm)).stackPtr ∧
      (iter demoConfig collabC sceneC demoRay (17 + 1)
        (initState demoConfig collabC sceneC demoRay demoIsect demoTfm)).stackPtr =
        (iter demoConfig collabC sceneC demoRay 17
        (initState demoConfig collabC sceneC demoRay demoIsect demoTfm)).stackPtr - 1 ∧
      (iter demoConfig collabC sceneC demoRay (17 + 1)
        (initState demoConfig collabC sceneC demoRay demoIsect demoTfm)).object =
        demoConfig.OBJECT_NONE ∧
      (iter demoConfig collabC sceneC demoRay (17 + 1)
        (initState demoConfig collabC sceneC demoRay demoIsect demoTfm)).pc = PC.outerCond ∧
      (iter demoConfig collabC sceneC demoRay (17 + 2)
        (initState demoConfig collabC sceneC demoRay demoIsect demoTfm)).pc =
        if (iter demoConfig collabC sceneC demoRay (17 + 1)
        (initState demoConfig collabC sceneC demoRay demoIsect demoTfm)).nodeAddr ≠
          demoConfig.ENTRYPOINT_SENTINEL then PC.inner else PC.done) ∧
    ((iter demoConfig collabC sceneC demoRay 26
        (initState demoConfig collabC sceneC demoRay demoIsect demoTfm)).stackPtr = 0 ∧
      (iter demoConfig collabC sceneC demoRay (26 + 1)
        (initState demoConfig collabC sceneC demoRay demoIsect demoTfm)).nodeAddr =
        (iter demoConfig collabC sceneC demoRay 26
        (initState demoConfig collabC sceneC demoRay demoIsect demoTfm)).traversalStack 0) ∧
    ((iter demoConfig collabC sceneC demoRay 27
        (initState demoConfig collabC sceneC demoRay demoIsect demoTfm)).nodeAddr =
        demoConfig.ENTRYPOINT_SENTINEL ∧
      (∃ r, bvh_intersect_volume demoConfig collabC sceneC demoRay demoIsect demoTfm (27 + 5) =
        some r) ∧
      ∀ j, iter demoConfig collabC sceneC demoRay (27 + j)
          (initState demoConfig collabC sceneC demoRay demoIsect demoTfm) =
        { iter demoConfig collabC sceneC demoRay 27
            (initState demoConfig collabC sceneC demoRay demoIsect demoTfm) with
          pc := (iter demoConfig collabC sceneC demoRay (27 + j)
            (initState demoConfig collabC sceneC demoRay demoIsect demoTfm)).pc }) :=
  ⟨treeC_wellFormed 192,
    ⟨by decide, by decide,
      (C20_return_at_bottom demoConfig collabC sceneC demoRay treeC (treeC_wellFormed 192)
        demoIsect demoTfm 17).2.2.2.2.2.2 (by decide) (by decide)⟩,
    (C20_return_at_bottom demoConfig collabC sceneC demoRay treeC (treeC_wellFormed 192)
      demoIsect demoTfm 26).2.2.2.2.1 (by decide) (by decide),
    (C20_return_at_bottom demoConfig collabC sceneC demoRay treeC (treeC_wellFormed 192)
      demoIsect demoTfm 27).2.2.2.2.2.1 (by decide)⟩

end QBVH


namespace QBVH

section C21

variable (cfg : Config) (K : Collab) (kg : KernelGlobals) (ray : Ray)

/-- The primitive loop is the loop body applied to the primitives of the range in turn. -/
theorem primLoop_fold (n : Nat) : ∀ (s : State) (a : Int),
    primLoop cfg K kg ray s a n = (primRange a n).foldl (primBody cfg K kg ray) s := by
  induction n with
  | zero => intro s a; rfl
  | succ n ih =>
    intro s a
    simp only [primLoop, primRange, List.foldl_cons]
    exact ih _ _

theorem mem_primRange (n : Nat) : ∀ (a p : Int), p ∈ primRange a n ↔ a ≤ p ∧ p < a + n := by
  induction n with
  | zero =>
    intro a p
    simp only [primRange, List.not_mem_nil, false_iff]
    push_cast
    omega
  | succ n ih =>
    intro a p
    simp only [primRange, List.mem_cons, ih]
    push_cast
    omega

theorem primRange_ascending (n : Nat) : ∀ a : Int,
    (primRange a n).Pairwise (fun p q => p < q) := by
  induction n with
  | zero => intro a; exact List.Pairwise.nil
  | succ n ih =>
    intro a
    simp only [primRange]
    refine List.Pairwise.cons (fun p hp => ?_) (ih _)
    have := (mem_primRange n (a + 1) p).1 hp
    omega

/-- C21: at a primitive leaf with the range `[a, b)` (`a = leaf.x`, `b = leaf.y`) the step
pops and then runs the loop body for the primitives of the list `primRange a (b - a)` in
turn; this list is strictly ascending (so it holds no primitive twice), it holds exactly
the primitives `p` with `a ≤ p < b`, and it is empty when `a ≥ b`. After the step the
current node is the former stack top, the stack pointer is one less and the stack is
unchanged. -/
theorem C21_leaf_range (s : State) (hpc : s.pc = PC.leafTest) (hneg : s.nodeAddr < 0)
    (hp : cfg.BVH_INSTANCING = false ∨ (leafWords cfg kg s.nodeAddr).x ≥ 0) :
    step cfg K kg ray s =
      { (primRange (leafWords cfg kg s.nodeAddr).x
          ((leafWords cfg kg s.nodeAddr).y - (leafWords cfg kg s.nodeAddr).x).toNat).foldl
          (primBody cfg K kg ray) s.pop with pc := PC.midCond } ∧
    (∀ p, p ∈ primRange (leafWords cfg kg s.nodeAddr).x
        ((leafWords cfg kg s.nodeAddr).y - (leafWords cfg kg s.nodeAddr).x).toNat ↔
      (leafWords cfg kg s.nodeAddr).x ≤ p ∧ p < (leafWords cfg kg s.nodeAddr).y) ∧
    (primRange (leafWords cfg kg s.nodeAddr).x
      ((leafWords cfg kg s.nodeAddr).y - (leafWords cfg kg s.nodeAddr).x).toNat).Pairwise
      (fun p q => p < q) ∧
    ((leafWords cfg kg s.nodeAddr).y ≤ (leafWords cfg kg s.nodeAddr).x →
      primRange (leafWords cfg kg s.nodeAddr).x
        ((leafWords cfg kg s.nodeAddr).y - (leafWords cfg kg s.nodeAddr).x).toNat = []) ∧
    (step cfg K kg ray s).nodeAddr = s.traversalStack s.stackPtr ∧
    (step cfg K kg ray s).stackPtr = s.stackPtr - 1 ∧
    (step cfg K kg ray s).traversalStack = s.traversalStack := by
  have h1 : step cfg K kg ray s =
      { (primRange (leafWords cfg kg s.nodeAddr).x
          ((leafWords cfg kg s.nodeAddr).y - (leafWords cfg kg s.nodeAddr).x).toNat).foldl
          (primBody cfg K kg ray) s.pop with pc := PC.midCond } := by
    rw [step_leafTest_leaf cfg K kg ray s hpc hneg, leafStep_prims cfg K kg ray s hp,
      primLoop_fold]
  obtain ⟨r, hr⟩ := primLoop_frame cfg K kg ray
    ((leafWords cfg kg s.nodeAddr).y - (leafWords cfg kg s.nodeAddr).x).toNat s.pop
    (leafWords cfg kg s.nodeAddr).x
  have h2 : step cfg K kg ray s = { s.pop with isect := r, pc := PC.midCond } := by
    rw [step_leafTest_leaf cfg K kg ray s hpc hneg, leafStep_prims cfg K kg ray s hp, hr]
  refine ⟨h1, fun p => ?_, primRange_ascending _ _, fun hle => ?_, by rw [h2]; rfl,
    by rw [h2]; rfl, by rw [h2]; rfl⟩
  · rw [mem_primRange]
    constructor
    · rintro ⟨q1, q2⟩
      exact ⟨q1, by omega⟩
    · rintro ⟨q1, q2⟩
      exact ⟨q1, by omega⟩
  · have hz : ((leafWords cfg kg s.nodeAddr).y - (leafWords cfg kg s.nodeAddr).x).toNat = 0 := by
      omega
    rw [hz]
    rfl

end C21

/-- Witness of C21: the leaf at address -2 of scene A, with the primitives 0 and 1. -/
theorem C21_leaf_range_witness :
    (∀ p, p ∈ primRange (leafWords demoConfig sceneA
        (iter demoConfig collabA sceneA demoRay 2
          (initState demoConfig collabA sceneA demoRay demoIsect demoTfm)).nodeAddr).x
        ((leafWords demoConfig sceneA
          (iter demoConfig collabA sceneA demoRay 2
            (initState demoConfig collabA sceneA demoRay demoIsect demoTfm)).nodeAddr).y -
          (leafWords demoConfig sceneA
            (iter demoConfig collabA sceneA demoRay 2
              (initState demoConfig collabA sceneA demoRay demoIsect
                demoTfm)).nodeAddr).x).toNat ↔
      (leafWords demoConfig sceneA
        (iter demoConfig collabA sceneA demoRay 2
          (initState demoConfig collabA sceneA demoRay demoIsect demoTfm)).nodeAddr).x ≤ p ∧
        p < (leafWords demoConfig sceneA
          (iter demoConfig collabA sceneA demoRay 2
            (initState demoConfig collabA sceneA demoRay demoIsect demoTfm)).nodeAddr).y) ∧
    (step demoConfig collabA sceneA demoRay
      (iter demoConfig collabA sceneA demoRay 2
        (initState demoConfig collabA sceneA demoRay demoIsect demoTfm))).stackPtr =
      (iter demoConfig collabA sceneA demoRay 2
        (initState demoConfig collabA sceneA demoRay demoIsect demoTfm)).stackPtr - 1 :=
  ⟨(C21_leaf_range demoConfig collabA sceneA demoRay
      (iter demoConfig collabA sceneA demoRay 2
        (initState demoConfig collabA sceneA demoRay demoIsect demoTfm))
      (by decide) (by decide) (by decide)).2.1,
    (C21_leaf_range demoConfig collabA sceneA demoRay
      (iter demoConfig collabA sceneA demoRay 2
        (initState demoConfig collabA sceneA demoRay demoIsect demoTfm))
      (by decide) (by decide) (by decide)).2.2.2.2.2.1⟩

end QBVH


namespace QBVH

section C22

variable (cfg : Config) (K : Collab) (kg : KernelGlobals) (ray : Ray)

theorem nearFar_init (isect0 : Intersection) (tfm0 : Transform) :
    NearFar (initState cfg K kg ray isect0 tfm0) := by
  simp [NearFar, initState, State.setNearFar]

/-- Lines 259-261: the instance push leaves the offsets of the pushed inverse direction. -/
theorem nearFar_enter (s : State) (x : Int)
    (hf : kg.object_flag (kg.prim_object (-x - 1)) &&& cfg.SD_OBJECT_HAS_VOLUME ≠ 0) :
    NearFar (instanceLeaf cfg K kg ray s x) := by
  unfold instanceLeaf NearFar
  simp only [hf, ne_eq, not_false_eq_true, if_true]
  cases cfg.BVH_MOTION <;> simp [State.push, State.reload, State.setNearFar]

/-- Lines 299-301: the instance pop leaves the offsets of the restored inverse direction. -/
theorem nearFar_exit (s : State) : NearFar (instancePop cfg K kg ray s) := by
  unfold instancePop NearFar
  cases cfg.BVH_MOTION <;> simp [State.pop, State.reload, State.setNearFar]

/-- No other move changes the inverse direction or the offsets. -/
theorem nearFar_step (s : State) (h : NearFar s) : NearFar (step cfg K kg ray s) := by
  rcases hpc : s.pc with _ | _ | _ | _ | _ | _
  · by_cases hn : 0 ≤ s.nodeAddr ∧ s.nodeAddr ≠ cfg.ENTRYPOINT_SENTINEL
    · rw [step_inner_node cfg K kg ray s hpc hn]
      obtain ⟨st, sp, nd, mx, he⟩ := traverseNode_frame cfg K kg s
      rw [he]
      exact h
    · rw [step_inner_exit cfg K kg ray s hpc hn]
      exact h
  · by_cases hn : s.nodeAddr < 0
    · rw [step_leafTest_leaf cfg K kg ray s hpc hn]
      by_cases hp : cfg.BVH_INSTANCING = false ∨ (leafWords cfg kg s.nodeAddr).x ≥ 0
      · rw [leafStep_prims cfg K kg ray s hp]
        obtain ⟨r, hr⟩ := primLoop_frame cfg K kg ray
          ((leafWords cfg kg s.nodeAddr).y - (leafWords cfg kg s.nodeAddr).x).toNat s.pop
          (leafWords cfg kg s.nodeAddr).x
        rw [hr]
        exact h
      · rw [leafStep_instance cfg K kg ray s hp]
        by_cases hf : kg.object_flag (kg.prim_object (-(leafWords cfg kg s.nodeAddr).x - 1))
            &&& cfg.SD_OBJECT_HAS_VOLUME = 0
        · rw [instanceLeaf_skip cfg K kg ray s _ hf]
          exact h
        · exact nearFar_enter cfg K kg ray s _ hf
    · rw [step_leafTest_skip cfg K kg ray s hpc hn]
      exact h
  · rw [step_midCond cfg K kg ray s hpc]
    exact h
  · by_cases hi : cfg.BVH_INSTANCING = true ∧ 0 ≤ s.stackPtr
    · rw [step_outerIf_pop cfg K kg ray s hpc hi]
      exact nearFar_exit cfg K kg ray s
    · rw [step_outerIf_skip cfg K kg ray s hpc hi]
      exact h
  · rw [step_outerCond cfg K kg ray s hpc]
    exact h
  · rw [step_done cfg K kg ray s hpc]
    exact h

theorem nearFar_iter (isect0 : Intersection) (tfm0 : Transform) (k : Nat) :
    NearFar (iter cfg K kg ray k (initState cfg K kg ray isect0 tfm0)) := by
  induction k with
  | zero => exact nearFar_init cfg K kg ray isect0 tfm0
  | succ k ih =>
    rw [iter_succ_last]
    exact nearFar_step cfg K kg ray _ ih

/-- C22: the near/far offsets are those selected by the sign of the inverse direction of
the current space, `(0, 1)`, `(2, 3)`, `(4, 5)` for a component that is at least 0 and
`(1, 0)`, `(3, 2)`, `(5, 4)` otherwise: in the state at the first loop test, in every
state of the traversal (hence at every ray-node test), and after an instance push and an instance
pop from whatever state they are executed. -/
theorem C22_near_far (isect0 : Intersection) (tfm0 : Transform) :
    NearFar (initState cfg K kg ray isect0 tfm0) ∧
    (∀ k, NearFar (iter cfg K kg ray k (initState cfg K kg ray isect0 tfm0))) ∧
    (∀ s, entersInstance cfg kg s → NearFar (step cfg K kg ray s)) ∧
    (∀ s, leavesInstance cfg s → NearFar (step cfg K kg ray s)) := by
  refine ⟨nearFar_init cfg K kg ray isect0 tfm0, nearFar_iter cfg K kg ray isect0 tfm0,
    fun s h => ?_, fun s h => ?_⟩
  · obtain ⟨hpc, hn, hi, hx, hf⟩ := h
    rw [step_leafTest_leaf cfg K kg ray s hpc hn,
      leafStep_instance cfg K kg ray s (by rw [hi]; simp; omega)]
    exact nearFar_enter cfg K kg ray s _ hf
  · obtain ⟨hpc, hi⟩ := h
    rw [step_outerIf_pop cfg K kg ray s hpc hi]
    exact nearFar_exit cfg K kg ray s

end C22

end QBVH


namespace QBVH

section C23

variable (cfg : Config) (K : Collab) (kg : KernelGlobals) (ray : Ray)

/-- The entries of a stack segment, read from the top down. -/
theorem seg_list (st : Int → Int) (base : Int) : ∀ xs : List Int, Seg st base xs →
    (List.range xs.length).map (fun i : Nat => st (base + xs.length - i)) = xs := by
  intro xs
  induction xs with
  | nil => intro _; rfl
  | cons x rest ih =>
    intro h
    obtain ⟨h1, h2⟩ := h
    rw [List.length_cons, List.range_succ_eq_map, List.map_cons, List.map_map]
    have e1 : st (base + ((rest.length + 1 : Nat) : Int) - ((0 : Nat) : Int)) = x := by
      rw [← h1]
      congr 1
      push_cast
      omega
    have e2 : (List.range rest.length).map
        ((fun i : Nat => st (base + ((rest.length + 1 : Nat) : Int) - (i : Int))) ∘ Nat.succ) =
        rest := by
      rw [← ih h2]
      rw [List.length_map, List.length_range]
      refine List.map_congr_left (fun i _ => ?_)
      show st _ = st _
      congr 1
      push_cast
      omega
    rw [e1, e2]

theorem hitList_nodup (m : Nat) : (hitList m).Nodup :=
  List.Nodup.filter _ (List.nodup_range 4)

theorem hitList_length (m : Nat) : (hitList m).length ≤ 4 := by
  unfold hitList
  exact (List.length_filter_le _ _).trans (by simp)

/-- C23: a pass of the inner loop for an inner node whose test reports a mask of four bits
with `h` hit children (the child slots of `hitList`, at most four, none twice) changes the
stack pointer by `h - 1` and leaves every stack entry up to the former top as it was. For
`h = 0` the new current node is the former stack top. For `h ≥ 1` the new current node
followed by the `h - 1` entries above the former top, read from the top down, are the
addresses of the hit children in some order `order`, a permutation of the hit slots. -/
theorem C23_node_step (s : State) (hpc : s.pc = PC.inner)
    (hnode : 0 ≤ s.nodeAddr ∧ s.nodeAddr ≠ cfg.ENTRYPOINT_SENTINEL)
    (hm : (nodeTest K kg s).1 < 16) :
    (∀ i, i ∈ hitList (nodeTest K kg s).1 ↔ i < 4 ∧ (nodeTest K kg s).1.testBit i = true) ∧
    (hitList (nodeTest K kg s).1).Nodup ∧ (hitList (nodeTest K kg s).1).length ≤ 4 ∧
    (step cfg K kg ray s).stackPtr =
      s.stackPtr + ((hitList (nodeTest K kg s).1).length : Int) - 1 ∧
    (∀ j, j ≤ s.stackPtr → (step cfg K kg ray s).traversalStack j = s.traversalStack j) ∧
    (hitList (nodeTest K kg s).1 = [] →
      (step cfg K kg ray s).nodeAddr = s.traversalStack s.stackPtr) ∧
    (hitList (nodeTest K kg s).1 ≠ [] →
      ∃ order : List Nat, order.Perm (hitList (nodeTest K kg s).1) ∧
        (step cfg K kg ray s).nodeAddr ::
          (List.range ((hitList (nodeTest K kg s).1).length - 1)).map
            (fun i : Nat => (step cfg K kg ray s).traversalStack
              ((step cfg K kg ray s).stackPtr - i)) =
          order.map (childWords cfg kg s.nodeAddr).get) := by
  obtain ⟨order, hperm, q1, q2, _, _, _, q6, q7⟩ := traverseNode_spec cfg K kg s hm
  rw [step_inner_node cfg K kg ray s hpc hnode]
  have hlen := hperm.length_eq
  refine ⟨fun i => ?_, hitList_nodup _, hitList_length _, by rw [q1, hlen], q2,
    fun h0 => ?_, fun hne => ?_⟩
  · unfold hitList
    rw [List.mem_filter, List.mem_range]
  · exact q6 (List.Perm.eq_nil (h0 ▸ hperm))
  · refine ⟨order, hperm, ?_⟩
    cases order with
    | nil => exact absurd (List.Perm.nil_eq hperm).symm hne
    | cons i rest =>
      obtain ⟨r1, r2⟩ := q7 i rest rfl
      have hl := seg_list _ _ _ r2
      rw [List.length_map] at hl
      rw [List.map_cons, r1, ← hlen, List.length_cons, Nat.add_sub_cancel]
      congr 1
      rw [← hl]
      refine List.map_congr_left (fun k _ => ?_)
      show (traverseNode cfg K kg s).traversalStack _ = (traverseNode cfg K kg s).traversalStack _
      congr 1
      rw [q1, List.length_cons]
      push_cast
      omega

end C23

/-- Witness of C23: the root of scene C, whose node test reports all four children. -/
theorem C23_node_step_witness :
    (step demoConfig collabC sceneC demoRay
      (initState demoConfig collabC sceneC demoRay demoIsect demoTfm)).stackPtr =
      (initState demoConfig collabC sceneC demoRay demoIsect demoTfm).stackPtr +
        ((hitList (nodeTest collabC sceneC
          (initState demoConfig collabC sceneC demoRay demoIsect demoTfm)).1).length : Int) - 1 ∧
    (∀ j, j ≤ (initState demoConfig collabC sceneC demoRay demoIsect demoTfm).stackPtr →
      (step demoConfig collabC sceneC demoRay
        (initState demoConfig collabC sceneC demoRay demoIsect demoTfm)).traversalStack j =
        (initState demoConfig collabC sceneC demoRay demoIsect demoTfm).traversalStack j) :=
  ⟨(C23_node_step demoConfig collabC sceneC demoRay
      (initState demoConfig collabC sceneC demoRay demoIsect demoTfm) rfl (by decide)
      (by decide)).2.2.2.1,
    (C23_node_step demoConfig collabC sceneC demoRay
      (initState demoConfig collabC sceneC demoRay demoIsect demoTfm) rfl (by decide)
      (by decide)).2.2.2.2.1⟩

end QBVH


namespace QBVH

section C24

variable (cfg : Config) (K : Collab) (kg : KernelGlobals) (ray : Ray)

theorem sb_congr (st1 st2 : Int → Int) (S : Int) (n : Nat)
    (h : ∀ j : Nat, j < n → st1 j = st2 j) :
    sentinelsBelow st1 S n = sentinelsBelow st2 S n := by
  induction n with
  | zero => rfl
  | succ n ih =>
    simp only [sentinelsBelow]
    rw [ih (fun j hj => h j (by omega)), h n (by omega)]

theorem sb_clean (st : Int → Int) (S : Int) (m : Nat) : ∀ d : Nat,
    (∀ j : Nat, m ≤ j → j < m + d → st j ≠ S) →
    sentinelsBelow st S (m + d) = sentinelsBelow st S m := by
  intro d
  induction d with
  | zero => intro _; rfl
  | succ d ih =>
    intro h
    have hn : ¬ st ((m + d : Nat) : Int) = S := h (m + d) (by omega) (by omega)
    show sentinelsBelow st S (m + d) + (if st ((m + d : Nat) : Int) = S then 1 else 0) = _
    rw [ih (fun j h1 h2 => h j h1 (by omega)), if_neg hn]
    rfl

/-- Each slot of a stack segment holds one of its entries. -/
theorem seg_mem (st : Int → Int) (base : Int) : ∀ xs : List Int, Seg st base xs →
    ∀ j, base < j → j ≤ base + xs.length → st j ∈ xs := by
  intro xs
  induction xs with
  | nil =>
    intro _ j h1 h2
    simp only [List.length_nil, Int.natCast_zero] at h2
    omega
  | cons x rest ih =>
    intro h j h1 h2
    obtain ⟨e1, e2⟩ := h
    by_cases hj : j = base + rest.length + 1
    · rw [hj, e1]
      exact List.mem_cons_self _ _
    · refine List.mem_cons_of_mem _ (ih e2 j h1 ?_)
      rw [List.length_cons] at h2
      push_cast at h2
      omega

/-- At the start of the walk of a forest the slots above `base` hold node addresses, so
the sentinels of the stack are those of the slots up to `base`. -/
theorem pre_sentinels {t : QTree} {rest : List QTree} {s : State} {base : Int}
    (hpre : Pre cfg K kg (t :: rest) s base) :
    sentinels cfg s =
      sentinelsBelow s.traversalStack cfg.ENTRYPOINT_SENTINEL (base + 1).toNat := by
  obtain ⟨h0, hb, _, henc, _, _, hsp, hseg⟩ := hpre
  unfold sentinels
  have e : (s.stackPtr + 1).toNat = (base + 1).toNat + rest.length := by
    rw [hsp]
    omega
  rw [e]
  refine sb_clean _ _ _ _ (fun j h1 h2 => ?_)
  have hm := seg_mem s.traversalStack base _ hseg j (by omega)
    (by rw [List.length_map]; omega)
  rw [List.mem_map] at hm
  obtain ⟨x, hx, hxe⟩ := hm
  rw [← hxe]
  have hx2 := henc x (List.mem_cons_of_mem _ hx)
  exact addr_ne_sentinel cfg K kg x h0 hx2.1 hx2.2

theorem level_of_pc (u : State) (h1 : u.pc ≠ PC.inner) (h2 : u.pc ≠ PC.outerIf) :
    ObjectLevel cfg u :=
  ⟨fun h => absurd h h1, fun h => absurd h h2⟩

theorem level_head {t : QTree} {rest : List QTree} {s : State} {base : Int}
    (hpre : Pre cfg K kg (t :: rest) s base)
    (hL : (s.object = cfg.OBJECT_NONE ∧
        sentinelsBelow s.traversalStack cfg.ENTRYPOINT_SENTINEL (base + 1).toNat = 1) ∨
      (s.object ≠ cfg.OBJECT_NONE ∧
        sentinelsBelow s.traversalStack cfg.ENTRYPOINT_SENTINEL (base + 1).toNat = 2 ∧
        ∀ x ∈ t :: rest, x.NoInst)) :
    ObjectLevel cfg s := by
  have hs := pre_sentinels cfg K kg hpre
  have hpc : s.pc = PC.inner := hpre.2.2.2.2.1
  refine ⟨fun _ _ => ?_, fun h => by rw [hpc] at h; exact absurd h (by simp)⟩
  rw [hs]
  rcases hL with ⟨a, b⟩ | ⟨a, b, _⟩
  · exact Or.inl ⟨a, b⟩
  · exact Or.inr ⟨a, b⟩

/-- The level of a state carries over to a state with the same active object and the same
stack up to `base`. -/
theorem level_next (s u : State) (base : Int) (ts ts2 : List QTree)
    (hL : (s.object = cfg.OBJECT_NONE ∧
        sentinelsBelow s.traversalStack cfg.ENTRYPOINT_SENTINEL (base + 1).toNat = 1) ∨
      (s.object ≠ cfg.OBJECT_NONE ∧
        sentinelsBelow s.traversalStack cfg.ENTRYPOINT_SENTINEL (base + 1).toNat = 2 ∧
        ∀ x ∈ ts, x.NoInst))
    (ho : u.object = s.object)
    (hst : ∀ j, j ≤ base → u.traversalStack j = s.traversalStack j)
    (hni : (∀ x ∈ ts, x.NoInst) → ∀ x ∈ ts2, x.NoInst) :
    (u.object = cfg.OBJECT_NONE ∧
        sentinelsBelow u.traversalStack cfg.ENTRYPOINT_SENTINEL (base + 1).toNat = 1) ∨
      (u.object ≠ cfg.OBJECT_NONE ∧
        sentinelsBelow u.traversalStack cfg.ENTRYPOINT_SENTINEL (base + 1).toNat = 2 ∧
        ∀ x ∈ ts2, x.NoInst) := by
  have e : sentinelsBelow u.traversalStack cfg.ENTRYPOINT_SENTINEL (base + 1).toNat =
      sentinelsBelow s.traversalStack cfg.ENTRYPOINT_SENTINEL (base + 1).toNat :=
    sb_congr _ _ _ _ (fun j hj => hst j (by omega))
  rw [ho, e]
  rcases hL with ⟨a, b⟩ | ⟨a, b, c⟩
  · exact Or.inl ⟨a, b⟩
  · exact Or.inr ⟨a, b, hni c⟩

theorem noInst_named : ∀ t : QTree, t.NoInst → Named cfg kg t := by
  intro t
  induction t with
  | dead => intro _; trivial
  | leaf a => intro _; trivial
  | skip a => intro _; trivial
  | inst a sub _ => intro h; exact h.elim
  | node a c0 c1 c2 c3 i0 i1 i2 i3 =>
    intro h
    exact ⟨i0 h.1, i1 h.2.1, i2 h.2.2.1, i3 h.2.2.2⟩

theorem named_child (a : Int) (c0 c1 c2 c3 : QTree)
    (h : Named cfg kg (QTree.node a c0 c1 c2 c3)) (i : Nat) :
    Named cfg kg ((QTree.node a c0 c1 c2 c3).child i) := by
  obtain ⟨h0, h1, h2, h3⟩ := h
  simp only [QTree.child]
  split <;> assumption

/-- Along the walk of a forest the active object agrees with the sentinels on the stack,
and at the end of the walk the active object is the one of its start. -/
theorem walk_level {ts : List QTree} {s : State} {base : Int} {n : Nat}
    (h : Walk cfg K kg ray ts s base n) :
    ((s.object = cfg.OBJECT_NONE ∧
        sentinelsBelow s.traversalStack cfg.ENTRYPOINT_SENTINEL (base + 1).toNat = 1) ∨
      (s.object ≠ cfg.OBJECT_NONE ∧
        sentinelsBelow s.traversalStack cfg.ENTRYPOINT_SENTINEL (base + 1).toNat = 2 ∧
        ∀ x ∈ ts, x.NoInst)) →
    (∀ x ∈ ts, Named cfg kg x) →
    (∀ k, k < n → ObjectLevel cfg (iter cfg K kg ray k s)) ∧
      (iter cfg K kg ray n s).object = s.object := by
  induction h with
  | nil s base hpre =>
    intro _ _
    obtain ⟨h0, _, _, _, hn, _, _⟩ := hpre
    split_ifs with hi
    · obtain ⟨m1, m2, m3⟩ := moves_end cfg K kg ray s hi hn h0
      refine ⟨forall_lt_three cfg K kg ray _ s ?_ ?_ ?_, by rw [m3]⟩
      · exact ⟨fun _ hne => absurd hn hne, fun hp => by rw [hi] at hp; exact absurd hp (by simp)⟩
      · rw [m1]; exact level_of_pc cfg _ (by simp) (by simp)
      · rw [m2]; exact level_of_pc cfg _ (by simp) (by simp)
    · exact ⟨fun k hk => absurd hk (by omega), rfl⟩
  | leaf a rest s base n hpre _ ih =>
    intro hL hN
    have hhead := level_head cfg K kg hpre hL
    obtain ⟨h0, _, hbase, henc, hpc0, hnode, hsp0, hseg⟩ := hpre
    have he := (henc _ (List.mem_cons_self _ _)).2
    simp only [QTree.addr] at hnode
    obtain ⟨hneg, hp⟩ := he
    rw [← hnode] at hneg hp
    obtain ⟨m2, m3⟩ := moves_leaf cfg K kg ray s hpc0 hneg hp
    have ho : (iter cfg K kg ray 3 s).object = s.object := by rw [m3]
    have hst : ∀ j, j ≤ base → (iter cfg K kg ray 3 s).traversalStack j = s.traversalStack j := by
      intro j _
      rw [m3]
    obtain ⟨i1, i2⟩ := ih
      (level_next cfg s _ base _ rest hL ho hst
        (fun hx x hxm => hx x (List.mem_cons_of_mem _ hxm)))
      (fun x hx => hN x (List.mem_cons_of_mem _ hx))
    refine ⟨forall_lt_add cfg K kg ray _ 3 n s
      (forall_lt_three cfg K kg ray _ s hhead ?_ ?_) i1, ?_⟩
    · rw [iter_one, leaf_first cfg K kg ray s hpc0 hneg]
      exact level_of_pc cfg _ (by simp) (by simp)
    · rw [m2]
      exact level_of_pc cfg _ (by simp) (by simp)
    · rw [iter_add, i2, ho]
  | skip a rest s base n hpre _ ih =>
    intro hL hN
    have hhead := level_head cfg K kg hpre hL
    obtain ⟨h0, _, hbase, henc, hpc0, hnode, hsp0, hseg⟩ := hpre
    have he := (henc _ (List.mem_cons_self _ _)).2
    simp only [QTree.addr] at hnode
    obtain ⟨hneg, hi2, hx, hf⟩ := he
    rw [← hnode] at hneg hx hf
    obtain ⟨m2, m3⟩ := moves_skip cfg K kg ray s hpc0 hneg hi2 hx hf
    have hnone : s.object = cfg.OBJECT_NONE := by
      rcases hL with ⟨a1, _⟩ | ⟨_, _, a3⟩
      · exact a1
      · exact (a3 _ (List.mem_cons_self _ _)).elim
    have ho : (iter cfg K kg ray 3 s).object = s.object := by rw [m3, hnone]
    have hst : ∀ j, j ≤ base → (iter cfg K kg ray 3 s).traversalStack j = s.traversalStack j := by
      intro j _
      rw [m3]
    obtain ⟨i1, i2⟩ := ih
      (level_next cfg s _ base _ rest hL ho hst
        (fun hx x hxm => hx x (List.mem_cons_of_mem _ hxm)))
      (fun x hx => hN x (List.mem_cons_of_mem _ hx))
    refine ⟨forall_lt_add cfg K kg ray _ 3 n s
      (forall_lt_three cfg K kg ray _ s hhead ?_ ?_) i1, ?_⟩
    · rw [iter_one, leaf_first cfg K kg ray s hpc0 hneg]
      exact level_of_pc cfg _ (by simp) (by simp)
    · rw [m2]
      exact level_of_pc cfg _ (by simp) (by simp)
    · rw [iter_add, i2, ho]
  | inst a sub rest s base n1 n2 hpre hw1 _ ih1 ih2 =>
    intro hL hN
    have hhead := level_head cfg K kg hpre hL
    have hsent := pre_sentinels cfg K kg hpre
    have hE := walk_ended cfg K kg ray hw1
    have hpcE := walk_pc cfg K kg ray hw1 0 (inst_sub_calm cfg K kg a sub rest s base hpre 0)
      (by rw [(enter_state cfg K kg ray a sub rest s base hpre).1]; simp)
    obtain ⟨hx1, hx2⟩ := exit_state cfg K kg ray a sub rest s base n1 hpre hE hpcE
    obtain ⟨k1, k2⟩ := enter_pcs cfg K kg ray a sub rest s base hpre
    obtain ⟨g1, g2, g3, g4, g5, _, g7, _⟩ := enter_state cfg K kg ray a sub rest s base hpre
    obtain ⟨hge, hsp⟩ := pre_sp_ge cfg K kg hpre
    have hpc0 : s.pc = PC.inner := hpre.2.2.2.2.1
    have hbase : 0 ≤ base := hpre.2.1
    have hsubni : sub.NoInst := ((hpre.2.2.2.1 _ (List.mem_cons_self _ _)).2).2.2.2.2.2.2.1
    have hnone : s.object = cfg.OBJECT_NONE := by
      rcases hL with ⟨a1, _⟩ | ⟨_, _, a3⟩
      · exact a1
      · exact (a3 _ (List.mem_cons_self _ _)).elim
    have hone : sentinelsBelow s.traversalStack cfg.ENTRYPOINT_SENTINEL (base + 1).toNat = 1 := by
      rcases hL with ⟨_, a2⟩ | ⟨a1, _, _⟩
      · exact a2
      · exact absurd hnone a1
    have hobj : (iter cfg K kg ray 3 s).object ≠ cfg.OBJECT_NONE := by
      rw [g7]
      exact hN _ (List.mem_cons_self _ _)
    have htwo : sentinelsBelow (iter cfg K kg ray 3 s).traversalStack cfg.ENTRYPOINT_SENTINEL
        (s.stackPtr + 1 + 1).toNat = 2 := by
      have e : (s.stackPtr + 1 + 1).toNat = (s.stackPtr + 1).toNat + 1 := by omega
      have e2 : (((s.stackPtr + 1).toNat : Nat) : Int) = s.stackPtr + 1 := by omega
      rw [e]
      show sentinelsBelow _ _ (s.stackPtr + 1).toNat +
        (if (iter cfg K kg ray 3 s).traversalStack (((s.stackPtr + 1).toNat : Nat) : Int) =
          cfg.ENTRYPOINT_SENTINEL then 1 else 0) = 2
      rw [e2, if_pos g4, sb_congr _ s.traversalStack _ _ (fun j hj => g5 j (by omega))]
      have hs2 : sentinels cfg s = 1 := by rw [hsent, hone]
      unfold sentinels at hs2
      rw [hs2]
    obtain ⟨i1, i2⟩ := ih1 (Or.inr ⟨hobj, htwo, fun x hx => by
        rw [List.mem_singleton] at hx
        rw [hx]
        exact hsubni⟩)
      (fun x hx => by
        rw [List.mem_singleton] at hx
        rw [hx]
        exact noInst_named cfg kg sub hsubni)
    obtain ⟨_, p2, p3, p4, _, p6, _⟩ := instancePop_spec cfg K kg ray
      (iter cfg K kg ray n1 (iter cfg K kg ray 3 s))
    have ho : (iter cfg K kg ray (3 + n1 + 2) s).object = s.object := by
      rw [hx2, hnone]
      exact p6
    have hst : ∀ j, j ≤ base →
        (iter cfg K kg ray (3 + n1 + 2) s).traversalStack j = s.traversalStack j := by
      intro j hj
      rw [hx2]
      show (instancePop cfg K kg ray (iter cfg K kg ray n1 (iter cfg K kg ray 3 s))).traversalStack
        j = _
      rw [p4, hE.2.2.2 j (by omega), g5 j (by omega)]
    obtain ⟨j1, j2⟩ := ih2
      (level_next cfg s _ base _ rest hL ho hst
        (fun hx x hxm => hx x (List.mem_cons_of_mem _ hxm)))
      (fun x hx => hN x (List.mem_cons_of_mem _ hx))
    refine ⟨?_, by rw [iter_add, j2, ho]⟩
    refine forall_lt_add cfg K kg ray _ (3 + n1 + 2) n2 s ?_ j1
    refine forall_lt_add cfg K kg ray _ (3 + n1) 2 s ?_ ?_
    · refine forall_lt_add cfg K kg ray _ 3 n1 s ?_ i1
      refine forall_lt_three cfg K kg ray _ s hhead ?_ ?_
      · exact level_of_pc cfg _ (by rw [k1]; simp) (by rw [k1]; simp)
      · exact level_of_pc cfg _ (by rw [k2]; simp) (by rw [k2]; simp)
    · intro k hk
      interval_cases k
      · show ObjectLevel cfg (iter cfg K kg ray (3 + n1) s)
        rw [iter_add]
        refine ⟨fun hp => ?_, fun _ _ => ?_⟩
        · rw [hpcE] at hp
          exact absurd hp (by simp)
        · rw [i2]
          exact hobj
      · rw [← iter_add, hx1]
        exact level_of_pc cfg _ (by simp) (by simp)
  | nodeHit a c0 c1 c2 c3 rest s base n order hpre hne hperm _ ih =>
    intro hL hN
    have hhead := level_head cfg K kg hpre hL
    obtain ⟨hstep, _, _⟩ := node_step cfg K kg ray a c0 c1 c2 c3 rest s base hpre
    obtain ⟨hge, _⟩ := pre_sp_ge cfg K kg hpre
    have ho : (step cfg K kg ray s).object = s.object := by
      rw [hstep]
      obtain ⟨st, sp, nd, mx, hfr⟩ := traverseNode_frame cfg K kg s
      rw [hfr]
    have hst : ∀ j, j ≤ base → (step cfg K kg ray s).traversalStack j = s.traversalStack j :=
      fun j hj => step_below cfg K kg ray s j (by omega)
    obtain ⟨i1, i2⟩ := ih
      (level_next cfg s _ base _ _ hL ho hst (fun hx x hxm => by
        rw [List.mem_append, List.mem_map] at hxm
        rcases hxm with ⟨i, _, hi⟩ | hxm
        · rw [← hi]
          exact noInst_child a c0 c1 c2 c3 (hx _ (List.mem_cons_self _ _)) i
        · exact hx x (List.mem_cons_of_mem _ hxm)))
      (fun x hxm => by
        rw [List.mem_append, List.mem_map] at hxm
        rcases hxm with ⟨i, _, hi⟩ | hxm
        · rw [← hi]
          exact named_child cfg kg a c0 c1 c2 c3 (hN _ (List.mem_cons_self _ _)) i
        · exact hN x (List.mem_cons_of_mem _ hxm))
    refine ⟨forall_lt_add cfg K kg ray _ 1 n s ?_ i1, ?_⟩
    · intro k hk
      interval_cases k
      exact hhead
    · rw [iter_add]
      exact i2.trans ho
  | nodeMiss a c0 c1 c2 c3 rest s base n hpre hm _ ih =>
    intro hL hN
    have hhead := level_head cfg K kg hpre hL
    obtain ⟨hstep, _, _⟩ := node_step cfg K kg ray a c0 c1 c2 c3 rest s base hpre
    obtain ⟨hge, _⟩ := pre_sp_ge cfg K kg hpre
    have ho : (step cfg K kg ray s).object = s.object := by
      rw [hstep]
      obtain ⟨st, sp, nd, mx, hfr⟩ := traverseNode_frame cfg K kg s
      rw [hfr]
    have hst : ∀ j, j ≤ base → (step cfg K kg ray s).traversalStack j = s.traversalStack j :=
      fun j hj => step_below cfg K kg ray s j (by omega)
    obtain ⟨i1, i2⟩ := ih
      (level_next cfg s _ base _ rest hL ho hst
        (fun hx x hxm => hx x (List.mem_cons_of_mem _ hxm)))
      (fun x hx => hN x (List.mem_cons_of_mem _ hx))
    refine ⟨forall_lt_add cfg K kg ray _ 1 n s ?_ i1, ?_⟩
    · intro k hk
      interval_cases k
      exact hhead
    · rw [iter_add]
      exact i2.trans ho

/-- C24, amended: in the traversal of a well-formed scene (the data encode a finite tree,
no child address is the sentinel, instanced trees hold no instance leaf) whose entered instance
leaves name objects other than `OBJECT_NONE`, at every test of the inner loop
with a current node other than the sentinel either no object is active and the slots
`0 .. stackPtr` hold one sentinel, or an object is active and they hold two; and whenever
the instance pop of line 289 is executed an object is active, so that the `kernel_assert`
of line 290 never fails. -/
theorem C24_object_level (t : QTree) (hwf : WellFormed cfg K kg t) (hN : Named cfg kg t)
    (isect0 : Intersection) (tfm0 : Transform) (k : Nat) :
    ((iter cfg K kg ray k (initState cfg K kg ray isect0 tfm0)).pc = PC.inner →
      (iter cfg K kg ray k (initState cfg K kg ray isect0 tfm0)).nodeAddr ≠ cfg.ENTRYPOINT_SENTINEL →
      ((iter cfg K kg ray k (initState cfg K kg ray isect0 tfm0)).object = cfg.OBJECT_NONE ∧
        sentinels cfg (iter cfg K kg ray k (initState cfg K kg ray isect0 tfm0)) = 1) ∨
      ((iter cfg K kg ray k (initState cfg K kg ray isect0 tfm0)).object ≠ cfg.OBJECT_NONE ∧
        sentinels cfg (iter cfg K kg ray k (initState cfg K kg ray isect0 tfm0)) = 2)) ∧
    ((iter cfg K kg ray k (initState cfg K kg ray isect0 tfm0)).pc = PC.inner →
      (iter cfg K kg ray k (initState cfg K kg ray isect0 tfm0)).nodeAddr ≠ cfg.ENTRYPOINT_SENTINEL →
      ((iter cfg K kg ray k (initState cfg K kg ray isect0 tfm0)).object ≠ cfg.OBJECT_NONE ↔
        sentinels cfg (iter cfg K kg ray k (initState cfg K kg ray isect0 tfm0)) = 2)) ∧
    (leavesInstance cfg (iter cfg K kg ray k (initState cfg K kg ray isect0 tfm0)) →
      (iter cfg K kg ray k (initState cfg K kg ray isect0 tfm0)).object ≠ cfg.OBJECT_NONE) := by
  have hOL : ObjectLevel cfg (iter cfg K kg ray k (initState cfg K kg ray isect0 tfm0)) := by
    obtain ⟨n, hw, _, _⟩ := traversal_walk cfg K kg ray t hwf isect0 tfm0
    by_cases hk : k < n
    · refine (walk_level cfg K kg ray hw (Or.inl ⟨rfl, ?_⟩) (fun x hx => ?_)).1 k hk
      · show sentinelsBelow (initState cfg K kg ray isect0 tfm0).traversalStack _ 1 = 1
        simp [sentinelsBelow, initState, State.setNearFar]
      · rw [List.mem_singleton] at hx
        rw [hx]
        exact hN
    · obtain ⟨d, rfl⟩ : ∃ d, k = n + d := ⟨k - n, by omega⟩
      obtain ⟨e1, e2, e3, _⟩ := walk_ended cfg K kg ray hw
      obtain ⟨_, i2, _, i4, _⟩ := drain_iter cfg K kg ray hwf.1 d _ e1 (by omega)
      rw [iter_add]
      refine ⟨fun hp => ?_, fun _ hs => ?_⟩
      · rw [hp] at i4
        rcases e3 with e3 | e3 <;> rw [e3] at i4 <;> simp only [PC.rank] at i4 <;> omega
      · omega
  obtain ⟨o1, o2⟩ := hOL
  refine ⟨o1, fun hp hn => ?_, fun hl => o2 hl.1 hl.2.2⟩
  rcases o1 hp hn with ⟨a, b⟩ | ⟨a, b⟩
  · exact ⟨fun h => absurd a h, fun h => by omega⟩
  · exact ⟨fun _ => b, fun _ => a⟩

end C24

theorem treeC_named : Named demoConfig sceneC treeC := by
  simp [treeC, Named, leafWords, sceneC, demoConfig]

theorem treeC_wellFormedT (m : Nat) (d : float4) (hm : m < 16) :
    WellFormed demoConfig (collabT m d) sceneC treeC := by
  refine ⟨by show (0 : Int) ≤ 0x76543210; decide, rfl, rfl, ?_⟩
  simp [treeC, Encodes, MaskOK, NeverHit, SlotOK, QTree.isDead, childWords, leafWords,
    leafObject, QTree.NoInst, collabT, demoCollab, maskT, sceneC, demoConfig, QTree.addr,
    int4.get, hm]

/-- Witness of C24 on scene C: state 4 is the test of the inner loop for the root of the
instanced tree, with object 0 active and two sentinels on the stack; state 17 executes the instance
pop with object 0 active. -/
theorem C24_object_level_witness :
    ((iter demoConfig collabC sceneC demoRay 4
        (initState demoConfig collabC sceneC demoRay demoIsect demoTfm)).object ≠ demoConfig.OBJECT_NONE ↔
      sentinels demoConfig (iter demoConfig collabC sceneC demoRay 4
        (initState demoConfig collabC sceneC demoRay demoIsect demoTfm)) = 2) ∧
    (iter demoConfig collabC sceneC demoRay 17
        (initState demoConfig collabC sceneC demoRay demoIsect demoTfm)).object ≠ demoConfig.OBJECT_NONE :=
  ⟨(C24_object_level demoConfig collabC sceneC demoRay treeC (treeC_wellFormed 192) treeC_named
      demoIsect demoTfm 4).2.1 (by decide) (by decide),
    (C24_object_level demoConfig collabC sceneC demoRay treeC (treeC_wellFormed 192) treeC_named
      demoIsect demoTfm 17).2.2 (by decide)⟩

/-- C24 as stated fails: in scene C with a node test that reports no child at the root of
the instanced tree, the pass for that root pops the sentinel of the instance; state 11 is
the next test of the inner loop, with object 0 still active and the slots `0 .. 1` holding
the one sentinel of slot 0. -/
theorem C24_counterexample :
    WellFormed demoConfig (collabT 15 ⟨1, 1, 1, 1⟩) sceneC treeC ∧ Named demoConfig sceneC treeC ∧
    (iter demoConfig (collabT 15 ⟨1, 1, 1, 1⟩) sceneC demoRay 11
        (initState demoConfig (collabT 15 ⟨1, 1, 1, 1⟩) sceneC demoRay demoIsect demoTfm)).pc = PC.inner ∧
    (iter demoConfig (collabT 15 ⟨1, 1, 1, 1⟩) sceneC demoRay 11
        (initState demoConfig (collabT 15 ⟨1, 1, 1, 1⟩) sceneC demoRay demoIsect demoTfm)).stackPtr = 1 ∧
    (iter demoConfig (collabT 15 ⟨1, 1, 1, 1⟩) sceneC demoRay 11
        (initState demoConfig (collabT 15 ⟨1, 1, 1, 1⟩) sceneC demoRay demoIsect demoTfm)).object ≠ demoConfig.OBJECT_NONE ∧
    sentinels demoConfig (iter demoConfig (collabT 15 ⟨1, 1, 1, 1⟩) sceneC demoRay 11
        (initState demoConfig (collabT 15 ⟨1, 1, 1, 1⟩) sceneC demoRay demoIsect demoTfm)) = 1 ∧
    ¬ ((iter demoConfig (collabT 15 ⟨1, 1, 1, 1⟩) sceneC demoRay 11
        (initState demoConfig (collabT 15 ⟨1, 1, 1, 1⟩) sceneC demoRay demoIsect demoTfm)).object ≠ demoConfig.OBJECT_NONE ↔
      sentinels demoConfig (iter demoConfig (collabT 15 ⟨1, 1, 1, 1⟩) sceneC demoRay 11
        (initState demoConfig (collabT 15 ⟨1, 1, 1, 1⟩) sceneC demoRay demoIsect demoTfm)) = 2) :=
  ⟨treeC_wellFormedT 15 _ (by decide), treeC_named, by decide, by decide, by decide, by decide,
    by decide⟩

end QBVH


namespace QBVH

section C25

variable (cfg : Config) (K : Collab) (kg : KernelGlobals) (ray : Ray)

/-- What a pass of the inner loop does to the stack pointer, by the number of hit children
the cascade finds. -/
theorem traverseNode_count (s : State) :
    (hitCount (nodeTest K kg s).1 = 0 ∧ (traverseNode cfg K kg s).stackPtr = s.stackPtr - 1) ∨
    (hitCount (nodeTest K kg s).1 = 1 ∧ (traverseNode cfg K kg s).stackPtr = s.stackPtr) ∨
    (hitCount (nodeTest K kg s).1 = 2 ∧ (traverseNode cfg K kg s).stackPtr = s.stackPtr + 1) ∨
    (hitCount (nodeTest K kg s).1 = 3 ∧ (traverseNode cfg K kg s).stackPtr = s.stackPtr + 2) ∨
    (hitCount (nodeTest K kg s).1 = 4 ∧ (traverseNode cfg K kg s).stackPtr = s.stackPtr + 3) := by
  by_cases h0 : (nodeTest K kg s).1 = 0
  · refine Or.inl ⟨by simp [hitCount, h0], ?_⟩
    rw [traverseNode_miss cfg K kg s h0]
    rfl
  · by_cases h1 : (bscf (nodeTest K kg s).1).2 = 0
    · refine Or.inr (Or.inl ⟨by simp [hitCount, h0, h1], ?_⟩)
      rw [traverseNode_one cfg K kg s h0 h1]
    · by_cases h2 : (bscf (bscf (nodeTest K kg s).1).2).2 = 0
      · refine Or.inr (Or.inr (Or.inl ⟨by simp [hitCount, h0, h1, h2], ?_⟩))
        rw [traverseNode_two cfg K kg s h0 h1 h2]
        split_ifs <;> rfl
      · by_cases h3 : (bscf (bscf (bscf (nodeTest K kg s).1).2).2).2 = 0
        · refine Or.inr (Or.inr (Or.inr (Or.inl ⟨by simp [hitCount, h0, h1, h2, h3], ?_⟩)))
          rw [traverseNode_three cfg K kg s h0 h1 h2 h3,
            (sortTop3_pop_spec _ _ _ _ _ _ _ rfl rfl rfl).2.1, (push3_spec _ _ _ _).1]
          omega
        · refine Or.inr (Or.inr (Or.inr (Or.inr ⟨by simp [hitCount, h0, h1, h2, h3], ?_⟩)))
          rw [traverseNode_four cfg K kg s h0 h1 h2 h3,
            (sortTop4_pop_spec _ _ _ _ _ _ _ _ _ rfl rfl rfl rfl).2.1, (push4_spec _ _ _ _ _).1]
          omega

theorem writes_inner (s : State) (hpc : s.pc = PC.inner)
    (hn : 0 ≤ s.nodeAddr ∧ s.nodeAddr ≠ cfg.ENTRYPOINT_SENTINEL) :
    writes cfg K kg s = pushedSlots s.stackPtr (hitCount (nodeTest K kg s).1) := by
  unfold writes
  simp only [hpc]
  rw [if_pos hn]

theorem reads_inner (s : State) (hpc : s.pc = PC.inner)
    (hn : 0 ≤ s.nodeAddr ∧ s.nodeAddr ≠ cfg.ENTRYPOINT_SENTINEL) :
    reads cfg K kg s = readSlots s.stackPtr (hitCount (nodeTest K kg s).1) := by
  unfold reads
  simp only [hpc]
  rw [if_pos hn]

/-- A slot that a move brings below the stack pointer is written by that move. -/
theorem step_rise (s : State) (j : Int) (h1 : s.stackPtr < j)
    (h2 : j ≤ (step cfg K kg ray s).stackPtr) : j ∈ writes cfg K kg s := by
  rcases hpc : s.pc with _ | _ | _ | _ | _ | _
  · by_cases hn : 0 ≤ s.nodeAddr ∧ s.nodeAddr ≠ cfg.ENTRYPOINT_SENTINEL
    · rw [step_inner_node cfg K kg ray s hpc hn] at h2
      rw [writes_inner cfg K kg s hpc hn]
      rcases traverseNode_count cfg K kg s with ⟨c, e⟩ | ⟨c, e⟩ | ⟨c, e⟩ | ⟨c, e⟩ | ⟨c, e⟩ <;>
        rw [c] <;> rw [e] at h2 <;> simp only [pushedSlots, List.mem_cons, List.mem_singleton,
          List.not_mem_nil, or_false] <;> omega
    · rw [step_inner_exit cfg K kg ray s hpc hn] at h2
      exact absurd h2 (by show ¬ j ≤ s.stackPtr; omega)
  · by_cases hn : s.nodeAddr < 0
    · rw [step_leafTest_leaf cfg K kg ray s hpc hn] at h2
      by_cases hp : cfg.BVH_INSTANCING = false ∨ (leafWords cfg kg s.nodeAddr).x ≥ 0
      · rw [leafStep_prims cfg K kg ray s hp] at h2
        obtain ⟨r, hr⟩ := primLoop_frame cfg K kg ray
          ((leafWords cfg kg s.nodeAddr).y - (leafWords cfg kg s.nodeAddr).x).toNat s.pop
          (leafWords cfg kg s.nodeAddr).x
        rw [hr] at h2
        exact absurd h2 (by show ¬ j ≤ s.stackPtr - 1; omega)
      · rw [leafStep_instance cfg K kg ray s hp] at h2
        by_cases hf : kg.object_flag (kg.prim_object (-(leafWords cfg kg s.nodeAddr).x - 1))
            &&& cfg.SD_OBJECT_HAS_VOLUME = 0
        · rw [instanceLeaf_skip cfg K kg ray s _ hf] at h2
          exact absurd h2 (by show ¬ j ≤ s.stackPtr - 1; omega)
        · have he : entersInstance cfg kg s := by
            refine ⟨hpc, hn, ?_, ?_, hf⟩
            · cases hb : cfg.BVH_INSTANCING
              · exact absurd (Or.inl hb) hp
              · rfl
            · by_contra hx
              exact hp (Or.inr (by omega))
          have h3 : j ≤ (instanceLeaf cfg K kg ray s (leafWords cfg kg s.nodeAddr).x).stackPtr :=
            h2
          rw [(instanceLeaf_enter cfg K kg ray s _ hf).2.2.1] at h3
          unfold writes
          simp only [hpc]
          rw [if_pos he, List.mem_singleton]
          omega
    · rw [step_leafTest_skip cfg K kg ray s hpc hn] at h2
      exact absurd h2 (by show ¬ j ≤ s.stackPtr; omega)
  · rw [step_midCond cfg K kg ray s hpc] at h2
    exact absurd h2 (by show ¬ j ≤ s.stackPtr; omega)
  · by_cases hi : cfg.BVH_INSTANCING = true ∧ 0 ≤ s.stackPtr
    · rw [step_outerIf_pop cfg K kg ray s hpc hi] at h2
      have h3 : j ≤ (instancePop cfg K kg ray s).stackPtr := h2
      rw [(instancePop_spec cfg K kg ray s).2.2.1] at h3
      omega
    · rw [step_outerIf_skip cfg K kg ray s hpc hi] at h2
      exact absurd h2 (by show ¬ j ≤ s.stackPtr; omega)
  · rw [step_outerCond cfg K kg ray s hpc] at h2
    exact absurd h2 (by show ¬ j ≤ s.stackPtr; omega)
  · rw [step_done cfg K kg ray s hpc] at h2
    omega

/-- A read is of a slot the same move has written before, or it is the pop of the top
entry, made for a current node other than the sentinel or at line 289 with a stack pointer
of at least 0. -/
theorem reads_cases (s : State) (h0 : 0 ≤ cfg.ENTRYPOINT_SENTINEL) (j : Int)
    (h : j ∈ reads cfg K kg s) :
    (j ∈ writes cfg K kg s ∧ s.stackPtr < j) ∨
    (j = s.stackPtr ∧ (s.nodeAddr ≠ cfg.ENTRYPOINT_SENTINEL ∨ 0 ≤ s.stackPtr)) := by
  rcases hpc : s.pc with _ | _ | _ | _ | _ | _
  · by_cases hn : 0 ≤ s.nodeAddr ∧ s.nodeAddr ≠ cfg.ENTRYPOINT_SENTINEL
    · rw [reads_inner cfg K kg s hpc hn] at h
      rw [writes_inner cfg K kg s hpc hn]
      rcases traverseNode_count cfg K kg s with ⟨c, _⟩ | ⟨c, _⟩ | ⟨c, _⟩ | ⟨c, _⟩ | ⟨c, _⟩ <;>
        rw [c] at h ⊢ <;> simp only [pushedSlots, readSlots, List.mem_cons, List.mem_singleton,
          List.not_mem_nil, or_false] at h ⊢
      · exact Or.inr ⟨h, Or.inl hn.2⟩
      · exact Or.inl ⟨by omega, by omega⟩
      · exact Or.inl ⟨by omega, by omega⟩
    · unfold reads at h
      simp only [hpc] at h
      rw [if_neg hn] at h
      exact absurd h (List.not_mem_nil _)
  · unfold reads at h
    simp only [hpc] at h
    split_ifs at h with hc
    · rw [List.mem_singleton] at h
      exact Or.inr ⟨h, Or.inl (by omega)⟩
    · exact absurd h (List.not_mem_nil _)
  · unfold reads at h
    simp only [hpc] at h
    exact absurd h (List.not_mem_nil _)
  · unfold reads at h
    simp only [hpc] at h
    split_ifs at h with hc
    · rw [List.mem_singleton] at h
      exact Or.inr ⟨h, Or.inr hc.2.2⟩
    · exact absurd h (List.not_mem_nil _)
  · unfold reads at h
    simp only [hpc] at h
    exact absurd h (List.not_mem_nil _)
  · unfold reads at h
    simp only [hpc] at h
    exact absurd h (List.not_mem_nil _)

/-- Every slot from 1 up to the stack pointer has been written by an earlier move. -/
theorem live_written (isect0 : Intersection) (tfm0 : Transform) (k : Nat) :
    ∀ j, 1 ≤ j → j ≤ (iter cfg K kg ray k (initState cfg K kg ray isect0 tfm0)).stackPtr →
      ∃ i, i < k ∧ j ∈ writes cfg K kg (iter cfg K kg ray i (initState cfg K kg ray isect0 tfm0)) := by
  induction k with
  | zero =>
    intro j h1 h2
    have h3 : j ≤ (initState cfg K kg ray isect0 tfm0).stackPtr := h2
    have h4 : (initState cfg K kg ray isect0 tfm0).stackPtr = 0 := rfl
    omega
  | succ k ih =>
    intro j h1 h2
    by_cases hj : j ≤ (iter cfg K kg ray k (initState cfg K kg ray isect0 tfm0)).stackPtr
    · obtain ⟨i, hi, hw⟩ := ih j h1 hj
      exact ⟨i, by omega, hw⟩
    · rw [iter_succ_last] at h2
      exact ⟨k, by omega, step_rise cfg K kg ray _ j (by omega) h2⟩

/-- C25: in the traversal of a well-formed scene the function returns; in every state the
stack pointer is at least -1; every index of the traversal stack that a move reads is at
least 0 and is 0, the slot written at line 42, or a slot written by an earlier move or
earlier in the same move (the reads of the sort and the pop that follow the pushes of
three or four hit children); and when the function has returned the stack pointer is -1. -/
theorem C25_stack_reads (t : QTree) (hwf : WellFormed cfg K kg t) (isect0 : Intersection)
    (tfm0 : Transform) (k : Nat) :
    (∃ n r, bvh_intersect_volume cfg K kg ray isect0 tfm0 n = some r) ∧
    -1 ≤ (iter cfg K kg ray k (initState cfg K kg ray isect0 tfm0)).stackPtr ∧
    (∀ j, j ∈ reads cfg K kg (iter cfg K kg ray k (initState cfg K kg ray isect0 tfm0)) →
      0 ≤ j ∧ (j = 0 ∨ ∃ i, i ≤ k ∧
        j ∈ writes cfg K kg (iter cfg K kg ray i (initState cfg K kg ray isect0 tfm0)))) ∧
    (∀ r, bvh_intersect_volume cfg K kg ray isect0 tfm0 k = some r →
      (iter cfg K kg ray k (initState cfg K kg ray isect0 tfm0)).stackPtr = -1) := by
  obtain ⟨n, _, hdone, _⟩ := traversal_walk cfg K kg ray t hwf isect0 tfm0
  obtain ⟨r1, r2, r3, _⟩ := traversal_running cfg K kg ray t hwf isect0 tfm0 k
  refine ⟨⟨n + 2, _, run_done cfg K kg ray isect0 tfm0 _ hdone⟩, r1, fun j hj => ?_,
    fun r hr => ?_⟩
  · rcases reads_cases cfg K kg _ hwf.1 j hj with ⟨hw, hlt⟩ | ⟨he, hc⟩
    · exact ⟨by omega, Or.inr ⟨k, le_refl _, hw⟩⟩
    · have hsp : 0 ≤ (iter cfg K kg ray k (initState cfg K kg ray isect0 tfm0)).stackPtr := by
        rcases hc with hc | hc
        · by_contra hneg
          exact hc (r2 (by omega))
        · exact hc
      refine ⟨by omega, ?_⟩
      by_cases hz : j = 0
      · exact Or.inl hz
      · obtain ⟨i, hi, hw⟩ := live_written cfg K kg ray isect0 tfm0 k j (by omega) (by omega)
        exact Or.inr ⟨i, by omega, hw⟩
  · unfold bvh_intersect_volume at hr
    dsimp only at hr
    split_ifs at hr with hd
    exact r3 hd

end C25

/-- Witness of C25 on scene C: state 17 is at line 289 inside the instance and the instance
pop reads slot 3. -/
theorem C25_stack_reads_witness :
    (3 : Int) ∈ reads demoConfig collabC sceneC
      (iter demoConfig collabC sceneC demoRay 17
        (initState demoConfig collabC sceneC demoRay demoIsect demoTfm)) ∧
    ((0 : Int) ≤ 3 ∧ ((3 : Int) = 0 ∨ ∃ i, i ≤ 17 ∧
      (3 : Int) ∈ writes demoConfig collabC sceneC
        (iter demoConfig collabC sceneC demoRay i
          (initState demoConfig collabC sceneC demoRay demoIsect demoTfm)))) :=
  ⟨by decide,
    (C25_stack_reads demoConfig collabC sceneC demoRay treeC (treeC_wellFormed 192) demoIsect
      demoTfm 17).2.2.1 3 (by decide)⟩

end QBVH


namespace QBVH

section C30

variable (cfg : Config) (K1 K2 : Collab) (kg : KernelGlobals) (ray : Ray)

/-- Lines 220-235: each routine is called with `PATH_RAY_ALL_VISIBILITY`. -/
theorem primDispatch_same (h : SameAtAllVisibility cfg K1 K2) (pre : IsectPrecalc)
    (r : Intersection) (P d : float3) (o p : Int) :
    primDispatch cfg K1 kg ray pre r P d o p = primDispatch cfg K2 kg ray pre r P d o p := by
  obtain ⟨_, _, _, _, _, _, _, _, h1, h2, h3, h4⟩ := h
  unfold primDispatch
  simp only [h1, h2, h3, h4]

theorem primBody_same (h : SameAtAllVisibility cfg K1 K2) (s : State) (p : Int) :
    primBody cfg K1 kg ray s p = primBody cfg K2 kg ray s p := by
  unfold primBody
  simp only [primDispatch_same cfg K1 K2 kg ray h]

theorem primLoop_same (h : SameAtAllVisibility cfg K1 K2) (n : Nat) : ∀ (s : State) (p : Int),
    primLoop cfg K1 kg ray s p n = primLoop cfg K2 kg ray s p n := by
  induction n with
  | zero => intro s p; rfl
  | succ n ih =>
    intro s p
    simp only [primLoop]
    rw [primBody_same cfg K1 K2 kg ray h, ih]

theorem instanceLeaf_same (h : SameAtAllVisibility cfg K1 K2) (s : State) (x : Int) :
    instanceLeaf cfg K1 kg ray s x = instanceLeaf cfg K2 kg ray s x := by
  obtain ⟨_, _, h3, _, h5, _, h7, _, _⟩ := h
  unfold instanceLeaf State.reload
  simp only [h3, h5, h7]

theorem instancePop_same (h : SameAtAllVisibility cfg K1 K2) (s : State) :
    instancePop cfg K1 kg ray s = instancePop cfg K2 kg ray s := by
  obtain ⟨_, _, h3, _, _, h6, _, h8, _⟩ := h
  unfold instancePop State.reload
  simp only [h3, h6, h8]

theorem traverseNode_same (h : SameAtAllVisibility cfg K1 K2) (s : State) :
    traverseNode cfg K1 kg s = traverseNode cfg K2 kg s := by
  obtain ⟨_, _, _, h4, _⟩ := h
  unfold traverseNode
  simp only [h4]

theorem step_same (h : SameAtAllVisibility cfg K1 K2) (s : State) :
    step cfg K1 kg ray s = step cfg K2 kg ray s := by
  unfold step leafStep
  simp only [traverseNode_same cfg K1 K2 kg h, primLoop_same cfg K1 K2 kg ray h,
    instanceLeaf_same cfg K1 K2 kg ray h, instancePop_same cfg K1 K2 kg ray h]

theorem iter_same (h : SameAtAllVisibility cfg K1 K2) (n : Nat) : ∀ s : State,
    iter cfg K1 kg ray n s = iter cfg K2 kg ray n s := by
  induction n with
  | zero => intro s; rfl
  | succ n ih =>
    intro s
    simp only [iter]
    rw [step_same cfg K1 K2 kg ray h, ih]

theorem initState_same (h : SameAtAllVisibility cfg K1 K2) (isect0 : Intersection)
    (tfm0 : Transform) :
    initState cfg K1 kg ray isect0 tfm0 = initState cfg K2 kg ray isect0 tfm0 := by
  obtain ⟨h1, h2, h3, _⟩ := h
  unfold initState
  simp only [h1, h2, h3]

/-- C30: the visibility mask handed to every primitive intersection routine is the constant
`PATH_RAY_ALL_VISIBILITY`, whatever the state, the ray and the scene: two kernels whose
routines differ only in what they return for other masks make the same moves, state by
state, and return the same result. The function has no visibility parameter of its own, so
a mask held by the caller cannot reach the routines. -/
theorem C30_visibility_constant (h : SameAtAllVisibility cfg K1 K2) (isect0 : Intersection)
    (tfm0 : Transform) :
    (∀ n, iter cfg K1 kg ray n (initState cfg K1 kg ray isect0 tfm0) =
      iter cfg K2 kg ray n (initState cfg K2 kg ray isect0 tfm0)) ∧
    (∀ fuel, bvh_intersect_volume cfg K1 kg ray isect0 tfm0 fuel =
      bvh_intersect_volume cfg K2 kg ray isect0 tfm0 fuel) := by
  have hi : ∀ n, iter cfg K1 kg ray n (initState cfg K1 kg ray isect0 tfm0) =
      iter cfg K2 kg ray n (initState cfg K2 kg ray isect0 tfm0) := by
    intro n
    rw [initState_same cfg K1 K2 kg ray h, iter_same cfg K1 K2 kg ray h]
  refine ⟨hi, fun fuel => ?_⟩
  unfold bvh_intersect_volume
  rw [hi]

end C30

theorem collabV_same : SameAtAllVisibility demoConfig collabA collabV := by
  refine ⟨rfl, rfl, rfl, rfl, rfl, rfl, rfl, rfl, fun g pre r P d o p => ?_,
    fun _ _ _ _ _ _ _ => rfl, fun _ _ _ _ _ _ _ _ => rfl, fun _ _ _ _ _ _ _ _ => rfl⟩
  show hitRec r (hitA p) p o =
    if (31 : Nat) = 31 then hitRec r (hitA p) p o else (true, { r with t := 0, prim := p })
  rw [if_pos rfl]

/-- Witness of C30: the kernel of scene A and the kernel whose triangle routine reports a
hit at distance 0 for every other visibility mask return the same result. -/
theorem C30_visibility_constant_witness :
    (collabA.triangle_intersect sceneA ⟨0, 0, 0, 0, 0, 0⟩ demoIsect ⟨0, 0, 0⟩ ⟨0, 0, 1⟩ 1 0 0 ≠
      collabV.triangle_intersect sceneA ⟨0, 0, 0, 0, 0, 0⟩ demoIsect ⟨0, 0, 0⟩ ⟨0, 0, 1⟩ 1 0 0) ∧
    ∀ fuel, bvh_intersect_volume demoConfig collabA sceneA demoRay demoIsect demoTfm fuel =
      bvh_intersect_volume demoConfig collabV sceneA demoRay demoIsect demoTfm fuel :=
  ⟨by decide,
    (C30_visibility_constant demoConfig collabA collabV sceneA demoRay collabV_same demoIsect
      demoTfm).2⟩

end QBVH


namespace PTC

open PTCReadSampleResult

/-- C26: `AbcReader::test_sample` returns `PTC_READ_SAMPLE_INVALID` exactly when the reader
has no archive. With an archive, and `[start, end]` the range `get_frame_range` delivers
(`[1, 1]` with the flag `false` when the Alembic archive is invalid), it returns `EARLY`
exactly when `frame < start`, `LATE` exactly when `start ≤ frame` and `end < frame`,
`INTERPOLATED` exactly when `start ≤ frame ≤ end`, and in no case `EXACT`. -/
theorem C26_test_sample (time_to_frame : ℚ → ℚ) (m_abc_archive : Option AbcReaderArchive)
    (frame : ℚ) :
    (AbcReader.test_sample time_to_frame m_abc_archive frame = PTC_READ_SAMPLE_INVALID ↔
      m_abc_archive = none) ∧
    AbcReader.test_sample time_to_frame m_abc_archive frame ≠ PTC_READ_SAMPLE_EXACT ∧
    (∀ a, m_abc_archive = some a →
      (a.valid = false → a.get_frame_range time_to_frame = (false, 1, 1)) ∧
      (AbcReader.test_sample time_to_frame m_abc_archive frame = PTC_READ_SAMPLE_EARLY ↔
        frame < ((a.get_frame_range time_to_frame).2.1 : ℚ)) ∧
      (AbcReader.test_sample time_to_frame m_abc_archive frame = PTC_READ_SAMPLE_LATE ↔
        ((a.get_frame_range time_to_frame).2.1 : ℚ) ≤ frame ∧
          ((a.get_frame_range time_to_frame).2.2 : ℚ) < frame) ∧
      (AbcReader.test_sample time_to_frame m_abc_archive frame =
          PTC_READ_SAMPLE_INTERPOLATED ↔
        ((a.get_frame_range time_to_frame).2.1 : ℚ) ≤ frame ∧
          frame ≤ ((a.get_frame_range time_to_frame).2.2 : ℚ))) := by
  cases m_abc_archive with
  | none =>
    refine ⟨⟨fun _ => rfl, fun _ => rfl⟩, by simp [AbcReader.test_sample], fun a h => ?_⟩
    exact absurd h (by simp)
  | some b =>
    have hdef : AbcReader.test_sample time_to_frame (some b) frame =
        if frame < ((b.get_frame_range time_to_frame).2.1 : ℚ) then PTC_READ_SAMPLE_EARLY
        else if frame > ((b.get_frame_range time_to_frame).2.2 : ℚ) then PTC_READ_SAMPLE_LATE
        else PTC_READ_SAMPLE_INTERPOLATED := rfl
    refine ⟨⟨fun h => ?_, fun h => by simp at h⟩, ?_, fun a h => ?_⟩
    · rw [hdef] at h
      split_ifs at h
    · rw [hdef]
      split_ifs <;> simp
    · rw [Option.some.injEq] at h
      subst h
      rw [hdef]
      refine ⟨fun hv => by simp [AbcReaderArchive.get_frame_range, hv], ?_, ?_, ?_⟩
      · split_ifs with h1 h2 <;> simp [h1]
      · split_ifs with h1 h2
        · simp [h1]
        · simp only [true_iff]
          exact ⟨le_of_not_lt h1, h2⟩
        · simp only [false_iff, not_and, not_lt]
          exact fun _ => le_of_not_lt h2
      · split_ifs with h1 h2
        · simp [h1]
        · simp only [false_iff, not_and, not_le]
          exact fun _ => h2
        · simp only [true_iff]
          exact ⟨le_of_not_lt h1, le_of_not_lt h2⟩

end PTC


namespace PTC

open PTCReadSampleResult

/-- Every `return PTC_READ_SAMPLE_INVALID` of `read_sample` comes before the first
statement that writes `m_strands` or the object it points to. -/
theorem read_sample_invalid (B : Blenlib) (m_strands : Option StrandsChildren)
    (a : ChildrenArrays)
    (h : (AbcStrandsChildrenReader.read_sample B m_strands a).1 = PTC_READ_SAMPLE_INVALID) :
    (AbcStrandsChildrenReader.read_sample B m_strands a).2 = m_strands := by
  rcases hco : a.sample_co with _ | co <;> rcases hnv : a.sample_numvert with _ | nv <;>
    simp only [AbcStrandsChildrenReader.read_sample, hco, hnv] at h ⊢ <;>
    split_ifs at h ⊢ <;> rfl

/-- C28: when the positions or the per-curve vertex counts are missing, or `root_matrix`
or `root_positions` does not have exactly `totcurves` entries, or `parents` or
`parent_weights` does not have exactly `4 * totcurves` entries (`totcurves` being the
number of vertex counts), `read_sample` returns `PTC_READ_SAMPLE_INVALID` and leaves
`m_strands`, pointer and object, as it was. -/
theorem C28_reject_atomic (B : Blenlib) (m_strands : Option StrandsChildren)
    (a : ChildrenArrays)
    (h : a.sample_co = none ∨ a.sample_numvert = none ∨
      ∃ nv, a.sample_numvert = some nv ∧
        (a.sample_root_matrix.length ≠ nv.length ∨
          a.sample_root_positions.length ≠ nv.length ∨
          a.sample_parents.length ≠ 4 * nv.length ∨
          a.sample_parent_weights.length ≠ 4 * nv.length)) :
    (AbcStrandsChildrenReader.read_sample B m_strands a).1 = PTC_READ_SAMPLE_INVALID ∧
    (AbcStrandsChildrenReader.read_sample B m_strands a).2 = m_strands := by
  have hinv : (AbcStrandsChildrenReader.read_sample B m_strands a).1 =
      PTC_READ_SAMPLE_INVALID := by
    rcases hco : a.sample_co with _ | co <;> rcases hnv : a.sample_numvert with _ | nv <;>
      simp only [AbcStrandsChildrenReader.read_sample, hco, hnv] <;>
      split_ifs with h1 h2 h3 <;> try rfl
    exfalso
    apply h3
    rcases h with h | h | ⟨nv2, e, h⟩
    · rw [hco] at h
      exact absurd h (by simp)
    · rw [hnv] at h
      exact absurd h (by simp)
    · rw [hnv, Option.some.injEq] at e
      subst e
      rcases h with h | h | h | h
      · exact Or.inl (by exact_mod_cast h)
      · exact Or.inr (Or.inl (by exact_mod_cast h))
      · exact Or.inr (Or.inr (Or.inl (by exact_mod_cast h)))
      · exact Or.inr (Or.inr (Or.inr (by exact_mod_cast h)))
  exact ⟨hinv, read_sample_invalid B m_strands a hinv⟩

/-- Witness of C28: a sample whose `root_matrix` array is empty while there is one curve. -/
theorem C28_reject_atomic_witness :
    (AbcStrandsChildrenReader.read_sample demoLib (some zeroStrands)
      ⟨true, 1, some [⟨0, 0, 0⟩], some [1], [], [⟨0, 0, 0⟩], [0], [0, 0, 0, 0],
        [1, 0, 0, 0]⟩).1 = PTC_READ_SAMPLE_INVALID ∧
    (AbcStrandsChildrenReader.read_sample demoLib (some zeroStrands)
      ⟨true, 1, some [⟨0, 0, 0⟩], some [1], [], [⟨0, 0, 0⟩], [0], [0, 0, 0, 0],
        [1, 0, 0, 0]⟩).2 = some zeroStrands :=
  C28_reject_atomic demoLib (some zeroStrands)
    ⟨true, 1, some [⟨0, 0, 0⟩], some [1], [], [⟨0, 0, 0⟩], [0], [0, 0, 0, 0], [1, 0, 0, 0]⟩
    (Or.inr (Or.inr ⟨[1], rfl, Or.inl (by decide)⟩))

end PTC


namespace PTC

open PTCReadSampleResult

/-- Loop invariant rule for `loop`. -/
theorem loop_inv {σ : Type} (body : Nat → σ → σ) (P : Nat → σ → Prop) (n : Nat) (s : σ)
    (h0 : P 0 s) (hstep : ∀ i t, i < n → P i t → P (i + 1) (body i t)) :
    P n (loop body n s) := by
  induction n with
  | zero => exact h0
  | succ n ih =>
    exact hstep n _ (by omega) (ih (fun i t hi => hstep i t (by omega)))

end PTC


namespace PTC

/-! ## Path-cache round trip -/

/-- The keys appended by the inner loop of `paths_create_sample` (lines 1157-1165). -/
theorem pushKey_loop (keys : Nat → ParticleCacheKey) (m : Nat) (s : ParticlePathcacheSample) :
    loop (fun k sample => pushKey sample (keys k)) m s =
      { numkeys := s.numkeys
        positions := s.positions ++ (List.range m).map (fun k => (keys k).co)
        velocities := s.velocities ++ (List.range m).map (fun k => (keys k).vel)
        rotations := s.rotations ++ (List.range m).map (fun k => (keys k).rot)
        colors := s.colors ++ (List.range m).map (fun k => (keys k).col)
        times := s.times ++ (List.range m).map (fun k => (keys k).time) } := by
  induction m with
  | zero => simp [loop]
  | succ m ih =>
    show pushKey (loop (fun k sample => pushKey sample (keys k)) m s) (keys m) = _
    rw [ih]
    simp [pushKey, List.range_succ]

/-- One round of the outer loop of `paths_create_sample` with `do_numkeys` set. -/
theorem createPath_spec (pathcache : Nat → Nat → ParticleCacheKey) (p : Nat)
    (s : ParticlePathcacheSample) :
    createPath pathcache true p s =
      { numkeys := s.numkeys ++ [(pathcache p 0).segments + 1]
        positions := s.positions ++
          (List.range ((pathcache p 0).segments + 1).toNat).map (fun k => (pathcache p k).co)
        velocities := s.velocities ++
          (List.range ((pathcache p 0).segments + 1).toNat).map (fun k => (pathcache p k).vel)
        rotations := s.rotations ++
          (List.range ((pathcache p 0).segments + 1).toNat).map (fun k => (pathcache p k).rot)
        colors := s.colors ++
          (List.range ((pathcache p 0).segments + 1).toNat).map (fun k => (pathcache p k).col)
        times := s.times ++
          (List.range ((pathcache p 0).segments + 1).toNat).map
            (fun k => (pathcache p k).time) } := by
  show loop (fun k sample => pushKey sample (pathcache p k)) _ _ = _
  rw [pushKey_loop]
  rfl

theorem getD_range_map {α : Type} (f : Nat → α) (m k : Nat) (d : α) (h : k < m) :
    ((List.range m).map f).getD k d = f k := by
  rw [List.getD_eq_getElem?_getD, List.getElem?_map, List.getElem?_range h]
  rfl

theorem getD_append_block {α : Type} (l : List α) (f : Nat → α) (m : Nat) (d : α) :
    (∀ k, k < m → (l ++ (List.range m).map f).getD (l.length + k) d = f k) ∧
    (∀ i, i < l.length → (l ++ (List.range m).map f).getD i d = l.getD i d) ∧
    (l ++ (List.range m).map f).length = l.length + m := by
  refine ⟨fun k hk => ?_, fun i hi => List.getD_append _ _ _ _ hi, by simp⟩
  rw [List.getD_append_right _ _ _ _ (by omega), Nat.add_sub_cancel_left]
  exact getD_range_map f m k d hk

theorem keyOffset_mono (pathcache : Nat → Nat → ParticleCacheKey) (q n : Nat) (h : q ≤ n) :
    keyOffset pathcache q ≤ keyOffset pathcache n := by
  induction n with
  | zero =>
    have : q = 0 := by omega
    subst this
    exact le_refl _
  | succ n ih =>
    by_cases hq : q = n + 1
    · subst hq
      exact le_refl _
    · have := ih (by omega)
      show _ ≤ keyOffset pathcache n + _
      omega

theorem keyOffset_lt (pathcache : Nat → Nat → ParticleCacheKey) (q n k : Nat) (h : q < n)
    (hk : k < ((pathcache q 0).segments + 1).toNat) :
    keyOffset pathcache q + k < keyOffset pathcache n := by
  have h1 := keyOffset_mono pathcache (q + 1) n h
  have h2 : keyOffset pathcache (q + 1) =
      keyOffset pathcache q + ((pathcache q 0).segments + 1).toNat := rfl
  omega

/-- What `paths_create_sample` has written after `n` paths: one key count per path, and in
each of the five key arrays the keys of path `q` at the indices from `keyOffset q`. -/
theorem create_spec (src : Nat → Nat → ParticleCacheKey) (n : Nat) :
    (loop (createPath src true) n emptyPathSample).numkeys =
      (List.range n).map (fun p => (src p 0).segments + 1) ∧
    (loop (createPath src true) n emptyPathSample).positions.length = keyOffset src n ∧
    (loop (createPath src true) n emptyPathSample).velocities.length = keyOffset src n ∧
    (loop (createPath src true) n emptyPathSample).rotations.length = keyOffset src n ∧
    (loop (createPath src true) n emptyPathSample).colors.length = keyOffset src n ∧
    (loop (createPath src true) n emptyPathSample).times.length = keyOffset src n ∧
    ∀ q k, q < n → k < ((src q 0).segments + 1).toNat →
      (∀ d, (loop (createPath src true) n emptyPathSample).positions.getD
        (keyOffset src q + k) d = (src q k).co) ∧
      (∀ d, (loop (createPath src true) n emptyPathSample).velocities.getD
        (keyOffset src q + k) d = (src q k).vel) ∧
      (∀ d, (loop (createPath src true) n emptyPathSample).rotations.getD
        (keyOffset src q + k) d = (src q k).rot) ∧
      (∀ d, (loop (createPath src true) n emptyPathSample).colors.getD
        (keyOffset src q + k) d = (src q k).col) ∧
      (∀ d, (loop (createPath src true) n emptyPathSample).times.getD
        (keyOffset src q + k) d = (src q k).time) := by
  induction n with
  | zero =>
    refine ⟨rfl, rfl, rfl, rfl, rfl, rfl, ?_⟩
    intro q k hq
    omega
  | succ n ih =>
    obtain ⟨i0, i1, i2, i3, i4, i5, i6⟩ := ih
    have e : loop (createPath src true) (n + 1) emptyPathSample =
        createPath src true n (loop (createPath src true) n emptyPathSample) := rfl
    rw [e, createPath_spec]
    generalize loop (createPath src true) n emptyPathSample = S at i0 i1 i2 i3 i4 i5 i6
    have b1 := getD_append_block S.positions (fun k => (src n k).co)
      ((src n 0).segments + 1).toNat
    have b2 := getD_append_block S.velocities (fun k => (src n k).vel)
      ((src n 0).segments + 1).toNat
    have b3 := getD_append_block S.rotations (fun k => (src n k).rot)
      ((src n 0).segments + 1).toNat
    have b4 := getD_append_block S.colors (fun k => (src n k).col)
      ((src n 0).segments + 1).toNat
    have b5 := getD_append_block S.times (fun k => (src n k).time)
      ((src n 0).segments + 1).toNat
    have off : keyOffset src (n + 1) = keyOffset src n + ((src n 0).segments + 1).toNat := rfl
    refine ⟨?_, ?_, ?_, ?_, ?_, ?_, ?_⟩
    · show S.numkeys ++ [_] = _
      rw [i0, List.range_succ, List.map_append]
      rfl
    · show (S.positions ++ _).length = _
      rw [(b1 ⟨0, 0, 0⟩).2.2, i1, off]
    · show (S.velocities ++ _).length = _
      rw [(b2 ⟨0, 0, 0⟩).2.2, i2, off]
    · show (S.rotations ++ _).length = _
      rw [(b3 ⟨0, 0, 0, 0⟩).2.2, i3, off]
    · show (S.colors ++ _).length = _
      rw [(b4 ⟨0, 0, 0⟩).2.2, i4, off]
    · show (S.times ++ _).length = _
      rw [(b5 0).2.2, i5, off]
    · intro q k hq hk
      by_cases hqn : q = n
      · subst hqn
        refine ⟨fun d => ?_, fun d => ?_, fun d => ?_, fun d => ?_, fun d => ?_⟩
        · show (S.positions ++ _).getD _ d = _
          rw [← i1]
          exact (b1 d).1 k hk
        · show (S.velocities ++ _).getD _ d = _
          rw [← i2]
          exact (b2 d).1 k hk
        · show (S.rotations ++ _).getD _ d = _
          rw [← i3]
          exact (b3 d).1 k hk
        · show (S.colors ++ _).getD _ d = _
          rw [← i4]
          exact (b4 d).1 k hk
        · show (S.times ++ _).getD _ d = _
          rw [← i5]
          exact (b5 d).1 k hk
      · have hq2 : q < n := by omega
        have hlt := keyOffset_lt src q n k hq2 hk
        obtain ⟨j1, j2, j3, j4, j5⟩ := i6 q k hq2 hk
        refine ⟨fun d => ?_, fun d => ?_, fun d => ?_, fun d => ?_, fun d => ?_⟩
        · show (S.positions ++ _).getD _ d = _
          rw [(b1 d).2.1 _ (by omega)]
          exact j1 d
        · show (S.velocities ++ _).getD _ d = _
          rw [(b2 d).2.1 _ (by omega)]
          exact j2 d
        · show (S.rotations ++ _).getD _ d = _
          rw [(b3 d).2.1 _ (by omega)]
          exact j3 d
        · show (S.colors ++ _).getD _ d = _
          rw [(b4 d).2.1 _ (by omega)]
          exact j4 d
        · show (S.times ++ _).getD _ d = _
          rw [(b5 d).2.1 _ (by omega)]
          exact j5 d

/-- The inner loop of `paths_apply_sample_nvertices` (lines 1237-1239) sets the segments
field of the first `m` keys of path `p` and nothing else. -/
theorem nvertices_keys_loop (p : Nat) (g : Int) (m : Nat) (pc : Nat → Nat → ParticleCacheKey)
    (p2 k2 : Nat) :
    loop (fun k pathcache => setKey pathcache p k { pathcache p k with segments := g }) m pc
        p2 k2 =
      if p2 = p ∧ k2 < m then { pc p2 k2 with segments := g } else pc p2 k2 := by
  induction m with
  | zero => simp [loop]
  | succ m ih =>
    show setKey _ p m _ p2 k2 = _
    simp only [setKey]
    by_cases h1 : p2 = p ∧ k2 = m
    · obtain ⟨h1, h2⟩ := h1
      subst h1 h2
      have ih2 : loop (fun k pathcache =>
          setKey pathcache p2 k { pathcache p2 k with segments := g }) k2 pc p2 k2 =
          pc p2 k2 := by
        rw [ih]
        simp
      rw [if_pos ⟨rfl, rfl⟩, if_pos ⟨rfl, by omega⟩, ih2]
    · rw [if_neg h1, ih]
      by_cases h2 : p2 = p ∧ k2 < m
      · rw [if_pos h2, if_pos ⟨h2.1, by omega⟩]
      · rw [if_neg h2, if_neg]
        intro h3
        exact h1 ⟨h3.1, by
          have := fun h4 => h2 ⟨h3.1, h4⟩
          omega⟩

/-- What `paths_apply_sample_nvertices` leaves in the path cache. -/
theorem nvertices_spec (data : List Int) (n : Nat) (pc : Nat → Nat → ParticleCacheKey)
    (p k : Nat) :
    loop (applyNverticesPath data) n pc p k =
      if p < n ∧ k < (data.getD p 0).toNat then
        { pc p k with segments := data.getD p 0 - 1 }
      else pc p k := by
  induction n with
  | zero => simp [loop]
  | succ n ih =>
    show applyNverticesPath data n (loop (applyNverticesPath data) n pc) p k = _
    show loop (fun k pathcache =>
      setKey pathcache n k { pathcache n k with segments := data.getD n 0 - 1 })
      (data.getD n 0).toNat (loop (applyNverticesPath data) n pc) p k = _
    rw [nvertices_keys_loop, ih]
    by_cases h1 : p = n
    · subst h1
      by_cases h2 : k < (data.getD p 0).toNat
      · simp [h2]
      · simp [h2]
    · rw [if_neg (fun h => h1 h.1)]
      by_cases h2 : p < n ∧ k < (data.getD p 0).toNat
      · rw [if_pos h2, if_pos ⟨by omega, h2.2⟩]
      · rw [if_neg h2, if_neg]
        intro h3
        exact h2 ⟨by omega, h3.2⟩

/-- The inner loop of `paths_apply_sample_data` (lines 1267-1281), started with the data
pointers at offset `i`: key `k` of path `p` receives element `i + k` of each array, keeps its
segments field, and every other key is left alone. -/
theorem applyKey_loop (pos vel : List V3f) (rot : List Quatf) (col : List V3f)
    (time : List ℚ) (p : Nat) (m : Nat) (pc : Nat → Nat → ParticleCacheKey) (i : Nat) :
    (loop (applyKey pos vel rot col time p) m (pc, i)).2 = i + m ∧
    ∀ p2 k2,
      (¬ (p2 = p ∧ k2 < m) → (loop (applyKey pos vel rot col time p) m (pc, i)).1 p2 k2 =
        pc p2 k2) ∧
      (p2 = p → k2 < m →
        ((loop (applyKey pos vel rot col time p) m (pc, i)).1 p2 k2).co =
          pos.getD (i + k2) ⟨0, 0, 0⟩ ∧
        ((loop (applyKey pos vel rot col time p) m (pc, i)).1 p2 k2).vel =
          vel.getD (i + k2) ⟨0, 0, 0⟩ ∧
        ((loop (applyKey pos vel rot col time p) m (pc, i)).1 p2 k2).rot =
          rot.getD (i + k2) ⟨0, 0, 0, 0⟩ ∧
        ((loop (applyKey pos vel rot col time p) m (pc, i)).1 p2 k2).col =
          col.getD (i + k2) ⟨0, 0, 0⟩ ∧
        ((loop (applyKey pos vel rot col time p) m (pc, i)).1 p2 k2).time =
          time.getD (i + k2) 0 ∧
        ((loop (applyKey pos vel rot col time p) m (pc, i)).1 p2 k2).segments =
          (pc p2 k2).segments) := by
  induction m with
  | zero =>
    refine ⟨rfl, fun p2 k2 => ⟨fun _ => rfl, fun _ h => ?_⟩⟩
    omega
  | succ m ih =>
    obtain ⟨c, ih⟩ := ih
    have e : loop (applyKey pos vel rot col time p) (m + 1) (pc, i) =
        applyKey pos vel rot col time p m (loop (applyKey pos vel rot col time p) m (pc, i)) :=
      rfl
    rw [e]
    generalize loop (applyKey pos vel rot col time p) m (pc, i) = S at c ih
    obtain ⟨R, j⟩ := S
    simp only at c ih
    subst c
    refine ⟨by simp only [applyKey]; omega, fun p2 k2 => ⟨fun h => ?_, fun h1 h2 => ?_⟩⟩
    · simp only [applyKey, setKey]
      rw [if_neg (fun h3 => h ⟨h3.1, by omega⟩)]
      exact (ih p2 k2).1 (fun h3 => h ⟨h3.1, by omega⟩)
    · subst h1
      simp only [applyKey, setKey]
      by_cases h3 : k2 = m
      · subst h3
        simp only [and_self, if_true]
        refine ⟨trivial, trivial, trivial, trivial, trivial, ?_⟩
        rw [(ih p2 k2).1 (by omega)]
      · rw [if_neg (fun h4 => h3 h4.2)]
        exact (ih p2 k2).2 rfl (by omega)

/-- What `paths_apply_sample_data` leaves in a path cache `pc`: the key counts are those that
`pc` holds on entry, the keys of path `p` are read from offset `keyOffset pc p`. -/
theorem apply_data_spec (pos vel : List V3f) (rot : List Quatf) (col : List V3f)
    (time : List ℚ) (pc : Nat → Nat → ParticleCacheKey) (n : Nat) :
    (loop (applyDataPath pos vel rot col time) n (pc, 0)).2 = keyOffset pc n ∧
    ∀ p k,
      (¬ (p < n ∧ k < ((pc p 0).segments + 1).toNat) →
        (loop (applyDataPath pos vel rot col time) n (pc, 0)).1 p k = pc p k) ∧
      (p < n → k < ((pc p 0).segments + 1).toNat →
        ((loop (applyDataPath pos vel rot col time) n (pc, 0)).1 p k).co =
          pos.getD (keyOffset pc p + k) ⟨0, 0, 0⟩ ∧
        ((loop (applyDataPath pos vel rot col time) n (pc, 0)).1 p k).vel =
          vel.getD (keyOffset pc p + k) ⟨0, 0, 0⟩ ∧
        ((loop (applyDataPath pos vel rot col time) n (pc, 0)).1 p k).rot =
          rot.getD (keyOffset pc p + k) ⟨0, 0, 0, 0⟩ ∧
        ((loop (applyDataPath pos vel rot col time) n (pc, 0)).1 p k).col =
          col.getD (keyOffset pc p + k) ⟨0, 0, 0⟩ ∧
        ((loop (applyDataPath pos vel rot col time) n (pc, 0)).1 p k).time =
          time.getD (keyOffset pc p + k) 0 ∧
        ((loop (applyDataPath pos vel rot col time) n (pc, 0)).1 p k).segments =
          (pc p k).segments) := by
  induction n with
  | zero =>
    refine ⟨rfl, fun p k => ⟨fun _ => rfl, fun h => ?_⟩⟩
    omega
  | succ n ih =>
    obtain ⟨c, ih⟩ := ih
    have e : loop (applyDataPath pos vel rot col time) (n + 1) (pc, 0) =
        applyDataPath pos vel rot col time n
          (loop (applyDataPath pos vel rot col time) n (pc, 0)) := rfl
    rw [e]
    generalize loop (applyDataPath pos vel rot col time) n (pc, 0) = S at c ih
    obtain ⟨R, j⟩ := S
    simp only at c ih
    subst c
    have hR : R n 0 = pc n 0 := (ih n 0).1 (by omega)
    have e2 : applyDataPath pos vel rot col time n (R, keyOffset pc n) =
        loop (applyKey pos vel rot col time n) ((pc n 0).segments + 1).toNat
          (R, keyOffset pc n) := by
      show loop _ ((R n 0).segments + 1).toNat _ = _
      rw [hR]
    rw [e2]
    obtain ⟨a1, a2⟩ := applyKey_loop pos vel rot col time n ((pc n 0).segments + 1).toNat R
      (keyOffset pc n)
    refine ⟨a1, fun p k => ⟨fun h => ?_, fun h1 h2 => ?_⟩⟩
    · by_cases hp : p = n
      · subst hp
        rw [(a2 p k).1 (fun h3 => h ⟨by omega, h3.2⟩)]
        exact (ih p k).1 (by omega)
      · rw [(a2 p k).1 (fun h3 => hp h3.1)]
        exact (ih p k).1 (fun h3 => h ⟨by omega, h3.2⟩)
    · by_cases hp : p = n
      · subst hp
        obtain ⟨b1, b2, b3, b4, b5, b6⟩ := (a2 p k).2 rfl h2
        refine ⟨b1, b2, b3, b4, b5, ?_⟩
        rw [b6, (ih p k).1 (by omega)]
      · rw [(a2 p k).1 (fun h3 => hp h3.1)]
        exact (ih p k).2 (by omega) h2

theorem keyOffset_congr (a b : Nat → Nat → ParticleCacheKey) (n : Nat)
    (h : ∀ p, p < n → (a p 0).segments = (b p 0).segments) :
    keyOffset a n = keyOffset b n := by
  induction n with
  | zero => rfl
  | succ n ih =>
    show keyOffset a n + _ = keyOffset b n + _
    rw [ih (fun p hp => h p (by omega)), h n (by omega)]

/-- The count of `paths_count_totkeys` is the offset behind the last path. -/
theorem count_totkeys_offset (pc : Nat → Nat → ParticleCacheKey) (n : Nat)
    (h : ∀ p, p < n → -1 ≤ (pc p 0).segments) :
    loop (fun p totkeys => totkeys + ((pc p 0).segments + 1)) n 0 = (keyOffset pc n : Int) := by
  induction n with
  | zero => rfl
  | succ n ih =>
    show loop (fun p totkeys => totkeys + ((pc p 0).segments + 1)) n 0 + _ =
      ((keyOffset pc n + ((pc n 0).segments + 1).toNat : Nat) : Int)
    rw [ih (fun p hp => h p (by omega))]
    have := h n (by omega)
    omega

/-- C27: path-cache round trip. For a path cache `src` in which each of the `totpart` paths
has `segments = s_p ≥ 0` in its first key, let the sample be the one `paths_create_sample`
builds with `do_numkeys` set. Applying `paths_apply_sample_nvertices` with its key counts
and then `paths_apply_sample_data` with its five key arrays to any path cache `dst` leaves,
in every key `k ≤ s_p` of every path `p < totpart`, the co, vel, rot, col and time of the
same key of `src` and the segments value `s_p`. The five key arrays of the sample have
length `paths_count_totkeys`, which is the sum over the paths of `s_p + 1`, and the array of
key counts has one entry per path, namely `s_p + 1`. -/
theorem C27_path_round_trip (src dst : Nat → Nat → ParticleCacheKey) (totpart totkeys : Int)
    (hseg : ∀ p : Nat, (p : Int) < totpart → 0 ≤ (src p 0).segments) :
    (∀ p k : Nat, (p : Int) < totpart → (k : Int) ≤ (src p 0).segments →
      (paths_apply_sample_data
        (paths_apply_sample_nvertices dst totpart
          (paths_create_sample src totpart totkeys emptyPathSample true).numkeys) totpart
        (paths_create_sample src totpart totkeys emptyPathSample true).positions
        (paths_create_sample src totpart totkeys emptyPathSample true).velocities
        (paths_create_sample src totpart totkeys emptyPathSample true).rotations
        (paths_create_sample src totpart totkeys emptyPathSample true).colors
        (paths_create_sample src totpart totkeys emptyPathSample true).times p k) =
      { src p k with segments := (src p 0).segments }) ∧
    ((paths_create_sample src totpart totkeys emptyPathSample true).positions.length : Int) =
      paths_count_totkeys src totpart ∧
    ((paths_create_sample src totpart totkeys emptyPathSample true).velocities.length : Int) =
      paths_count_totkeys src totpart ∧
    ((paths_create_sample src totpart totkeys emptyPathSample true).rotations.length : Int) =
      paths_count_totkeys src totpart ∧
    ((paths_create_sample src totpart totkeys emptyPathSample true).colors.length : Int) =
      paths_count_totkeys src totpart ∧
    ((paths_create_sample src totpart totkeys emptyPathSample true).times.length : Int) =
      paths_count_totkeys src totpart ∧
    paths_count_totkeys src totpart =
      ((List.range totpart.toNat).map (fun p => (src p 0).segments + 1)).sum ∧
    (paths_create_sample src totpart totkeys emptyPathSample true).numkeys =
      (List.range totpart.toNat).map (fun p => (src p 0).segments + 1) := by
  have hseg2 : ∀ p, p < totpart.toNat → 0 ≤ (src p 0).segments :=
    fun p hp => hseg p (by omega)
  obtain ⟨c0, c1, c2, c3, c4, c5, c6⟩ := create_spec src totpart.toNat
  have hcount : paths_count_totkeys src totpart = (keyOffset src totpart.toNat : Int) :=
    count_totkeys_offset src totpart.toNat (fun p hp => by have := hseg2 p hp; omega)
  have hsum : ∀ n : Nat, (∀ p, p < n → 0 ≤ (src p 0).segments) →
      (keyOffset src n : Int) = ((List.range n).map (fun p => (src p 0).segments + 1)).sum := by
    intro n
    induction n with
    | zero => intro _; rfl
    | succ n ih =>
      intro h
      rw [List.range_succ, List.map_append, List.sum_append, ← ih (fun p hp => h p (by omega))]
      have := h n (by omega)
      show ((keyOffset src n + ((src n 0).segments + 1).toNat : Nat) : Int) = _
      simp only [List.map_cons, List.map_nil, List.sum_cons, List.sum_nil, add_zero]
      omega
  refine ⟨?_, ?_, ?_, ?_, ?_, ?_, ?_, c0⟩
  · intro p k hp hk
    have hp2 : p < totpart.toNat := by omega
    have hs := hseg2 p hp2
    have hk2 : k < ((src p 0).segments + 1).toNat := by omega
    show (loop (applyDataPath _ _ _ _ _) totpart.toNat
      (loop (applyNverticesPath _) totpart.toNat dst, 0)).1 p k = _
    show (loop (applyDataPath
      (loop (createPath src true) totpart.toNat emptyPathSample).positions
      (loop (createPath src true) totpart.toNat emptyPathSample).velocities
      (loop (createPath src true) totpart.toNat emptyPathSample).rotations
      (loop (createPath src true) totpart.toNat emptyPathSample).colors
      (loop (createPath src true) totpart.toNat emptyPathSample).times) totpart.toNat
      (loop (applyNverticesPath
        (loop (createPath src true) totpart.toNat emptyPathSample).numkeys)
        totpart.toNat dst, 0)).1 p k = _
    generalize loop (createPath src true) totpart.toNat emptyPathSample = S at c0 c1 c2 c3 c4 c5 c6
    have hdata : ∀ q, q < totpart.toNat → S.numkeys.getD q 0 = (src q 0).segments + 1 := by
      intro q hq
      rw [c0]
      exact getD_range_map _ _ _ _ hq
    have hnv : ∀ q j, q < totpart.toNat → j < ((src q 0).segments + 1).toNat →
        (loop (applyNverticesPath S.numkeys) totpart.toNat dst q j).segments =
          (src q 0).segments := by
      intro q j hq hj
      rw [nvertices_spec, hdata q hq, if_pos ⟨hq, hj⟩]
      show (src q 0).segments + 1 - 1 = _
      omega
    have hoff : ∀ n, n ≤ totpart.toNat →
        keyOffset (loop (applyNverticesPath S.numkeys) totpart.toNat dst) n =
          keyOffset src n := by
      intro n hn
      apply keyOffset_congr
      intro q hq
      have := hseg2 q (by omega)
      exact hnv q 0 (by omega) (by omega)
    obtain ⟨_, d⟩ := apply_data_spec S.positions S.velocities S.rotations S.colors S.times
      (loop (applyNverticesPath S.numkeys) totpart.toNat dst) totpart.toNat
    have hk3 : k < (((loop (applyNverticesPath S.numkeys) totpart.toNat dst) p 0).segments
        + 1).toNat := by
      rw [hnv p 0 hp2 (by omega)]
      exact hk2
    obtain ⟨d1, d2, d3, d4, d5, d6⟩ := (d p k).2 hp2 hk3
    rw [hoff p (by omega)] at d1 d2 d3 d4 d5
    obtain ⟨e1, e2, e3, e4, e5⟩ := c6 p k hp2 hk2
    rw [e1] at d1
    rw [e2] at d2
    rw [e3] at d3
    rw [e4] at d4
    rw [e5] at d5
    rw [hnv p k hp2 hk2] at d6
    generalize (loop (applyDataPath S.positions S.velocities S.rotations S.colors S.times)
      totpart.toNat (loop (applyNverticesPath S.numkeys) totpart.toNat dst, 0)).1 p k = key
      at d1 d2 d3 d4 d5 d6
    cases key
    simp only at d1 d2 d3 d4 d5 d6
    subst d1 d2 d3 d4 d5 d6
    rfl
  · rw [hcount]
    exact congrArg Nat.cast c1
  · rw [hcount]
    exact congrArg Nat.cast c2
  · rw [hcount]
    exact congrArg Nat.cast c3
  · rw [hcount]
    exact congrArg Nat.cast c4
  · rw [hcount]
    exact congrArg Nat.cast c5
  · rw [hcount]
    exact hsum _ hseg2

/-- The path cache of two paths, with two keys and one key, read back into an empty cache. -/
theorem C27_path_round_trip_witness :
    (∀ p : Nat, (p : Int) < 2 → 0 ≤ (demoCache p 0).segments) ∧
    (paths_apply_sample_data
        (paths_apply_sample_nvertices (fun _ _ => zeroKey) 2
          (paths_create_sample demoCache 2 3 emptyPathSample true).numkeys) 2
        (paths_create_sample demoCache 2 3 emptyPathSample true).positions
        (paths_create_sample demoCache 2 3 emptyPathSample true).velocities
        (paths_create_sample demoCache 2 3 emptyPathSample true).rotations
        (paths_create_sample demoCache 2 3 emptyPathSample true).colors
        (paths_create_sample demoCache 2 3 emptyPathSample true).times 0 1) =
      { demoCache 0 1 with segments := (demoCache 0 0).segments } ∧
    ((paths_create_sample demoCache 2 3 emptyPathSample true).positions.length : Int) =
      paths_count_totkeys demoCache 2 ∧
    paths_count_totkeys demoCache 2 = 3 :=
  have h : ∀ p : Nat, (p : Int) < 2 → 0 ≤ (demoCache p 0).segments := by
    intro p hp
    have : p = 0 ∨ p = 1 := by omega
    rcases this with rfl | rfl <;> decide
  ⟨h, (C27_path_round_trip demoCache (fun _ _ => zeroKey) 2 3 h).1 0 1 (by decide) (by decide),
    (C27_path_round_trip demoCache (fun _ _ => zeroKey) 2 3 h).2.1, by decide⟩

end PTC
